import Mathlib

/-!
# Deark core: dbuf byte sources and module dispatch

A shallow embedding of `src/deark-dbuf.c` and `src/deark-user.c`.

Conventions of the embedding

* `i64` and `int` values are `Int`; sums of positions and lengths are assumed to
  stay inside the 64-bit range (signed overflow is undefined in C).
* A byte (`u8`) is a `UInt8`.
* A C buffer `(m, len)` is a list `m` together with the count `len`; reading a
  buffer outside its allocation is undefined behaviour and is the result `none`.
* A function that calls `de_fatalerror` (or dereferences a null pointer) has the
  result `none`.
* A `dbuf *` becomes an explicit state: every operation returns the new state of
  the dbuf next to its result.  A subfile view carries the state of its parent,
  so the pair "view fields + current parent state" stands for the pointer
  `parent_dbuf`.
-/

namespace Deark

/-! ## The C library file model -/

/-- A stdio stream over a regular file: the bytes of the file and the stream position. -/
structure FILE where
  data : List UInt8
  ospos : Int
deriving DecidableEq, Repr

/-- The call `de_fseek(fp, offs, SEEK_SET)`: a negative offset fails and leaves the position. -/
def de_fseek (fp : FILE) (offs : Int) : FILE :=
  if 0 ≤ offs then { fp with ospos := offs } else fp

/-- The call `fread(buf, 1, n, fp)`: the bytes read (at most `n`, fewer at end of file)
and the advanced stream. -/
def fread (fp : FILE) (n : Int) : List UInt8 × FILE :=
  let got := (fp.data.drop fp.ospos.toNat).take n.toNat
  (got, { fp with ospos := fp.ospos + got.length })

/-- The call `fwrite(m, 1, len, fp)` on an output stream: the bytes land at the stream
position (a gap after the end of the file reads as zero bytes). -/
def fwrite (fp : FILE) (m : List UInt8) (len : Int) : FILE :=
  let w := m.take len.toNat
  let p := fp.ospos.toNat
  let head := fp.data.take p ++ List.replicate (p - fp.data.length) 0
  { data := head ++ w ++ fp.data.drop (p + w.length), ospos := fp.ospos + w.length }

/-- The bytes `src[pos .. pos+n)` of an allocation `src`, as `de_memcpy(dst, &src[pos], n)`
reads them; `none` when the range leaves the allocation. -/
def de_memcpy_from (src : List UInt8) (pos n : Int) : Option (List UInt8) :=
  if 0 ≤ pos ∧ 0 ≤ n ∧ pos + n ≤ src.length then
    some ((src.drop pos.toNat).take n.toNat)
  else none

/-- The allocation `dst` after `de_memcpy(&dst[pos], m, n)`; `none` when the write leaves the
allocation or reads more than `m` holds. -/
def de_memcpy_to (dst : List UInt8) (pos : Int) (m : List UInt8) (n : Int) :
    Option (List UInt8) :=
  if 0 ≤ pos ∧ 0 ≤ n ∧ pos + n ≤ dst.length ∧ n ≤ m.length then
    some (dst.take pos.toNat ++ m.take n.toNat ++ dst.drop (pos + n).toNat)
  else none

/-! ## The dbuf object -/

def DE_CACHE_SIZE : Int := 262144

inductive dbuf_type where
  | DBUF_TYPE_NULL
  | DBUF_TYPE_IFILE
  | DBUF_TYPE_OFILE
  | DBUF_TYPE_MEMBUF
  | DBUF_TYPE_DBUF
  | DBUF_TYPE_STDOUT
  | DBUF_TYPE_STDIN
  | DBUF_TYPE_FIFO
deriving DecidableEq, Repr

open dbuf_type

inductive cache_policy_type where
  | DE_CACHE_POLICY_NONE
  | DE_CACHE_POLICY_ENABLED
deriving DecidableEq, Repr

open cache_policy_type

/-- The fields of `struct dbuf_struct` other than `parent_dbuf`.

* `cache` holds the valid bytes `cache[0 .. cache_bytes_used)` of the front cache
  (`none` is the null pointer);
* `membuf_buf` is the whole allocation of `membuf_alloc` bytes;
* `cache2` is `cache2[0]`;
* `writecallback_fn` tells whether a write callback is installed, and
  `writecallback_log` lists the byte runs it has been called with. -/
structure dbuf_fields where
  btype : dbuf_type
  file_pos_known : Bool
  file_pos : Int
  fp : Option FILE
  len : Int
  max_len : Int
  has_max_len : Bool
  is_managed : Bool
  write_memfile_to_zip_archive : Bool
  membuf_alloc : Int
  membuf_buf : List UInt8
  writecallback_fn : Bool
  writecallback_log : List (List UInt8)
  offset_into_parent_dbuf : Int
  cache_policy : cache_policy_type
  cache_start_pos : Int
  cache_bytes_used : Int
  cache : Option (List UInt8)
  cache2_start_pos : Int
  cache2_bytes_used : Int
  cache2 : UInt8
deriving DecidableEq, Repr

/-- The result of `de_malloc(c, sizeof(dbuf))`: every field zero. -/
def dbuf_zero : dbuf_fields :=
  { btype := DBUF_TYPE_NULL, file_pos_known := false, file_pos := 0, fp := none, len := 0,
    max_len := 0, has_max_len := false, is_managed := false,
    write_memfile_to_zip_archive := false, membuf_alloc := 0, membuf_buf := [],
    writecallback_fn := false, writecallback_log := [], offset_into_parent_dbuf := 0,
    cache_policy := DE_CACHE_POLICY_NONE, cache_start_pos := 0, cache_bytes_used := 0,
    cache := none, cache2_start_pos := 0, cache2_bytes_used := 0, cache2 := 0 }

/-- A dbuf: its own fields and, when `parent_dbuf` is not null, the dbuf it points to. -/
inductive dbuf where
  | root (s : dbuf_fields)
  | child (s : dbuf_fields) (parent_dbuf : dbuf)
deriving DecidableEq, Repr

/-- The fields of a dbuf. -/
def dbuf.s : dbuf → dbuf_fields
  | .root s => s
  | .child s _ => s

/-- The field `parent_dbuf`. -/
def dbuf.parent_dbuf : dbuf → Option dbuf
  | .root _ => none
  | .child _ p => some p

/-- The same dbuf with its own fields replaced. -/
def dbuf.set_s : dbuf → dbuf_fields → dbuf
  | .root _, s => .root s
  | .child _ p, s => .child s p

/-- The field `len`. -/
def dbuf.len (f : dbuf) : Int := f.s.len

/-- Fill the cache that remembers the first part of the file. `none`: the stream is null. -/
def populate_cache (s : dbuf_fields) : Option dbuf_fields :=
  if s.btype ≠ DBUF_TYPE_IFILE then some s
  else
    let bytes_to_read := if s.len < DE_CACHE_SIZE then s.len else DE_CACHE_SIZE
    match s.fp with
    | none => none
    | some fp =>
      let r := fread (de_fseek fp 0) bytes_to_read
      some { s with
        cache := some r.1
        fp := some r.2
        cache_start_pos := 0
        cache_bytes_used := r.1.length
        file_pos_known := false }

/-- The clipping at the head of `dbuf_read`: the number of bytes inside the dbuf. -/
def dbuf_read_clip (s : dbuf_fields) (pos len : Int) : Int :=
  if pos ≥ s.len then 0
  else if pos + len > s.len then s.len - pos
  else len

/-- The label `done_read` of `dbuf_read`: zero out any requested bytes that were not read. -/
def done_read (got : List UInt8) (len : Int) : List UInt8 :=
  if (got.length : Int) < len then got ++ List.replicate (len - got.length).toNat 0 else got

/-- The test "the data we need is all cached" of `dbuf_read`. -/
def dbuf_read_is_cached (s : dbuf_fields) (pos bytes_to_read : Int) : Bool :=
  s.cache.isSome && decide (pos ≥ s.cache_start_pos) &&
    decide (bytes_to_read ≤ s.cache_bytes_used - (pos - s.cache_start_pos))

/-- The bytes that `de_memcpy(buf, &f->cache[pos - f->cache_start_pos], bytes_to_read)`
copies. -/
def dbuf_read_cached (s : dbuf_fields) (pos bytes_to_read : Int) : Option (List UInt8) :=
  match s.cache with
  | none => none
  | some cache => de_memcpy_from cache (pos - s.cache_start_pos) bytes_to_read

/-- The `case DBUF_TYPE_IFILE` of `dbuf_read`: the bytes that `fread` delivers and the new
fields. A null stream is the fatal "Internal: File not open". -/
def dbuf_read_ifile (s : dbuf_fields) (pos bytes_to_read : Int) :
    Option (List UInt8 × dbuf_fields) :=
  match s.fp with
  | none => none
  | some fp =>
    -- For performance reasons, don't call fseek if we're already at the right position.
    let fp1 := if !s.file_pos_known || s.file_pos != pos then de_fseek fp pos else fp
    let r := fread fp1 bytes_to_read
    some (r.1, { s with fp := some r.2, file_pos := pos + r.1.length, file_pos_known := true })

/-- Read len bytes, starting at file position pos, into buf. Unread bytes will be set to 0.
The result is the content of `buf[0 .. len)` and the new state of `f`. -/
def dbuf_read (f : dbuf) (pos len : Int) : Option (List UInt8 × dbuf) :=
  let bytes_to_read := dbuf_read_clip f.s pos len
  if bytes_to_read < 1 then some (done_read [] len, f)
  else
    match (if f.s.cache.isNone ∧ f.s.cache_policy = DE_CACHE_POLICY_ENABLED
           then populate_cache f.s else some f.s) with
    | none => none
    | some s =>
      if dbuf_read_is_cached s pos bytes_to_read then
        -- If the data we need is all cached, get it from cache.
        (dbuf_read_cached s pos bytes_to_read).map fun got => (done_read got len, f.set_s s)
      else
        match s.btype with
        | DBUF_TYPE_IFILE =>
          (dbuf_read_ifile s pos bytes_to_read).map fun r => (done_read r.1 len, f.set_s r.2)
        | DBUF_TYPE_DBUF =>
          match f with
          | .root _ => none
          | .child _ parent =>
            -- Recursive call to the parent dbuf.
            match dbuf_read parent (s.offset_into_parent_dbuf + pos) bytes_to_read with
            | none => none
            | some (got, parent1) =>
              -- The parent dbuf always writes bytes_to_read bytes.
              some (done_read got len, .child s parent1)
        | DBUF_TYPE_MEMBUF =>
          (de_memcpy_from s.membuf_buf pos bytes_to_read).map fun got =>
            (done_read got len, f.set_s s)
        | _ => none

/-- The function `dbuf_getbyte`: the byte and the new state of `f` (the one-byte cache
`cache2` of a dbuf that is not a membuf may have been refilled). -/
def dbuf_getbyte (f : dbuf) (pos : Int) : Option (UInt8 × dbuf) :=
  match f.s.btype with
  | DBUF_TYPE_MEMBUF =>
    -- Optimization for memory buffers
    if pos ≥ 0 ∧ pos < f.s.len then
      match f.s.membuf_buf[pos.toNat]? with
      | none => none
      | some b => some (b, f)
    else some (0, f)
  | _ =>
    if f.s.cache2_bytes_used > 0 ∧ pos = f.s.cache2_start_pos then some (f.s.cache2, f)
    else
      match dbuf_read f pos 1 with
      | none => none
      | some (got, f1) =>
        let b := got.headD f1.s.cache2
        some (b, f1.set_s { f1.s with cache2 := b, cache2_bytes_used := 1,
                                      cache2_start_pos := pos })

/-- The function `dbuf_set_max_length`. -/
def dbuf_set_max_length (s : dbuf_fields) (max_len : Int) : dbuf_fields :=
  { s with has_max_len := true, max_len := max_len }

/-- The function `dbuf_create_membuf`; `de_malloc` gives zeroed memory. -/
def dbuf_create_membuf (initialsize : Int) (flags : Nat) : dbuf :=
  let s := { dbuf_zero with btype := DBUF_TYPE_MEMBUF }
  let s := if initialsize > 0 then
      { s with membuf_buf := List.replicate initialsize.toNat 0, membuf_alloc := initialsize }
    else s
  let s := if flags &&& 0x01 ≠ 0 then dbuf_set_max_length s initialsize else s
  .root s

/-- The function `dbuf_open_input_subfile`. -/
def dbuf_open_input_subfile (parent : dbuf) (offset size : Int) : dbuf :=
  .child { dbuf_zero with btype := DBUF_TYPE_DBUF, offset_into_parent_dbuf := offset,
                          len := size } parent

/-- Modelled from the spec: `de_realloc` (deark-util.c) is not among the sources; the
allocation is resized, the old bytes are kept and the new bytes are zero. -/
def de_realloc (oldmem : List UInt8) (newsize : Int) : List UInt8 :=
  oldmem.take newsize.toNat ++ List.replicate (newsize.toNat - oldmem.length) 0

/-- The growth of the allocation in `membuf_append`, when `mlen` more bytes do not fit:
the new size is twice the sum of the old size and `mlen`, and at least 1024. -/
def membuf_grow (s : dbuf_fields) (mlen : Int) : dbuf_fields :=
  if mlen > s.membuf_alloc - s.len then
    -- Need to allocate more space
    let new_alloc_size := (s.membuf_alloc + mlen) * 2
    let new_alloc_size := if new_alloc_size < 1024 then 1024 else new_alloc_size
    { s with membuf_buf := de_realloc s.membuf_buf new_alloc_size,
             membuf_alloc := new_alloc_size }
  else s

/-- The function `membuf_append`. -/
def membuf_append (f : dbuf) (m : List UInt8) (mlen0 : Int) : Option dbuf :=
  let s := f.s
  let mlen := if s.has_max_len ∧ s.len + mlen0 > s.max_len then s.max_len - s.len else mlen0
  if mlen ≤ 0 then some f
  else
    let s1 := membuf_grow s mlen
    match de_memcpy_to s1.membuf_buf s1.len m mlen with
    | none => none
    | some buf => some (f.set_s { s1 with membuf_buf := buf, len := s1.len + mlen })

/-- The call `f->writecallback_fn(f, m, len)` at the head of `dbuf_write`, when a callback
is installed: the bytes are noted in `writecallback_log`. -/
def dbuf_call_writecallback (f : dbuf) (m : List UInt8) (len : Int) : dbuf :=
  if f.s.writecallback_fn then
    f.set_s { f.s with writecallback_log := f.s.writecallback_log ++ [m.take len.toNat] }
  else f

/-- The function `dbuf_write`. Writing to a dbuf of an input type reports
"Internal: Invalid output file type", which is the result `none`. -/
def dbuf_write (f0 : dbuf) (m : List UInt8) (len : Int) : Option dbuf :=
  let f := dbuf_call_writecallback f0 m len
  match f.s.btype with
  | DBUF_TYPE_NULL => some (f.set_s { f.s with len := f.s.len + len })
  | DBUF_TYPE_OFILE | DBUF_TYPE_STDOUT =>
    match f.s.fp with
    | none => some f
    | some fp => some (f.set_s { f.s with fp := some (fwrite fp m len), len := f.s.len + len })
  | DBUF_TYPE_MEMBUF => membuf_append f m len
  | _ => none

/-- The function `dbuf_writebyte`. -/
def dbuf_writebyte (f : dbuf) (n : UInt8) : Option dbuf :=
  dbuf_write f [n] 1

/-- The loop of `dbuf_write_run`. Every round writes at least one byte, so `amt_left`
rounds always suffice; running out of rounds is the result `none`. -/
def dbuf_write_run_loop : Nat → dbuf → List UInt8 → Int → Option dbuf
  | 0, f, _, amt_left => if amt_left > 0 then none else some f
  | fuel + 1, f, buf, amt_left =>
    if amt_left > 0 then
      let amt_to_write := if amt_left < 1024 then amt_left else 1024
      match dbuf_write f buf amt_to_write with
      | none => none
      | some f1 => dbuf_write_run_loop fuel f1 buf (amt_left - amt_to_write)
    else some f

/-- The function `dbuf_write_run`; `buf` is the 1024-byte stack buffer, of which
`min(len, 1024)` bytes are set to `n`. -/
def dbuf_write_run (f : dbuf) (n : UInt8) (len : Int) : Option dbuf :=
  let buf := List.replicate (if 0 ≤ len ∧ len < 1024 then len.toNat else 1024) n
  dbuf_write_run_loop len.toNat f buf len

/-- The function `dbuf_write_zeroes`. -/
def dbuf_write_zeroes (f : dbuf) (len : Int) : Option dbuf :=
  dbuf_write_run f 0 len

/-- The function `dbuf_write_at`. Allowed only for membufs, and unmanaged output files;
on another type (the null sink apart) it ends in `de_fatalerror`. -/
def dbuf_write_at (f : dbuf) (pos : Int) (m : List UInt8) (len : Int) : Option dbuf :=
  if len < 1 ∨ pos < 0 then some f
  else if f.s.btype = DBUF_TYPE_MEMBUF then
    let amt : Int × Int × Int :=
      if pos + len ≤ f.s.len then (len, 0, 0) -- entirely within the current file
      else if pos ≥ f.s.len then (0, pos - f.s.len, len) -- starts after the end
      else (f.s.len - pos, 0, len - (f.s.len - pos)) -- overlaps the end
    let amt_overwrite := amt.1
    let amt_newzeroes := amt.2.1
    let amt_append := amt.2.2
    (if amt_overwrite > 0 then
        (de_memcpy_to f.s.membuf_buf pos m amt_overwrite).map
          (fun buf => f.set_s { f.s with membuf_buf := buf })
      else some f).bind fun f1 =>
    (if amt_newzeroes > 0 then dbuf_write_zeroes f1 amt_newzeroes else some f1).bind fun f2 =>
    if amt_append > 0 then membuf_append f2 (m.drop amt_overwrite.toNat) amt_append
    else some f2
  else if f.s.btype = DBUF_TYPE_OFILE ∧ f.s.is_managed = false then
    match f.s.fp with
    | none => none
    | some fp =>
      let curpos := fp.ospos
      let fp1 := if pos ≠ curpos then de_fseek fp pos else fp
      some (f.set_s { f.s with fp := some (fwrite fp1 m len) })
  else if f.s.btype = DBUF_TYPE_NULL then some f
  else none

/-- The function `dbuf_writebyte_at`. -/
def dbuf_writebyte_at (f : dbuf) (pos : Int) (n : UInt8) : Option dbuf :=
  if f.s.btype = DBUF_TYPE_MEMBUF ∧ pos ≥ 0 ∧ pos < f.s.len then
    -- Fast path when overwriting a byte in a membuf
    (de_memcpy_to f.s.membuf_buf pos [n] 1).map
      (fun buf => f.set_s { f.s with membuf_buf := buf })
  else dbuf_write_at f pos [n] 1

/-- The function `dbuf_truncate`: make the membuf have exactly len bytes of content. -/
def dbuf_truncate (f : dbuf) (desired_len0 : Int) : Option dbuf :=
  let desired_len := if desired_len0 < 0 then 0 else desired_len0
  if desired_len > f.s.len then dbuf_write_zeroes f (desired_len - f.s.len)
  else if desired_len < f.s.len then
    if f.s.btype = DBUF_TYPE_MEMBUF then some (f.set_s { f.s with len := desired_len })
    else some f
  else some f

/-! ## Well-formed readable dbufs and their logical content -/

/-- The state that the constructors and operations of deark-dbuf.c maintain for the fields
of a readable dbuf:
a membuf has `0 ≤ len ≤ membuf_alloc`, an allocation of `membuf_alloc` bytes and no cache;
an input file has an open stream, a file position that is right when it is marked as known,
and a front cache that (when present) starts at 0 and holds a leading part of the file;
a drained pipe has all its bytes in the cache; a subfile view has no cache and starts at a
non-negative offset. -/
def dbuf_fields.wf (s : dbuf_fields) : Prop :=
  match s.btype with
  | DBUF_TYPE_MEMBUF =>
    0 ≤ s.len ∧ s.len ≤ s.membuf_alloc ∧ s.membuf_alloc = s.membuf_buf.length ∧ s.cache = none
  | DBUF_TYPE_IFILE =>
    match s.fp with
    | none => False
    | some fp =>
      (s.file_pos_known = true → s.file_pos = fp.ospos) ∧
      match s.cache with
      | none => True
      | some c =>
        s.cache_start_pos = 0 ∧ s.cache_bytes_used = c.length ∧ c = fp.data.take c.length
  | DBUF_TYPE_STDIN | DBUF_TYPE_FIFO =>
    match s.cache with
    | none => False
    | some c => s.cache_start_pos = 0 ∧ s.cache_bytes_used = c.length ∧ s.len = c.length
  | DBUF_TYPE_DBUF => s.cache = none ∧ 0 ≤ s.offset_into_parent_dbuf
  | _ => False

instance (s : dbuf_fields) : Decidable s.wf := by
  unfold dbuf_fields.wf
  split
  · infer_instance
  · split
    · infer_instance
    · split <;> infer_instance
  · split <;> infer_instance
  · split <;> infer_instance
  · infer_instance
  · infer_instance

/-- A well-formed readable dbuf: a membuf, an input file or a drained pipe without parent,
or a subfile view over a well-formed readable dbuf. -/
def dbuf.wf : dbuf → Prop
  | .root s => s.wf ∧ s.btype ≠ DBUF_TYPE_DBUF
  | .child s p => s.wf ∧ s.btype = DBUF_TYPE_DBUF ∧ p.wf

/-- Well-formedness can be computed. -/
def dbuf.decWf : (f : dbuf) → Decidable f.wf
  | .root s => by unfold dbuf.wf; infer_instance
  | .child s p => by
    unfold dbuf.wf
    have := dbuf.decWf p
    infer_instance

instance (f : dbuf) : Decidable f.wf := f.decWf

/-- The byte that the backing store of the fields `s` holds at index `k`: the membuf
allocation, the bytes of the file, or the drained pipe. -/
def dbuf_fields.store_byte (s : dbuf_fields) (k : Int) : UInt8 :=
  match s.btype with
  | DBUF_TYPE_MEMBUF => s.membuf_buf.getD k.toNat 0
  | DBUF_TYPE_IFILE =>
    match s.fp with
    | none => 0
    | some fp => fp.data.getD k.toNat 0
  | DBUF_TYPE_STDIN | DBUF_TYPE_FIFO =>
    match s.cache with
    | none => 0
    | some c => c.getD k.toNat 0
  | _ => 0

/-- The byte of the source at position `k` for `0 ≤ k < f.len`: the byte of the
backing store, and for a subfile view the byte of the parent at `offset + k`, which is
0x00 at and after the end of the parent. -/
def dbuf.byte_at : dbuf → Int → UInt8
  | .root s, k => s.store_byte k
  | .child s p, k =>
    if s.offset_into_parent_dbuf + k < p.len then p.byte_at (s.offset_into_parent_dbuf + k)
    else 0

/-- The `len` bytes that a read at `pos` is specified to return: the source's byte inside
the dbuf, 0x00 at and after its end. -/
def dbuf.read_spec (f : dbuf) (pos len : Int) : List UInt8 :=
  (List.range len.toNat).map fun (i : Nat) =>
    if pos + (i : Int) < f.len then f.byte_at (pos + (i : Int)) else 0

/-- The fields with the bookkeeping of reads erased: the one-byte cache `cache2`, and
the stream position and the front cache of an input file. -/
def dbuf_fields.erase_read_state (s : dbuf_fields) : dbuf_fields :=
  if s.btype = DBUF_TYPE_IFILE then
    { s with fp := s.fp.map fun fp => { fp with ospos := 0 }
             file_pos := 0, file_pos_known := false
             cache := none, cache_start_pos := 0, cache_bytes_used := 0
             cache2 := 0, cache2_bytes_used := 0, cache2_start_pos := 0 }
  else { s with cache2 := 0, cache2_bytes_used := 0, cache2_start_pos := 0 }

/-- The dbuf with the bookkeeping of reads erased, in itself and in its ancestors. -/
def dbuf.erase_read_state : dbuf → dbuf
  | .root s => .root s.erase_read_state
  | .child s p => .child s.erase_read_state p.erase_read_state

/-! ## Example states used by witnesses and counterexamples -/

/-- What a read of one byte at `k` is specified to give: the source's byte inside the
dbuf, 0x00 at and after its end. -/
def dbuf.logical_byte (f : dbuf) (k : Int) : UInt8 :=
  if k < f.len then f.byte_at k else 0

/-- The one-byte cache `cache2` is empty, or holds the byte that the dbuf currently has at
the cached position. -/
def dbuf.cache2_ok (f : dbuf) : Prop :=
  f.s.cache2_bytes_used > 0 → 0 ≤ f.s.cache2_start_pos →
    f.s.cache2 = f.logical_byte f.s.cache2_start_pos

instance (f : dbuf) : Decidable f.cache2_ok := by
  unfold dbuf.cache2_ok
  infer_instance

/-- An input file of four bytes, opened with the cache policy enabled, before any read. -/
def example_ifile : dbuf :=
  .root { dbuf_zero with btype := DBUF_TYPE_IFILE, len := 4, fp := some ⟨[9, 8, 7, 6], 0⟩,
                         cache_policy := DE_CACHE_POLICY_ENABLED }

/-- A membuf holding the single byte 0x01. -/
def example_membuf : dbuf :=
  .root { dbuf_zero with btype := DBUF_TYPE_MEMBUF, len := 1, membuf_alloc := 2,
                         membuf_buf := [1, 0] }

/-- The state of `example_membuf` after `dbuf_writebyte_at(f, 0, 0x02)`. -/
def example_membuf_written : dbuf :=
  .root { dbuf_zero with btype := DBUF_TYPE_MEMBUF, len := 1, membuf_alloc := 2,
                         membuf_buf := [2, 0] }

/-- The fields of the view `dbuf_open_input_subfile(example_membuf, 0, 1)` after
`dbuf_getbyte(view, 0)` has returned 0x01. -/
def example_view_fields : dbuf_fields :=
  { dbuf_zero with btype := DBUF_TYPE_DBUF, offset_into_parent_dbuf := 0, len := 1,
                   cache2 := 1, cache2_bytes_used := 1, cache2_start_pos := 0 }

/-! ## The buffered streaming reader -/

def BRBUFLEN : Int := 4096

/-- The fields of `struct de_bufferedreadctx` that the reader sets before it calls the
consumer (`userdata` is passed apart). -/
structure de_bufferedreadctx where
  offset : Int
  bytes_consumed : Int
  eof_flag : Bool
deriving DecidableEq, Repr

/-- What one invocation of the consumer leaves behind: its return value, the value of
`brctx->bytes_consumed` after the call, and its user data. -/
structure cbfn_result (σ : Type) where
  ret : Int
  bytes_consumed : Int
  userdata : σ

/-- A consumer `de_buffered_read_cbfn` with user data of type `σ`: called with its user data,
the context, the window `buf[0 .. buf_len)` and `buf_len`. -/
abbrev de_buffered_read_cbfn (σ : Type) :=
  σ → de_bufferedreadctx → List UInt8 → Int → cbfn_result σ

/-- The record of one invocation of the consumer by `dbuf_buffered_read`. -/
structure br_call where
  brctx : de_bufferedreadctx
  buf : List UInt8
  buf_len : Int
  ret : Int
  bytes_consumed : Int
deriving DecidableEq, Repr

/-- The bytes of the window that the invocation reported as consumed. -/
def br_call.consumed (k : br_call) : List UInt8 :=
  k.buf.take k.bytes_consumed.toNat

/-- The local variables of `dbuf_buffered_read` at the head of its loop; `buf` holds
`buf[0 .. num_unconsumed_bytes_in_buf)`, and `calls` lists the invocations made so far. -/
structure br_state (σ : Type) where
  f : dbuf
  pos : Int
  offs_of_first_byte_in_buf : Int
  num_unconsumed_bytes_in_buf : Int
  buf : List UInt8
  userdata : σ
  calls : List br_call

/-- The end of a run of `dbuf_buffered_read`. -/
structure br_result (σ : Type) where
  retval : Int
  f : dbuf
  userdata : σ
  calls : List br_call

/-- The outcome of running the loop with a bound on the number of rounds: the bound was
reached, a read ended in a fatal error, or the function returned. -/
inductive br_outcome (σ : Type) where
  | out_of_fuel
  | fatal
  | done (r : br_result σ)

/-- The loop `while(1)` of `dbuf_buffered_read`, for at most `fuel` rounds. The loop has no
exit other than the two `goto done`, which are reached with `retval` still 0. -/
def dbuf_buffered_read_loop {σ : Type} (cbfn : de_buffered_read_cbfn σ) (pos1 len : Int) :
    Nat → br_state σ → br_outcome σ
  | 0, _ => .out_of_fuel
  | fuel + 1, st =>
    let nbytes_avail_to_read := pos1 + len - st.pos
    -- max bytes that will fit in buf:
    let bytestoread0 := BRBUFLEN - st.num_unconsumed_bytes_in_buf
    -- max bytes available to read:
    let eof_flag := decide (bytestoread0 ≥ nbytes_avail_to_read)
    let bytestoread := if bytestoread0 ≥ nbytes_avail_to_read then nbytes_avail_to_read
      else bytestoread0
    match dbuf_read st.f st.pos bytestoread with
    | none => .fatal
    | some (got, f1) =>
      let buf := st.buf ++ got
      let pos := st.pos + bytestoread
      let num_unconsumed_bytes_in_buf := st.num_unconsumed_bytes_in_buf + bytestoread
      let brctx : de_bufferedreadctx :=
        { offset := st.offs_of_first_byte_in_buf,
          bytes_consumed := num_unconsumed_bytes_in_buf,
          eof_flag := eof_flag }
      let r := cbfn st.userdata brctx buf num_unconsumed_bytes_in_buf
      let calls := st.calls ++
        [{ brctx := brctx, buf := buf, buf_len := num_unconsumed_bytes_in_buf,
           ret := r.ret, bytes_consumed := r.bytes_consumed }]
      if r.ret = 0 then
        .done { retval := 0, f := f1, userdata := r.userdata, calls := calls }
      else if r.bytes_consumed < 1 ∨ r.bytes_consumed > num_unconsumed_bytes_in_buf then
        .done { retval := 0, f := f1, userdata := r.userdata, calls := calls }
      else
        dbuf_buffered_read_loop cbfn pos1 len fuel
          { f := f1
            pos := pos
            offs_of_first_byte_in_buf := st.offs_of_first_byte_in_buf + r.bytes_consumed
            num_unconsumed_bytes_in_buf :=
              if r.bytes_consumed < num_unconsumed_bytes_in_buf then
                num_unconsumed_bytes_in_buf - r.bytes_consumed
              else 0
            buf :=
              if r.bytes_consumed < num_unconsumed_bytes_in_buf then
                -- cbfn didn't consume all bytes
                buf.drop r.bytes_consumed.toNat
              else []
            userdata := r.userdata
            calls := calls }

/-- The function `dbuf_buffered_read`, its loop bounded by `fuel` rounds. -/
def dbuf_buffered_read {σ : Type} (fuel : Nat) (f : dbuf) (pos1 len : Int)
    (cbfn : de_buffered_read_cbfn σ) (userdata : σ) : br_outcome σ :=
  dbuf_buffered_read_loop cbfn pos1 len fuel
    { f := f, pos := pos1, offs_of_first_byte_in_buf := 0, num_unconsumed_bytes_in_buf := 0,
      buf := [], userdata := userdata, calls := [] }

/-- The return value of a run, when the function returned. -/
def br_outcome.retval {σ : Type} : br_outcome σ → Option Int
  | .done r => some r.retval
  | _ => none

/-- The invocations of the consumer in a run, when the function returned. -/
def br_outcome.calls {σ : Type} : br_outcome σ → Option (List br_call)
  | .done r => some r.calls
  | _ => none

/-- The consumer `copy_cbfn` of `dbuf_copy` seen as a pure consumer of everything: it
returns 1 and leaves `bytes_consumed` as preset; its user data collects the windows. -/
def example_consume_all : de_buffered_read_cbfn (List UInt8) :=
  fun userdata brctx buf _ =>
    { ret := 1, bytes_consumed := brctx.bytes_consumed, userdata := userdata ++ buf }

/-- A membuf holding the three bytes 1, 2, 3. -/
def example_membuf3 : dbuf :=
  .root { dbuf_zero with btype := DBUF_TYPE_MEMBUF, len := 3, membuf_alloc := 4,
                         membuf_buf := [1, 2, 3, 0] }

/-- The concatenation, in call order, of the consumed parts of the windows. -/
def consumed_spans : List br_call → List UInt8
  | [] => []
  | k :: ks => k.consumed ++ consumed_spans ks

/-- The contract of a consumer on non-empty windows: called as the reader calls it (with
`buf_len` the size of the window and `brctx->bytes_consumed` preset to it), it returns
nonzero and reports a consumed count between 1 and the number of bytes it was given. -/
def cbfn_well_behaved {σ : Type} (cbfn : de_buffered_read_cbfn σ) : Prop :=
  ∀ (u : σ) (brctx : de_bufferedreadctx) (buf : List UInt8), buf ≠ [] →
    brctx.bytes_consumed = buf.length →
    (cbfn u brctx buf buf.length).ret ≠ 0 ∧
    1 ≤ (cbfn u brctx buf buf.length).bytes_consumed ∧
    (cbfn u brctx buf buf.length).bytes_consumed ≤ buf.length

/-- The loop invariant of `dbuf_buffered_read` over the source `f0`: the position read so
far, the window and the consumed spans all describe the bytes of `f0` from `pos1` on. -/
def br_inv {σ : Type} (f0 : dbuf) (pos1 len : Int) (st : br_state σ) : Prop :=
  st.f.wf ∧ st.f.erase_read_state = f0.erase_read_state ∧
  st.pos = pos1 + st.offs_of_first_byte_in_buf + st.num_unconsumed_bytes_in_buf ∧
  0 ≤ st.num_unconsumed_bytes_in_buf ∧ st.num_unconsumed_bytes_in_buf ≤ 4096 ∧
  0 ≤ st.offs_of_first_byte_in_buf ∧
  st.offs_of_first_byte_in_buf + st.num_unconsumed_bytes_in_buf ≤ len ∧
  st.buf = f0.read_spec (pos1 + st.offs_of_first_byte_in_buf) st.num_unconsumed_bytes_in_buf ∧
  consumed_spans st.calls = f0.read_spec pos1 st.offs_of_first_byte_in_buf

/-! ## deark-user.c: module detection and dispatch -/

/-- The function `de_memcmp` on two buffers of `n` bytes: 0 when equal, otherwise the sign
of the first difference. -/
def de_memcmp : List UInt8 → List UInt8 → Int
  | a :: as, b :: bs => if a < b then -1 else if b < a then 1 else de_memcmp as bs
  | _, _ => 0

/-- The function `dbuf_memcmp`. -/
def dbuf_memcmp (f : dbuf) (pos : Int) (s : List UInt8) (n : Int) : Option (Int × dbuf) :=
  match dbuf_read f pos n with
  | none => none
  | some (buf, f1) => some (de_memcmp buf (s.take n.toNat), f1)

/-- The function `dbuf_has_utf8_bom`. -/
def dbuf_has_utf8_bom (f : dbuf) (pos : Int) : Option (Bool × dbuf) :=
  match dbuf_memcmp f pos [0xef, 0xbb, 0xbf] 3 with
  | none => none
  | some (r, f1) => some (r == 0, f1)

/-- The capability flags of a module, one field for each `DE_MODFLAG_*` bit that
deark-user.c tests (the bit values are declared in a header that is not among the
sources): `flags & DE_MODFLAG_X` is the field `X`. -/
structure module_flags where
  DE_MODFLAG_HIDDEN : Bool
  DE_MODFLAG_NONWORKING : Bool
  DE_MODFLAG_NOEXTRACT : Bool
  DE_MODFLAG_SECURITYWARNING : Bool
  DE_MODFLAG_SHAREDDETECTION : Bool
  DE_MODFLAG_DISABLEDETECT : Bool
deriving DecidableEq, Repr

inductive input_style_type where
  | DE_INPUTSTYLE_FILE
  | DE_INPUTSTYLE_STDIN
deriving DecidableEq, Repr

inductive output_style_type where
  | DE_OUTPUTSTYLE_DIRECT
  | DE_OUTPUTSTYLE_ZIP
  | DE_OUTPUTSTYLE_STDOUT
deriving DecidableEq, Repr

open input_style_type output_style_type

/-- The fields of the session context `deark` that deark-user.c reads or writes, without
the module table (which is passed next to it). `module_register_fn` tells whether the
registration callback is set; `ext_option_archive_subdirs` is the value of
`de_get_ext_option_bool(c, "archive:subdirs", 0)`. -/
structure deark where
  error_count : Int
  num_files_extracted : Int
  infile : Option dbuf
  has_utf8_bom : Bool
  modhelp_req : Bool
  input_format_req : Option String
  extrlist_filename : Option String
  extrlist_dbuf : Option dbuf
  input_style : input_style_type
  input_filename : Option String
  slice_start_req : Int
  slice_size_req : Int
  slice_size_req_valid : Bool
  suppress_detection_by_filename : Bool
  output_style : output_style_type
  zip_to_stdout : Bool
  allow_subdirs : Bool
  modcodes_req : Option String
  module_register_fn : Bool
  ext_option_archive_subdirs : Bool

/-- The struct `de_module_params`, of which de_run sets `in_params.codes`. -/
structure de_module_params where
  codes : Option String
deriving DecidableEq, Repr

/-- A module descriptor `struct deark_module_info`. The functions of a module work on the
session context; a null function pointer is `none`, and so is a null `desc` or `desc2`.
`id_alias` holds the entries of the array before the first null pointer. -/
structure deark_module_info where
  id : String
  id_alias : List String
  flags : module_flags
  identify_fn : Option (deark → Int × deark)
  run_fn : Option (deark → Option de_module_params → deark)
  help_fn : Option (deark → deark)
  desc : Option String := none
  desc2 : Option String := none

/-- What `detect_module_for_file` leaves behind: the index of the module returned (`none` is
NULL), `*errflag`, the session context, and the invocations of identification functions in
order: the index of the module and the result that its function returned. -/
structure detect_result where
  best_module : Option Nat
  errflag : Bool
  c : deark
  invoked : List (Nat × Int)

/-- The loop `for(i=0; i<c->num_modules; i++)` of `detect_module_for_file` from index `i` on,
`mods` being the modules from `i` to the end of the table. -/
def detect_module_loop (orig_errcount : Int) :
    List deark_module_info → Nat → deark → Int → Option Nat → List (Nat × Int) → detect_result
  | [], _, c, _, best_module, invoked =>
    { best_module := best_module, errflag := false, c := c, invoked := invoked }
  | m :: mods, i, c, best_result, best_module, invoked =>
    match m.identify_fn with
    | none => detect_module_loop orig_errcount mods (i + 1) c best_result best_module invoked
    | some identify_fn =>
      -- If autodetect is disabled for this module, and its autodetect routine doesn't do
      -- anything that may be needed by other modules, don't bother to run it.
      if m.flags.DE_MODFLAG_DISABLEDETECT ∧ ¬ m.flags.DE_MODFLAG_SHAREDDETECTION then
        detect_module_loop orig_errcount mods (i + 1) c best_result best_module invoked
      else
        let r := identify_fn c
        let result := r.1
        let c1 := r.2
        let invoked1 := invoked ++ [(i, result)]
        if c1.error_count > orig_errcount then
          { best_module := none, errflag := true, c := c1, invoked := invoked1 }
        else if m.flags.DE_MODFLAG_DISABLEDETECT then
          -- Ignore results of autodetection.
          detect_module_loop orig_errcount mods (i + 1) c1 best_result best_module invoked1
        else if result ≤ best_result then
          detect_module_loop orig_errcount mods (i + 1) c1 best_result best_module invoked1
        else if result ≥ 100 then
          -- This is the best result so far, and the loop is left
          { best_module := some i, errflag := false, c := c1, invoked := invoked1 }
        else
          detect_module_loop orig_errcount mods (i + 1) c1 result (some i) invoked1

/-- The check for a UTF-8 BOM at the head of `detect_module_for_file`; `none` when
`c->infile` is null or the read is fatal. -/
def detect_check_bom (c : deark) : Option deark :=
  match c.infile with
  | none => none
  | some infile =>
    match dbuf_has_utf8_bom infile 0 with
    | none => none
    | some (bom, infile1) =>
      some { c with infile := some infile1, has_utf8_bom := if bom then true else c.has_utf8_bom }

/-- Returns the best module to use, by looking at the file contents, etc. -/
def detect_module_for_file (modules : List deark_module_info) (c : deark) :
    Option detect_result :=
  match detect_check_bom c with
  | none => none
  | some c1 => some (detect_module_loop c1.error_count modules 0 c1 0 none [])

/-- The scores of a module table: the result of each identification function when
detection invokes them in table order without leaving the loop early. The entry of a
module is `some score` when the module has an identification function and does not carry
`DE_MODFLAG_DISABLEDETECT`, and `none` otherwise. -/
def detection_scores : List deark_module_info → deark → List (Option Int)
  | [], _ => []
  | m :: mods, c =>
    match m.identify_fn with
    | none => none :: detection_scores mods c
    | some identify_fn =>
      if m.flags.DE_MODFLAG_DISABLEDETECT then
        if m.flags.DE_MODFLAG_SHAREDDETECTION then
          none :: detection_scores mods (identify_fn c).2
        else none :: detection_scores mods c
      else some (identify_fn c).1 :: detection_scores mods (identify_fn c).2

/-- No flag set. -/
def module_flags_none : module_flags :=
  { DE_MODFLAG_HIDDEN := false, DE_MODFLAG_NONWORKING := false, DE_MODFLAG_NOEXTRACT := false,
    DE_MODFLAG_SECURITYWARNING := false, DE_MODFLAG_SHAREDDETECTION := false,
    DE_MODFLAG_DISABLEDETECT := false }

/-- A session context for an input dbuf, everything else zero. -/
def example_deark (infile : dbuf) : deark :=
  { error_count := 0, num_files_extracted := 0, infile := some infile, has_utf8_bom := false,
    modhelp_req := false, input_format_req := none, extrlist_filename := none,
    extrlist_dbuf := none, input_style := DE_INPUTSTYLE_FILE, input_filename := none,
    slice_start_req := 0, slice_size_req := 0, slice_size_req_valid := false,
    suppress_detection_by_filename := false, output_style := DE_OUTPUTSTYLE_DIRECT,
    zip_to_stdout := false, allow_subdirs := false, modcodes_req := none,
    module_register_fn := true, ext_option_archive_subdirs := false }

/-- A module whose identification function returns the constant `score` and has no effect. -/
def example_module (id : String) (flags : module_flags) (score : Int) : deark_module_info :=
  { id := id, id_alias := [], flags := flags, identify_fn := some fun c => (score, c),
    run_fn := some fun c _ => c, help_fn := none }

/-- The identification function of the module "applesingle" (modules/applesd.c): 100 when
the file starts with 00 05 16 00, otherwise 0. -/
def de_identify_applesingle (c : deark) : Int × deark :=
  match c.infile with
  | none => (0, c)
  | some infile =>
    match dbuf_memcmp infile 0 [0x00, 0x05, 0x16, 0x00] 4 with
    | none => (0, c)
    | some (r, infile1) => (if r = 0 then 100 else 0, { c with infile := some infile1 })

/-- The module "applesingle" with its identification function. -/
def example_module_applesingle : deark_module_info :=
  { id := "applesingle", id_alias := [], flags := module_flags_none,
    identify_fn := some de_identify_applesingle, run_fn := some fun c _ => c,
    help_fn := none }

/-- A table of two modules: one that always answers 50, then "applesingle". -/
def example_table : List deark_module_info :=
  [example_module "fifty" module_flags_none 50, example_module_applesingle]

/-- The same two modules registered in the other order. -/
def example_table_rev : List deark_module_info :=
  [example_module_applesingle, example_module "fifty" module_flags_none 50]

/-- A membuf holding the four bytes 00 05 16 00. -/
def example_applesingle_file : dbuf :=
  .root { dbuf_zero with btype := DBUF_TYPE_MEMBUF, len := 4, membuf_alloc := 4,
                         membuf_buf := [0x00, 0x05, 0x16, 0x00] }

/-- A table whose first module carries DISABLEDETECT and SHAREDDETECTION and answers 100,
followed by a module that answers 0. -/
def example_table_shared : List deark_module_info :=
  [example_module "shared"
     { module_flags_none with DE_MODFLAG_DISABLEDETECT := true,
                              DE_MODFLAG_SHAREDDETECTION := true } 100,
   example_module "other" module_flags_none 0]

/-- The dbuf pointers that `de_run` closes at its label `done`. -/
inductive run_dbuf where
  | extrlist_dbuf
  | subfile
  | orig_ifile
deriving DecidableEq, Repr

/-- What `de_run` does that can be observed from outside: messages, the opening and closing
of dbufs, and the invocation of a module's run or help function (by table index); and the
point at which `module_to_use` is known to be not null, with the index of the module and
whether it was autodetected. -/
inductive run_event where
  | err (text : String)
  | warn (text : String)
  | msg (text : String)
  | open_input
  | open_subfile
  | dbuf_close (which : run_dbuf)
  | module_selected (module_index : Nat) (module_was_autodetected : Bool)
  | run_fn (module_index : Nat)
  | help_fn (module_index : Nat)
deriving DecidableEq, Repr

/-- The session context and the events so far. -/
abbrev run_state := deark × List run_event

/-- Modelled from the spec: `de_err` (deark-util.c) is not among the sources; an error is
reported on the message channel and the session's error counter is incremented. -/
def de_err (st : run_state) (text : String) : run_state :=
  ({ st.1 with error_count := st.1.error_count + 1 }, st.2 ++ [.err text])

/-- Modelled from the spec: `de_msg` (deark-util.c) is not among the sources; an
informational message, no counter changes. -/
def de_msg (st : run_state) (text : String) : run_state :=
  (st.1, st.2 ++ [.msg text])

/-- Modelled from the spec: `de_warn` (deark-util.c) is not among the sources; a warning on
the message channel (the warning counter is not part of this model). -/
def de_warn (st : run_state) (text : String) : run_state :=
  (st.1, st.2 ++ [.warn text])

/-- Modelled from the spec: `de_get_module_by_id` (deark-util.c) is not among the sources;
lookup by exact id or alias is a linear scan of the table. The result is the table index. -/
def de_get_module_by_id (modules : List deark_module_info) (module_id : String) : Option Nat :=
  modules.findIdx? fun m => m.id == module_id || m.id_alias.contains module_id

/-- Modelled from the spec: `de_run_module` (deark-util.c) is not among the sources; it
invokes the module's run function on the session, with the module parameters, and returns
1; for a module without run function it returns 0. -/
def de_run_module (st : run_state) (module_index : Nat) (mi : deark_module_info)
    (mparams : Option de_module_params) : Int × run_state :=
  match mi.run_fn with
  | none => (0, st)
  | some run_fn => (1, (run_fn st.1 mparams, st.2 ++ [.run_fn module_index]))

/-- What the operating system answers to `de_run`: the bytes on stdin;
the result of `de_fopen_for_read` on the input file (`none` on failure, else whether the
file is a pipe, and its bytes); the result of `de_fopen_for_write` on the extraction list;
and whether `de_zip_create_file` succeeds. -/
structure os_env where
  stdin_data : List UInt8
  input_file : Option (Bool × List UInt8)
  extrlist_file : Option FILE
  zip_create_ok : Bool

/-- Read all data from stdin (or a named pipe) into memory: the loop of `fread` calls
delivers the bytes `pipe` of the stream until its end. -/
def populate_cache_from_pipe (s : dbuf_fields) (pipe : List UInt8) : dbuf_fields :=
  if s.btype = DBUF_TYPE_STDIN ∨ s.btype = DBUF_TYPE_FIFO then
    { s with cache := some pipe, cache_bytes_used := pipe.length, len := pipe.length }
  else s

/-- The function `dbuf_open_input_stdin`. -/
def dbuf_open_input_stdin (env : os_env) : dbuf :=
  .root (populate_cache_from_pipe
    { dbuf_zero with btype := DBUF_TYPE_STDIN, cache_policy := DE_CACHE_POLICY_NONE }
    env.stdin_data)

/-- The function `dbuf_open_input_file`: the dbuf, or NULL after the error "Can't read". -/
def dbuf_open_input_file (st : run_state) (env : os_env) (fn : Option String) :
    Option dbuf × run_state :=
  match fn with
  | none => (none, st)
  | some _ =>
    match env.input_file with
    | none => (none, de_err st "Can't read input file")
    | some (is_pipe, data) =>
      if is_pipe then
        -- This "file" is actually a pipe.
        (some (.root (populate_cache_from_pipe
          { dbuf_zero with btype := DBUF_TYPE_FIFO, cache_policy := DE_CACHE_POLICY_NONE,
                           fp := some ⟨data, 0⟩, len := 0 } data)), st)
      else
        (some (.root { dbuf_zero with btype := DBUF_TYPE_IFILE,
                                      cache_policy := DE_CACHE_POLICY_ENABLED,
                                      fp := some ⟨data, 0⟩, len := data.length }), st)

/-- The function `dbuf_create_unmanaged_file`, called by `open_extrlist`. -/
def dbuf_create_unmanaged_file (st : run_state) (fp : Option FILE) : dbuf × run_state :=
  match fp with
  | some fp1 => (.root { dbuf_zero with btype := DBUF_TYPE_OFILE, fp := some fp1 }, st)
  | none => (.root { dbuf_zero with btype := DBUF_TYPE_NULL }, de_err st "Failed to write")

/-- The function `open_extrlist`. -/
def open_extrlist (st : run_state) (env : os_env) : run_state :=
  if st.1.extrlist_dbuf.isSome ∨ st.1.extrlist_filename.isNone then st
  else
    let r := dbuf_create_unmanaged_file st env.extrlist_file
    ({ r.2.1 with extrlist_dbuf := some r.1 }, r.2.2)

/-- The messages of `do_modhelp_internal` that describe the module: its id, then one line
for each alias, then the description and the other notes when the module has them. -/
def modhelp_description (mi : deark_module_info) : List run_event :=
  [.msg ("Module: " ++ mi.id)] ++
  mi.id_alias.map (fun a => run_event.msg ("Alias: " ++ a)) ++
  (match mi.desc with
    | some d => [.msg ("Description: " ++ d)]
    | none => []) ++
  (match mi.desc2 with
    | some d => [.msg ("Other notes: " ++ d)]
    | none => [])

/-- The function `do_modhelp_internal`, for the module at `module_index`. -/
def do_modhelp_internal (st : run_state) (module_index : Nat) (mi : deark_module_info) :
    run_state :=
  let st1 := de_msg st ("Module: " ++ mi.id)
  let st1 := mi.id_alias.foldl (fun s a => de_msg s ("Alias: " ++ a)) st1
  let st1 :=
    match mi.desc with
    | some d => de_msg st1 ("Description: " ++ d)
    | none => st1
  let st1 :=
    match mi.desc2 with
    | some d => de_msg st1 ("Other notes: " ++ d)
    | none => st1
  match mi.help_fn with
  | none => de_msg st1 "No help available for module"
  | some help_fn =>
    let st2 := de_msg st1 "Help for module"
    (help_fn st2.1, st2.2 ++ [.help_fn module_index])

/-- The note of `do_modhelp` that the requested id is an alias of the module found. -/
def do_modhelp_alias_note (st : run_state) (mi : deark_module_info) : run_state :=
  if st.1.input_format_req ≠ some mi.id then
    de_msg st ("\"" ++ st.1.input_format_req.getD "" ++ "\" is an alias for module \"" ++
      mi.id ++ "\"")
  else st

/-- The function `do_modhelp`; `none` is the fatal error of `de_register_modules`. -/
def do_modhelp (modules : List deark_module_info) (st : run_state) : Option run_state :=
  if st.1.module_register_fn = false then none
  else
    match st.1.input_format_req.bind (de_get_module_by_id modules) with
    | none => some (de_err st "Unknown module")
    | some i =>
      match modules[i]? with
      | none => some (de_err st "Unknown module")
      | some mi => some (do_modhelp_internal (do_modhelp_alias_note st mi) i mi)

/-- The label `done` of `de_run`: close the extraction list, then the slice view, then the
originally opened input, each when its pointer is not null. -/
def de_run_done (st : run_state) (subfile orig_ifile : Option dbuf) : run_state :=
  let st1 : run_state :=
    if st.1.extrlist_dbuf.isSome then
      ({ st.1 with extrlist_dbuf := none }, st.2 ++ [.dbuf_close .extrlist_dbuf])
    else st
  let st2 : run_state :=
    if subfile.isSome then (st1.1, st1.2 ++ [.dbuf_close .subfile]) else st1
  if orig_ifile.isSome then (st2.1, st2.2 ++ [.dbuf_close .orig_ifile]) else st2

/-- The selection of the module in `de_run`: the explicitly requested module, or the result
of `detect_module_for_file`. The result is the state in which detection set its error flag
(left), or the module to use, whether it was autodetected, and the state (right); `none`
is a fatal error during detection. -/
def de_run_select (modules : List deark_module_info) (st : run_state)
    (module_req : Option Nat) : Option (run_state ⊕ (Option Nat × Bool × run_state)) :=
  match module_req with
  | some i => some (.inr (some i, false, st))
  | none =>
    match detect_module_for_file modules st.1 with
    | none => none
    | some r =>
      if r.errflag then some (.inl (r.c, st.2))
      else some (.inr (r.best_module, true, (r.c, st.2)))

/-- The warning of `de_run` about a module flagged `DE_MODFLAG_NONWORKING`. -/
def de_run_warn_nonworking (st : run_state) (mi : deark_module_info) : run_state :=
  if mi.flags.DE_MODFLAG_NONWORKING then de_warn st "The module is considered to be incomplete"
  else st

/-- The setting of `c->allow_subdirs` in `de_run` for zip output. -/
def de_run_allow_subdirs (st : run_state) : run_state :=
  if st.1.output_style = DE_OUTPUTSTYLE_ZIP ∧ st.1.ext_option_archive_subdirs then
    ({ st.1 with allow_subdirs := true }, st.2)
  else st

/-- The module parameters that `de_run` allocates when `c->modcodes_req` is set. -/
def de_run_mparams (c : deark) : Option de_module_params :=
  match c.modcodes_req with
  | some codes => some { codes := some codes }
  | none => none

/-- The end of `de_run` after `de_run_module` has returned `r`: a zero result goes to
`done`; otherwise the message "No files found to extract!" is emitted when nothing was
extracted, no error was counted, and the module lacks `DE_MODFLAG_NOEXTRACT`. -/
def de_run_report (r : Int × run_state) (mi : deark_module_info) : run_state :=
  if r.1 = 0 then r.2
  else if r.2.1.num_files_extracted = 0 ∧ r.2.1.error_count = 0 ∧
      ¬ mi.flags.DE_MODFLAG_NOEXTRACT then
    de_msg r.2 "No files found to extract!"
  else r.2

/-- The part of `de_run` from the warning about an incomplete module to the message
"No files found to extract!": the state in which the label `done` is reached. -/
def de_run_stage_run (env : os_env) (st2 : run_state) (i : Nat) (mi : deark_module_info) :
    run_state :=
  let st4 := de_run_allow_subdirs (de_run_warn_nonworking st2 mi)
  if st4.1.output_style = DE_OUTPUTSTYLE_ZIP ∧ st4.1.zip_to_stdout ∧
      env.zip_create_ok = false then
    -- de_zip_create_file failed
    st4
  else de_run_report (de_run_module st4 i mi (de_run_mparams st4.1)) mi

/-- The error that `de_run` reports for an autodetected module flagged
`DE_MODFLAG_SECURITYWARNING`. -/
def security_warning_text : String :=
  "The module has not been audited for security. Use -m to confirm that you want to use it."

/-- The part of `de_run` after a module has been resolved: module help, the security
check, and the run; the state in which the label `done` is reached. -/
def de_run_stage_validate (env : os_env) (st1 : run_state) (i : Nat) (mi : deark_module_info)
    (module_was_autodetected : Bool) : run_state :=
  if st1.1.modhelp_req ∧ module_was_autodetected ∧ mi.id ≠ "unsupported" then
    do_modhelp_internal st1 i mi
  else
    let st2 := de_msg st1 ("Module: " ++ mi.id)
    if module_was_autodetected ∧ mi.flags.DE_MODFLAG_SECURITYWARNING then
      de_err st2 security_warning_text
    else de_run_stage_run env st2 i mi

/-- The part of `de_run` from the selection of the module to the end, entered with the
input open (`c->infile` set, `subfile` the slice view when one was made) and `module_req`
the explicitly requested module, if any. -/
def de_run_with_input (modules : List deark_module_info) (env : os_env) (st : run_state)
    (subfile orig_ifile : Option dbuf) (module_req : Option Nat) : Option run_state :=
  match de_run_select modules st module_req with
  | none => none
  | some (.inl st1) => some (de_run_done st1 subfile orig_ifile)
  | some (.inr (module_to_use, module_was_autodetected, st1)) =>
    match module_to_use.bind fun i => (modules[i]?).map fun mi => (i, mi) with
    | none =>
      some (de_run_done
        (de_err st1 (if (st1.1.infile.map dbuf.len) = some 0
          then "Unknown or unsupported file format (empty file)"
          else "Unknown or unsupported file format"))
        subfile orig_ifile)
    | some (i, mi) =>
      some (de_run_done
        (de_run_stage_validate env
          (st1.1, st1.2 ++ [.module_selected i module_was_autodetected]) i mi
          module_was_autodetected)
        subfile orig_ifile)

/-- The lookup of the explicitly requested module in `de_run`: `none` when the requested
id matches no module, `some none` when no module was requested. -/
def de_run_requested_module (modules : List deark_module_info) (c : deark) :
    Option (Option Nat) :=
  match c.input_format_req with
  | none => some none
  | some id =>
    match de_get_module_by_id modules id with
    | none => none
    | some i => some (some i)

/-- The opening of the input in `de_run`: stdin, or the named file (a named pipe sets
`suppress_detection_by_filename`). -/
def de_run_open (st1 : run_state) (env : os_env) : Option dbuf × run_state :=
  if st1.1.input_style = DE_INPUTSTYLE_STDIN then (some (dbuf_open_input_stdin env), st1)
  else
    let r := dbuf_open_input_file st1 env st1.1.input_filename
    match r.1 with
    | some f =>
      if f.s.btype = DBUF_TYPE_FIFO then
        -- Only now do we know that the input "file" is a named pipe.
        (some f, ({ r.2.1 with suppress_detection_by_filename := true }, r.2.2))
      else r
    | none => r

/-- The part of `de_run` that follows a successful open of `orig_ifile`: `c->infile` is
set, the slice view is made when a slice was requested, and the run goes on to the
selection of the module. -/
def de_run_opened (modules : List deark_module_info) (env : os_env) (st : run_state)
    (orig_ifile : dbuf) (module_req : Option Nat) : Option run_state :=
  let st2 : run_state := ({ st.1 with infile := some orig_ifile }, st.2 ++ [.open_input])
  -- If we are only supposed to look at a segment of the original file,
  -- do that by creating a child dbuf, using dbuf_open_input_subfile().
  if st2.1.slice_start_req > 0 ∨ st2.1.slice_size_req_valid then
    let subfile_size :=
      if st2.1.slice_size_req_valid then st2.1.slice_size_req
      else orig_ifile.len - st2.1.slice_start_req
    let subfile := dbuf_open_input_subfile orig_ifile st2.1.slice_start_req subfile_size
    de_run_with_input modules env
      ({ st2.1 with infile := some subfile }, st2.2 ++ [.open_subfile])
      (some subfile) (some orig_ifile) module_req
  else
    de_run_with_input modules env st2 none (some orig_ifile) module_req

/-- The function `de_run`. The result `none` is a run that ends in `de_fatalerror`. -/
def de_run (modules : List deark_module_info) (env : os_env) (c : deark) : Option run_state :=
  let st0 : run_state := (c, [])
  if c.modhelp_req ∧ c.input_format_req.isSome then
    (do_modhelp modules st0).map fun st => de_run_done st none none
  else
    let st1 := if st0.1.extrlist_filename.isSome then open_extrlist st0 env else st0
    if st1.1.input_style ≠ DE_INPUTSTYLE_STDIN ∧ st1.1.input_filename.isNone then
      -- "Internal: Input file not set"
      none
    else if st1.1.module_register_fn = false then
      -- "Internal: module_register_fn not set"
      none
    else
      match de_run_requested_module modules st1.1 with
      | none => some (de_run_done (de_err st1 "Unknown module") none none)
      | some module_req =>
        match de_run_open st1 env with
        | (none, st2) => some (de_run_done st2 none none)
        | (some orig_ifile, st2) => de_run_opened modules env st2 orig_ifile module_req

/-- The events of a run that close the slice view or the originally opened input. -/
def input_closes (tr : List run_event) : List run_event :=
  tr.filter fun e => e = .dbuf_close .subfile ∨ e = .dbuf_close .orig_ifile

/-- A module that carries DE_MODFLAG_SECURITYWARNING, answers 100, and has no help. -/
def example_module_unaudited : deark_module_info :=
  example_module "unaudited"
    { module_flags_none with DE_MODFLAG_SECURITYWARNING := true } 100

/-- An operating system whose input file is the regular file 00 05 16 00. -/
def example_env : os_env :=
  { stdin_data := [], input_file := some (false, [0x00, 0x05, 0x16, 0x00]),
    extrlist_file := none, zip_create_ok := true }

/-- A session that is to process the file "in.bin", everything else zero. -/
def example_session : deark :=
  { example_deark example_membuf with infile := none, input_filename := some "in.bin" }

/-- Whether an event opens or closes the input or its slice view. -/
def run_event.is_resource : run_event → Bool
  | .open_input => true
  | .open_subfile => true
  | .dbuf_close .subfile => true
  | .dbuf_close .orig_ifile => true
  | _ => false

/-- The events of a run that open or close the input or its slice view, in order. -/
def resource_events (tr : List run_event) : List run_event :=
  tr.filter run_event.is_resource

/-- Whether an event marks the selection of a module or the invocation of a run function. -/
def run_event.is_dispatch : run_event → Bool
  | .module_selected _ _ => true
  | .run_fn _ => true
  | _ => false

/-- The events of a run that mark the selection of a module or the invocation of a run
function, in order. -/
def dispatch_events (tr : List run_event) : List run_event :=
  tr.filter run_event.is_dispatch

/-- The module descriptor with `DE_MODFLAG_SECURITYWARNING` cleared. -/
def clear_securitywarning (mi : deark_module_info) : deark_module_info :=
  { mi with flags := { mi.flags with DE_MODFLAG_SECURITYWARNING := false } }

/-- The logical content of a membuf: the first `len` bytes of its allocation. -/
def membuf_content (f : dbuf) : List UInt8 :=
  f.s.membuf_buf.take f.s.len.toNat

/-- A membuf of length 4 holding 1, 2, 3, 4 in an allocation of 6 bytes. -/
def example_membuf4 : dbuf :=
  .root { dbuf_zero with btype := DBUF_TYPE_MEMBUF, len := 4, membuf_alloc := 6,
                         membuf_buf := [1, 2, 3, 4, 0, 0] }

/-- The fields of a membuf in the state that the membuf operations maintain, with no
max-length clamp. -/
def dbuf_fields.membuf_unclamped (s : dbuf_fields) : Prop :=
  s.btype = DBUF_TYPE_MEMBUF ∧ 0 ≤ s.len ∧ s.len ≤ s.membuf_alloc ∧
  s.membuf_alloc = s.membuf_buf.length ∧ s.cache = none ∧ s.has_max_len = false

/-! ## The trace of a run of the buffered reader -/

/-- The reader accepts the response of an invocation and goes on: the consumer returned
nonzero and reported a consumed count between 1 and the number of bytes it was given. -/
def br_call.accepted (k : br_call) : Prop :=
  k.ret ≠ 0 ∧ 1 ≤ k.bytes_consumed ∧ k.bytes_consumed ≤ k.buf_len

instance (k : br_call) : Decidable k.accepted := by
  unfold br_call.accepted
  infer_instance

/-- What the reader provides in one invocation over the range `[pos1, pos1+len)` of the
source `f0`: the window is the `buf_len` bytes of the source from `pos1 + offset` on, it lies
inside the range and has at most 4096 bytes, and `bytes_consumed` is preset to `buf_len`. -/
def br_call.window_ok (f0 : dbuf) (pos1 len : Int) (k : br_call) : Prop :=
  0 ≤ k.brctx.offset ∧ 0 ≤ k.buf_len ∧ k.buf_len ≤ 4096 ∧ k.brctx.offset + k.buf_len ≤ len ∧
  k.buf = f0.read_spec (pos1 + k.brctx.offset) k.buf_len ∧
  k.brctx.bytes_consumed = k.buf_len

/-- The invocations `ks` are what the consumer `cbfn` answers when it is called, in order,
with the recorded contexts and windows, starting with the user data `u`; `u'` is the user
data after the last of them. -/
def br_replays {σ : Type} (cbfn : de_buffered_read_cbfn σ) : σ → List br_call → σ → Prop
  | u, [], u' => u' = u
  | u, k :: ks, u' =>
    k.ret = (cbfn u k.brctx k.buf k.buf_len).ret ∧
    k.bytes_consumed = (cbfn u k.brctx k.buf k.buf_len).bytes_consumed ∧
    br_replays cbfn (cbfn u k.brctx k.buf k.buf_len).userdata ks u'

/-- The function `de_is_all_zeroes(b, n)`: the loop over `b[0 .. n)` returns 0 at the first
nonzero byte, and 1 when there is none. -/
def de_is_all_zeroes : List UInt8 → Int → Int
  | [], _ => 1
  | x :: xs, n => if n ≤ 0 then 1 else if x ≠ 0 then 0 else de_is_all_zeroes xs (n - 1)

/-- The consumer `is_all_zeroes_cbfn`: it returns `de_is_all_zeroes(buf, buf_len)` and
leaves `brctx->bytes_consumed` as preset; its user data is NULL. -/
def is_all_zeroes_cbfn : de_buffered_read_cbfn Unit :=
  fun userdata brctx buf buf_len =>
    { ret := de_is_all_zeroes buf buf_len, bytes_consumed := brctx.bytes_consumed,
      userdata := userdata }

/-- The function `dbuf_is_all_zeroes`: the return value of `dbuf_buffered_read` with the
consumer `is_all_zeroes_cbfn`; `none` when the run does not return within `fuel` rounds. -/
def dbuf_is_all_zeroes (fuel : Nat) (f : dbuf) (pos len : Int) : Option Int :=
  (dbuf_buffered_read fuel f pos len is_all_zeroes_cbfn ()).retval

/-- A membuf holding the three bytes 0, 0, 0. -/
def example_membuf_zeroes : dbuf :=
  .root { dbuf_zero with btype := DBUF_TYPE_MEMBUF, len := 3, membuf_alloc := 4,
                         membuf_buf := [0, 0, 0, 0] }

/-- A consumer that returns 1 and always reports one byte consumed; its user data counts
the invocations. -/
def example_consume_one : de_buffered_read_cbfn Nat :=
  fun userdata _ _ _ => { ret := 1, bytes_consumed := 1, userdata := userdata + 1 }

/-- The number of bytes that a round of `dbuf_buffered_read` reads, from the state at the
head of the loop: what fits in `buf`, or what is left of the range if that is not more. -/
def br_state.bytestoread {σ : Type} (pos1 len : Int) (st : br_state σ) : Int :=
  if BRBUFLEN - st.num_unconsumed_bytes_in_buf ≥ pos1 + len - st.pos then pos1 + len - st.pos
  else BRBUFLEN - st.num_unconsumed_bytes_in_buf

/-- The context that a round of `dbuf_buffered_read` passes to the consumer. -/
def br_state.brctx {σ : Type} (pos1 len : Int) (st : br_state σ) : de_bufferedreadctx :=
  { offset := st.offs_of_first_byte_in_buf,
    bytes_consumed := st.num_unconsumed_bytes_in_buf + st.bytestoread pos1 len,
    eof_flag := decide (BRBUFLEN - st.num_unconsumed_bytes_in_buf ≥ pos1 + len - st.pos) }

/-- A membuf of 5000 bytes, more than one buffer of the streaming reader holds. -/
def example_membuf_5000 : dbuf :=
  .root { dbuf_zero with btype := DBUF_TYPE_MEMBUF, len := 5000, membuf_alloc := 5000,
                         membuf_buf := List.replicate 5000 7 }

/-! ## Membufs with a max-length clamp, and sequences of writes -/

/-- The fields of a membuf in the state that the membuf operations maintain, with or
without a max-length clamp. -/
def dbuf_fields.membuf_ok (s : dbuf_fields) : Prop :=
  s.btype = DBUF_TYPE_MEMBUF ∧ 0 ≤ s.len ∧ s.len ≤ s.membuf_alloc ∧
  s.membuf_alloc = s.membuf_buf.length ∧ s.cache = none

/-- The number of bytes that `membuf_append(f, m, mlen)` appends: `mlen`, cut down to the
room left below `max_len` when a clamp is set, and nothing when that is not positive. -/
def membuf_append_amount (s : dbuf_fields) (mlen0 : Int) : Int :=
  let mlen := if s.has_max_len ∧ s.len + mlen0 > s.max_len then s.max_len - s.len else mlen0
  if mlen ≤ 0 then 0 else mlen

/-- The fields `s1` differ from `s` at most in the content of the membuf (`len`, the
allocation and its size) and in the record of the write callback. -/
def dbuf_fields.same_apart_from_content (s s1 : dbuf_fields) : Prop :=
  { s1 with len := s.len, membuf_buf := s.membuf_buf, membuf_alloc := s.membuf_alloc,
            writecallback_log := s.writecallback_log } = s

/-- Writing the bytes of `m` with successive calls of `dbuf_writebyte`. -/
def dbuf_writebytes : dbuf → List UInt8 → Option dbuf
  | f, [] => some f
  | f, b :: bs => (dbuf_writebyte f b).bind fun f1 => dbuf_writebytes f1 bs

/-- A membuf with `max_len = 3` that holds the two bytes 1, 2. -/
def example_membuf_clamped : dbuf :=
  .root { dbuf_zero with btype := DBUF_TYPE_MEMBUF, len := 2, membuf_alloc := 3,
                         membuf_buf := [1, 2, 0], has_max_len := true, max_len := 3 }

/-- A call of one of the write operations on a membuf, with its arguments. -/
inductive membuf_op where
  | write (m : List UInt8) (len : Int)
  | writebyte (n : UInt8)
  | write_run (n : UInt8) (len : Int)
  | write_at (pos : Int) (m : List UInt8) (len : Int)
  | writebyte_at (pos : Int) (n : UInt8)
  | truncate (desired_len : Int)
deriving DecidableEq, Repr

/-- The call on the dbuf `f`. -/
def membuf_op.apply : membuf_op → dbuf → Option dbuf
  | .write m len, f => dbuf_write f m len
  | .writebyte n, f => dbuf_writebyte f n
  | .write_run n len, f => dbuf_write_run f n len
  | .write_at pos m len, f => dbuf_write_at f pos m len
  | .writebyte_at pos n, f => dbuf_writebyte_at f pos n
  | .truncate desired_len, f => dbuf_truncate f desired_len

/-- The caller passes a buffer `m` that holds the `len` bytes it asks to write. -/
def membuf_op.valid : membuf_op → Prop
  | .write m len => len ≤ m.length
  | .write_at _ m len => len ≤ m.length
  | _ => True

instance (op : membuf_op) : Decidable op.valid := by
  cases op <;> unfold membuf_op.valid <;> infer_instance

/-- A finite sequence of calls, one after the other. -/
def membuf_ops_apply : List membuf_op → dbuf → Option dbuf
  | [], f => some f
  | op :: ops, f => (op.apply f).bind fun f1 => membuf_ops_apply ops f1

/-- The state of a membuf with the max-length clamp `n`: the length is between 0 and `n`
and within the allocation. -/
def dbuf_fields.membuf_clamped (n : Int) (s : dbuf_fields) : Prop :=
  s.membuf_ok ∧ s.has_max_len = true ∧ s.max_len = n ∧ s.len ≤ n

/-! ## Copying a slice -/

/-- The consumer `copy_cbfn` of `dbuf_copy`: it writes the window to the output dbuf, which
is its user data (`none` once a write has failed), returns 1 and leaves
`brctx->bytes_consumed` as preset. -/
def copy_cbfn : de_buffered_read_cbfn (Option dbuf) :=
  fun outf brctx buf buf_len =>
    { ret := 1, bytes_consumed := brctx.bytes_consumed,
      userdata := outf.bind fun o => dbuf_write o buf buf_len }

/-- The function `dbuf_copy`, for an output dbuf that is an object apart from the source
and its parents: the states of `inf` and of `outf` after the call; `none` when a read or a
write fails or the run does not return within `fuel` rounds. -/
def dbuf_copy (fuel : Nat) (inf : dbuf) (input_offset input_len : Int) (outf : dbuf) :
    Option (dbuf × dbuf) :=
  match dbuf_buffered_read fuel inf input_offset input_len copy_cbfn (some outf) with
  | .done r => r.userdata.map fun o => (r.f, o)
  | _ => none

/-- The function `dbuf_create_file_from_slice` from the point where `dbuf_create_output_file`
has returned the output dbuf `f`, up to the call of `dbuf_close`. -/
def dbuf_create_file_from_slice (fuel : Nat) (inf : dbuf) (pos data_size : Int) (f : dbuf) :
    Option (dbuf × dbuf) :=
  dbuf_copy fuel inf pos data_size f

/-- The function `de_run_copy` of the module "copy" (modules/misc.c), with the input file
`c->infile` and the output dbuf `f` that `dbuf_create_output_file` has returned. -/
def de_run_copy (fuel : Nat) (infile : dbuf) (f : dbuf) : Option (dbuf × dbuf) :=
  dbuf_create_file_from_slice fuel infile 0 infile.len f

/-! ## Integer readers -/

/-- The cast `(i64)` of an unsigned 64-bit value. -/
def to_i64 (v : Nat) : Int :=
  if v % 2 ^ 64 < 2 ^ 63 then ((v % 2 ^ 64 : Nat) : Int) else ((v % 2 ^ 64 : Nat) : Int) - 2 ^ 64

/-- The byte `m[k]` as a number. -/
def byte_at_index (m : List UInt8) (k : Nat) : Nat := (m.getD k 0).toNat

/-- The function `dbuf_getuint_ext_be_direct`: the loop `val = (val<<8) | (u64)m[k]` over
`k < nbytes`, on 64-bit unsigned values. -/
def dbuf_getuint_ext_be_direct (m : List UInt8) (nbytes : Nat) : Int :=
  if nbytes > 8 then 0
  else to_i64 ((List.range nbytes).foldl
    (fun (val k : Nat) => ((val <<< 8) % 2 ^ 64) ||| byte_at_index m k) 0)

/-- The function `dbuf_getuint_ext_le_direct`: the loop `val |= ((u64)m[k])<<k` over
`k < nbytes`, on 64-bit unsigned values. -/
def dbuf_getuint_ext_le_direct (m : List UInt8) (nbytes : Nat) : Int :=
  if nbytes > 8 then 0
  else to_i64 ((List.range nbytes).foldl
    (fun (val k : Nat) => val ||| ((byte_at_index m k <<< k) % 2 ^ 64)) 0)

/-- The function `dbuf_getuint_ext_x`. -/
def dbuf_getuint_ext_x (f : dbuf) (pos : Int) (nbytes : Nat) (is_le : Bool) :
    Option (Int × dbuf) :=
  if nbytes > 8 then some (0, f)
  else
    (dbuf_read f pos nbytes).map fun r =>
      (if is_le then dbuf_getuint_ext_le_direct r.1 nbytes
       else dbuf_getuint_ext_be_direct r.1 nbytes, r.2)

/-- The function `de_getu16be_direct`, on 32-bit unsigned values. -/
def de_getu16be_direct (m : List UInt8) : Int :=
  ((byte_at_index m 1 ||| ((byte_at_index m 0 <<< 8) % 2 ^ 32) : Nat) : Int)

/-- The function `de_getu16le_direct`, on 32-bit unsigned values. -/
def de_getu16le_direct (m : List UInt8) : Int :=
  ((byte_at_index m 0 ||| ((byte_at_index m 1 <<< 8) % 2 ^ 32) : Nat) : Int)

/-- The function `de_getu32be_direct`, on 32-bit unsigned values. -/
def de_getu32be_direct (m : List UInt8) : Int :=
  ((byte_at_index m 3 ||| ((byte_at_index m 2 <<< 8) % 2 ^ 32) |||
    ((byte_at_index m 1 <<< 16) % 2 ^ 32) ||| ((byte_at_index m 0 <<< 24) % 2 ^ 32) : Nat) : Int)

/-- The function `de_getu32le_direct`, on 32-bit unsigned values. -/
def de_getu32le_direct (m : List UInt8) : Int :=
  ((byte_at_index m 0 ||| ((byte_at_index m 1 <<< 8) % 2 ^ 32) |||
    ((byte_at_index m 2 <<< 16) % 2 ^ 32) ||| ((byte_at_index m 3 <<< 24) % 2 ^ 32) : Nat) : Int)

/-- The function `de_getu64be_direct`: the loop `val |= ((u64)m[i])<<((7-i)*8)`. -/
def de_getu64be_direct (m : List UInt8) : Nat :=
  (List.range 8).foldl
    (fun (val i : Nat) => val ||| ((byte_at_index m i <<< ((7 - i) * 8)) % 2 ^ 64)) 0

/-- The function `de_getu64le_direct`: the loop `val |= ((u64)m[i])<<(i*8)`. -/
def de_getu64le_direct (m : List UInt8) : Nat :=
  (List.range 8).foldl
    (fun (val i : Nat) => val ||| ((byte_at_index m i <<< (i * 8)) % 2 ^ 64)) 0

/-- The function `de_geti64be_direct`. -/
def de_geti64be_direct (m : List UInt8) : Int := to_i64 (de_getu64be_direct m)

/-- The function `de_geti64le_direct`. -/
def de_geti64le_direct (m : List UInt8) : Int := to_i64 (de_getu64le_direct m)

/-- The pattern `u8 m[n]; dbuf_read(f, m, pos, n); return direct(m);` of the fixed-width
readers. -/
def dbuf_get_with (direct : List UInt8 → Int) (f : dbuf) (pos n : Int) : Option (Int × dbuf) :=
  (dbuf_read f pos n).map fun r => (direct r.1, r.2)

/-- The function `dbuf_getu16be`. -/
def dbuf_getu16be (f : dbuf) (pos : Int) : Option (Int × dbuf) :=
  dbuf_get_with de_getu16be_direct f pos 2

/-- The function `dbuf_getu16le`. -/
def dbuf_getu16le (f : dbuf) (pos : Int) : Option (Int × dbuf) :=
  dbuf_get_with de_getu16le_direct f pos 2

/-- The function `dbuf_getu32be`. -/
def dbuf_getu32be (f : dbuf) (pos : Int) : Option (Int × dbuf) :=
  dbuf_get_with de_getu32be_direct f pos 4

/-- The function `dbuf_getu32le`. -/
def dbuf_getu32le (f : dbuf) (pos : Int) : Option (Int × dbuf) :=
  dbuf_get_with de_getu32le_direct f pos 4

/-- The function `dbuf_geti64be`. -/
def dbuf_geti64be (f : dbuf) (pos : Int) : Option (Int × dbuf) :=
  dbuf_get_with de_geti64be_direct f pos 8

/-- The function `dbuf_geti64le`. -/
def dbuf_geti64le (f : dbuf) (pos : Int) : Option (Int × dbuf) :=
  dbuf_get_with de_geti64le_direct f pos 8

/-- The function `dbuf_geti16be`. -/
def dbuf_geti16be (f : dbuf) (pos : Int) : Option (Int × dbuf) :=
  (dbuf_getu16be f pos).map fun r => (if r.1 ≥ 32768 then r.1 - 65536 else r.1, r.2)

/-- The function `dbuf_geti16le`. -/
def dbuf_geti16le (f : dbuf) (pos : Int) : Option (Int × dbuf) :=
  (dbuf_getu16le f pos).map fun r => (if r.1 ≥ 32768 then r.1 - 65536 else r.1, r.2)

/-- The cast `(i64)(i32)(u32)n`. -/
def to_i32 (n : Int) : Int :=
  if n % 2 ^ 32 < 2 ^ 31 then n % 2 ^ 32 else n % 2 ^ 32 - 2 ^ 32

/-- The function `dbuf_geti32be`. -/
def dbuf_geti32be (f : dbuf) (pos : Int) : Option (Int × dbuf) :=
  (dbuf_getu32be f pos).map fun r => (to_i32 r.1, r.2)

/-- The function `dbuf_geti32le`. -/
def dbuf_geti32le (f : dbuf) (pos : Int) : Option (Int × dbuf) :=
  (dbuf_getu32le f pos).map fun r => (to_i32 r.1, r.2)

/-- The function `dbuf_getu16x`. -/
def dbuf_getu16x (f : dbuf) (pos : Int) (is_le : Bool) : Option (Int × dbuf) :=
  if is_le then dbuf_getu16le f pos else dbuf_getu16be f pos

/-- The function `dbuf_geti16x`. -/
def dbuf_geti16x (f : dbuf) (pos : Int) (is_le : Bool) : Option (Int × dbuf) :=
  if is_le then dbuf_geti16le f pos else dbuf_geti16be f pos

/-- The function `dbuf_getu32x`. -/
def dbuf_getu32x (f : dbuf) (pos : Int) (is_le : Bool) : Option (Int × dbuf) :=
  if is_le then dbuf_getu32le f pos else dbuf_getu32be f pos

/-- The function `dbuf_geti32x`. -/
def dbuf_geti32x (f : dbuf) (pos : Int) (is_le : Bool) : Option (Int × dbuf) :=
  if is_le then dbuf_geti32le f pos else dbuf_geti32be f pos

/-- The function `dbuf_geti64x`. -/
def dbuf_geti64x (f : dbuf) (pos : Int) (is_le : Bool) : Option (Int × dbuf) :=
  if is_le then dbuf_geti64le f pos else dbuf_geti64be f pos

/-- The function `dbuf_getint_ext`. -/
def dbuf_getint_ext (f : dbuf) (pos : Int) (nbytes : Nat) (is_le is_signed : Bool) :
    Option (Int × dbuf) :=
  if is_signed then
    match nbytes with
    | 1 => (dbuf_getbyte f pos).map fun r =>
        (if r.1.toNat < 128 then (r.1.toNat : Int) else (r.1.toNat : Int) - 256, r.2)
    | 2 => dbuf_geti16x f pos is_le
    | 4 => dbuf_geti32x f pos is_le
    | 8 => dbuf_geti64x f pos is_le
    | _ => some (0, f)
  else
    match nbytes with
    | 1 => (dbuf_getbyte f pos).map fun r => ((r.1.toNat : Int), r.2)
    | 2 => dbuf_getu16x f pos is_le
    | 4 => dbuf_getu32x f pos is_le
    | 8 => dbuf_geti64x f pos is_le
    | _ => dbuf_getuint_ext_x f pos nbytes is_le

/-- The value of the bytes `b` read as a little-endian number: the sum of
`b[k] * 256^k`. -/
def le_value : List UInt8 → Nat
  | [] => 0
  | b :: bs => b.toNat + 256 * le_value bs

/-- The value of the bytes `b` read as a big-endian number: the sum of
`b[k] * 256^(|b|-1-k)`. -/
def be_value (b : List UInt8) : Nat := le_value b.reverse

/-! ## Searching -/

/-- The test of the loop of `dbuf_search` at index `i`:
`needle[0]==buf[i] && !de_memcmp(needle, &buf[i], needle_len)`. -/
def dbuf_search_test (needle buf : List UInt8) (needle_len : Int) (i : Nat) : Bool :=
  decide (needle.getD 0 0 = buf.getD i 0) &&
    decide (de_memcmp (needle.take needle_len.toNat) ((buf.drop i).take needle_len.toNat) = 0)

/-- The function `dbuf_search`: the return value, `*foundpos` and the new state of `f`.
The loop `for(i=0; i<=haystack_len-needle_len; i++)` ends at the first index that passes
the test. -/
def dbuf_search (f : dbuf) (needle : List UInt8) (needle_len startpos haystack_len0 : Int) :
    Option (Int × Int × dbuf) :=
  if startpos > f.len then some (0, 0, f)
  else
    let haystack_len :=
      if haystack_len0 > f.len - startpos then f.len - startpos else haystack_len0
    if needle_len > haystack_len then some (0, 0, f)
    else if needle_len < 1 then some (1, startpos, f)
    else
      match dbuf_read f startpos haystack_len with
      | none => none
      | some (buf, f1) =>
        match (List.range (haystack_len - needle_len + 1).toNat).find?
            (dbuf_search_test needle buf needle_len) with
        | some i => some (1, startpos + (i : Int), f1)
        | none => some (0, 0, f1)

/-! ## The null sink -/

/-- A fresh null sink: the dbuf that `dbuf_create_output_file` returns for a suppressed
output, `btype` being `DBUF_TYPE_NULL` and every other field zero. -/
def example_null_sink : dbuf := .root { dbuf_zero with btype := DBUF_TYPE_NULL }

/-- The call keeps to appending after the `L` bytes written so far and has non-negative
arguments: a `dbuf_write_at` lies inside these bytes and a `dbuf_truncate` does not
shrink. -/
def membuf_op.appends_only (L : Int) : membuf_op → Prop
  | .write m len => 0 ≤ len ∧ len ≤ m.length
  | .writebyte _ => True
  | .write_run _ len => 0 ≤ len
  | .write_at pos m len => 0 ≤ pos ∧ 0 ≤ len ∧ len ≤ m.length ∧ pos + len ≤ L
  | .writebyte_at pos _ => 0 ≤ pos ∧ pos < L
  | .truncate desired_len => L ≤ desired_len

instance (L : Int) (op : membuf_op) : Decidable (op.appends_only L) := by
  cases op <;> unfold membuf_op.appends_only <;> infer_instance

/-- Every call of the sequence, made on `f` one after the other, keeps to appending after
the bytes that `f` holds when the call is made. -/
def membuf_ops_append_only : List membuf_op → dbuf → Prop
  | [], _ => True
  | op :: ops, f =>
    op.appends_only f.len ∧
    match op.apply f with
    | some f1 => membuf_ops_append_only ops f1
    | none => False

/-- Whether a sequence keeps to appending can be computed. -/
def membuf_ops_append_only_dec : (ops : List membuf_op) → (f : dbuf) →
    Decidable (membuf_ops_append_only ops f)
  | [], _ => isTrue trivial
  | op :: ops, f => by
    unfold membuf_ops_append_only
    cases h : op.apply f with
    | none => simp only; infer_instance
    | some f1 =>
      simp only
      have := membuf_ops_append_only_dec ops f1
      infer_instance

instance (ops : List membuf_op) (f : dbuf) : Decidable (membuf_ops_append_only ops f) :=
  membuf_ops_append_only_dec ops f

/-! ## The run of `de_run` at the selection of the module -/

/-- The arguments with which the run of `de_run` on `c` enters the selection of the
module (`de_run_with_input`): the state, `subfile`, `orig_ifile` and the explicitly
requested module; `none` when the run ends before it gets there (module help, a fatal
error, an unknown requested module, or an input that cannot be opened). -/
def de_run_selection_entry (modules : List deark_module_info) (env : os_env) (c : deark) :
    Option (run_state × Option dbuf × Option dbuf × Option Nat) :=
  if c.modhelp_req ∧ c.input_format_req.isSome then none
  else
    let st1 : run_state := if c.extrlist_filename.isSome then open_extrlist (c, []) env else (c, [])
    if st1.1.input_style ≠ DE_INPUTSTYLE_STDIN ∧ st1.1.input_filename.isNone then none
    else if st1.1.module_register_fn = false then none
    else
      match de_run_requested_module modules st1.1 with
      | none => none
      | some module_req =>
        match de_run_open st1 env with
        | (none, _) => none
        | (some orig_ifile, st) =>
          let st2 : run_state :=
            ({ st.1 with infile := some orig_ifile }, st.2 ++ [.open_input])
          if st2.1.slice_start_req > 0 ∨ st2.1.slice_size_req_valid then
            let subfile_size :=
              if st2.1.slice_size_req_valid then st2.1.slice_size_req
              else orig_ifile.len - st2.1.slice_start_req
            let subfile := dbuf_open_input_subfile orig_ifile st2.1.slice_start_req subfile_size
            some (({ st2.1 with infile := some subfile }, st2.2 ++ [.open_subfile]),
              some subfile, some orig_ifile, module_req)
          else some (st2, none, some orig_ifile, module_req)

/-- A module whose identification function answers 50 and raises the error count. -/
def example_module_erring : deark_module_info :=
  { id := "erring", id_alias := [], flags := module_flags_none,
    identify_fn := some fun c => (50, { c with error_count := c.error_count + 1 }),
    run_fn := some fun c _ => c, help_fn := none }

/-- A table whose first module carries DISABLEDETECT and SHAREDDETECTION and answers 100,
followed by a module that answers 60. -/
def example_table_disabled_first : List deark_module_info :=
  [example_module "shared"
     { module_flags_none with DE_MODFLAG_DISABLEDETECT := true,
                              DE_MODFLAG_SHAREDDETECTION := true } 100,
   example_module "sixty" module_flags_none 60]

/-- A session that is to process the bytes on stdin, everything else zero. -/
def example_session_stdin : deark :=
  { example_deark example_membuf with infile := none, input_style := DE_INPUTSTYLE_STDIN }

/-- The dbuf that `dbuf_open_input_file` makes of the regular file 00 05 16 00. -/
def example_input_file : dbuf :=
  .root { dbuf_zero with btype := DBUF_TYPE_IFILE, cache_policy := DE_CACHE_POLICY_ENABLED,
                         fp := some ⟨[0x00, 0x05, 0x16, 0x00], 0⟩, len := 4 }

/-- The session `example_session` with the slice request `start = 1`, no size. -/
def example_session_slice : deark := { example_session with slice_start_req := 1 }

/-! ## Searching for a byte, and reading a string -/

/-- The loop `for(i=0; i<haystack_len; i++)` of `dbuf_search_byte` from the index `i` on:
the return value, `*foundpos` and the new state of `f`. The loop makes at most
`haystack_len - i` rounds; running out of rounds before its end is the result `none`, as is
a fatal read. -/
def dbuf_search_byte_loop (b : UInt8) (startpos haystack_len foundpos : Int) :
    Nat → Int → dbuf → Option (Int × Int × dbuf)
  | 0, i, f => if i < haystack_len then none else some (0, foundpos, f)
  | fuel + 1, i, f =>
    if i < haystack_len then
      match dbuf_getbyte f (startpos + i) with
      | none => none
      | some (x, f1) =>
        if b = x then some (1, startpos + i, f1)
        else dbuf_search_byte_loop b startpos haystack_len foundpos fuel (i + 1) f1
    else some (0, foundpos, f)

/-- The function `dbuf_search_byte`; `foundpos` is the value of `*foundpos` before the
call, which stays when the byte is not found. -/
def dbuf_search_byte (f : dbuf) (b : UInt8) (startpos haystack_len foundpos : Int) :
    Option (Int × Int × dbuf) :=
  dbuf_search_byte_loop b startpos haystack_len foundpos haystack_len.toNat 0 f

/-- The flags that `dbuf_read_string` recognizes. -/
structure de_convflags where
  DE_CONVFLAG_STOP_AT_NUL : Bool
  DE_CONVFLAG_WANT_UTF8 : Bool
deriving DecidableEq, Repr

/-- The fields of `struct de_stringreaderdata` that `dbuf_read_string` makes from the bytes
of the file: `sz` is the whole allocation, terminator included. The Unicode string `str`
and `sz_utf8` are made from `sz` by functions outside these sources, and are left out. -/
structure de_stringreaderdata where
  sz : List UInt8
  was_truncated : Bool
  found_nul : Bool
  bytes_consumed : Int
deriving DecidableEq, Repr

/-- The part of `dbuf_read_string` that finds the length of the string: `found_nul`,
`x_strlen`, `bytes_consumed` and the new state of `f`. -/
def dbuf_read_string_scan (f : dbuf) (pos bytes_avail_to_read max_bytes_to_keep : Int)
    (flags : de_convflags) : Option (Bool × Int × Int × dbuf) :=
  if flags.DE_CONVFLAG_STOP_AT_NUL then
    (dbuf_search_byte f 0x00 pos bytes_avail_to_read 0).map fun r =>
      -- No NUL byte found: foundpos = pos+bytes_avail_to_read
      let foundpos := if r.1 ≠ 0 then r.2.1 else pos + bytes_avail_to_read
      (decide (r.1 ≠ 0), foundpos - pos, foundpos - pos + 1, r.2.2)
  else some (false, max_bytes_to_keep, max_bytes_to_keep, f)

/-- The function `dbuf_read_string`; `de_malloc` gives zeroed memory, so the bytes of `sz`
that `dbuf_read` does not fill remain NUL. -/
def dbuf_read_string (f : dbuf) (pos max_bytes_to_scan max_bytes_to_keep : Int)
    (flags : de_convflags) : Option (de_stringreaderdata × dbuf) :=
  let bytes_avail_to_read :=
    if max_bytes_to_scan > f.len - pos then f.len - pos else max_bytes_to_scan
  if ¬ flags.DE_CONVFLAG_STOP_AT_NUL ∧ max_bytes_to_scan ≠ max_bytes_to_keep then
    -- To reduce possible confusion, we require that
    -- max_bytes_to_scan==max_bytes_to_keep in this case.
    some ({ sz := List.replicate (max_bytes_to_keep + 1).toNat 0, was_truncated := false,
            found_nul := false, bytes_consumed := bytes_avail_to_read }, f)
  else
    match dbuf_read_string_scan f pos bytes_avail_to_read max_bytes_to_keep flags with
    | none => none
    | some (found_nul, x_strlen, bytes_consumed, f1) =>
      let was_truncated := decide (x_strlen + 1 > max_bytes_to_keep + 1)
      let bytes_to_malloc :=
        if x_strlen + 1 > max_bytes_to_keep + 1 then max_bytes_to_keep + 1 else x_strlen + 1
      match dbuf_read f1 pos (bytes_to_malloc - 1) with
      | none => none
      | some (got, f2) =>
        -- The last byte remains NUL
        some ({ sz := got ++ List.replicate (bytes_to_malloc.toNat - got.length) 0,
                was_truncated := was_truncated, found_nul := found_nul,
                bytes_consumed := bytes_consumed }, f2)

/-- A membuf holding the single byte 0x00. -/
def example_membuf_nul : dbuf :=
  .root { dbuf_zero with btype := DBUF_TYPE_MEMBUF, len := 1, membuf_alloc := 2,
                         membuf_buf := [0, 0] }

/-- A membuf holding the five bytes 65, 66, 0, 67, 0. -/
def example_membuf_string : dbuf :=
  .root { dbuf_zero with btype := DBUF_TYPE_MEMBUF, len := 5, membuf_alloc := 5,
                         membuf_buf := [65, 66, 0, 67, 0] }

/-! ## Creating an output file -/

inductive extract_policy_type where
  | DE_EXTRACTPOLICY_DEFAULT
  | DE_EXTRACTPOLICY_MAINONLY
  | DE_EXTRACTPOLICY_AUXONLY
deriving DecidableEq, Repr

open extract_policy_type

/-- The fields of `de_finfo` that decide the name of an output file; `file_name_internal`
is the UTF-8 form of the name, empty when no name is set. -/
structure de_finfo where
  file_name_internal : String
  original_filename_flag : Bool
deriving DecidableEq, Repr

/-- The fields of the session context `deark` that `dbuf_create_output_file` reads or
writes. `extrlist` lists the lines printed to `c->extrlist_dbuf` (`none` when that is null),
and `events` the messages and errors reported. -/
structure output_session where
  extract_policy : extract_policy_type
  file_count : Int
  base_output_filename : Option String
  output_style : output_style_type
  first_output_file : Int
  max_output_files : Int
  num_files_extracted : Int
  extrlist : Option (List String)
  list_mode : Bool
  error_count : Int
  events : List run_event
deriving DecidableEq, Repr

/-- The dbuf that `dbuf_create_output_file` returns: its fields and `f->name` (`none` is
the null pointer). -/
structure output_dbuf where
  s : dbuf_fields
  name : Option String
deriving DecidableEq, Repr

/-- The result of `de_snprintf(buf, size, ...)` or `de_strlcpy(buf, src, size)` for the
full text `s`: at most `size - 1` characters (a character is counted as one byte). -/
def de_strlcpy (s : String) (size : Nat) : String := String.mk (s.data.take (size - 1))

/-- The output of the conversion `%03d`. -/
def de_fmt_03d (n : Int) : String :=
  let digits := (Nat.toDigits 10 n.natAbs)
  if n < 0 then String.mk ('-' :: (List.replicate (2 - digits.length) '0' ++ digits))
  else String.mk (List.replicate (3 - digits.length) '0' ++ digits)

/-- The part of `dbuf_create_output_file` that makes `fn_suffix`. -/
def output_fn_suffix (ext : Option String) (name_from_finfo : Option String) : String :=
  match ext, name_from_finfo with
  | some e, some n => de_strlcpy (n ++ "." ++ e) 256
  | some e, none => de_strlcpy e 256
  | none, some n => de_strlcpy n 256
  | none, none => de_strlcpy "bin" 256

/-- The part of `dbuf_create_output_file` that makes `f->name`, for the index
`file_index`. -/
def output_file_name (c : output_session) (file_index : Int) (ext : Option String)
    (fi : Option de_finfo) : String :=
  let basefn := match c.base_output_filename with
    | some b => b
    | none => "output"
  let name_from_finfo : Option String :=
    match fi with
    | some i => if i.file_name_internal ≠ "" then some i.file_name_internal else none
    | none => none
  let nbuf := de_strlcpy (basefn ++ "." ++ de_fmt_03d file_index ++ "." ++
    output_fn_suffix ext name_from_finfo) 500
  match fi, name_from_finfo with
  | some i, some n =>
    if c.output_style = DE_OUTPUTSTYLE_ZIP ∧ c.base_output_filename.isNone ∧
        i.original_filename_flag then
      -- use some semblance of the correct filename (instead of "output.xxx.yyy")
      de_strlcpy n 500
    else nbuf
  | _, _ => nbuf

/-- The extraction policy skips the file: an auxiliary file under
`DE_EXTRACTPOLICY_MAINONLY`, a main file under `DE_EXTRACTPOLICY_AUXONLY`. -/
def output_skipped_by_policy (c : output_session) (is_aux : Bool) : Bool :=
  (c.extract_policy == DE_EXTRACTPOLICY_MAINONLY && is_aux) ||
  (c.extract_policy == DE_EXTRACTPOLICY_AUXONLY && !is_aux)

/-- The end of `dbuf_create_output_file`, for a file inside the window of output files:
the kind of dbuf that the output style asks for. `fopen_result` is what
`de_fopen_for_write` returns, and `stdout` the standard output stream. -/
def output_open (c : output_session) (s : dbuf_fields) (name : String)
    (fopen_result : Option FILE) (stdout : FILE) : dbuf_fields × output_session :=
  if c.output_style = DE_OUTPUTSTYLE_ZIP then
    ({ s with btype := DBUF_TYPE_MEMBUF, membuf_buf := List.replicate 65536 0,
              membuf_alloc := 65536, write_memfile_to_zip_archive := true },
     { c with events := c.events ++ [.msg ("Adding " ++ name ++ " to ZIP file")] })
  else if c.output_style = DE_OUTPUTSTYLE_STDOUT then
    ({ s with btype := DBUF_TYPE_STDOUT, fp := some stdout },
     { c with events := c.events ++ [.msg ("Writing " ++ name ++ " to [stdout]")] })
  else
    let c1 := { c with events := c.events ++ [.msg ("Writing " ++ name)] }
    match fopen_result with
    | some fp => ({ s with btype := DBUF_TYPE_OFILE, fp := some fp }, c1)
    | none =>
      ({ s with btype := DBUF_TYPE_NULL },
       { c1 with error_count := c1.error_count + 1,
                 events := c1.events ++ [.err ("Failed to write " ++ name)] })

/-- The function `dbuf_create_output_file`: the dbuf returned and the session after the
call. `is_aux` is the flag `DE_CREATEFLAG_IS_AUX` of `createflags`. -/
def dbuf_create_output_file (c : output_session) (fopen_result : Option FILE) (stdout : FILE)
    (ext : Option String) (fi : Option de_finfo) (is_aux : Bool) :
    output_dbuf × output_session :=
  let s : dbuf_fields := { dbuf_zero with is_managed := true }
  if output_skipped_by_policy c is_aux then
    ({ s := { s with btype := DBUF_TYPE_NULL }, name := none }, c)
  else
    let file_index := c.file_count
    let c1 := { c with file_count := c.file_count + 1 }
    let name := output_file_name c1 file_index ext fi
    if file_index < c1.first_output_file then
      ({ s := { s with btype := DBUF_TYPE_NULL }, name := some name }, c1)
    else if c1.max_output_files ≥ 0 ∧
        file_index ≥ c1.first_output_file + c1.max_output_files then
      ({ s := { s with btype := DBUF_TYPE_NULL }, name := some name }, c1)
    else
      let c2 := { c1 with num_files_extracted := c1.num_files_extracted + 1,
                          extrlist := c1.extrlist.map fun l => l ++ [name ++ "\n"] }
      if c2.list_mode then
        ({ s := { s with btype := DBUF_TYPE_NULL }, name := some name },
         { c2 with events := c2.events ++ [.msg name] })
      else
        let r := output_open c2 s name fopen_result stdout
        ({ s := r.1, name := some name }, r.2)

/-- A session with the default extraction policy and no output file yet, everything else
zero. -/
def example_output_session : output_session :=
  { extract_policy := DE_EXTRACTPOLICY_DEFAULT, file_count := 0, base_output_filename := none,
    output_style := DE_OUTPUTSTYLE_DIRECT, first_output_file := 0, max_output_files := -1,
    num_files_extracted := 0, extrlist := none, list_mode := false, error_count := 0,
    events := [] }

/-- The same session with the policy `DE_EXTRACTPOLICY_MAINONLY`. -/
def example_output_session_mainonly : output_session :=
  { example_output_session with extract_policy := DE_EXTRACTPOLICY_MAINONLY }

/-- A session in list mode in which seven output indices are used. -/
def example_output_session_list : output_session :=
  { example_output_session with file_count := 7, list_mode := true }

/-! ## The base name of the output files -/

/-- The characters of the C string that starts in `s`: those before the first NUL. -/
def c_str (s : String) : List Char := s.data.takeWhile fun ch => ch ≠ Char.ofNat 0

/-- The character is '/' or the backslash. -/
def is_path_separator (ch : Char) : Bool := ch == '/' || ch == Char.ofNat 92

/-- The loop of `get_basename_ptr` over the characters that remain, `basenameptr` being
the value of the pointer so far. -/
def get_basename_loop : List Char → List Char → List Char
  | [], basenameptr => basenameptr
  | ch :: rest, basenameptr =>
    if is_path_separator ch then get_basename_loop rest rest
    else get_basename_loop rest basenameptr

/-- The function `get_basename_ptr`: the string from the character after the last path
separator on. -/
def get_basename_ptr (fn : List Char) : List Char := get_basename_loop fn fn

/-- The branch `flags & 0x2` of `de_set_base_output_filename`: remove path separators;
sanitize. -/
def sanitize_base_output_filename (name : List Char) : List Char :=
  match name.map fun ch => if is_path_separator ch then '_' else ch with
  | [] => []
  | ch :: rest => if ch = '.' then '_' :: rest else ch :: rest

/-- The function `de_set_base_output_filename`; `fn = none` is the null pointer. -/
def de_set_base_output_filename (c : output_session) (fn : Option String) (flags : Nat) :
    output_session :=
  match fn with
  | none => { c with base_output_filename := none }
  | some fn =>
    -- 0x1 = use base filename only
    let name := if flags &&& 0x1 ≠ 0 then get_basename_ptr (c_str fn) else c_str fn
    -- 0x2 = remove path separators
    let name := if flags &&& 0x2 ≠ 0 then sanitize_base_output_filename name else name
    -- Don't allow empty filename
    if name = [] then { c with base_output_filename := none }
    else { c with base_output_filename := some (String.mk name) }

/-- The file name ".d" "/" "x" backslash "y". -/
def example_file_name : String := String.mk ['.', 'd', '/', 'x', Char.ofNat 92, 'y']

/-! ## The front cache of an input file -/

/-- The same dbuf with the cache policy disabled and no front cache. -/
def dbuf_fields.without_cache (s : dbuf_fields) : dbuf_fields :=
  { s with cache_policy := DE_CACHE_POLICY_NONE, cache := none, cache_start_pos := 0,
           cache_bytes_used := 0 }

/-- The input file `example_ifile` after its front cache was filled: the cache holds the
four bytes of the file, and the stream is at the end of the file. -/
def example_ifile_cached : dbuf_fields :=
  { dbuf_zero with btype := DBUF_TYPE_IFILE, len := 4, fp := some ⟨[9, 8, 7, 6], 4⟩,
                   cache_policy := DE_CACHE_POLICY_ENABLED, cache := some [9, 8, 7, 6],
                   cache_bytes_used := 4 }

/-! ## Sequences of `dbuf_getbyte` calls -/

/-- A sequence of calls `dbuf_getbyte(f, pos)` at the positions listed: for every call the
byte that it returns, paired with the one byte that `dbuf_read(f, &b, pos, 1)` gives in the
state in which the call is made. `none`: a call does not return. -/
def dbuf_getbyte_calls : dbuf → List Int → Option (List (UInt8 × List UInt8))
  | _, [] => some []
  | f, pos :: rest =>
    match dbuf_getbyte f pos, dbuf_read f pos 1 with
    | some (b, f1), some (buf, _) => (dbuf_getbyte_calls f1 rest).map fun l => (b, buf) :: l
    | _, _ => none

/-- An input file that holds the bytes `front` followed by `x` and `y`, as
`dbuf_open_input_file` opens it. -/
def ifile_opened (front : List UInt8) (x y : UInt8) : dbuf_fields :=
  { dbuf_zero with btype := DBUF_TYPE_IFILE, len := front.length + 2,
                   fp := some ⟨front ++ [x, y], 0⟩, cache_policy := DE_CACHE_POLICY_ENABLED }

/-- The same input file with the bytes `front` in its front cache, and the stream after
them. -/
def ifile_front_cached (front : List UInt8) (x y : UInt8) : dbuf_fields :=
  { dbuf_zero with btype := DBUF_TYPE_IFILE, len := front.length + 2,
                   fp := some ⟨front ++ [x, y], front.length⟩,
                   cache_policy := DE_CACHE_POLICY_ENABLED, cache := some front,
                   cache_bytes_used := front.length }

/-- An input file of 262146 bytes: 262144 zero bytes, then 7 and 8. -/
def example_ifile_large : dbuf_fields := ifile_opened (List.replicate 262144 0) 7 8

/-- The file `example_ifile_large` after its front cache was filled. -/
def example_ifile_large_cached : dbuf_fields :=
  ifile_front_cached (List.replicate 262144 0) 7 8

/-! ## Finding the end of a line -/

/-- The loop `while(1)` of `dbuf_find_line` from the position `pos` on: `eol_pos`,
`eol_size` and the new state of `f`. The loop makes at most `f.len - pos` rounds that read
a byte; running out of rounds before its end is the result `none`, as is a fatal read. -/
def dbuf_find_line_loop : Nat → Int → dbuf → Option (Int × Int × dbuf)
  | 0, pos, f =>
    if pos ≥ f.len then some (pos, 0, f) else none
  | fuel + 1, pos, f =>
    if pos ≥ f.len then
      -- No EOL.
      some (pos, 0, f)
    else
      match dbuf_getbyte f pos with
      | none => none
      | some (b0, f1) =>
        if b0 = 0x0d then
          -- Look ahead at the next byte.
          match dbuf_getbyte f1 (pos + 1) with
          | none => none
          | some (b1, f2) =>
            if b1 = 0x0a then some (pos, 2, f2)  -- CR+LF
            else some (pos, 1, f2)
        else if b0 = 0x0a then some (pos, 1, f1)
        else dbuf_find_line_loop fuel (pos + 1) f1

/-- The function `dbuf_find_line`: the return value, `*pcontent_len`, `*ptotal_len` and the
new state of `f`. -/
def dbuf_find_line (f : dbuf) (pos1 : Int) : Option (Int × Int × Int × dbuf) :=
  if pos1 < 0 ∨ pos1 ≥ f.len then some (0, 0, 0, f)
  else
    match dbuf_find_line_loop (f.len - pos1).toNat pos1 f with
    | none => none
    | some (eol_pos, eol_size, f1) =>
      let content_len := eol_pos - pos1
      let total_len := content_len + eol_size
      some (if total_len > 0 then 1 else 0, content_len, total_len, f1)

/-- The calls `dbuf_find_line(f, pos, ...)` that start at `pos` and go on at
`pos + total_len`, until a call returns 0: the position and the `total_len` of every line
found. `none`: more than `fuel` lines, or a call that does not return. -/
def dbuf_find_lines : Nat → dbuf → Int → Option (List (Int × Int))
  | 0, _, _ => none
  | fuel + 1, f, pos =>
    match dbuf_find_line f pos with
    | none => none
    | some (ret, _, total_len, f1) =>
      if ret = 0 then some []
      else (dbuf_find_lines fuel f1 (pos + total_len)).map fun l => (pos, total_len) :: l

/-- The lines, given by position and length, lie one after the other, each with at least
one byte, the first at `a` and the last ending at `b`. -/
def lines_cover : List (Int × Int) → Int → Int → Prop
  | [], a, b => a = b
  | (p, t) :: rest, a, b => p = a ∧ 1 ≤ t ∧ lines_cover rest (a + t) b

/-- A membuf holding the text "ab" CR LF "c" LF CR. -/
def example_membuf_lines : dbuf :=
  .root { dbuf_zero with btype := DBUF_TYPE_MEMBUF, len := 7, membuf_alloc := 7,
                         membuf_buf := [97, 98, 13, 10, 99, 10, 13] }

/-- The state of `example_membuf` after `dbuf_writebyte_at(f, 0, 0x0a)`. -/
def example_membuf_lf : dbuf :=
  .root { dbuf_zero with btype := DBUF_TYPE_MEMBUF, len := 1, membuf_alloc := 2,
                         membuf_buf := [10, 0] }

/-! ## Integer writers -/

/-- The 64 bits of an `i64` read as an unsigned number (two's complement). -/
def i64_bits (n : Int) : Nat := (n % 2 ^ 64).toNat

/-- The cast `(u8)` of a non-negative value. -/
def to_u8 (v : Nat) : UInt8 := UInt8.ofNat (v % 256)

/-- The function `de_writeu16le_direct`: the bytes `m[0]`, `m[1]` that it stores. -/
def de_writeu16le_direct (n : Int) : List UInt8 :=
  [to_u8 (i64_bits n &&& 0x00ff), to_u8 ((i64_bits n &&& 0xff00) >>> 8)]

/-- The function `de_writeu16be_direct`. -/
def de_writeu16be_direct (n : Int) : List UInt8 :=
  [to_u8 ((i64_bits n &&& 0xff00) >>> 8), to_u8 (i64_bits n &&& 0x00ff)]

/-- The function `de_writeu32be_direct`. -/
def de_writeu32be_direct (n : Int) : List UInt8 :=
  [to_u8 ((i64_bits n &&& 0xff000000) >>> 24), to_u8 ((i64_bits n &&& 0x00ff0000) >>> 16),
   to_u8 ((i64_bits n &&& 0x0000ff00) >>> 8), to_u8 (i64_bits n &&& 0x000000ff)]

/-- The function `de_writeu32le_direct`. -/
def de_writeu32le_direct (n : Int) : List UInt8 :=
  [to_u8 (i64_bits n &&& 0x000000ff), to_u8 ((i64_bits n &&& 0x0000ff00) >>> 8),
   to_u8 ((i64_bits n &&& 0x00ff0000) >>> 16), to_u8 ((i64_bits n &&& 0xff000000) >>> 24)]

/-- The function `de_writeu64le_direct`, for the `u64` value `n % 2^64`: the two halves go
through the casts `(i64)(u32)` to `de_writeu32le_direct`. -/
def de_writeu64le_direct (n : Nat) : List UInt8 :=
  de_writeu32le_direct ((((n % 2 ^ 64) &&& 0xffffffff) % 2 ^ 32 : Nat) : Int) ++
  de_writeu32le_direct ((((n % 2 ^ 64) >>> 32) % 2 ^ 32 : Nat) : Int)

/-- The name of the output file is taken from the original file name: the case of
`dbuf_create_output_file` for ZIP output without base name, when `fi` carries a name
flagged as original. -/
def output_uses_original_filename (c : output_session) (fi : Option de_finfo) : Bool :=
  match fi with
  | some i =>
    decide (c.output_style = DE_OUTPUTSTYLE_ZIP) && c.base_output_filename.isNone &&
      i.original_filename_flag && decide (i.file_name_internal ≠ "")
  | none => false

/-- A base name of 600 characters. -/
def example_long_base_name : String := String.mk (List.replicate 600 'a')

/-- A session with the base name of 600 characters, in which `n` output indices are
used. -/
def example_output_session_long (n : Int) : output_session :=
  { example_output_session with base_output_filename := some example_long_base_name,
                                file_count := n }

/-- A membuf holding the three bytes 0x01, 0x00, 0x02. -/
def example_membuf_nul_inside : dbuf :=
  .root { dbuf_zero with btype := DBUF_TYPE_MEMBUF, len := 3, membuf_alloc := 3,
                         membuf_buf := [1, 0, 2] }

/-! # Theorems -/

/-! ## Reading: helper lemmas -/

theorem getD_drop_take (d : List UInt8) (p n i : Nat) :
    ((d.drop p).take n).getD i 0 = if i < n then d.getD (p + i) 0 else 0 := by
  simp only [List.getD_eq_getElem?_getD, List.getElem?_take, List.getElem?_drop]
  split <;> simp

theorem getElem?_eq_some_getD (l : List UInt8) (i : Nat) (h : i < l.length) :
    l[i]? = some (l.getD i 0) := by
  simp [List.getD_eq_getElem?_getD, List.getElem?_eq_getElem h]

theorem getD_eq_zero_of_le (l : List UInt8) (i : Nat) (h : l.length ≤ i) :
    l.getD i 0 = 0 := by
  simp [List.getD_eq_getElem?_getD, List.getElem?_eq_none h]

theorem done_read_length (got : List UInt8) (len : Int) (hlen : (got.length : Int) ≤ len) :
    (done_read got len).length = len.toNat := by
  unfold done_read
  split
  · rw [List.length_append, List.length_replicate]; omega
  · omega

theorem done_read_getD (got : List UInt8) (len : Int) (i : Nat) :
    (done_read got len).getD i 0 = got.getD i 0 := by
  unfold done_read
  split
  · by_cases hg : i < got.length
    · simp [List.getD_eq_getElem?_getD, List.getElem?_append_left hg]
    · have hg' : got.length ≤ i := by omega
      rw [getD_eq_zero_of_le got i hg']
      simp only [List.getD_eq_getElem?_getD, List.getElem?_append_right hg',
        List.getElem?_replicate]
      split <;> rfl
  · rfl

theorem done_read_eq (got : List UInt8) (len : Int) (spec : Nat → UInt8)
    (hlen : (got.length : Int) ≤ len)
    (h : ∀ i : Nat, (i : Int) < len → got.getD i 0 = spec i) :
    done_read got len = (List.range len.toNat).map spec := by
  apply List.ext_getElem?
  intro i
  have hL := done_read_length got len hlen
  by_cases hi : i < len.toNat
  · rw [List.getElem?_map, List.getElem?_range hi, Option.map_some',
      getElem?_eq_some_getD _ _ (by omega), done_read_getD, h i (by omega)]
  · rw [List.getElem?_eq_none (by omega), List.getElem?_eq_none (by simp; omega)]


theorem dbuf_read_clip_lt_one (s : dbuf_fields) (pos len : Int) (hlen : 0 ≤ len)
    (h : dbuf_read_clip s pos len < 1) (i : Nat) (hi : (i : Int) < len) : ¬ pos + i < s.len := by
  unfold dbuf_read_clip at h
  split at h
  · omega
  · split at h <;> omega

theorem dbuf_read_clip_pos (s : dbuf_fields) (pos len : Int)
    (h : ¬ dbuf_read_clip s pos len < 1) :
    pos < s.len ∧ dbuf_read_clip s pos len ≤ len ∧ pos + dbuf_read_clip s pos len ≤ s.len ∧
    ∀ i : Nat, (i : Int) < len → ((i : Int) < dbuf_read_clip s pos len ↔ pos + i < s.len) := by
  unfold dbuf_read_clip at h ⊢
  split at h
  · omega
  · split at h
    · rw [if_neg (by omega), if_pos (by omega)]
      refine ⟨by omega, by omega, by omega, ?_⟩
      intro i hi; omega
    · rw [if_neg (by omega), if_neg (by omega)]
      refine ⟨by omega, by omega, by omega, ?_⟩
      intro i hi; omega

theorem read_spec_of_clip_lt_one (f : dbuf) (pos len : Int) (hlen : 0 ≤ len)
    (hc : dbuf_read_clip f.s pos len < 1) : done_read [] len = f.read_spec pos len := by
  unfold dbuf.read_spec
  apply done_read_eq
  · simp; exact hlen
  · intro i hi
    simp [dbuf.len, dbuf_read_clip_lt_one f.s pos len hlen hc i hi]

theorem read_spec_of_slice (f : dbuf) (d : List UInt8) (pos len : Int)
    (hc : ¬ dbuf_read_clip f.s pos len < 1)
    (hd : ∀ i : Nat, (i : Int) < dbuf_read_clip f.s pos len →
      d.getD (pos.toNat + i) 0 = f.byte_at (pos + i)) :
    done_read ((d.drop pos.toNat).take (dbuf_read_clip f.s pos len).toNat) len
      = f.read_spec pos len := by
  obtain ⟨c1, c2, c3, c4⟩ := dbuf_read_clip_pos f.s pos len hc
  unfold dbuf.read_spec
  apply done_read_eq
  · simp; omega
  · intro i hi
    rw [getD_drop_take]
    have := c4 i hi
    by_cases hlt : pos + i < f.len
    · rw [if_pos hlt, if_pos (by unfold dbuf.len at hlt; omega)]
      exact hd i (by unfold dbuf.len at hlt; omega)
    · rw [if_neg hlt, if_neg (by unfold dbuf.len at hlt; omega)]

theorem de_memcpy_from_eq (d : List UInt8) (pos n : Int) (h : 0 ≤ pos ∧ 0 ≤ n ∧ pos + n ≤ d.length) :
    de_memcpy_from d pos n = some ((d.drop pos.toNat).take n.toNat) := by
  unfold de_memcpy_from
  rw [if_pos h]

theorem dbuf_read_membuf (s : dbuf_fields) (hbt : s.btype = DBUF_TYPE_MEMBUF) (hwf : s.wf)
    (pos len : Int) (hpos : 0 ≤ pos) (hlen : 0 ≤ len) :
    dbuf_read (.root s) pos len = some ((dbuf.root s).read_spec pos len, .root s) := by
  simp only [dbuf_fields.wf, hbt] at hwf
  obtain ⟨h0, h1, h2, h3⟩ := hwf
  rw [dbuf_read.eq_1]
  simp only [dbuf.s]
  by_cases hc : dbuf_read_clip s pos len < 1
  · rw [if_pos hc, read_spec_of_clip_lt_one (.root s) pos len hlen hc]
  · rw [if_neg hc]
    obtain ⟨c1, c2, c3, c4⟩ := dbuf_read_clip_pos s pos len hc
    have hm := de_memcpy_from_eq s.membuf_buf pos (dbuf_read_clip s pos len) (by omega)
    simp [populate_cache, hbt, h3, hm, dbuf.set_s, dbuf_read_is_cached]
    apply read_spec_of_slice (.root s) s.membuf_buf pos len hc
    intro i hi
    simp only [dbuf.byte_at, dbuf_fields.store_byte, hbt]
    congr 1; omega

theorem dbuf_read_pipe (s : dbuf_fields)
    (hbt : s.btype = DBUF_TYPE_STDIN ∨ s.btype = DBUF_TYPE_FIFO) (hwf : s.wf)
    (pos len : Int) (hpos : 0 ≤ pos) (hlen : 0 ≤ len) :
    dbuf_read (.root s) pos len = some ((dbuf.root s).read_spec pos len, .root s) := by
  have hwf' : match s.cache with
      | none => False
      | some c => s.cache_start_pos = 0 ∧ s.cache_bytes_used = c.length ∧ s.len = c.length := by
    rcases hbt with h | h <;> simpa only [dbuf_fields.wf, h] using hwf
  rw [dbuf_read.eq_1]
  simp only [dbuf.s]
  by_cases hc : dbuf_read_clip s pos len < 1
  · rw [if_pos hc, read_spec_of_clip_lt_one (.root s) pos len hlen hc]
  · rw [if_neg hc]
    obtain ⟨c1, c2, c3, c4⟩ := dbuf_read_clip_pos s pos len hc
    cases hca : s.cache with
    | none => simp [hca] at hwf'
    | some c =>
      simp only [hca] at hwf'
      obtain ⟨hs0, hused, hl⟩ := hwf'
      have hm := de_memcpy_from_eq c pos (dbuf_read_clip s pos len) (by omega)
      have hcov : dbuf_read_is_cached s pos (dbuf_read_clip s pos len) = true := by
        simp only [dbuf_read_is_cached, hca, hs0, hused]
        simp
        omega
      simp [hca, hcov, dbuf_read_cached, hs0, hm, dbuf.set_s]
      apply read_spec_of_slice (.root s) c pos len hc
      intro i hi
      have hst : s.store_byte (pos + i) = c.getD (pos + i).toNat 0 := by
        rcases hbt with h | h <;> simp only [dbuf_fields.store_byte, h, hca]
      simp only [dbuf.byte_at, hst]
      congr 1; omega

theorem dbuf_read_ifile_spec (s : dbuf_fields) (hbt : s.btype = DBUF_TYPE_IFILE) (hwf : s.wf)
    (pos n : Int) (hpos : 0 ≤ pos) :
    ∃ fp s', s.fp = some fp ∧
      dbuf_read_ifile s pos n = some ((fp.data.drop pos.toNat).take n.toNat, s') ∧
      s'.wf ∧ s'.btype = DBUF_TYPE_IFILE ∧ s'.erase_read_state = s.erase_read_state := by
  simp only [dbuf_fields.wf, hbt] at hwf
  cases hfp : s.fp with
  | none => simp [hfp] at hwf
  | some fp =>
    simp only [hfp] at hwf
    obtain ⟨hknown, hcache⟩ := hwf
    have hfp1 : (if (!s.file_pos_known || s.file_pos != pos) = true then de_fseek fp pos else fp)
        = { fp with ospos := pos } := by
      split
      · simp [de_fseek, hpos]
      · rename_i h
        simp at h
        have := hknown h.1
        cases fp
        simp_all
    refine ⟨fp, { s with fp := some (fread { fp with ospos := pos } n).2,
                         file_pos := pos + (fread { fp with ospos := pos } n).1.length,
                         file_pos_known := true }, rfl, ?_, ?_, hbt, ?_⟩
    · simp only [dbuf_read_ifile, hfp, hfp1]
      rfl
    · simp only [dbuf_fields.wf, hbt]
      exact ⟨fun _ => rfl, hcache⟩
    · simp [dbuf_fields.erase_read_state, hbt, hfp, fread]

theorem store_byte_ifile (s : dbuf_fields) (hbt : s.btype = DBUF_TYPE_IFILE) (fp : FILE)
    (hfp : s.fp = some fp) (k : Int) : s.store_byte k = fp.data.getD k.toNat 0 := by
  simp only [dbuf_fields.store_byte, hbt, hfp]

theorem dbuf_read_ifile_ready (s : dbuf_fields) (hbt : s.btype = DBUF_TYPE_IFILE) (hwf : s.wf)
    (hnp : ¬ (s.cache.isNone ∧ s.cache_policy = DE_CACHE_POLICY_ENABLED))
    (pos len : Int) (hpos : 0 ≤ pos) (hlen : 0 ≤ len) :
    ∃ s', dbuf_read (.root s) pos len = some ((dbuf.root s).read_spec pos len, .root s') ∧
      s'.wf ∧ s'.btype = DBUF_TYPE_IFILE ∧ s'.erase_read_state = s.erase_read_state := by
  rw [dbuf_read.eq_1]
  simp only [dbuf.s]
  by_cases hc : dbuf_read_clip s pos len < 1
  · rw [if_pos hc]
    exact ⟨s, by rw [read_spec_of_clip_lt_one (.root s) pos len hlen hc], hwf, hbt, rfl⟩
  · rw [if_neg hc, if_neg hnp]
    obtain ⟨c1, c2, c3, c4⟩ := dbuf_read_clip_pos s pos len hc
    obtain ⟨fp, s', hfp, hrd, hwf', hbt', her⟩ :=
      dbuf_read_ifile_spec s hbt hwf pos (dbuf_read_clip s pos len) hpos
    simp only
    by_cases hcov : dbuf_read_is_cached s pos (dbuf_read_clip s pos len) = true
    · rw [if_pos hcov]
      simp only [dbuf_read_is_cached, Bool.and_eq_true, decide_eq_true_eq] at hcov
      obtain ⟨⟨h1, h2⟩, h3⟩ := hcov
      cases hca : s.cache with
      | none => simp [hca] at h1
      | some c =>
        have hwf0 := hwf
        simp only [dbuf_fields.wf, hbt, hfp, hca] at hwf
        obtain ⟨-, hs0, hused, hpre⟩ := hwf
        have hm := de_memcpy_from_eq c pos (dbuf_read_clip s pos len) (by omega)
        rw [hs0] at h3
        refine ⟨s, ?_, ?_, hbt, rfl⟩
        · simp only [dbuf_read_cached, hca, hs0, sub_zero, hm, Option.map_some', dbuf.set_s]
          congr 2
          apply read_spec_of_slice (.root s) c pos len hc
          intro i hi
          simp only [dbuf.byte_at, store_byte_ifile s hbt fp hfp]
          have hlt : pos.toNat + i < c.length := by
            simp only [dbuf.s] at hi; omega
          rw [hpre]
          simp only [List.getD_eq_getElem?_getD, List.getElem?_take, List.length_take]
          rw [if_pos (by simpa using hlt)]
          congr 2; omega
        · exact hwf0
    · rw [if_neg hcov]
      refine ⟨s', ?_, hwf', hbt', her⟩
      simp only [hbt, hrd, Option.map_some', dbuf.set_s]
      congr 2
      apply read_spec_of_slice (.root s) fp.data pos len hc
      intro i hi
      simp only [dbuf.byte_at, store_byte_ifile s hbt fp hfp]
      congr 1; omega

theorem store_byte_erase (s : dbuf_fields) (k : Int) :
    s.erase_read_state.store_byte k = s.store_byte k := by
  unfold dbuf_fields.erase_read_state
  split
  · rename_i h
    simp only [dbuf_fields.store_byte, h]
    cases s.fp <;> rfl
  · rfl

theorem len_erase (f : dbuf) : f.erase_read_state.len = f.len := by
  cases f <;> simp only [dbuf.erase_read_state, dbuf.len, dbuf.s, dbuf_fields.erase_read_state]
    <;> split <;> rfl

theorem offset_erase (s : dbuf_fields) :
    s.erase_read_state.offset_into_parent_dbuf = s.offset_into_parent_dbuf := by
  unfold dbuf_fields.erase_read_state
  split <;> rfl

theorem byte_at_erase (f : dbuf) : ∀ k, f.erase_read_state.byte_at k = f.byte_at k := by
  induction f with
  | root s => intro k; simp only [dbuf.erase_read_state, dbuf.byte_at, store_byte_erase]
  | child s p ih =>
    intro k
    simp only [dbuf.erase_read_state, dbuf.byte_at, offset_erase, len_erase, ih]

theorem len_eq_of_erase_eq (f g : dbuf) (h : f.erase_read_state = g.erase_read_state) :
    f.len = g.len := by
  rw [← len_erase f, ← len_erase g, h]

theorem byte_at_eq_of_erase_eq (f g : dbuf) (h : f.erase_read_state = g.erase_read_state)
    (k : Int) : f.byte_at k = g.byte_at k := by
  rw [← byte_at_erase f, ← byte_at_erase g, h]

theorem read_spec_eq_of_erase_eq (f g : dbuf) (h : f.erase_read_state = g.erase_read_state)
    (pos len : Int) : f.read_spec pos len = g.read_spec pos len := by
  unfold dbuf.read_spec
  simp only [len_eq_of_erase_eq f g h, byte_at_eq_of_erase_eq f g h]

theorem populate_cache_spec (s : dbuf_fields) (hbt : s.btype = DBUF_TYPE_IFILE) (hwf : s.wf) :
    ∃ s1, populate_cache s = some s1 ∧ s1.wf ∧ s1.btype = DBUF_TYPE_IFILE ∧
      s1.cache.isSome = true ∧ s1.len = s.len ∧ s1.erase_read_state = s.erase_read_state := by
  simp only [dbuf_fields.wf, hbt] at hwf
  cases hfp : s.fp with
  | none => simp [hfp] at hwf
  | some fp =>
    refine ⟨{ s with
        cache := some (fread (de_fseek fp 0) (if s.len < DE_CACHE_SIZE then s.len else DE_CACHE_SIZE)).1
        fp := some (fread (de_fseek fp 0) (if s.len < DE_CACHE_SIZE then s.len else DE_CACHE_SIZE)).2
        cache_start_pos := 0
        cache_bytes_used :=
          (fread (de_fseek fp 0) (if s.len < DE_CACHE_SIZE then s.len else DE_CACHE_SIZE)).1.length
        file_pos_known := false }, ?_, ?_, ?_, ?_, ?_, ?_⟩
    · simp only [populate_cache, hbt, hfp]
      simp only [ne_eq, not_true_eq_false, ↓reduceIte]
    · simp only [dbuf_fields.wf, hbt, fread, de_fseek]
      simp
    · exact hbt
    · rfl
    · rfl
    · simp [dbuf_fields.erase_read_state, hbt, hfp, fread, de_fseek]

theorem dbuf_read_populate (s s1 : dbuf_fields) (pos len : Int)
    (hca : s.cache = none) (hpol : s.cache_policy = DE_CACHE_POLICY_ENABLED)
    (hpop : populate_cache s = some s1) (hsome : s1.cache.isSome = true) (hlen : s1.len = s.len)
    (hc : ¬ dbuf_read_clip s pos len < 1) :
    dbuf_read (.root s) pos len = dbuf_read (.root s1) pos len := by
  have hclip : dbuf_read_clip s1 pos len = dbuf_read_clip s pos len := by
    simp only [dbuf_read_clip, hlen]
  rw [dbuf_read.eq_1, dbuf_read.eq_1]
  simp only [dbuf.s, hclip, if_neg hc]
  have h1 : (s.cache.isNone = true ∧ s.cache_policy = DE_CACHE_POLICY_ENABLED) := by
    simp [hca, hpol]
  have h2 : ¬ (s1.cache.isNone = true ∧ s1.cache_policy = DE_CACHE_POLICY_ENABLED) := by
    intro h
    cases hh : s1.cache <;> simp_all
  rw [if_pos h1, if_neg h2, hpop]
  simp only [dbuf.set_s]

theorem dbuf_read_correct (f : dbuf) : ∀ (pos len : Int), f.wf → 0 ≤ pos → 0 ≤ len →
    ∃ f', dbuf_read f pos len = some (f.read_spec pos len, f') ∧ f'.wf ∧
      f'.erase_read_state = f.erase_read_state := by
  induction f with
  | root s =>
    intro pos len hwf hpos hlen
    obtain ⟨hwf, hnd⟩ := hwf
    cases hbt : s.btype with
    | DBUF_TYPE_NULL => simp [dbuf_fields.wf, hbt] at hwf
    | DBUF_TYPE_OFILE => simp [dbuf_fields.wf, hbt] at hwf
    | DBUF_TYPE_STDOUT => simp [dbuf_fields.wf, hbt] at hwf
    | DBUF_TYPE_DBUF => exact absurd hbt hnd
    | DBUF_TYPE_MEMBUF =>
      exact ⟨.root s, dbuf_read_membuf s hbt hwf pos len hpos hlen, ⟨hwf, hnd⟩, rfl⟩
    | DBUF_TYPE_STDIN =>
      exact ⟨.root s, dbuf_read_pipe s (Or.inl hbt) hwf pos len hpos hlen, ⟨hwf, hnd⟩, rfl⟩
    | DBUF_TYPE_FIFO =>
      exact ⟨.root s, dbuf_read_pipe s (Or.inr hbt) hwf pos len hpos hlen, ⟨hwf, hnd⟩, rfl⟩
    | DBUF_TYPE_IFILE =>
      by_cases hnp : (s.cache.isNone = true ∧ s.cache_policy = DE_CACHE_POLICY_ENABLED)
      · by_cases hc : dbuf_read_clip s pos len < 1
        · refine ⟨.root s, ?_, ⟨hwf, hnd⟩, rfl⟩
          rw [dbuf_read.eq_1]
          simp only [dbuf.s, if_pos hc]
          rw [read_spec_of_clip_lt_one (.root s) pos len hlen hc]
        · have hca : s.cache = none := by
            cases h : s.cache <;> simp_all
          obtain ⟨s1, hpop, hwf1, hbt1, hsome, hl1, her1⟩ := populate_cache_spec s hbt hwf
          have hnp1 : ¬ (s1.cache.isNone = true ∧ s1.cache_policy = DE_CACHE_POLICY_ENABLED) := by
            intro h
            cases hh : s1.cache <;> simp_all
          obtain ⟨s', hrd, hwf', hbt', her'⟩ :=
            dbuf_read_ifile_ready s1 hbt1 hwf1 hnp1 pos len hpos hlen
          refine ⟨.root s', ?_, ⟨hwf', by rw [hbt']; decide⟩, ?_⟩
          · rw [dbuf_read_populate s s1 pos len hca hnp.2 hpop hsome hl1 hc, hrd]
            rw [read_spec_eq_of_erase_eq (.root s1) (.root s)]
            simp only [dbuf.erase_read_state, her1]
          · simp only [dbuf.erase_read_state, her', her1]
      · obtain ⟨s', hrd, hwf', hbt', her'⟩ := dbuf_read_ifile_ready s hbt hwf hnp pos len hpos hlen
        exact ⟨.root s', hrd, ⟨hwf', by rw [hbt']; decide⟩, by
          simp only [dbuf.erase_read_state, her']⟩
  | child s p ih =>
    intro pos len hwf hpos hlen
    obtain ⟨hwf, hbt, hpwf⟩ := hwf
    have hwf0 := hwf
    simp only [dbuf_fields.wf, hbt] at hwf
    obtain ⟨hca, hoff⟩ := hwf
    rw [dbuf_read.eq_1]
    simp only [dbuf.s]
    by_cases hc : dbuf_read_clip s pos len < 1
    · rw [if_pos hc]
      exact ⟨.child s p, by rw [read_spec_of_clip_lt_one (.child s p) pos len hlen hc],
        ⟨hwf0, hbt, hpwf⟩, rfl⟩
    · rw [if_neg hc]
      obtain ⟨c1, c2, c3, c4⟩ := dbuf_read_clip_pos s pos len hc
      obtain ⟨p', hrd, hwfp', herp'⟩ :=
        ih (s.offset_into_parent_dbuf + pos) (dbuf_read_clip s pos len) hpwf (by omega) (by omega)
      refine ⟨.child s p', ?_, ⟨hwf0, hbt, hwfp'⟩, by simp only [dbuf.erase_read_state, herp']⟩
      simp [populate_cache, hbt, hca, dbuf_read_is_cached, hrd]
      unfold dbuf.read_spec
      apply done_read_eq
      · simp; omega
      · intro i hi
        have := c4 i hi
        simp only [dbuf.len, dbuf.s] at this ⊢
        by_cases hlt : pos + i < s.len
        · rw [if_pos hlt]
          simp only [dbuf.byte_at]
          have hi2 : i < (dbuf_read_clip s pos len).toNat := by omega
          simp only [List.getD_eq_getElem?_getD, List.getElem?_map, List.getElem?_range hi2,
            Option.map_some', Option.getD_some, dbuf.len, add_assoc]
          rfl
        · rw [if_neg hlt]
          apply getD_eq_zero_of_le
          simp; omega

/-- C1: for a well-formed readable dbuf (membuf, drained pipe, cached or uncached input
file, or a subfile view over one of these), `pos ≥ 0` and `len ≥ 0`, `dbuf_read` returns
normally and fills exactly `len` bytes: byte `i` is the source's byte at `pos+i` when
`pos+i < f.len` and 0x00 otherwise. -/
theorem dbuf_read_zero_fill (f : dbuf) (pos len : Int) (hwf : f.wf) (hpos : 0 ≤ pos)
    (hlen : 0 ≤ len) :
    ∃ buf f', dbuf_read f pos len = some (buf, f') ∧ buf.length = len.toNat ∧
      ∀ i : Nat, (i : Int) < len →
        buf[i]? = some (if pos + (i : Int) < f.len then f.byte_at (pos + (i : Int)) else 0) := by
  obtain ⟨f', hrd, -, -⟩ := dbuf_read_correct f pos len hwf hpos hlen
  refine ⟨f.read_spec pos len, f', hrd, ?_, ?_⟩
  · simp [dbuf.read_spec]
  · intro i hi
    have hi' : i < len.toNat := by omega
    simp only [dbuf.read_spec, List.getElem?_map, List.getElem?_range hi', Option.map_some']

theorem dbuf_read_zero_fill_witness :
    (dbuf_open_input_subfile example_ifile 1 2).wf ∧ (0 : Int) ≤ 1 ∧ (0 : Int) ≤ 100000 ∧
    ∃ buf f', dbuf_read (dbuf_open_input_subfile example_ifile 1 2) 1 100000 = some (buf, f') ∧
      buf.length = (100000 : Int).toNat ∧
      ∀ i : Nat, (i : Int) < 100000 →
        buf[i]? = some (if 1 + (i : Int) < (dbuf_open_input_subfile example_ifile 1 2).len
          then (dbuf_open_input_subfile example_ifile 1 2).byte_at (1 + (i : Int)) else 0) :=
  ⟨by decide, by decide, by decide,
    dbuf_read_zero_fill (dbuf_open_input_subfile example_ifile 1 2) 1 100000
      (by decide) (by decide) (by decide)⟩


theorem read_spec_one (f : dbuf) (pos : Int) : f.read_spec pos 1 = [f.logical_byte pos] := by
  simp [dbuf.read_spec, dbuf.logical_byte, List.range_succ]

theorem set_s_s (f : dbuf) : f.set_s f.s = f := by
  cases f <;> rfl

theorem s_set_s (f : dbuf) (s : dbuf_fields) : (f.set_s s).s = s := by
  cases f <;> rfl

theorem wf_btype_root (s : dbuf_fields) (h : (dbuf.root s).wf) : s.btype ≠ DBUF_TYPE_DBUF := h.2

theorem logical_byte_eq_of_erase_eq (f g : dbuf) (h : f.erase_read_state = g.erase_read_state)
    (k : Int) : f.logical_byte k = g.logical_byte k := by
  unfold dbuf.logical_byte
  rw [len_eq_of_erase_eq f g h, byte_at_eq_of_erase_eq f g h]

theorem set_cache2_wf (f : dbuf) (b : UInt8) (n p : Int) (hwf : f.wf) :
    (f.set_s { f.s with cache2 := b, cache2_bytes_used := n, cache2_start_pos := p }).wf ∧
    (f.set_s { f.s with cache2 := b, cache2_bytes_used := n,
                        cache2_start_pos := p }).erase_read_state = f.erase_read_state := by
  cases f with
  | root s =>
    refine ⟨⟨?_, hwf.2⟩, ?_⟩
    · have := hwf.1
      simp only [dbuf.s]
      unfold dbuf_fields.wf at this ⊢
      exact this
    · simp only [dbuf.set_s, dbuf.s, dbuf.erase_read_state, dbuf_fields.erase_read_state]
  | child s p =>
    refine ⟨⟨?_, hwf.2.1, hwf.2.2⟩, ?_⟩
    · have := hwf.1
      simp only [dbuf.s]
      unfold dbuf_fields.wf at this ⊢
      exact this
    · simp only [dbuf.set_s, dbuf.s, dbuf.erase_read_state, dbuf_fields.erase_read_state]

theorem dbuf_getbyte_correct (f : dbuf) (pos : Int) (hwf : f.wf) (hc2 : f.cache2_ok)
    (hpos : 0 ≤ pos) :
    ∃ f', dbuf_getbyte f pos = some (f.logical_byte pos, f') ∧ f'.wf ∧
      f'.erase_read_state = f.erase_read_state ∧ f'.cache2_ok := by
  by_cases hbt : f.s.btype = DBUF_TYPE_MEMBUF
  · refine ⟨f, ?_, hwf, rfl, hc2⟩
    cases f with
    | child s p => exact absurd hwf.2.1 (by simp only [dbuf.s] at hbt; rw [hbt]; decide)
    | root s =>
      simp only [dbuf.s] at hbt
      have h := hwf.1
      simp only [dbuf_fields.wf, hbt] at h
      obtain ⟨h0, h1, h2, h3⟩ := h
      simp only [dbuf_getbyte, dbuf.s, hbt, dbuf.logical_byte, dbuf.len, dbuf.byte_at,
        dbuf_fields.store_byte]
      by_cases hlt : pos < s.len
      · rw [if_pos ⟨hpos, hlt⟩, if_pos hlt]
        have : pos.toNat < s.membuf_buf.length := by omega
        simp [List.getD_eq_getElem?_getD, List.getElem?_eq_getElem this]
      · rw [if_neg (by omega), if_neg hlt]
  · have hdef : dbuf_getbyte f pos =
        if f.s.cache2_bytes_used > 0 ∧ pos = f.s.cache2_start_pos then some (f.s.cache2, f)
        else
          match dbuf_read f pos 1 with
          | none => none
          | some (got, f1) =>
            some (got.headD f1.s.cache2,
              f1.set_s { f1.s with cache2 := got.headD f1.s.cache2, cache2_bytes_used := 1,
                                   cache2_start_pos := pos }) := by
      unfold dbuf_getbyte
      split
      · rename_i h; exact absurd h hbt
      · rfl
    rw [hdef]
    by_cases hhit : f.s.cache2_bytes_used > 0 ∧ pos = f.s.cache2_start_pos
    · rw [if_pos hhit]
      refine ⟨f, ?_, hwf, rfl, hc2⟩
      rw [hc2 hhit.1 (by omega), ← hhit.2]
    · rw [if_neg hhit]
      obtain ⟨f1, hrd, hwf1, her1⟩ := dbuf_read_correct f pos 1 hwf hpos (by decide)
      rw [hrd, read_spec_one]
      simp only [List.headD_cons]
      obtain ⟨hw, he⟩ := set_cache2_wf f1 (f.logical_byte pos) 1 pos hwf1
      refine ⟨_, rfl, hw, he.trans her1, ?_⟩
      intro _ _
      simp only [s_set_s]
      exact logical_byte_eq_of_erase_eq _ _ (he.trans her1).symm pos

/-- C2 (counterexample): a membuf `P` holds 0x01; the view `V = dbuf_open_input_subfile(P, 0, 1)`
is read with `dbuf_getbyte(V, 0)`, which leaves 0x01 in the one-byte cache of `V`; then
`dbuf_writebyte_at(P, 0, 0x02)`. Now `dbuf_getbyte(V, 0)` is 0x01 while `dbuf_getbyte(P, 0)`
is 0x02, although `0 + 0 < P.len`. -/
theorem subfile_getbyte_stale_after_parent_write :
    dbuf_getbyte (dbuf_open_input_subfile example_membuf 0 1) 0
      = some (1, .child example_view_fields example_membuf) ∧
    dbuf_writebyte_at example_membuf 0 2 = some example_membuf_written ∧
    (0 : Int) + 0 < example_membuf_written.len ∧
    (dbuf_getbyte (.child example_view_fields example_membuf_written) 0).map Prod.fst = some 1 ∧
    (dbuf_getbyte example_membuf_written 0).map Prod.fst = some 2 ∧
    (dbuf_getbyte (.child example_view_fields example_membuf_written) 0).map Prod.fst ≠
      (dbuf_getbyte example_membuf_written 0).map Prod.fst := by
  decide

/-- C2 (amended): let `V` be a subfile view (fields `vs`, offset `vs.offset_into_parent_dbuf ≥ 0`,
length `vs.len`) over a well-formed parent `P`, in a state where the one-byte caches of `V`
and of `P` are empty or hold the byte currently readable at their cached position. Then
for every `i` in `[0, viewLen)` both `dbuf_getbyte` calls return, and `dbuf_getbyte(V, i)`
equals `dbuf_getbyte(P, offset+i)` when `offset+i < P.len` and 0x00 otherwise. -/
theorem subfile_getbyte_forwarding (vs : dbuf_fields) (P : dbuf) (i : Int)
    (hwf : (dbuf.child vs P).wf) (hv : (dbuf.child vs P).cache2_ok) (hp : P.cache2_ok)
    (hi0 : 0 ≤ i) (hi : i < vs.len) :
    ∃ b V' b' P', dbuf_getbyte (.child vs P) i = some (b, V') ∧
      dbuf_getbyte P (vs.offset_into_parent_dbuf + i) = some (b', P') ∧
      b = if vs.offset_into_parent_dbuf + i < P.len then b' else 0 := by
  have hoff : 0 ≤ vs.offset_into_parent_dbuf := by
    have := hwf.1
    simp only [dbuf_fields.wf, hwf.2.1] at this
    exact this.2
  obtain ⟨V', hV, -, -, -⟩ := dbuf_getbyte_correct (.child vs P) i hwf hv hi0
  obtain ⟨P', hP, -, -, -⟩ :=
    dbuf_getbyte_correct P (vs.offset_into_parent_dbuf + i) hwf.2.2 hp (by omega)
  refine ⟨_, V', _, P', hV, hP, ?_⟩
  simp only [dbuf.logical_byte, dbuf.len, dbuf.s, if_pos hi, dbuf.byte_at]
  split <;> rfl

theorem subfile_getbyte_forwarding_witness :
    (dbuf.child (dbuf_open_input_subfile example_ifile 1 5).s example_ifile).wf ∧
    (dbuf.child (dbuf_open_input_subfile example_ifile 1 5).s example_ifile).cache2_ok ∧
    example_ifile.cache2_ok ∧ (0 : Int) ≤ 2 ∧ (2 : Int) < (dbuf_open_input_subfile example_ifile 1 5).s.len ∧
    ∃ b V' b' P',
      dbuf_getbyte (.child (dbuf_open_input_subfile example_ifile 1 5).s example_ifile) 2
        = some (b, V') ∧
      dbuf_getbyte example_ifile
        ((dbuf_open_input_subfile example_ifile 1 5).s.offset_into_parent_dbuf + 2) = some (b', P') ∧
      b = if (dbuf_open_input_subfile example_ifile 1 5).s.offset_into_parent_dbuf + 2
            < example_ifile.len then b' else 0 :=
  ⟨by decide, by decide, by decide, by decide, by decide,
    subfile_getbyte_forwarding (dbuf_open_input_subfile example_ifile 1 5).s example_ifile 2
      (by decide) (by decide) (by decide) (by decide) (by decide)⟩

theorem read_spec_length (f : dbuf) (p n : Int) : (f.read_spec p n).length = n.toNat := by
  simp [dbuf.read_spec]

theorem read_spec_zero (f : dbuf) (p : Int) : f.read_spec p 0 = [] := by
  simp [dbuf.read_spec]

theorem read_spec_append (f : dbuf) (p a b : Int) (ha : 0 ≤ a) (hb : 0 ≤ b) :
    f.read_spec p a ++ f.read_spec (p + a) b = f.read_spec p (a + b) := by
  unfold dbuf.read_spec
  have hab : (a + b).toNat = a.toNat + b.toNat := by omega
  rw [hab, List.range_add, List.map_append, List.map_map]
  congr 1
  apply List.map_congr_left
  intro i _
  have : p + a + (i : Int) = p + ((a.toNat + i : Nat) : Int) := by
    push_cast; omega
  simp only [Function.comp, this]

theorem read_spec_take (f : dbuf) (p n c : Int) (hc : 0 ≤ c) (hcn : c ≤ n) :
    (f.read_spec p n).take c.toNat = f.read_spec p c := by
  have h := read_spec_append f p c (n - c) hc (by omega)
  rw [show c + (n - c) = n by omega] at h
  rw [← h, List.take_left' (read_spec_length f p c)]

theorem read_spec_drop (f : dbuf) (p n c : Int) (hc : 0 ≤ c) (hcn : c ≤ n) :
    (f.read_spec p n).drop c.toNat = f.read_spec (p + c) (n - c) := by
  have h := read_spec_append f p c (n - c) hc (by omega)
  rw [show c + (n - c) = n by omega] at h
  rw [← h, List.drop_left' (read_spec_length f p c)]

theorem consumed_spans_append (a b : List br_call) :
    consumed_spans (a ++ b) = consumed_spans a ++ consumed_spans b := by
  induction a with
  | nil => rfl
  | cons k ks ih =>
    show k.consumed ++ consumed_spans (ks ++ b) = _
    rw [ih]
    simp [consumed_spans]

theorem dbuf_buffered_read_loop_spans {σ : Type} (cbfn : de_buffered_read_cbfn σ)
    (hgood : cbfn_well_behaved cbfn) (f0 : dbuf) (pos1 len : Int) (hpos : 0 ≤ pos1) :
    ∀ (fuel : Nat) (st : br_state σ), br_inv f0 pos1 len st →
      (len - st.offs_of_first_byte_in_buf).toNat + 1 ≤ fuel →
      ∃ r, dbuf_buffered_read_loop cbfn pos1 len fuel st = .done r ∧
        consumed_spans r.calls = f0.read_spec pos1 len := by
  intro fuel
  induction fuel with
  | zero => intro st _ h; omega
  | succ fuel ih =>
    intro st hinv hfuel
    obtain ⟨hwf, her, hp, hn0, hn1, ho0, hol, hbuf, hcalls⟩ := hinv
    unfold dbuf_buffered_read_loop
    simp only [BRBUFLEN]
    -- the number of bytes read in this round
    generalize hbtr : (if 4096 - st.num_unconsumed_bytes_in_buf ≥ pos1 + len - st.pos
        then pos1 + len - st.pos else 4096 - st.num_unconsumed_bytes_in_buf) = btr
    have hb0 : 0 ≤ btr := by rw [← hbtr]; split <;> omega
    have hb1 : st.num_unconsumed_bytes_in_buf + btr ≤ 4096 := by rw [← hbtr]; split <;> omega
    have hb2 : st.offs_of_first_byte_in_buf + st.num_unconsumed_bytes_in_buf + btr ≤ len := by
      rw [← hbtr]; split <;> omega
    have hb3 : st.num_unconsumed_bytes_in_buf + btr = 0 → st.offs_of_first_byte_in_buf = len := by
      rw [← hbtr]; split <;> omega
    obtain ⟨f1, hrd, hwf1, her1⟩ := dbuf_read_correct st.f st.pos btr hwf (by omega) hb0
    rw [hrd]
    simp only
    have hwin : st.buf ++ st.f.read_spec st.pos btr =
        f0.read_spec (pos1 + st.offs_of_first_byte_in_buf)
          (st.num_unconsumed_bytes_in_buf + btr) := by
      rw [hbuf, read_spec_eq_of_erase_eq st.f f0 her, hp,
        read_spec_append f0 _ _ _ hn0 hb0]
    rw [hwin]
    generalize hnum : st.num_unconsumed_bytes_in_buf + btr = num at *
    generalize hr : cbfn st.userdata
      { offset := st.offs_of_first_byte_in_buf, bytes_consumed := num,
        eof_flag := decide (4096 - st.num_unconsumed_bytes_in_buf ≥ pos1 + len - st.pos) }
      (f0.read_spec (pos1 + st.offs_of_first_byte_in_buf) num) num = r
    have hnum0 : 0 ≤ num := by omega
    by_cases hzero : num = 0
    · -- the window is empty: the whole range has been consumed, and the run ends here
      have hoffs : st.offs_of_first_byte_in_buf = len := hb3 hzero
      have hfin : ∀ (c : Int) (retv : Int) (g : dbuf) (u : σ),
          consumed_spans (st.calls ++
            [{ brctx := { offset := st.offs_of_first_byte_in_buf, bytes_consumed := num,
                          eof_flag := decide (4096 - st.num_unconsumed_bytes_in_buf ≥ pos1 + len - st.pos) },
               buf := f0.read_spec (pos1 + st.offs_of_first_byte_in_buf) num, buf_len := num,
               ret := retv, bytes_consumed := c }]) = f0.read_spec pos1 len := by
        intro c retv g u
        rw [consumed_spans_append, hcalls, hoffs]
        simp [consumed_spans, br_call.consumed, hzero, read_spec_zero]
      by_cases hret : r.ret = 0
      · rw [if_pos hret]
        exact ⟨_, rfl, hfin _ _ f1 r.userdata⟩
      · rw [if_neg hret, if_pos (by omega)]
        exact ⟨_, rfl, hfin _ _ f1 r.userdata⟩
    · -- a non-empty window: the consumer keeps its contract and the loop goes on
      have hne : f0.read_spec (pos1 + st.offs_of_first_byte_in_buf) num ≠ [] := by
        intro h
        have := congrArg List.length h
        rw [read_spec_length] at this
        simp at this
        omega
      have hg := hgood st.userdata
        { offset := st.offs_of_first_byte_in_buf, bytes_consumed := num,
          eof_flag := decide (4096 - st.num_unconsumed_bytes_in_buf ≥ pos1 + len - st.pos) }
        (f0.read_spec (pos1 + st.offs_of_first_byte_in_buf) num) hne
      have hlen : (((f0.read_spec (pos1 + st.offs_of_first_byte_in_buf) num).length : Nat) : Int)
          = num := by
        rw [read_spec_length]; omega
      rw [hlen] at hg
      have hg := hg rfl
      rw [hr] at hg
      obtain ⟨hret, hc1, hc2⟩ := hg
      rw [if_neg hret, if_neg (by omega)]
      apply ih
      · refine ⟨hwf1, her1.trans her, ?_, ?_, ?_, ?_, ?_, ?_, ?_⟩
        · simp only; split <;> omega
        · simp only; split <;> omega
        · simp only; split <;> omega
        · simp only; omega
        · simp only; split <;> omega
        · simp only
          split
          · rw [read_spec_drop f0 _ num r.bytes_consumed (by omega) hc2]
            congr 1; omega
          · have : r.bytes_consumed = num := by omega
            rw [read_spec_zero]
        · simp only
          rw [consumed_spans_append, hcalls]
          simp only [consumed_spans, br_call.consumed, List.append_nil]
          rw [read_spec_take f0 _ num r.bytes_consumed (by omega) hc2,
            read_spec_append f0 pos1 _ _ ho0 (by omega)]
      · simp only; omega



/-- C3: for a well-formed readable source `f`, `pos1 ≥ 0`, `len ≥ 0` and a consumer that, on
every non-empty window, returns nonzero and reports a consumed count between 1 and the
number of bytes it was given, `dbuf_buffered_read` returns (within `len + 1` rounds) and
the concatenation, in call order, of the consumed parts of the windows passed to the
consumer equals the `len` bytes returned by a single `dbuf_read(f, pos1, len)`. -/
theorem dbuf_buffered_read_consumed_spans {σ : Type} (cbfn : de_buffered_read_cbfn σ)
    (f : dbuf) (pos1 len : Int) (userdata : σ) (fuel : Nat)
    (hgood : cbfn_well_behaved cbfn) (hwf : f.wf) (hpos : 0 ≤ pos1) (hlen : 0 ≤ len)
    (hfuel : len.toNat + 1 ≤ fuel) :
    ∃ r buf f', dbuf_buffered_read fuel f pos1 len cbfn userdata = .done r ∧
      dbuf_read f pos1 len = some (buf, f') ∧ consumed_spans r.calls = buf := by
  obtain ⟨f', hrd, -, -⟩ := dbuf_read_correct f pos1 len hwf hpos hlen
  obtain ⟨r, hr, hspans⟩ := dbuf_buffered_read_loop_spans cbfn hgood f pos1 len hpos fuel
    { f := f, pos := pos1, offs_of_first_byte_in_buf := 0, num_unconsumed_bytes_in_buf := 0,
      buf := [], userdata := userdata, calls := [] }
    ⟨hwf, rfl, by simp, by simp, by simp, by simp, by simpa using hlen,
      by simp [read_spec_zero], by simp [read_spec_zero, consumed_spans]⟩
    (by simpa using hfuel)
  exact ⟨r, _, f', hr, hrd, hspans⟩

theorem example_consume_all_well_behaved : cbfn_well_behaved example_consume_all := by
  intro u brctx buf hne hpre
  have : 1 ≤ buf.length := by
    cases buf with
    | nil => exact absurd rfl hne
    | cons a t => simp
  simp only [example_consume_all, hpre]
  omega

theorem dbuf_buffered_read_consumed_spans_witness :
    cbfn_well_behaved example_consume_all ∧ example_membuf3.wf ∧ (0 : Int) ≤ 1 ∧ (0 : Int) ≤ 5 ∧
    (5 : Int).toNat + 1 ≤ 6 ∧
    ∃ r buf f', dbuf_buffered_read 6 example_membuf3 1 5 example_consume_all [] = .done r ∧
      dbuf_read example_membuf3 1 5 = some (buf, f') ∧ consumed_spans r.calls = buf :=
  ⟨example_consume_all_well_behaved, by decide, by decide, by decide, by decide,
    dbuf_buffered_read_consumed_spans example_consume_all example_membuf3 1 5 [] 6
      example_consume_all_well_behaved (by decide) (by decide) (by decide) (by decide)⟩

/-- C4 (code bug): on the membuf 1, 2, 3 with `pos1 = 0`, `len = 3` and a consumer that
returns 1 and consumes every window whole, the first invocation receives and consumes the
whole range (with `eof_flag` set); the loop then invokes the consumer once more with an
empty window, rejects `bytes_consumed = 0`, and the function returns 0, not 1. -/
theorem dbuf_buffered_read_returns_zero_after_full_delivery :
    (dbuf_buffered_read 4 example_membuf3 0 3 example_consume_all []).retval = some 0 ∧
    (dbuf_buffered_read 4 example_membuf3 0 3 example_consume_all []).calls = some
      [{ brctx := { offset := 0, bytes_consumed := 3, eof_flag := true }, buf := [1, 2, 3],
         buf_len := 3, ret := 1, bytes_consumed := 3 },
       { brctx := { offset := 3, bytes_consumed := 0, eof_flag := true }, buf := [],
         buf_len := 0, ret := 1, bytes_consumed := 0 }] := by
  decide

theorem dbuf_buffered_read_loop_retval {σ : Type} (cbfn : de_buffered_read_cbfn σ)
    (pos1 len : Int) : ∀ (fuel : Nat) (st : br_state σ) (r : br_result σ),
    dbuf_buffered_read_loop cbfn pos1 len fuel st = .done r → r.retval = 0 := by
  intro fuel
  induction fuel with
  | zero => intro st r h; simp [dbuf_buffered_read_loop] at h
  | succ fuel ih =>
    intro st r h
    unfold dbuf_buffered_read_loop at h
    simp only at h
    generalize (if BRBUFLEN - st.num_unconsumed_bytes_in_buf ≥ pos1 + len - st.pos
      then pos1 + len - st.pos else BRBUFLEN - st.num_unconsumed_bytes_in_buf) = btr at h
    cases hrd : dbuf_read st.f st.pos btr with
    | none => simp [hrd] at h
    | some p =>
      obtain ⟨got, f1⟩ := p
      simp only [hrd] at h
      split at h
      · injection h with h; rw [← h]
      · split at h
        · injection h with h; rw [← h]
        · exact ih _ r h

theorem detection_scores_range (mods : List deark_module_info)
    (hrange : ∀ m ∈ mods, ∀ idf, m.identify_fn = some idf →
      ∀ c', 0 ≤ (idf c').1 ∧ (idf c').1 ≤ 100) :
    ∀ (c : deark) (j : Nat) (s : Int), (detection_scores mods c)[j]? = some (some s) →
      0 ≤ s ∧ s ≤ 100 := by
  induction mods with
  | nil => intro c j s h; simp [detection_scores] at h
  | cons m mods ih =>
    intro c j s h
    have ih' := ih (fun m' hm' => hrange m' (List.mem_cons_of_mem _ hm'))
    unfold detection_scores at h
    split at h
    · cases j with
      | zero => simp at h
      | succ j => exact ih' c j s (by simpa using h)
    · rename_i idf hidf
      split at h
      · split at h
        · cases j with
          | zero => simp at h
          | succ j => exact ih' _ j s (by simpa using h)
        · cases j with
          | zero => simp at h
          | succ j => exact ih' _ j s (by simpa using h)
      · cases j with
        | zero =>
          simp at h
          rw [← h]
          exact hrange m (List.mem_cons_self _ _) idf hidf c
        | succ j => exact ih' _ j s (by simpa using h)

theorem detect_module_loop_best (orig : Int) (mods : List deark_module_info)
    (hrange : ∀ m ∈ mods, ∀ idf, m.identify_fn = some idf →
      ∀ c', 0 ≤ (idf c').1 ∧ (idf c').1 ≤ 100)
    (hnoerr : ∀ m ∈ mods, ∀ idf, m.identify_fn = some idf →
      ∀ c', (idf c').2.error_count ≤ c'.error_count) :
    ∀ (i : Nat) (c : deark) (b : Int) (bm : Option Nat) (inv : List (Nat × Int)),
      c.error_count ≤ orig →
      (detect_module_loop orig mods i c b bm inv).errflag = false ∧
      (((detect_module_loop orig mods i c b bm inv).best_module = bm ∧
          ∀ (j : Nat) (s : Int), (detection_scores mods c)[j]? = some (some s) → s ≤ b) ∨
        ∃ (k : Nat) (s : Int), (detect_module_loop orig mods i c b bm inv).best_module = some (i + k) ∧
          (detection_scores mods c)[k]? = some (some s) ∧ b < s ∧
          (∀ (j : Nat) (s' : Int), (detection_scores mods c)[j]? = some (some s') → s' ≤ s) ∧
          (∀ (j : Nat) (s' : Int), j < k → (detection_scores mods c)[j]? = some (some s') → s' < s)) := by
  induction mods with
  | nil =>
    intro i c b bm inv _
    refine ⟨rfl, Or.inl ⟨rfl, ?_⟩⟩
    intro j s h; simp [detection_scores] at h
  | cons m mods ih =>
    intro i c b bm inv herr
    have hrange' : ∀ m' ∈ mods, ∀ idf, m'.identify_fn = some idf →
        ∀ c', 0 ≤ (idf c').1 ∧ (idf c').1 ≤ 100 :=
      fun m' hm' => hrange m' (List.mem_cons_of_mem _ hm')
    have ih' := ih hrange' (fun m' hm' => hnoerr m' (List.mem_cons_of_mem _ hm'))
    -- the step over a module whose score does not count
    have hskip : ∀ (c1 : deark) (inv1 : List (Nat × Int)), c1.error_count ≤ orig →
        detection_scores (m :: mods) c = none :: detection_scores mods c1 →
        (detect_module_loop orig mods (i + 1) c1 b bm inv1).errflag = false ∧
        (((detect_module_loop orig mods (i + 1) c1 b bm inv1).best_module = bm ∧
          ∀ (j : Nat) (s : Int), (detection_scores (m :: mods) c)[j]? = some (some s) → s ≤ b) ∨
        ∃ (k : Nat) (s : Int), (detect_module_loop orig mods (i + 1) c1 b bm inv1).best_module = some (i + k) ∧
          (detection_scores (m :: mods) c)[k]? = some (some s) ∧ b < s ∧
          (∀ (j : Nat) (s' : Int), (detection_scores (m :: mods) c)[j]? = some (some s') → s' ≤ s) ∧
          (∀ (j : Nat) (s' : Int), j < k → (detection_scores (m :: mods) c)[j]? = some (some s') → s' < s)) := by
      intro c1 inv1 herr1 hsc
      obtain ⟨he, h⟩ := ih' (i + 1) c1 b bm inv1 herr1
      refine ⟨he, ?_⟩
      rw [hsc]
      rcases h with ⟨h1, h2⟩ | ⟨k, s, h1, h2, h3, h4, h5⟩
      · left
        refine ⟨h1, ?_⟩
        intro j s hj
        cases j with
        | zero => simp at hj
        | succ j => exact h2 j s (by simpa using hj)
      · right
        refine ⟨k + 1, s, by rw [h1]; congr 1; omega, by simpa using h2, h3, ?_, ?_⟩
        · intro j s' hj
          cases j with
          | zero => simp at hj
          | succ j => exact h4 j s' (by simpa using hj)
        · intro j s' hjk hj
          cases j with
          | zero => simp at hj
          | succ j => exact h5 j s' (by omega) (by simpa using hj)
    cases hidf : m.identify_fn with
    | none =>
      have hsc : detection_scores (m :: mods) c = none :: detection_scores mods c := by
        simp only [detection_scores, hidf]
      have := hskip c inv herr hsc
      simpa only [detect_module_loop, hidf] using this
    | some idf =>
      have hr := hrange m (List.mem_cons_self _ _) idf hidf c
      have hne := hnoerr m (List.mem_cons_self _ _) idf hidf c
      have herr1 : (idf c).2.error_count ≤ orig := le_trans hne herr
      by_cases hdis : m.flags.DE_MODFLAG_DISABLEDETECT = true
      · by_cases hsh : m.flags.DE_MODFLAG_SHAREDDETECTION = true
        · have hsc : detection_scores (m :: mods) c
              = none :: detection_scores mods (idf c).2 := by
            simp only [detection_scores, hidf, hdis, hsh, if_true]
          have := hskip (idf c).2 (inv ++ [(i, (idf c).1)]) herr1 hsc
          simpa only [detect_module_loop, hidf, hdis, hsh, not_true_eq_false, and_false,
            if_false, if_true, if_neg (not_lt.mpr herr1)] using this
        · have hsc : detection_scores (m :: mods) c = none :: detection_scores mods c := by
            simp only [detection_scores, hidf, hdis, hsh, if_true, if_false]
            simp
          have := hskip c inv herr hsc
          simpa only [detect_module_loop, hidf, hdis, hsh, not_false_eq_true, and_self,
            if_true] using this
      · have hsc : detection_scores (m :: mods) c
            = some (idf c).1 :: detection_scores mods (idf c).2 := by
          simp only [detection_scores, hidf, hdis]
          simp
        have hstep : detect_module_loop orig (m :: mods) i c b bm inv =
            if (idf c).1 ≤ b then
              detect_module_loop orig mods (i + 1) (idf c).2 b bm (inv ++ [(i, (idf c).1)])
            else if (idf c).1 ≥ 100 then
              { best_module := some i, errflag := false, c := (idf c).2,
                invoked := inv ++ [(i, (idf c).1)] }
            else
              detect_module_loop orig mods (i + 1) (idf c).2 (idf c).1 (some i)
                (inv ++ [(i, (idf c).1)]) := by
          simp only [detect_module_loop, hidf, hdis, false_and, if_false,
            if_neg (not_lt.mpr herr1)]
          simp
        rw [hstep, hsc]
        by_cases hle : (idf c).1 ≤ b
        · rw [if_pos hle]
          obtain ⟨he, h⟩ := ih' (i + 1) (idf c).2 b bm (inv ++ [(i, (idf c).1)]) herr1
          refine ⟨he, ?_⟩
          rcases h with ⟨h1, h2⟩ | ⟨k, s, h1, h2, h3, h4, h5⟩
          · left
            refine ⟨h1, ?_⟩
            intro j s hj
            cases j with
            | zero => simp at hj; omega
            | succ j => exact h2 j s (by simpa using hj)
          · right
            refine ⟨k + 1, s, by rw [h1]; congr 1; omega, by simpa using h2, h3, ?_, ?_⟩
            · intro j s' hj
              cases j with
              | zero => simp at hj; omega
              | succ j => exact h4 j s' (by simpa using hj)
            · intro j s' hjk hj
              cases j with
              | zero => simp at hj; omega
              | succ j => exact h5 j s' (by omega) (by simpa using hj)
        · rw [if_neg hle]
          by_cases h100 : (idf c).1 ≥ 100
          · rw [if_pos h100]
            refine ⟨rfl, Or.inr ⟨0, (idf c).1, rfl, by simp, by omega, ?_, ?_⟩⟩
            · intro j s' hj
              cases j with
              | zero => simp at hj; omega
              | succ j =>
                have := detection_scores_range mods hrange' (idf c).2 j s' (by simpa using hj)
                omega
            · intro j s' hj0; omega
          · rw [if_neg h100]
            obtain ⟨he, h⟩ :=
              ih' (i + 1) (idf c).2 (idf c).1 (some i) (inv ++ [(i, (idf c).1)]) herr1
            refine ⟨he, Or.inr ?_⟩
            rcases h with ⟨h1, h2⟩ | ⟨k, s, h1, h2, h3, h4, h5⟩
            · refine ⟨0, (idf c).1, h1, by simp, by omega, ?_, ?_⟩
              · intro j s' hj
                cases j with
                | zero => simp at hj; omega
                | succ j => exact h2 j s' (by simpa using hj)
              · intro j s' hj0; omega
            · refine ⟨k + 1, s, by rw [h1]; congr 1; omega, by simpa using h2, by omega, ?_, ?_⟩
              · intro j s' hj
                cases j with
                | zero => simp at hj; omega
                | succ j => exact h4 j s' (by simpa using hj)
              · intro j s' hjk hj
                cases j with
                | zero => simp at hj; omega
                | succ j => exact h5 j s' (by omega) (by simpa using hj)

theorem detect_check_bom_some (c : deark) (infile : dbuf) (hin : c.infile = some infile)
    (hwf : infile.wf) : ∃ c1, detect_check_bom c = some c1 ∧ c1.error_count = c.error_count := by
  obtain ⟨f', hrd, -, -⟩ := dbuf_read_correct infile 0 3 hwf (by decide) (by decide)
  simp only [detect_check_bom, hin, dbuf_has_utf8_bom, dbuf_memcmp, hrd]
  exact ⟨_, rfl, rfl⟩

/-- C5: when the input is a well-formed readable dbuf, every identification score lies in
0..100 and no identification function raises the error count, `detect_module_for_file`
returns without error flag; with the scores taken over the modules that have an
identification function and do not carry `DE_MODFLAG_DISABLEDETECT`, it returns no module
when every score is 0, and otherwise the module whose score is positive, is the maximum of
the scores, and is strictly greater than the score of every module before it (the first
module with the maximal score). -/
theorem detect_module_for_file_first_maximum (modules : List deark_module_info) (c : deark)
    (infile : dbuf) (hin : c.infile = some infile) (hwf : infile.wf)
    (hrange : ∀ m ∈ modules, ∀ idf, m.identify_fn = some idf →
      ∀ c', 0 ≤ (idf c').1 ∧ (idf c').1 ≤ 100)
    (hnoerr : ∀ m ∈ modules, ∀ idf, m.identify_fn = some idf →
      ∀ c', (idf c').2.error_count ≤ c'.error_count) :
    ∃ c1 r, detect_check_bom c = some c1 ∧ detect_module_for_file modules c = some r ∧
      r.errflag = false ∧
      match r.best_module with
      | none => ∀ (j : Nat) (s : Int), (detection_scores modules c1)[j]? = some (some s) → s = 0
      | some i => ∃ s : Int, (detection_scores modules c1)[i]? = some (some s) ∧ 0 < s ∧
          (∀ (j : Nat) (s' : Int), (detection_scores modules c1)[j]? = some (some s') → s' ≤ s) ∧
          (∀ (j : Nat) (s' : Int), j < i →
            (detection_scores modules c1)[j]? = some (some s') → s' < s) := by
  obtain ⟨c1, hc1, -⟩ := detect_check_bom_some c infile hin hwf
  obtain ⟨he, h⟩ := detect_module_loop_best c1.error_count modules hrange hnoerr 0 c1 0 none []
    (le_refl _)
  refine ⟨c1, _, hc1, by simp only [detect_module_for_file, hc1], he, ?_⟩
  rcases h with ⟨h1, h2⟩ | ⟨k, s, h1, h2, h3, h4, h5⟩
  · rw [h1]
    intro j s hj
    have := (detection_scores_range modules hrange c1 j s hj).1
    have := h2 j s hj
    omega
  · rw [h1]
    simp only [Nat.zero_add]
    exact ⟨s, h2, h3, h4, h5⟩

theorem example_table_range : ∀ m ∈ example_table, ∀ idf, m.identify_fn = some idf →
    ∀ c', 0 ≤ (idf c').1 ∧ (idf c').1 ≤ 100 := by
  intro m hm idf hidf c'
  simp only [example_table, List.mem_cons, List.mem_singleton, List.not_mem_nil, or_false] at hm
  rcases hm with rfl | rfl
  · simp only [example_module, Option.some.injEq] at hidf
    rw [← hidf]
    simp
  · simp only [example_module_applesingle, Option.some.injEq] at hidf
    rw [← hidf]
    unfold de_identify_applesingle
    split
    · simp
    · split
      · simp
      · simp only
        split <;> simp

theorem example_table_noerr : ∀ m ∈ example_table, ∀ idf, m.identify_fn = some idf →
    ∀ c', (idf c').2.error_count ≤ c'.error_count := by
  intro m hm idf hidf c'
  simp only [example_table, List.mem_cons, List.mem_singleton, List.not_mem_nil, or_false] at hm
  rcases hm with rfl | rfl
  · simp only [example_module, Option.some.injEq] at hidf
    rw [← hidf]
  · simp only [example_module_applesingle, Option.some.injEq] at hidf
    rw [← hidf]
    unfold de_identify_applesingle
    split
    · exact le_refl _
    · split <;> exact le_refl _

theorem detect_module_for_file_first_maximum_witness :
    (example_deark example_applesingle_file).infile = some example_applesingle_file ∧
    example_applesingle_file.wf ∧
    ∃ c1 r, detect_check_bom (example_deark example_applesingle_file) = some c1 ∧
      detect_module_for_file example_table (example_deark example_applesingle_file) = some r ∧
      r.errflag = false ∧
      match r.best_module with
      | none => ∀ (j : Nat) (s : Int),
          (detection_scores example_table c1)[j]? = some (some s) → s = 0
      | some i => ∃ s : Int, (detection_scores example_table c1)[i]? = some (some s) ∧ 0 < s ∧
          (∀ (j : Nat) (s' : Int),
            (detection_scores example_table c1)[j]? = some (some s') → s' ≤ s) ∧
          (∀ (j : Nat) (s' : Int), j < i →
            (detection_scores example_table c1)[j]? = some (some s') → s' < s) :=
  ⟨rfl, by decide,
    detect_module_for_file_first_maximum example_table (example_deark example_applesingle_file)
      example_applesingle_file rfl (by decide) example_table_range example_table_noerr⟩

theorem detect_module_loop_invoked (orig : Int) (mods : List deark_module_info) :
    ∀ (i : Nat) (c : deark) (b : Int) (bm : Option Nat) (inv : List (Nat × Int)), b < 100 →
      ∃ new : List (Nat × Int),
        (detect_module_loop orig mods i c b bm inv).invoked = inv ++ new ∧
        (∀ (k : Nat) (res : Int), (k, res) ∈ new → i ≤ k) ∧
        (∀ (k : Nat) (m : deark_module_info), (k, (100 : Int)) ∈ new → mods[k - i]? = some m →
          m.flags.DE_MODFLAG_DISABLEDETECT = false →
          ∀ (j : Nat) (res' : Int), (j, res') ∈ new → j ≤ k) := by
  induction mods with
  | nil =>
    intro i c b bm inv _
    exact ⟨[], by simp [detect_module_loop], by simp, by simp⟩
  | cons m0 mods ih =>
    intro i c b bm inv hb
    -- continuing with the next module without an invocation
    have hcont0 : ∀ (c1 : deark),
        ∃ new : List (Nat × Int),
          (detect_module_loop orig mods (i + 1) c1 b bm inv).invoked = inv ++ new ∧
          (∀ (k : Nat) (res : Int), (k, res) ∈ new → i ≤ k) ∧
          (∀ (k : Nat) (m : deark_module_info), (k, (100 : Int)) ∈ new →
            (m0 :: mods)[k - i]? = some m → m.flags.DE_MODFLAG_DISABLEDETECT = false →
            ∀ (j : Nat) (res' : Int), (j, res') ∈ new → j ≤ k) := by
      intro c1
      obtain ⟨new, h1, h2, h3⟩ := ih (i + 1) c1 b bm inv hb
      refine ⟨new, h1, fun k res hk => by have := h2 k res hk; omega, ?_⟩
      intro k m hk hm hflag j res' hj
      have hki := h2 k 100 hk
      have hidx : k - i = (k - (i + 1)) + 1 := by omega
      rw [hidx, List.getElem?_cons_succ] at hm
      exact h3 k m hk hm hflag j res' hj
    -- continuing after an invocation that did not end the loop
    have hcont1 : ∀ (c1 : deark) (res0 b' : Int) (bm' : Option Nat), b' < 100 →
        (res0 = 100 → m0.flags.DE_MODFLAG_DISABLEDETECT = true) →
        ∃ new : List (Nat × Int),
          (detect_module_loop orig mods (i + 1) c1 b' bm' (inv ++ [(i, res0)])).invoked
            = inv ++ new ∧
          (∀ (k : Nat) (res : Int), (k, res) ∈ new → i ≤ k) ∧
          (∀ (k : Nat) (m : deark_module_info), (k, (100 : Int)) ∈ new →
            (m0 :: mods)[k - i]? = some m → m.flags.DE_MODFLAG_DISABLEDETECT = false →
            ∀ (j : Nat) (res' : Int), (j, res') ∈ new → j ≤ k) := by
      intro c1 res0 b' bm' hb' hres
      obtain ⟨new, h1, h2, h3⟩ := ih (i + 1) c1 b' bm' (inv ++ [(i, res0)]) hb'
      refine ⟨(i, res0) :: new, by rw [h1]; simp, ?_, ?_⟩
      · intro k res hk
        rcases List.mem_cons.mp hk with h | h
        · cases h; exact le_refl _
        · have := h2 k res h; omega
      · intro k m hk hm hflag j res' hj
        rcases List.mem_cons.mp hk with h | h
        · -- the head invocation returned 100 for a module that counts: impossible here
          cases h
          simp only [Nat.sub_self, List.getElem?_cons_zero, Option.some.injEq] at hm
          rw [← hm] at hflag
          rw [hres rfl] at hflag
          exact absurd hflag (by decide)
        · have hki := h2 k 100 h
          have hidx : k - i = (k - (i + 1)) + 1 := by omega
          rw [hidx, List.getElem?_cons_succ] at hm
          rcases List.mem_cons.mp hj with hj' | hj'
          · cases hj'; omega
          · exact h3 k m h hm hflag j res' hj'
    -- leaving the loop right after an invocation
    have hexit : ∀ (res0 : Int),
        ∃ new : List (Nat × Int), inv ++ [(i, res0)] = inv ++ new ∧
          (∀ (k : Nat) (res : Int), (k, res) ∈ new → i ≤ k) ∧
          (∀ (k : Nat) (m : deark_module_info), (k, (100 : Int)) ∈ new →
            (m0 :: mods)[k - i]? = some m → m.flags.DE_MODFLAG_DISABLEDETECT = false →
            ∀ (j : Nat) (res' : Int), (j, res') ∈ new → j ≤ k) := by
      intro res0
      refine ⟨[(i, res0)], rfl, ?_, ?_⟩
      · intro k res hk
        simp only [List.mem_singleton, Prod.mk.injEq] at hk
        omega
      · intro k m hk _ _ j res' hj
        simp only [List.mem_singleton, Prod.mk.injEq] at hk hj
        omega
    unfold detect_module_loop
    cases hidf : m0.identify_fn with
    | none => exact hcont0 c
    | some idf =>
      simp only
      split
      · exact hcont0 c
      · split
        · exact hexit _
        · split
          · rename_i hdis
            exact hcont1 _ _ b bm hb (fun _ => hdis)
          · split
            · rename_i hle
              exact hcont1 _ _ b bm hb (fun h => by omega)
            · split
              · exact hexit _
              · rename_i h100
                exact hcont1 _ _ _ _ (by omega) (fun h => by omega)

/-- C6 (counterexample): the first module of the table carries DISABLEDETECT and
SHAREDDETECTION; its identification function is invoked and returns 100, and the
identification function of the module at index 1 is invoked all the same. -/
theorem detect_invokes_after_disabled_module_scored_100 :
    (detect_module_for_file example_table_shared
      (example_deark example_applesingle_file)).map (fun r => r.invoked)
      = some [(0, 100), (1, 0)] := by
  decide

/-- C6 (amended): if the identification function of the module at table index `i` is invoked
by `detect_module_for_file` and returns 100, and that module does not carry
`DE_MODFLAG_DISABLEDETECT`, then no identification function of a module at an index greater
than `i` is invoked. -/
theorem detect_short_circuit_on_100 (modules : List deark_module_info) (c : deark)
    (r : detect_result) (i : Nat) (m : deark_module_info)
    (hrun : detect_module_for_file modules c = some r)
    (hm : modules[i]? = some m) (hflag : m.flags.DE_MODFLAG_DISABLEDETECT = false)
    (hinv : (i, (100 : Int)) ∈ r.invoked) :
    ∀ (j : Nat) (res : Int), (j, res) ∈ r.invoked → j ≤ i := by
  unfold detect_module_for_file at hrun
  cases hb : detect_check_bom c with
  | none => simp [hb] at hrun
  | some c1 =>
    simp only [hb, Option.some.injEq] at hrun
    obtain ⟨new, h1, -, h3⟩ :=
      detect_module_loop_invoked c1.error_count modules 0 c1 0 none [] (by decide)
    rw [hrun] at h1
    simp only [List.nil_append] at h1
    rw [h1] at hinv ⊢
    exact h3 i m hinv (by simpa using hm) hflag

theorem detect_short_circuit_on_100_witness :
    detect_module_for_file example_table_rev (example_deark example_applesingle_file)
      = some (detect_module_loop 0 example_table_rev 0
          (example_deark example_applesingle_file) 0 none []) ∧
    example_table_rev[0]? = some example_module_applesingle ∧
    example_module_applesingle.flags.DE_MODFLAG_DISABLEDETECT = false ∧
    (0, (100 : Int)) ∈ (detect_module_loop 0 example_table_rev 0
          (example_deark example_applesingle_file) 0 none []).invoked ∧
    ∀ (j : Nat) (res : Int), (j, res) ∈ (detect_module_loop 0 example_table_rev 0
          (example_deark example_applesingle_file) 0 none []).invoked → j ≤ 0 :=
  ⟨by rfl, by rfl, by rfl, by decide,
    detect_short_circuit_on_100 example_table_rev (example_deark example_applesingle_file)
      _ 0 _ (by rfl) (by rfl) (by rfl) (by decide)⟩

theorem resource_events_append (a b : List run_event) :
    resource_events (a ++ b) = resource_events a ++ resource_events b := by
  simp [resource_events]

theorem resource_events_de_err (st : run_state) (t : String) :
    resource_events (de_err st t).2 = resource_events st.2 := by
  simp [de_err, resource_events, run_event.is_resource]

theorem resource_events_de_msg (st : run_state) (t : String) :
    resource_events (de_msg st t).2 = resource_events st.2 := by
  simp [de_msg, resource_events, run_event.is_resource]

theorem resource_events_de_warn (st : run_state) (t : String) :
    resource_events (de_warn st t).2 = resource_events st.2 := by
  simp [de_warn, resource_events, run_event.is_resource]

theorem foldl_de_msg (f : String → String) (l : List String) (st : run_state) :
    l.foldl (fun s a => de_msg s (f a)) st
      = (st.1, st.2 ++ l.map (fun a => run_event.msg (f a))) := by
  induction l generalizing st with
  | nil => simp
  | cons a l ih =>
    rw [List.foldl_cons, ih]
    simp [de_msg]

theorem do_modhelp_internal_eq (st : run_state) (i : Nat) (mi : deark_module_info) :
    do_modhelp_internal st i mi =
      match mi.help_fn with
      | none =>
        (st.1, st.2 ++ modhelp_description mi ++ [.msg "No help available for module"])
      | some help_fn =>
        (help_fn st.1, st.2 ++ modhelp_description mi ++ [.msg "Help for module", .help_fn i])
      := by
  unfold do_modhelp_internal modhelp_description
  simp only [foldl_de_msg (fun a => "Alias: " ++ a)]
  cases mi.desc <;> cases mi.desc2 <;> cases mi.help_fn <;> simp [de_msg]

theorem resource_events_modhelp_description (mi : deark_module_info) :
    resource_events (modhelp_description mi) = [] := by
  unfold modhelp_description resource_events
  rw [List.filter_eq_nil_iff]
  intro e he
  simp only [List.mem_append, List.mem_singleton, List.mem_map] at he
  rcases he with ((he | ⟨a, -, he⟩) | he) | he
  · subst he; simp [run_event.is_resource]
  · subst he; simp [run_event.is_resource]
  · cases hd : mi.desc with
    | none => simp [hd] at he
    | some d => simp [hd] at he; subst he; simp [run_event.is_resource]
  · cases hd : mi.desc2 with
    | none => simp [hd] at he
    | some d => simp [hd] at he; subst he; simp [run_event.is_resource]

theorem resource_events_do_modhelp_internal (st : run_state) (i : Nat) (mi : deark_module_info) :
    resource_events (do_modhelp_internal st i mi).2 = resource_events st.2 := by
  rw [do_modhelp_internal_eq]
  cases mi.help_fn with
  | none =>
    simp only [resource_events_append, resource_events_modhelp_description]
    simp [resource_events, run_event.is_resource]
  | some h =>
    simp only [resource_events_append, resource_events_modhelp_description]
    simp [resource_events, run_event.is_resource]

theorem resource_events_de_run_module (st : run_state) (i : Nat) (mi : deark_module_info)
    (mp : Option de_module_params) :
    resource_events (de_run_module st i mi mp).2.2 = resource_events st.2 := by
  unfold de_run_module
  cases mi.run_fn with
  | none => rfl
  | some h =>
    simp only [resource_events_append]
    simp [resource_events, run_event.is_resource]

theorem resource_events_open_extrlist (st : run_state) (env : os_env) :
    resource_events (open_extrlist st env).2 = resource_events st.2 := by
  unfold open_extrlist
  split
  · rfl
  · unfold dbuf_create_unmanaged_file
    cases env.extrlist_file <;> simp only [resource_events_de_err]

theorem resource_events_do_modhelp (modules : List deark_module_info) (st st' : run_state)
    (h : do_modhelp modules st = some st') : resource_events st'.2 = resource_events st.2 := by
  unfold do_modhelp at h
  split at h
  · simp at h
  · split at h
    · injection h with h; rw [← h, resource_events_de_err]
    · split at h
      · injection h with h; rw [← h, resource_events_de_err]
      · injection h with h
        rw [← h, resource_events_do_modhelp_internal]
        unfold do_modhelp_alias_note
        split
        · rw [resource_events_de_msg]
        · rfl

theorem resource_events_dbuf_open_input_file (st : run_state) (env : os_env)
    (fn : Option String) :
    resource_events (dbuf_open_input_file st env fn).2.2 = resource_events st.2 := by
  unfold dbuf_open_input_file
  split
  · rfl
  · split
    · simp only [resource_events_de_err]
    · split <;> rfl

theorem resource_events_de_run_done (st : run_state) (subfile orig_ifile : Option dbuf) :
    resource_events (de_run_done st subfile orig_ifile).2 = resource_events st.2 ++
      ((if subfile.isSome then [run_event.dbuf_close .subfile] else []) ++
       (if orig_ifile.isSome then [run_event.dbuf_close .orig_ifile] else [])) := by
  unfold de_run_done
  cases subfile <;> cases orig_ifile <;> cases st.1.extrlist_dbuf <;>
    simp [resource_events, run_event.is_resource]

theorem de_run_select_inl (modules : List deark_module_info) (st s1 : run_state)
    (module_req : Option Nat) (h : de_run_select modules st module_req = some (.inl s1)) :
    s1.2 = st.2 := by
  unfold de_run_select at h
  cases module_req with
  | some i => simp at h
  | none =>
    simp only at h
    cases hd : detect_module_for_file modules st.1 with
    | none => simp [hd] at h
    | some r =>
      simp only [hd] at h
      by_cases he : r.errflag = true
      · rw [if_pos he] at h
        injection h with h
        injection h with h
        rw [← h]
      · rw [if_neg he] at h
        simp at h

theorem de_run_select_inr (modules : List deark_module_info) (st s1 : run_state)
    (module_req : Option Nat) (mtu : Option Nat) (auto : Bool)
    (h : de_run_select modules st module_req = some (.inr (mtu, auto, s1))) :
    s1.2 = st.2 := by
  unfold de_run_select at h
  cases module_req with
  | some i =>
    simp only [Option.some.injEq, Sum.inr.injEq, Prod.mk.injEq] at h
    rw [← h.2.2]
  | none =>
    simp only at h
    cases hd : detect_module_for_file modules st.1 with
    | none => simp [hd] at h
    | some r =>
      simp only [hd] at h
      by_cases he : r.errflag = true
      · rw [if_pos he] at h
        simp at h
      · rw [if_neg he] at h
        simp only [Option.some.injEq, Sum.inr.injEq, Prod.mk.injEq] at h
        rw [← h.2.2]

theorem resource_events_de_run_warn_nonworking (st : run_state) (mi : deark_module_info) :
    resource_events (de_run_warn_nonworking st mi).2 = resource_events st.2 := by
  unfold de_run_warn_nonworking
  split
  · rw [resource_events_de_warn]
  · rfl

theorem resource_events_de_run_allow_subdirs (st : run_state) :
    resource_events (de_run_allow_subdirs st).2 = resource_events st.2 := by
  unfold de_run_allow_subdirs
  split <;> rfl

theorem resource_events_de_run_report (r : Int × run_state) (mi : deark_module_info) :
    resource_events (de_run_report r mi).2 = resource_events r.2.2 := by
  unfold de_run_report
  split
  · rfl
  · split
    · rw [resource_events_de_msg]
    · rfl

theorem resource_events_de_run_stage_run (env : os_env) (st2 : run_state) (i : Nat)
    (mi : deark_module_info) :
    resource_events (de_run_stage_run env st2 i mi).2 = resource_events st2.2 := by
  unfold de_run_stage_run
  simp only
  split
  · rw [resource_events_de_run_allow_subdirs, resource_events_de_run_warn_nonworking]
  · rw [resource_events_de_run_report, resource_events_de_run_module,
      resource_events_de_run_allow_subdirs, resource_events_de_run_warn_nonworking]

theorem resource_events_de_run_stage_validate (env : os_env) (st1 : run_state) (i : Nat)
    (mi : deark_module_info) (auto : Bool) :
    resource_events (de_run_stage_validate env st1 i mi auto).2 = resource_events st1.2 := by
  unfold de_run_stage_validate
  split
  · rw [resource_events_do_modhelp_internal]
  · simp only
    split
    · rw [resource_events_de_err, resource_events_de_msg]
    · rw [resource_events_de_run_stage_run, resource_events_de_msg]

theorem resource_events_de_run_with_input (modules : List deark_module_info) (env : os_env)
    (st st' : run_state) (subfile orig_ifile : Option dbuf) (module_req : Option Nat)
    (h : de_run_with_input modules env st subfile orig_ifile module_req = some st') :
    resource_events st'.2 = resource_events st.2 ++
      ((if subfile.isSome then [run_event.dbuf_close .subfile] else []) ++
       (if orig_ifile.isSome then [run_event.dbuf_close .orig_ifile] else [])) := by
  unfold de_run_with_input at h
  cases hsel : de_run_select modules st module_req with
  | none => simp [hsel] at h
  | some x =>
    cases x with
    | inl s1 =>
      have hx := de_run_select_inl modules st s1 module_req hsel
      simp only [hsel] at h
      injection h with h
      rw [← h, resource_events_de_run_done, hx]
    | inr p =>
      obtain ⟨mtu, auto, s1⟩ := p
      have hx := de_run_select_inr modules st s1 module_req mtu auto hsel
      simp only [hsel] at h
      split at h
      · injection h with h
        rw [← h, resource_events_de_run_done, resource_events_de_err, hx]
      · injection h with h
        rw [← h, resource_events_de_run_done, resource_events_de_run_stage_validate,
          resource_events_append, hx]
        simp [resource_events, run_event.is_resource]

theorem resource_events_de_run_open (st1 : run_state) (env : os_env) :
    resource_events (de_run_open st1 env).2.2 = resource_events st1.2 := by
  unfold de_run_open
  split
  · rfl
  · simp only
    split
    · split
      · exact resource_events_dbuf_open_input_file st1 env _
      · exact resource_events_dbuf_open_input_file st1 env _
    · exact resource_events_dbuf_open_input_file st1 env _

theorem resource_events_de_run_opened (modules : List deark_module_info) (env : os_env)
    (st st' : run_state) (orig_ifile : dbuf) (module_req : Option Nat)
    (h : de_run_opened modules env st orig_ifile module_req = some st') :
    resource_events st'.2 = resource_events st.2 ++ [.open_input, .dbuf_close .orig_ifile] ∨
    resource_events st'.2 = resource_events st.2 ++
      [.open_input, .open_subfile, .dbuf_close .subfile, .dbuf_close .orig_ifile] := by
  unfold de_run_opened at h
  simp only at h
  split at h
  · right
    rw [resource_events_de_run_with_input _ _ _ _ _ _ _ h]
    simp [resource_events, run_event.is_resource]
  · left
    rw [resource_events_de_run_with_input _ _ _ _ _ _ _ h]
    simp [resource_events, run_event.is_resource]

theorem resource_events_de_run (modules : List deark_module_info) (env : os_env) (c : deark)
    (st : run_state) (h : de_run modules env c = some st) :
    resource_events st.2 = [] ∨
    resource_events st.2 = [.open_input, .dbuf_close .orig_ifile] ∨
    resource_events st.2 =
      [.open_input, .open_subfile, .dbuf_close .subfile, .dbuf_close .orig_ifile] := by
  unfold de_run at h
  simp only at h
  split at h
  · left
    cases hm : do_modhelp modules (c, []) with
    | none => simp [hm] at h
    | some s1 =>
      simp only [hm, Option.map_some', Option.some.injEq] at h
      rw [← h, resource_events_de_run_done, resource_events_do_modhelp _ _ _ hm]
      simp [resource_events]
  · have hst1 : resource_events (if c.extrlist_filename.isSome = true then
        open_extrlist (c, []) env else (c, [])).2 = [] := by
      split
      · rw [resource_events_open_extrlist]; rfl
      · rfl
    generalize (if c.extrlist_filename.isSome = true then
        open_extrlist (c, []) env else ((c, []) : run_state)) = st1 at h hst1
    split at h
    · simp at h
    · split at h
      · simp at h
      · split at h
        · left
          injection h with h
          rw [← h, resource_events_de_run_done, resource_events_de_err, hst1]
          simp
        · rename_i module_req _
          have hopen := resource_events_de_run_open st1 env
          split at h
          · left
            rename_i st2 heq
            injection h with h
            rw [heq] at hopen
            rw [← h, resource_events_de_run_done, hopen, hst1]
            simp
          · right
            rename_i orig_ifile st2 heq
            rw [heq] at hopen
            simp only at hopen
            have := resource_events_de_run_opened modules env st2 st orig_ifile module_req h
            rw [hopen, hst1] at this
            simpa using this

/-- C7: in every run of `de_run` that returns and in which the input was opened, the events
that close the slice view or the originally opened input are exactly: the close of the
slice view (when one was created) followed by the close of the original input; each
happens once, whatever module selection, validation and the run function did. -/
theorem de_run_closes_input (modules : List deark_module_info) (env : os_env) (c : deark)
    (tr : List run_event) (h : (de_run modules env c).map Prod.snd = some tr)
    (hopen : run_event.open_input ∈ tr) :
    input_closes tr =
      if run_event.open_subfile ∈ tr then
        [run_event.dbuf_close .subfile, run_event.dbuf_close .orig_ifile]
      else [run_event.dbuf_close .orig_ifile] := by
  cases hrun : de_run modules env c with
  | none => simp [hrun] at h
  | some st =>
    simp only [hrun, Option.map_some', Option.some.injEq] at h
    have hclose : input_closes st.2 = input_closes (resource_events st.2) := by
      unfold input_closes resource_events
      rw [List.filter_filter]
      congr 1
      funext e
      cases e <;> simp [run_event.is_resource]
      rename_i w
      cases w <;> simp
    have hmem : ∀ e : run_event, e.is_resource = true →
        (e ∈ st.2 ↔ e ∈ resource_events st.2) := by
      intro e he
      simp [resource_events, he]
    rw [← h]
    have hsub := hmem run_event.open_subfile rfl
    have hin := (hmem run_event.open_input rfl).mp (h ▸ hopen)
    rw [hclose]
    simp only [hsub]
    rcases resource_events_de_run modules env c st hrun with h0 | h1 | h2
    · rw [h0] at hin; simp at hin
    · rw [h1]; decide
    · rw [h2]; decide

theorem de_run_closes_input_witness :
    (de_run example_table example_env { example_session with slice_start_req := 1 }).map Prod.snd
      = some [.open_input, .open_subfile, .module_selected 0 true, .msg "Module: fifty",
              .run_fn 0, .msg "No files found to extract!", .dbuf_close .subfile,
              .dbuf_close .orig_ifile] ∧
    run_event.open_input ∈
      [run_event.open_input, .open_subfile, .module_selected 0 true, .msg "Module: fifty",
       .run_fn 0, .msg "No files found to extract!", .dbuf_close .subfile,
       .dbuf_close .orig_ifile] ∧
    input_closes [.open_input, .open_subfile, .module_selected 0 true, .msg "Module: fifty",
        .run_fn 0, .msg "No files found to extract!", .dbuf_close .subfile,
        .dbuf_close .orig_ifile] =
      if run_event.open_subfile ∈
        [run_event.open_input, .open_subfile, .module_selected 0 true, .msg "Module: fifty",
         .run_fn 0, .msg "No files found to extract!", .dbuf_close .subfile,
         .dbuf_close .orig_ifile] then
        [run_event.dbuf_close .subfile, run_event.dbuf_close .orig_ifile]
      else [run_event.dbuf_close .orig_ifile] :=
  ⟨by decide, by decide,
    de_run_closes_input example_table example_env { example_session with slice_start_req := 1 }
      _ (by decide) (by decide)⟩

theorem dispatch_events_append (a b : List run_event) :
    dispatch_events (a ++ b) = dispatch_events a ++ dispatch_events b := by
  simp [dispatch_events]

theorem dispatch_events_de_err (st : run_state) (t : String) :
    dispatch_events (de_err st t).2 = dispatch_events st.2 := by
  simp [de_err, dispatch_events, run_event.is_dispatch]

theorem dispatch_events_de_msg (st : run_state) (t : String) :
    dispatch_events (de_msg st t).2 = dispatch_events st.2 := by
  simp [de_msg, dispatch_events, run_event.is_dispatch]

theorem dispatch_events_de_warn (st : run_state) (t : String) :
    dispatch_events (de_warn st t).2 = dispatch_events st.2 := by
  simp [de_warn, dispatch_events, run_event.is_dispatch]

theorem dispatch_events_modhelp_description (mi : deark_module_info) :
    dispatch_events (modhelp_description mi) = [] := by
  unfold modhelp_description dispatch_events
  rw [List.filter_eq_nil_iff]
  intro e he
  simp only [List.mem_append, List.mem_singleton, List.mem_map] at he
  rcases he with ((he | ⟨a, -, he⟩) | he) | he
  · subst he; simp [run_event.is_dispatch]
  · subst he; simp [run_event.is_dispatch]
  · cases hd : mi.desc with
    | none => simp [hd] at he
    | some d => simp [hd] at he; subst he; simp [run_event.is_dispatch]
  · cases hd : mi.desc2 with
    | none => simp [hd] at he
    | some d => simp [hd] at he; subst he; simp [run_event.is_dispatch]

theorem dispatch_events_do_modhelp_internal (st : run_state) (i : Nat)
    (mi : deark_module_info) :
    dispatch_events (do_modhelp_internal st i mi).2 = dispatch_events st.2 := by
  rw [do_modhelp_internal_eq]
  cases mi.help_fn with
  | none =>
    simp only [dispatch_events_append, dispatch_events_modhelp_description]
    simp [dispatch_events, run_event.is_dispatch]
  | some h =>
    simp only [dispatch_events_append, dispatch_events_modhelp_description]
    simp [dispatch_events, run_event.is_dispatch]

theorem dispatch_events_open_extrlist (st : run_state) (env : os_env) :
    dispatch_events (open_extrlist st env).2 = dispatch_events st.2 := by
  unfold open_extrlist
  split
  · rfl
  · unfold dbuf_create_unmanaged_file
    cases env.extrlist_file <;> simp only [dispatch_events_de_err]

theorem dispatch_events_do_modhelp (modules : List deark_module_info) (st st' : run_state)
    (h : do_modhelp modules st = some st') : dispatch_events st'.2 = dispatch_events st.2 := by
  unfold do_modhelp at h
  split at h
  · simp at h
  · split at h
    · injection h with h; rw [← h, dispatch_events_de_err]
    · split at h
      · injection h with h; rw [← h, dispatch_events_de_err]
      · injection h with h
        rw [← h, dispatch_events_do_modhelp_internal]
        unfold do_modhelp_alias_note
        split
        · rw [dispatch_events_de_msg]
        · rfl

theorem dispatch_events_dbuf_open_input_file (st : run_state) (env : os_env)
    (fn : Option String) :
    dispatch_events (dbuf_open_input_file st env fn).2.2 = dispatch_events st.2 := by
  unfold dbuf_open_input_file
  split
  · rfl
  · split
    · simp only [dispatch_events_de_err]
    · split <;> rfl

theorem dispatch_events_de_run_open (st1 : run_state) (env : os_env) :
    dispatch_events (de_run_open st1 env).2.2 = dispatch_events st1.2 := by
  unfold de_run_open
  split
  · rfl
  · simp only
    split
    · split
      · exact dispatch_events_dbuf_open_input_file st1 env _
      · exact dispatch_events_dbuf_open_input_file st1 env _
    · exact dispatch_events_dbuf_open_input_file st1 env _

theorem dispatch_events_de_run_done (st : run_state) (subfile orig_ifile : Option dbuf) :
    dispatch_events (de_run_done st subfile orig_ifile).2 = dispatch_events st.2 := by
  unfold de_run_done
  cases subfile <;> cases orig_ifile <;> cases st.1.extrlist_dbuf <;>
    simp [dispatch_events, run_event.is_dispatch]

theorem mem_de_run_done (st : run_state) (subfile orig_ifile : Option dbuf) (e : run_event)
    (h : e ∈ st.2) : e ∈ (de_run_done st subfile orig_ifile).2 := by
  unfold de_run_done
  cases subfile <;> cases orig_ifile <;> cases st.1.extrlist_dbuf <;> simp [h]

theorem dispatch_events_de_run_warn_nonworking (st : run_state) (mi : deark_module_info) :
    dispatch_events (de_run_warn_nonworking st mi).2 = dispatch_events st.2 := by
  unfold de_run_warn_nonworking
  split
  · rw [dispatch_events_de_warn]
  · rfl

theorem dispatch_events_de_run_allow_subdirs (st : run_state) :
    dispatch_events (de_run_allow_subdirs st).2 = dispatch_events st.2 := by
  unfold de_run_allow_subdirs
  split <;> rfl

theorem dispatch_events_de_run_report (r : Int × run_state) (mi : deark_module_info) :
    dispatch_events (de_run_report r mi).2 = dispatch_events r.2.2 := by
  unfold de_run_report
  split
  · rfl
  · split
    · rw [dispatch_events_de_msg]
    · rfl

theorem dispatch_events_de_run_module (st : run_state) (i : Nat) (mi : deark_module_info)
    (mp : Option de_module_params) :
    dispatch_events (de_run_module st i mi mp).2.2 = dispatch_events st.2 ∨
    dispatch_events (de_run_module st i mi mp).2.2 = dispatch_events st.2 ++ [.run_fn i] := by
  unfold de_run_module
  cases mi.run_fn with
  | none => left; rfl
  | some h =>
    right
    simp only [dispatch_events_append]
    simp [dispatch_events, run_event.is_dispatch]

theorem dispatch_events_de_run_stage_run (env : os_env) (st2 : run_state) (i : Nat)
    (mi : deark_module_info) :
    dispatch_events (de_run_stage_run env st2 i mi).2 = dispatch_events st2.2 ∨
    dispatch_events (de_run_stage_run env st2 i mi).2 = dispatch_events st2.2 ++ [.run_fn i] := by
  unfold de_run_stage_run
  simp only
  split
  · left
    rw [dispatch_events_de_run_allow_subdirs, dispatch_events_de_run_warn_nonworking]
  · rw [dispatch_events_de_run_report]
    have := dispatch_events_de_run_module
      (de_run_allow_subdirs (de_run_warn_nonworking st2 mi)) i mi
      (de_run_mparams (de_run_allow_subdirs (de_run_warn_nonworking st2 mi)).1)
    rw [dispatch_events_de_run_allow_subdirs, dispatch_events_de_run_warn_nonworking] at this
    exact this

theorem dispatch_events_de_run_stage_validate (env : os_env) (st1 : run_state) (i : Nat)
    (mi : deark_module_info) (auto : Bool) :
    dispatch_events (de_run_stage_validate env st1 i mi auto).2 = dispatch_events st1.2 ∨
    dispatch_events (de_run_stage_validate env st1 i mi auto).2
      = dispatch_events st1.2 ++ [.run_fn i] := by
  unfold de_run_stage_validate
  split
  · left; rw [dispatch_events_do_modhelp_internal]
  · simp only
    split
    · left; rw [dispatch_events_de_err, dispatch_events_de_msg]
    · have := dispatch_events_de_run_stage_run env (de_msg st1 ("Module: " ++ mi.id)) i mi
      rw [dispatch_events_de_msg] at this
      exact this

theorem de_run_stage_validate_security (env : os_env) (st1 : run_state) (i : Nat)
    (mi : deark_module_info) (hflag : mi.flags.DE_MODFLAG_SECURITYWARNING = true) :
    dispatch_events (de_run_stage_validate env st1 i mi true).2 = dispatch_events st1.2 ∧
    (run_event.err security_warning_text ∈ (de_run_stage_validate env st1 i mi true).2 ∨
     run_event.msg "No help available for module" ∈ (de_run_stage_validate env st1 i mi true).2 ∨
     run_event.msg "Help for module" ∈ (de_run_stage_validate env st1 i mi true).2) := by
  unfold de_run_stage_validate
  split
  · refine ⟨dispatch_events_do_modhelp_internal _ _ _, Or.inr ?_⟩
    unfold do_modhelp_internal
    cases mi.help_fn with
    | none => left; simp [de_msg]
    | some hf => right; simp [de_msg]
  · simp only
    split
    · exact ⟨by rw [dispatch_events_de_err, dispatch_events_de_msg], Or.inl (by simp [de_err])⟩
    · rename_i h
      exact absurd (by simp [hflag]) h

theorem dispatch_events_de_run_with_input (modules : List deark_module_info) (env : os_env)
    (st st' : run_state) (subfile orig_ifile : Option dbuf) (module_req : Option Nat)
    (h : de_run_with_input modules env st subfile orig_ifile module_req = some st') :
    dispatch_events st'.2 = dispatch_events st.2 ∨
    ∃ (i : Nat) (auto : Bool) (mi : deark_module_info), modules[i]? = some mi ∧
      (dispatch_events st'.2 = dispatch_events st.2 ++ [.module_selected i auto] ∨
       dispatch_events st'.2 = dispatch_events st.2 ++ [.module_selected i auto, .run_fn i]) ∧
      (auto = true → mi.flags.DE_MODFLAG_SECURITYWARNING = true →
        dispatch_events st'.2 = dispatch_events st.2 ++ [.module_selected i auto] ∧
        (run_event.err security_warning_text ∈ st'.2 ∨
         run_event.msg "No help available for module" ∈ st'.2 ∨
         run_event.msg "Help for module" ∈ st'.2)) := by
  unfold de_run_with_input at h
  cases hsel : de_run_select modules st module_req with
  | none => simp [hsel] at h
  | some x =>
    cases x with
    | inl s1 =>
      have hx := de_run_select_inl modules st s1 module_req hsel
      simp only [hsel] at h
      injection h with h
      left
      rw [← h, dispatch_events_de_run_done, hx]
    | inr p =>
      obtain ⟨mtu, auto, s1⟩ := p
      have hx := de_run_select_inr modules st s1 module_req mtu auto hsel
      simp only [hsel] at h
      split at h
      · injection h with h
        left
        rw [← h, dispatch_events_de_run_done, dispatch_events_de_err, hx]
      · rename_i i mi hlook
        injection h with h
        right
        have hmi : modules[i]? = some mi := by
          cases mtu with
          | none => simp at hlook
          | some k =>
            simp only [Option.some_bind, Option.map_eq_some', Prod.mk.injEq] at hlook
            obtain ⟨a, ha, hk, hma⟩ := hlook
            rw [← hk, ← hma]; exact ha
        have hpre : dispatch_events (s1.2 ++ [run_event.module_selected i auto])
            = dispatch_events st.2 ++ [.module_selected i auto] := by
          rw [dispatch_events_append, hx]
          simp [dispatch_events, run_event.is_dispatch]
        refine ⟨i, auto, mi, hmi, ?_, ?_⟩
        · rw [← h, dispatch_events_de_run_done]
          rcases dispatch_events_de_run_stage_validate env
            (s1.1, s1.2 ++ [.module_selected i auto]) i mi auto with h1 | h1
          · left; rw [h1, hpre]
          · right; rw [h1, hpre]; simp
        · intro hauto hflag
          subst hauto
          obtain ⟨h1, h2⟩ := de_run_stage_validate_security env
            (s1.1, s1.2 ++ [.module_selected i true]) i mi hflag
          rw [← h, dispatch_events_de_run_done]
          refine ⟨by rw [h1, hpre], ?_⟩
          rcases h2 with h2 | h2 | h2
          · exact Or.inl (mem_de_run_done _ _ _ _ h2)
          · exact Or.inr (Or.inl (mem_de_run_done _ _ _ _ h2))
          · exact Or.inr (Or.inr (mem_de_run_done _ _ _ _ h2))

theorem dispatch_events_de_run (modules : List deark_module_info) (env : os_env) (c : deark)
    (st : run_state) (h : de_run modules env c = some st) :
    dispatch_events st.2 = [] ∨
    ∃ (i : Nat) (auto : Bool) (mi : deark_module_info), modules[i]? = some mi ∧
      (dispatch_events st.2 = [.module_selected i auto] ∨
       dispatch_events st.2 = [.module_selected i auto, .run_fn i]) ∧
      (auto = true → mi.flags.DE_MODFLAG_SECURITYWARNING = true →
        dispatch_events st.2 = [.module_selected i auto] ∧
        (run_event.err security_warning_text ∈ st.2 ∨
         run_event.msg "No help available for module" ∈ st.2 ∨
         run_event.msg "Help for module" ∈ st.2)) := by
  unfold de_run at h
  simp only at h
  split at h
  · left
    cases hm : do_modhelp modules (c, []) with
    | none => simp [hm] at h
    | some s1 =>
      simp only [hm, Option.map_some', Option.some.injEq] at h
      rw [← h, dispatch_events_de_run_done, dispatch_events_do_modhelp _ _ _ hm]
      rfl
  · have hst1 : dispatch_events (if c.extrlist_filename.isSome = true then
        open_extrlist (c, []) env else (c, [])).2 = [] := by
      split
      · rw [dispatch_events_open_extrlist]; rfl
      · rfl
    generalize (if c.extrlist_filename.isSome = true then
        open_extrlist (c, []) env else ((c, []) : run_state)) = st1 at h hst1
    split at h
    · simp at h
    · split at h
      · simp at h
      · split at h
        · left
          injection h with h
          rw [← h, dispatch_events_de_run_done, dispatch_events_de_err, hst1]
        · rename_i module_req _
          have hopen := dispatch_events_de_run_open st1 env
          split at h
          · left
            rename_i st2 heq
            injection h with h
            rw [heq] at hopen
            rw [← h, dispatch_events_de_run_done, hopen, hst1]
          · rename_i orig_ifile st2 heq
            rw [heq] at hopen
            simp only at hopen
            unfold de_run_opened at h
            simp only at h
            have key : ∀ (sa : run_state) (sub og : Option dbuf), dispatch_events sa.2 = [] →
                de_run_with_input modules env sa sub og module_req = some st →
                dispatch_events st.2 = [] ∨
                ∃ (i : Nat) (auto : Bool) (mi : deark_module_info), modules[i]? = some mi ∧
                  (dispatch_events st.2 = [.module_selected i auto] ∨
                   dispatch_events st.2 = [.module_selected i auto, .run_fn i]) ∧
                  (auto = true → mi.flags.DE_MODFLAG_SECURITYWARNING = true →
                    dispatch_events st.2 = [.module_selected i auto] ∧
                    (run_event.err security_warning_text ∈ st.2 ∨
                     run_event.msg "No help available for module" ∈ st.2 ∨
                     run_event.msg "Help for module" ∈ st.2)) := by
              intro sa sub og hsa hw
              have := dispatch_events_de_run_with_input modules env sa st sub og module_req hw
              rw [hsa] at this
              simpa using this
            split at h
            · refine key _ _ _ ?_ h
              simp only [dispatch_events_append, hopen, hst1]
              simp [dispatch_events, run_event.is_dispatch]
            · refine key _ _ _ ?_ h
              simp only [dispatch_events_append, hopen, hst1]
              simp [dispatch_events, run_event.is_dispatch]

theorem findIdx?_map_clear (p : deark_module_info → Bool)
    (hp : ∀ m, p (clear_securitywarning m) = p m) (modules : List deark_module_info) :
    ∀ s : Nat, List.findIdx? p (modules.map clear_securitywarning) s
      = List.findIdx? p modules s := by
  induction modules with
  | nil => intro s; rfl
  | cons m ms ih =>
    intro s
    simp only [List.map_cons, List.findIdx?_cons, hp, ih]

theorem de_get_module_by_id_clear (modules : List deark_module_info) (id : String) :
    de_get_module_by_id (modules.map clear_securitywarning) id
      = de_get_module_by_id modules id := by
  unfold de_get_module_by_id
  exact findIdx?_map_clear (fun m => m.id == id || m.id_alias.contains id)
    (fun _ => rfl) modules 0

theorem getElem?_map_clear (modules : List deark_module_info) (i : Nat) :
    (modules.map clear_securitywarning)[i]? = (modules[i]?).map clear_securitywarning := by
  simp

theorem do_modhelp_clear (modules : List deark_module_info) (st : run_state) :
    do_modhelp (modules.map clear_securitywarning) st = do_modhelp modules st := by
  unfold do_modhelp
  split
  · rfl
  · have h1 : st.1.input_format_req.bind (de_get_module_by_id (modules.map clear_securitywarning))
        = st.1.input_format_req.bind (de_get_module_by_id modules) := by
      cases st.1.input_format_req with
      | none => rfl
      | some id => simp only [Option.some_bind, de_get_module_by_id_clear]
    rw [h1]
    cases st.1.input_format_req.bind (de_get_module_by_id modules) with
    | none => rfl
    | some i =>
      simp only [getElem?_map_clear]
      cases modules[i]? with
      | none => rfl
      | some mi => rfl

theorem de_run_with_input_clear (modules : List deark_module_info) (env : os_env)
    (st : run_state) (subfile orig_ifile : Option dbuf) (i : Nat) :
    de_run_with_input (modules.map clear_securitywarning) env st subfile orig_ifile (some i)
      = de_run_with_input modules env st subfile orig_ifile (some i) := by
  unfold de_run_with_input
  simp only [de_run_select, Option.some_bind, getElem?_map_clear]
  cases modules[i]? with
  | none => rfl
  | some mi => rfl

theorem open_extrlist_input_format_req (st : run_state) (env : os_env) :
    (open_extrlist st env).1.input_format_req = st.1.input_format_req := by
  unfold open_extrlist
  split
  · rfl
  · unfold dbuf_create_unmanaged_file
    cases env.extrlist_file <;> rfl

theorem de_run_opened_clear (modules : List deark_module_info) (env : os_env)
    (st : run_state) (orig_ifile : dbuf) (i : Nat) :
    de_run_opened (modules.map clear_securitywarning) env st orig_ifile (some i)
      = de_run_opened modules env st orig_ifile (some i) := by
  unfold de_run_opened
  simp only [de_run_with_input_clear]

theorem de_run_clear_securitywarning (modules : List deark_module_info) (env : os_env)
    (c : deark) (hreq : c.input_format_req.isSome = true) :
    de_run (modules.map clear_securitywarning) env c = de_run modules env c := by
  unfold de_run
  simp only [do_modhelp_clear]
  have hst1 : (if c.extrlist_filename.isSome = true then
      open_extrlist (c, []) env else ((c, []) : run_state)).1.input_format_req.isSome = true := by
    split
    · rw [open_extrlist_input_format_req]; exact hreq
    · exact hreq
  generalize (if c.extrlist_filename.isSome = true then
      open_extrlist (c, []) env else ((c, []) : run_state)) = st1 at hst1
  have hr : de_run_requested_module (modules.map clear_securitywarning) st1.1
      = de_run_requested_module modules st1.1 := by
    unfold de_run_requested_module
    cases st1.1.input_format_req with
    | none => rfl
    | some id => simp only [de_get_module_by_id_clear]
  rw [hr]
  cases hq : de_run_requested_module modules st1.1 with
  | none => rfl
  | some module_req =>
    cases module_req with
    | none =>
      exfalso
      unfold de_run_requested_module at hq
      cases hf : st1.1.input_format_req with
      | none => simp [hf] at hst1
      | some id =>
        simp only [hf] at hq
        cases hg : de_get_module_by_id modules id with
        | none => simp [hg] at hq
        | some k => simp [hg] at hq
    | some i => simp only [de_run_opened_clear]

/-- C8 (counterexample): module help is requested without a module id, the only module of the
table is chosen by auto-detection and carries DE_MODFLAG_SECURITYWARNING: `de_run` shows
the help of the module; no error is reported (the error count stays 0 and the run has no
error event), and the run function is not invoked. -/
theorem de_run_autodetected_unaudited_modhelp_no_error :
    example_module_unaudited.flags.DE_MODFLAG_SECURITYWARNING = true ∧
    (de_run [example_module_unaudited] example_env
        { example_session with modhelp_req := true }).map (fun st => (st.1.error_count, st.2))
      = some (0, [.open_input, .module_selected 0 true, .msg "Module: unaudited",
                  .msg "No help available for module", .dbuf_close .orig_ifile]) := by
  decide

theorem wf_membuf_root (f : dbuf) (hwf : f.wf) (hbt : f.s.btype = DBUF_TYPE_MEMBUF) :
    ∃ s, f = .root s ∧ 0 ≤ s.len ∧ s.len ≤ s.membuf_alloc ∧
      s.membuf_alloc = s.membuf_buf.length ∧ s.cache = none := by
  cases f with
  | child s p => exact absurd hwf.2.1 (by simp only [dbuf.s] at hbt; rw [hbt]; decide)
  | root s =>
    simp only [dbuf.s] at hbt
    have h := hwf.1
    simp only [dbuf_fields.wf, hbt] at h
    exact ⟨s, rfl, h⟩

theorem wf_membuf_of (s : dbuf_fields) (hbt : s.btype = DBUF_TYPE_MEMBUF)
    (h : 0 ≤ s.len ∧ s.len ≤ s.membuf_alloc ∧ s.membuf_alloc = s.membuf_buf.length ∧
      s.cache = none) : (dbuf.root s).wf := by
  refine ⟨?_, by rw [hbt]; decide⟩
  simp only [dbuf_fields.wf, hbt]
  exact h

theorem de_memcpy_to_eq (dst : List UInt8) (pos : Int) (m : List UInt8) (n : Int)
    (h : 0 ≤ pos ∧ 0 ≤ n ∧ pos + n ≤ dst.length ∧ n ≤ m.length) :
    de_memcpy_to dst pos m n
      = some (dst.take pos.toNat ++ m.take n.toNat ++ dst.drop (pos + n).toNat) := by
  unfold de_memcpy_to
  rw [if_pos h]

theorem memcpy_result_length (dst : List UInt8) (pos : Int) (m : List UInt8) (n : Int)
    (h : 0 ≤ pos ∧ 0 ≤ n ∧ pos + n ≤ dst.length ∧ n ≤ m.length) :
    (dst.take pos.toNat ++ m.take n.toNat ++ dst.drop (pos + n).toNat).length = dst.length := by
  simp only [List.length_append, List.length_take, List.length_drop]
  omega

/-- C9: for a well-formed membuf of length `L`, `pos ≥ 0` and a non-empty byte sequence `m`
with `pos + |m| ≤ L`, `dbuf_write_at(f, pos, m, |m|)` returns a well-formed membuf with the
same length, whose bytes `[pos, pos+|m|)` are `m` and whose every other byte (of the whole
allocation) is unchanged. -/
theorem dbuf_write_at_inside (f : dbuf) (pos : Int) (m : List UInt8)
    (hwf : f.wf) (hbt : f.s.btype = DBUF_TYPE_MEMBUF) (hpos : 0 ≤ pos) (hm : m ≠ [])
    (hin : pos + m.length ≤ f.len) :
    ∃ f', dbuf_write_at f pos m m.length = some f' ∧ f'.wf ∧
      f'.s.btype = DBUF_TYPE_MEMBUF ∧ f'.len = f.len ∧
      (∀ i : Nat, i < m.length → f'.s.membuf_buf[pos.toNat + i]? = m[i]?) ∧
      (∀ k : Nat, ((k : Int) < pos ∨ pos + m.length ≤ (k : Int)) →
        f'.s.membuf_buf[k]? = f.s.membuf_buf[k]?) := by
  obtain ⟨s, rfl, h0, h1, h2, h3⟩ := wf_membuf_root f hwf hbt
  simp only [dbuf.s] at hbt
  simp only [dbuf.len, dbuf.s] at hin
  have hlen : 1 ≤ m.length := by
    cases m with
    | nil => exact absurd rfl hm
    | cons a t => simp
  have hcpy := de_memcpy_to_eq s.membuf_buf pos m m.length (by omega)
  have hL := memcpy_result_length s.membuf_buf pos m m.length (by omega)
  refine ⟨.root { s with
      membuf_buf := (s.membuf_buf.take pos.toNat ++ m.take (m.length : Int).toNat
        ++ s.membuf_buf.drop (pos + m.length).toNat) }, ?_, ?_, hbt, rfl, ?_, ?_⟩
  · unfold dbuf_write_at
    rw [if_neg (by omega)]
    simp only [dbuf.s, hbt, if_true, if_pos hin]
    rw [if_pos (by omega), hcpy]
    simp [dbuf.set_s]
  · apply wf_membuf_of
    · exact hbt
    · exact ⟨h0, h1, by rw [hL]; exact h2, h3⟩
  · intro i hi
    simp only [dbuf.s, Int.toNat_ofNat, List.take_length]
    rw [List.append_assoc, List.getElem?_append_right (by simp)]
    simp only [List.length_take]
    rw [show pos.toNat + i - min pos.toNat s.membuf_buf.length = i by omega]
    rw [List.getElem?_append_left hi]
  · intro k hk
    simp only [dbuf.s, Int.toNat_ofNat, List.take_length]
    rcases hk with hk | hk
    · rw [List.append_assoc, List.getElem?_append_left (by simp; omega)]
      rw [List.getElem?_take]
      rw [if_pos (by omega)]
    · rw [List.getElem?_append_right (by simp; omega)]
      simp only [List.length_append, List.length_take, List.getElem?_drop]
      congr 1
      omega

theorem dbuf_write_at_inside_witness :
    example_membuf4.wf ∧ example_membuf4.s.btype = DBUF_TYPE_MEMBUF ∧ (0 : Int) ≤ 1 ∧
    ([9, 8] : List UInt8) ≠ [] ∧ (1 : Int) + ([9, 8] : List UInt8).length ≤ example_membuf4.len ∧
    ∃ f', dbuf_write_at example_membuf4 1 [9, 8] ([9, 8] : List UInt8).length = some f' ∧ f'.wf ∧
      f'.s.btype = DBUF_TYPE_MEMBUF ∧ f'.len = example_membuf4.len ∧
      (∀ i : Nat, i < ([9, 8] : List UInt8).length →
        f'.s.membuf_buf[(1 : Int).toNat + i]? = ([9, 8] : List UInt8)[i]?) ∧
      (∀ k : Nat, ((k : Int) < 1 ∨ 1 + ([9, 8] : List UInt8).length ≤ (k : Int)) →
        f'.s.membuf_buf[k]? = example_membuf4.s.membuf_buf[k]?) :=
  ⟨by decide, by decide, by decide, by decide, by decide,
    dbuf_write_at_inside example_membuf4 1 [9, 8] (by decide) (by decide) (by decide)
      (by decide) (by decide)⟩

theorem membuf_grow_spec (s : dbuf_fields) (hs : s.membuf_unclamped) (mlen : Int)
    (h0 : 0 < mlen) :
    (membuf_grow s mlen).btype = DBUF_TYPE_MEMBUF ∧ (membuf_grow s mlen).len = s.len ∧
    (membuf_grow s mlen).membuf_alloc = (membuf_grow s mlen).membuf_buf.length ∧
    s.len + mlen ≤ (membuf_grow s mlen).membuf_alloc ∧
    (membuf_grow s mlen).cache = none ∧ (membuf_grow s mlen).has_max_len = false ∧
    (membuf_grow s mlen).membuf_buf.take s.len.toNat = s.membuf_buf.take s.len.toNat ∧
    (membuf_grow s mlen).writecallback_fn = s.writecallback_fn := by
  obtain ⟨hbt, hl0, hl1, hal, hca, hcl⟩ := hs
  unfold membuf_grow
  by_cases hg : mlen > s.membuf_alloc - s.len
  · rw [if_pos hg]
    refine ⟨hbt, rfl, ?_, ?_, hca, hcl, ?_, rfl⟩
    · simp only [de_realloc, List.length_append, List.length_take, List.length_replicate]
      split <;> omega
    · simp only
      split <;> omega
    · simp only [de_realloc]
      rw [List.take_append_of_le_length (by simp only [List.length_take]; split <;> omega)]
      rw [List.take_take]
      congr 1
      split <;> omega
  · rw [if_neg hg]
    exact ⟨hbt, rfl, hal, by omega, hca, hcl, rfl, rfl⟩

theorem membuf_append_spec (s : dbuf_fields) (hs : s.membuf_unclamped) (m : List UInt8)
    (mlen : Int) (h0 : 0 < mlen) (h1 : mlen ≤ m.length) :
    ∃ s', membuf_append (.root s) m mlen = some (.root s') ∧ s'.membuf_unclamped ∧
      s'.len = s.len + mlen ∧
      s'.membuf_buf.take s'.len.toNat = s.membuf_buf.take s.len.toNat ++ m.take mlen.toNat ∧
      s'.writecallback_fn = s.writecallback_fn := by
  obtain ⟨hbt1, hlen1, hal1, hroom, hca1, hcl1, htake1, hcb1⟩ := membuf_grow_spec s hs mlen h0
  obtain ⟨hbt, hl0, hl1, hal, hca, hcl⟩ := hs
  obtain ⟨s1, hs1⟩ : ∃ s1, membuf_grow s mlen = s1 := ⟨_, rfl⟩
  rw [hs1] at hbt1 hlen1 hal1 hroom hca1 hcl1 htake1 hcb1
  have hcpy := de_memcpy_to_eq s1.membuf_buf s1.len m mlen (by omega)
  have hL := memcpy_result_length s1.membuf_buf s1.len m mlen (by omega)
  refine ⟨{ s1 with
      membuf_buf := (s1.membuf_buf.take s1.len.toNat ++ m.take mlen.toNat
        ++ s1.membuf_buf.drop (s1.len + mlen).toNat),
      len := s1.len + mlen }, ?_, ?_, by simp only [hlen1], ?_, hcb1⟩
  · unfold membuf_append
    simp only [dbuf.s, hcl, Bool.false_eq_true, false_and, if_false]
    rw [if_neg (by omega)]
    simp only [hs1, hcpy, dbuf.set_s]
  · exact ⟨hbt1, by simp only; omega, by simp only; omega, by simp only; rw [hL]; exact hal1,
      hca1, hcl1⟩
  · simp only
    rw [show (s1.len + mlen).toNat = (s1.membuf_buf.take s1.len.toNat ++ m.take mlen.toNat).length
      by simp only [List.length_append, List.length_take]; omega]
    rw [List.take_left']
    · rw [hlen1, htake1]
    · rfl

theorem dbuf_call_writecallback_membuf (s : dbuf_fields) (hs : s.membuf_unclamped)
    (m : List UInt8) (len : Int) :
    ∃ s2, dbuf_call_writecallback (.root s) m len = .root s2 ∧ s2.membuf_unclamped ∧
      s2.len = s.len ∧ s2.membuf_buf = s.membuf_buf := by
  unfold dbuf_call_writecallback
  split
  · exact ⟨_, rfl, hs, rfl, rfl⟩
  · exact ⟨s, rfl, hs, rfl, rfl⟩

theorem dbuf_write_membuf (s : dbuf_fields) (hs : s.membuf_unclamped) (m : List UInt8)
    (len : Int) (h0 : 0 < len) (h1 : len ≤ m.length) :
    ∃ s', dbuf_write (.root s) m len = some (.root s') ∧ s'.membuf_unclamped ∧
      s'.len = s.len + len ∧
      s'.membuf_buf.take s'.len.toNat = s.membuf_buf.take s.len.toNat ++ m.take len.toNat := by
  obtain ⟨s2, hcb, hs2, hl2, hb2⟩ := dbuf_call_writecallback_membuf s hs m len
  obtain ⟨s', h, hu, hl, hc, -⟩ := membuf_append_spec s2 hs2 m len h0 h1
  refine ⟨s', ?_, hu, by rw [hl, hl2], by rw [hc, hl2, hb2]⟩
  unfold dbuf_write
  simp only [hcb, dbuf.s, hs2.1]
  exact h

theorem dbuf_write_run_loop_membuf (b : UInt8) (buf : List UInt8) (n : Nat)
    (hbuf : buf = List.replicate n b) :
    ∀ (fuel : Nat) (s : dbuf_fields) (amt_left : Int), s.membuf_unclamped → 0 ≤ amt_left →
      amt_left.toNat ≤ fuel → (amt_left ≤ n ∨ 1024 ≤ n) →
      ∃ s', dbuf_write_run_loop fuel (.root s) buf amt_left = some (.root s') ∧
        s'.membuf_unclamped ∧ s'.len = s.len + amt_left ∧
        s'.membuf_buf.take s'.len.toNat
          = s.membuf_buf.take s.len.toNat ++ List.replicate amt_left.toNat b := by
  intro fuel
  induction fuel with
  | zero =>
    intro s amt hs h0 hf _
    have : amt = 0 := by omega
    subst this
    exact ⟨s, by simp [dbuf_write_run_loop], hs, by simp, by simp⟩
  | succ fuel ih =>
    intro s amt hs h0 hf hn
    unfold dbuf_write_run_loop
    by_cases hpos : amt > 0
    · rw [if_pos hpos]
      simp only
      generalize hw : (if amt < 1024 then amt else 1024) = w
      have hw0 : 0 < w := by rw [← hw]; split <;> omega
      have hw1 : w ≤ amt := by rw [← hw]; split <;> omega
      have hw2 : w ≤ (buf.length : Int) := by
        rw [hbuf, List.length_replicate, ← hw]; split <;> omega
      obtain ⟨s1, hwr, hu1, hl1, hc1⟩ := dbuf_write_membuf s hs buf w hw0 hw2
      rw [hwr]
      simp only
      obtain ⟨s2, hlp, hu2, hl2, hc2⟩ := ih s1 (amt - w) hu1 (by omega) (by omega) (by omega)
      refine ⟨s2, hlp, hu2, by omega, ?_⟩
      rw [hc2, hc1, List.append_assoc]
      congr 1
      rw [hbuf, List.take_replicate, ← List.replicate_add]
      congr 1
      have : w.toNat ≤ n := by rw [hbuf, List.length_replicate] at hw2; omega
      omega
    · rw [if_neg hpos]
      have : amt = 0 := by omega
      subst this
      exact ⟨s, rfl, hs, by simp, by simp⟩

theorem dbuf_write_zeroes_membuf (s : dbuf_fields) (hs : s.membuf_unclamped) (len : Int)
    (h0 : 0 ≤ len) :
    ∃ s', dbuf_write_zeroes (.root s) len = some (.root s') ∧ s'.membuf_unclamped ∧
      s'.len = s.len + len ∧
      s'.membuf_buf.take s'.len.toNat
        = s.membuf_buf.take s.len.toNat ++ List.replicate len.toNat 0 := by
  unfold dbuf_write_zeroes dbuf_write_run
  simp only
  apply dbuf_write_run_loop_membuf 0 _ _ rfl len.toNat s len hs h0 (le_refl _)
  split
  · left; omega
  · right; simp

theorem dbuf_write_at_beyond_content (s : dbuf_fields) (hs : s.membuf_unclamped) (pos : Int)
    (m : List UInt8) (hpos : 0 ≤ pos) (hm : 1 ≤ m.length) (hout : pos + m.length > s.len) :
    ∃ s', dbuf_write_at (.root s) pos m m.length = some (.root s') ∧ s'.membuf_unclamped ∧
      s'.len = pos + m.length ∧
      s'.membuf_buf.take s'.len.toNat =
        (s.membuf_buf.take s.len.toNat).take pos.toNat
          ++ List.replicate (pos - s.len).toNat 0 ++ m := by
  have hbt := hs.1
  have hs' := hs
  obtain ⟨-, hl0, hl1, hal, hca, hcl⟩ := hs'
  unfold dbuf_write_at
  rw [if_neg (by omega), if_pos (show (dbuf.root s).s.btype = DBUF_TYPE_MEMBUF from hbt)]
  simp only [dbuf.s, if_neg (not_le.mpr hout)]
  by_cases hge : pos ≥ s.len
  · -- starts after the end of the current file
    rw [if_pos hge]
    simp only [lt_self_iff_false, if_false, Option.some_bind]
    obtain ⟨s2, hz, hu2, hl2, hc2⟩ : ∃ s2,
        (if pos - s.len > 0 then dbuf_write_zeroes (.root s) (pos - s.len)
          else some (.root s)) = some (.root s2) ∧ s2.membuf_unclamped ∧ s2.len = pos ∧
        s2.membuf_buf.take s2.len.toNat
          = s.membuf_buf.take s.len.toNat ++ List.replicate (pos - s.len).toNat 0 := by
      by_cases hz : pos - s.len > 0
      · rw [if_pos hz]
        obtain ⟨s2, h1, h2, h3, h4⟩ := dbuf_write_zeroes_membuf s hs (pos - s.len) (by omega)
        exact ⟨s2, h1, h2, by omega, h4⟩
      · rw [if_neg hz]
        have : pos = s.len := by omega
        exact ⟨s, rfl, hs, this.symm, by rw [this]; simp⟩
    rw [hz]
    simp only [Option.some_bind]
    rw [if_pos (by omega)]
    obtain ⟨s3, ha, hu3, hl3, hc3, -⟩ := membuf_append_spec s2 hu2 (m.drop (0 : Int).toNat)
      m.length (by omega) (by simp)
    refine ⟨s3, ha, hu3, by omega, ?_⟩
    rw [hc3, hc2]
    simp only [Int.toNat_zero, List.drop_zero, Int.toNat_ofNat, List.take_length]
    congr 2
    exact (List.take_of_length_le (by simp only [List.length_take]; omega)).symm
  · -- overlaps the end of the current file
    rw [if_neg hge]
    simp only
    rw [if_pos (by omega)]
    have hcpy := de_memcpy_to_eq s.membuf_buf pos m (s.len - pos) (by omega)
    have hL := memcpy_result_length s.membuf_buf pos m (s.len - pos) (by omega)
    rw [hcpy]
    simp only [Option.map_some', Option.some_bind, lt_self_iff_false, if_false, dbuf.set_s]
    rw [if_pos (by omega)]
    have hs1 : ({ s with membuf_buf := (s.membuf_buf.take pos.toNat
        ++ m.take (s.len - pos).toNat ++ s.membuf_buf.drop (pos + (s.len - pos)).toNat) }
        : dbuf_fields).membuf_unclamped :=
      ⟨hbt, hl0, hl1, by simp only; rw [hL]; exact hal, hca, hcl⟩
    obtain ⟨s3, ha, hu3, hl3, hc3, -⟩ := membuf_append_spec _ hs1
      (m.drop (s.len - pos).toNat) (m.length - (s.len - pos)) (by omega)
      (by simp only [List.length_drop]; omega)
    refine ⟨s3, ha, hu3, by rw [hl3]; simp only; omega, ?_⟩
    rw [hc3]
    simp only
    have e1 : (s.membuf_buf.take pos.toNat ++ m.take (s.len - pos).toNat
        ++ s.membuf_buf.drop (pos + (s.len - pos)).toNat).take s.len.toNat
        = s.membuf_buf.take pos.toNat ++ m.take (s.len - pos).toNat := by
      apply List.take_left'
      simp only [List.length_append, List.length_take]
      omega
    rw [e1, show (pos - s.len).toNat = 0 by omega]
    simp only [List.replicate_zero, List.append_nil, List.take_take]
    rw [show min pos.toNat s.len.toNat = pos.toNat by omega, List.append_assoc]
    congr 1
    rw [List.take_of_length_le (show (m.drop (s.len - pos).toNat).length
      ≤ (↑m.length - (s.len - pos)).toNat by simp only [List.length_drop]; omega)]
    exact List.take_append_drop _ _

theorem getElem?_of_take_eq (a b : List UInt8) (n k : Nat) (h : a.take n = b) (hk : k < n) :
    a[k]? = b[k]? := by
  rw [← h, List.getElem?_take, if_pos hk]

/-- C10: for a well-formed membuf of length `L` with no max-length clamp, `pos ≥ 0` and a
non-empty byte sequence `m` with `pos + |m| > L`, `dbuf_write_at(f, pos, m, |m|)` returns a
well-formed membuf of length `pos + |m|` in which the bytes `[0, min(pos, L))` are
unchanged, the bytes `[L, pos)` are 0x00, and the bytes `[pos, pos+|m|)` are `m`. -/
theorem dbuf_write_at_beyond (f : dbuf) (pos : Int) (m : List UInt8)
    (hwf : f.wf) (hbt : f.s.btype = DBUF_TYPE_MEMBUF) (hclamp : f.s.has_max_len = false)
    (hpos : 0 ≤ pos) (hm : m ≠ []) (hout : pos + m.length > f.len) :
    ∃ f', dbuf_write_at f pos m m.length = some f' ∧ f'.wf ∧
      f'.s.btype = DBUF_TYPE_MEMBUF ∧ f'.len = pos + m.length ∧
      (∀ k : Nat, (k : Int) < pos → (k : Int) < f.len →
        f'.s.membuf_buf[k]? = f.s.membuf_buf[k]?) ∧
      (∀ k : Nat, f.len ≤ (k : Int) → (k : Int) < pos → f'.s.membuf_buf[k]? = some 0) ∧
      (∀ i : Nat, i < m.length → f'.s.membuf_buf[pos.toNat + i]? = m[i]?) := by
  obtain ⟨s, rfl, h0, h1, h2, h3⟩ := wf_membuf_root f hwf hbt
  simp only [dbuf.s] at hbt hclamp
  simp only [dbuf.len, dbuf.s] at hout ⊢
  have hlen : 1 ≤ m.length := by
    cases m with
    | nil => exact absurd rfl hm
    | cons a t => simp
  obtain ⟨s', hw, hu, hl, hc⟩ :=
    dbuf_write_at_beyond_content s ⟨hbt, h0, h1, h2, h3, hclamp⟩ pos m hpos hlen hout
  have hwf' : (dbuf.root s').wf := wf_membuf_of s' hu.1 ⟨hu.2.1, hu.2.2.1, hu.2.2.2.1, hu.2.2.2.2.1⟩
  refine ⟨.root s', hw, hwf', hu.1, hl, ?_, ?_, ?_⟩
  · intro k hk1 hk2
    rw [getElem?_of_take_eq _ _ _ k hc (by omega), List.append_assoc,
      List.getElem?_append_left (by simp only [List.length_take]; omega),
      List.getElem?_take, if_pos (by omega), List.getElem?_take, if_pos (by omega)]
  · intro k hk1 hk2
    rw [getElem?_of_take_eq _ _ _ k hc (by omega), List.append_assoc,
      List.getElem?_append_right (by simp only [List.length_take]; omega),
      List.getElem?_append_left (by simp only [List.length_take, List.length_replicate]; omega),
      List.getElem?_replicate, if_pos (by simp only [List.length_take]; omega)]
  · intro i hi
    rw [getElem?_of_take_eq _ _ _ (pos.toNat + i) hc (by omega),
      List.getElem?_append_right
        (by simp only [List.length_append, List.length_take, List.length_replicate]; omega)]
    congr 1
    simp only [List.length_append, List.length_take, List.length_replicate]
    omega

theorem dbuf_write_at_beyond_witness :
    example_membuf4.wf ∧ example_membuf4.s.btype = DBUF_TYPE_MEMBUF ∧
    example_membuf4.s.has_max_len = false ∧ (0 : Int) ≤ 7 ∧
    ([9, 8] : List UInt8) ≠ [] ∧ (7 : Int) + ([9, 8] : List UInt8).length > example_membuf4.len ∧
    ∃ f', dbuf_write_at example_membuf4 7 [9, 8] ([9, 8] : List UInt8).length = some f' ∧ f'.wf ∧
      f'.s.btype = DBUF_TYPE_MEMBUF ∧ f'.len = 7 + ([9, 8] : List UInt8).length ∧
      (∀ k : Nat, (k : Int) < 7 → (k : Int) < example_membuf4.len →
        f'.s.membuf_buf[k]? = example_membuf4.s.membuf_buf[k]?) ∧
      (∀ k : Nat, example_membuf4.len ≤ (k : Int) → (k : Int) < 7 →
        f'.s.membuf_buf[k]? = some 0) ∧
      (∀ i : Nat, i < ([9, 8] : List UInt8).length →
        f'.s.membuf_buf[(7 : Int).toNat + i]? = ([9, 8] : List UInt8)[i]?) :=
  ⟨by decide, by decide, by decide, by decide, by decide, by decide,
    dbuf_write_at_beyond example_membuf4 7 [9, 8] (by decide) (by decide) (by decide)
      (by decide) (by decide) (by decide)⟩

theorem dbuf_open_input_stdin_wf (env : os_env) : (dbuf_open_input_stdin env).wf := by
  unfold dbuf_open_input_stdin populate_cache_from_pipe
  simp [dbuf.wf, dbuf_fields.wf, dbuf_zero]

theorem dbuf_open_input_file_wf (st : run_state) (env : os_env) (fn : Option String)
    (f : dbuf) (h : (dbuf_open_input_file st env fn).1 = some f) : f.wf := by
  unfold dbuf_open_input_file at h
  split at h
  · simp at h
  · split at h
    · simp at h
    · split at h
      · simp only [Option.some.injEq] at h
        rw [← h]
        simp [populate_cache_from_pipe, dbuf.wf, dbuf_fields.wf, dbuf_zero]
      · simp only [Option.some.injEq] at h
        rw [← h]
        simp [dbuf.wf, dbuf_fields.wf, dbuf_zero]

theorem de_run_open_wf (st1 : run_state) (env : os_env) (f : dbuf)
    (h : (de_run_open st1 env).1 = some f) : f.wf := by
  unfold de_run_open at h
  split at h
  · simp only [Option.some.injEq] at h
    rw [← h]
    exact dbuf_open_input_stdin_wf env
  · simp only at h
    split at h
    · rename_i g hg
      split at h
      · simp only [Option.some.injEq] at h
        rw [← h]
        exact dbuf_open_input_file_wf st1 env _ g hg
      · exact dbuf_open_input_file_wf st1 env _ f h
    · exact dbuf_open_input_file_wf st1 env _ f h

theorem de_run_with_input_isSome (modules : List deark_module_info) (env : os_env)
    (st : run_state) (subfile orig_ifile : Option dbuf) (module_req : Option Nat)
    (infile : dbuf) (hin : st.1.infile = some infile) (hwf : infile.wf) :
    (de_run_with_input modules env st subfile orig_ifile module_req).isSome = true := by
  unfold de_run_with_input
  have hsel : (de_run_select modules st module_req).isSome = true := by
    unfold de_run_select
    cases module_req with
    | some i => rfl
    | none =>
      obtain ⟨c1, hc1, -⟩ := detect_check_bom_some st.1 infile hin hwf
      simp only [detect_module_for_file, hc1]
      split <;> rfl
  cases hs : de_run_select modules st module_req with
  | none => rw [hs] at hsel; simp at hsel
  | some x =>
    cases x with
    | inl s1 => rfl
    | inr p =>
      obtain ⟨mtu, auto, s1⟩ := p
      simp only
      split <;> rfl

theorem open_extrlist_fields (st : run_state) (env : os_env) :
    (open_extrlist st env).1.module_register_fn = st.1.module_register_fn ∧
    (open_extrlist st env).1.input_style = st.1.input_style ∧
    (open_extrlist st env).1.input_filename = st.1.input_filename ∧
    (open_extrlist st env).1.slice_start_req = st.1.slice_start_req := by
  unfold open_extrlist
  split
  · exact ⟨rfl, rfl, rfl, rfl⟩
  · unfold dbuf_create_unmanaged_file
    cases env.extrlist_file <;> exact ⟨rfl, rfl, rfl, rfl⟩

theorem dbuf_open_input_file_slice_start (st : run_state) (env : os_env) (fn : Option String) :
    (dbuf_open_input_file st env fn).2.1.slice_start_req = st.1.slice_start_req := by
  unfold dbuf_open_input_file
  split
  · rfl
  · split
    · rfl
    · split <;> rfl

theorem de_run_open_slice_start (st1 : run_state) (env : os_env) :
    (de_run_open st1 env).2.1.slice_start_req = st1.1.slice_start_req := by
  unfold de_run_open
  split
  · rfl
  · simp only
    split
    · split
      · exact dbuf_open_input_file_slice_start st1 env _
      · exact dbuf_open_input_file_slice_start st1 env _
    · exact dbuf_open_input_file_slice_start st1 env _

theorem do_modhelp_isSome (modules : List deark_module_info) (st : run_state)
    (hreg : st.1.module_register_fn = true) : (do_modhelp modules st).isSome = true := by
  unfold do_modhelp
  rw [if_neg (by simp [hreg])]
  split
  · rfl
  · split <;> rfl

theorem de_run_opened_isSome (modules : List deark_module_info) (env : os_env)
    (st : run_state) (orig_ifile : dbuf) (module_req : Option Nat) (hwf : orig_ifile.wf)
    (hslice : 0 ≤ st.1.slice_start_req) :
    (de_run_opened modules env st orig_ifile module_req).isSome = true := by
  unfold de_run_opened
  simp only
  split
  · apply de_run_with_input_isSome _ _ _ _ _ _ _ rfl
    exact ⟨⟨rfl, hslice⟩, rfl, hwf⟩
  · exact de_run_with_input_isSome _ _ _ _ _ _ orig_ifile rfl hwf

theorem de_run_returns (modules : List deark_module_info) (env : os_env) (c : deark)
    (hreg : c.module_register_fn = true)
    (hfn : c.input_style = DE_INPUTSTYLE_STDIN ∨ c.input_filename.isSome = true)
    (hslice : 0 ≤ c.slice_start_req) :
    (de_run modules env c).isSome = true := by
  unfold de_run
  simp only
  split
  · simp only [Option.isSome_map']
    exact do_modhelp_isSome modules (c, []) hreg
  · have hst1 : ∀ st1 : run_state,
        st1 = (if c.extrlist_filename.isSome = true then open_extrlist (c, []) env
          else ((c, []) : run_state)) →
        st1.1.module_register_fn = true ∧
        (st1.1.input_style = DE_INPUTSTYLE_STDIN ∨ st1.1.input_filename.isSome = true) ∧
        0 ≤ st1.1.slice_start_req := by
      intro st1 h
      rw [h]
      split
      · obtain ⟨h1, h2, h3, h4⟩ := open_extrlist_fields (c, []) env
        rw [h1, h2, h3, h4]
        exact ⟨hreg, hfn, hslice⟩
      · exact ⟨hreg, hfn, hslice⟩
    generalize hg : (if c.extrlist_filename.isSome = true then open_extrlist (c, []) env
          else ((c, []) : run_state)) = st1
    obtain ⟨h1, h2, h3⟩ := hst1 st1 hg.symm
    rw [if_neg (by
      intro h
      rcases h2 with h2 | h2
      · exact h.1 h2
      · cases hf : st1.1.input_filename <;> simp_all)]
    rw [if_neg (by simp [h1])]
    split
    · rfl
    · split
      · rfl
      · rename_i orig_ifile st2 heq
        apply de_run_opened_isSome
        · exact de_run_open_wf st1 env orig_ifile (by rw [heq])
        · have := de_run_open_slice_start st1 env
          rw [heq] at this
          simp only at this
          rw [this]
          exact h3

/-! ## The buffered reader: traces of runs -/
theorem br_replays_append {σ : Type} (cbfn : de_buffered_read_cbfn σ) :
    ∀ (a b : List br_call) (u u1 u2 : σ), br_replays cbfn u a u1 → br_replays cbfn u1 b u2 →
      br_replays cbfn u (a ++ b) u2 := by
  intro a
  induction a with
  | nil =>
    intro b u u1 u2 h1 h2
    simp only [br_replays] at h1
    subst h1
    simpa using h2
  | cons k ks ih =>
    intro b u u1 u2 h1 h2
    obtain ⟨h11, h12, h13⟩ := h1
    exact ⟨h11, h12, ih b _ u1 u2 h13 h2⟩

/-- The loop of `dbuf_buffered_read` over a well-formed source, whatever the consumer
does: it returns within `len - offs + 1` rounds, with 0; every invocation but the last was
accepted, the last was not; every window is the part of the source that the reader
describes, with `eof_flag` set exactly when the window ends the range and a full buffer of
4096 bytes otherwise; and the accepted invocations consumed the range up to the offset of
the last window. -/
theorem dbuf_buffered_read_loop_trace {σ : Type} (cbfn : de_buffered_read_cbfn σ)
    (f0 : dbuf) (pos1 len : Int) (hpos : 0 ≤ pos1) :
    ∀ (fuel : Nat) (st : br_state σ), br_inv f0 pos1 len st →
      (len - st.offs_of_first_byte_in_buf).toNat + 1 ≤ fuel →
      ∃ r more last, dbuf_buffered_read_loop cbfn pos1 len fuel st = .done r ∧
        r.retval = 0 ∧ r.f.wf ∧ r.f.erase_read_state = f0.erase_read_state ∧
        r.calls = st.calls ++ more ++ [last] ∧
        (∀ k ∈ more, k.accepted) ∧ ¬ last.accepted ∧
        (∀ k ∈ more ++ [last], k.window_ok f0 pos1 len ∧
          (k.brctx.eof_flag = true ↔ k.brctx.offset + k.buf_len = len) ∧
          (k.brctx.eof_flag = false → k.buf_len = 4096)) ∧
        consumed_spans (st.calls ++ more) = f0.read_spec pos1 last.brctx.offset ∧
        (more.length : Int) + 1 ≤ len - st.offs_of_first_byte_in_buf + 1 ∧
        br_replays cbfn st.userdata (more ++ [last]) r.userdata := by
  intro fuel
  induction fuel with
  | zero => intro st _ h; omega
  | succ fuel ih =>
    intro st hinv hfuel
    obtain ⟨hwf, her, hp, hn0, hn1, ho0, hol, hbuf, hcalls⟩ := hinv
    unfold dbuf_buffered_read_loop
    simp only [BRBUFLEN]
    have heof1 : (decide (4096 - st.num_unconsumed_bytes_in_buf ≥ pos1 + len - st.pos) = true ↔
        st.offs_of_first_byte_in_buf + (st.num_unconsumed_bytes_in_buf +
          (if 4096 - st.num_unconsumed_bytes_in_buf ≥ pos1 + len - st.pos
            then pos1 + len - st.pos else 4096 - st.num_unconsumed_bytes_in_buf)) = len) := by
      rw [decide_eq_true_iff]
      split <;> constructor <;> intro h <;> omega
    have heof2 : (decide (4096 - st.num_unconsumed_bytes_in_buf ≥ pos1 + len - st.pos) = false →
        (st.num_unconsumed_bytes_in_buf +
          (if 4096 - st.num_unconsumed_bytes_in_buf ≥ pos1 + len - st.pos
            then pos1 + len - st.pos else 4096 - st.num_unconsumed_bytes_in_buf)) = 4096) := by
      rw [decide_eq_false_iff_not]
      intro h
      rw [if_neg h]
      omega
    generalize hbtr : (if 4096 - st.num_unconsumed_bytes_in_buf ≥ pos1 + len - st.pos
        then pos1 + len - st.pos else 4096 - st.num_unconsumed_bytes_in_buf) = btr at heof1 heof2
    generalize hflag : decide (4096 - st.num_unconsumed_bytes_in_buf ≥ pos1 + len - st.pos) = flag
      at heof1 heof2
    have hb0 : 0 ≤ btr := by rw [← hbtr]; split <;> omega
    have hb1 : st.num_unconsumed_bytes_in_buf + btr ≤ 4096 := by rw [← hbtr]; split <;> omega
    have hb2 : st.offs_of_first_byte_in_buf + st.num_unconsumed_bytes_in_buf + btr ≤ len := by
      rw [← hbtr]; split <;> omega
    obtain ⟨f1, hrd, hwf1, her1⟩ := dbuf_read_correct st.f st.pos btr hwf (by omega) hb0
    rw [hrd]
    simp only
    have hwin : st.buf ++ st.f.read_spec st.pos btr =
        f0.read_spec (pos1 + st.offs_of_first_byte_in_buf)
          (st.num_unconsumed_bytes_in_buf + btr) := by
      rw [hbuf, read_spec_eq_of_erase_eq st.f f0 her, hp,
        read_spec_append f0 _ _ _ hn0 hb0]
    rw [hwin]
    generalize hnum : st.num_unconsumed_bytes_in_buf + btr = num at *
    generalize hr : cbfn st.userdata
      { offset := st.offs_of_first_byte_in_buf, bytes_consumed := num, eof_flag := flag }
      (f0.read_spec (pos1 + st.offs_of_first_byte_in_buf) num) num = r
    have hnum0 : 0 ≤ num := by omega
    -- the record of this invocation
    generalize hk : ({ brctx := { offset := st.offs_of_first_byte_in_buf, bytes_consumed := num,
                                  eof_flag := flag },
                       buf := f0.read_spec (pos1 + st.offs_of_first_byte_in_buf) num,
                       buf_len := num, ret := r.ret, bytes_consumed := r.bytes_consumed }
                      : br_call) = k
    have hkok : k.window_ok f0 pos1 len ∧
        (k.brctx.eof_flag = true ↔ k.brctx.offset + k.buf_len = len) ∧
        (k.brctx.eof_flag = false → k.buf_len = 4096) := by
      subst hk
      refine ⟨⟨ho0, hnum0, hb1, by simp only; omega, rfl, rfl⟩, heof1, heof2⟩
    have hkrep : k.ret = (cbfn st.userdata k.brctx k.buf k.buf_len).ret ∧
        k.bytes_consumed = (cbfn st.userdata k.brctx k.buf k.buf_len).bytes_consumed ∧
        (cbfn st.userdata k.brctx k.buf k.buf_len).userdata = r.userdata := by
      subst hk
      refine ⟨?_, ?_, ?_⟩ <;> simp only [hr]
    have hkoff : k.brctx.offset = st.offs_of_first_byte_in_buf := by subst hk; rfl
    have hkacc : k.accepted ↔ (r.ret ≠ 0 ∧ 1 ≤ r.bytes_consumed ∧ r.bytes_consumed ≤ num) := by
      subst hk; rfl
    have hkcons : k.consumed =
        (f0.read_spec (pos1 + st.offs_of_first_byte_in_buf) num).take r.bytes_consumed.toNat := by
      subst hk; rfl
    have hbad : ¬ k.accepted → ∀ (g : dbuf), g.wf → g.erase_read_state = f0.erase_read_state →
        ∃ r' more last,
        (br_outcome.done ⟨0, g, r.userdata, st.calls ++ [k]⟩ : br_outcome σ) = .done r' ∧
        r'.retval = 0 ∧ r'.f.wf ∧ r'.f.erase_read_state = f0.erase_read_state ∧
        r'.calls = st.calls ++ more ++ [last] ∧
        (∀ k ∈ more, k.accepted) ∧ ¬ last.accepted ∧
        (∀ k ∈ more ++ [last], k.window_ok f0 pos1 len ∧
          (k.brctx.eof_flag = true ↔ k.brctx.offset + k.buf_len = len) ∧
          (k.brctx.eof_flag = false → k.buf_len = 4096)) ∧
        consumed_spans (st.calls ++ more) = f0.read_spec pos1 last.brctx.offset ∧
        (more.length : Int) + 1 ≤ len - st.offs_of_first_byte_in_buf + 1 ∧
        br_replays cbfn st.userdata (more ++ [last]) r'.userdata := by
      intro hna g hg1 hg2
      refine ⟨_, [], k, rfl, rfl, hg1, hg2, by simp, by simp, hna, ?_, ?_, ?_, ?_⟩
      · intro k' hk'
        simp only [List.nil_append, List.mem_singleton] at hk'
        subst hk'
        exact hkok
      · rw [List.append_nil, hcalls, hkoff]
      · simp only [List.length_nil]; omega
      · exact ⟨hkrep.1, hkrep.2.1, hkrep.2.2.symm⟩
    by_cases hret : r.ret = 0
    · rw [if_pos hret]
      exact hbad (by rw [hkacc]; tauto) f1 hwf1 (her1.trans her)
    · rw [if_neg hret]
      by_cases hbc : r.bytes_consumed < 1 ∨ r.bytes_consumed > num
      · rw [if_pos hbc]
        exact hbad (by rw [hkacc]; omega) f1 hwf1 (her1.trans her)
      · rw [if_neg hbc]
        have hc1 : 1 ≤ r.bytes_consumed := by omega
        have hc2 : r.bytes_consumed ≤ num := by omega
        obtain ⟨r', more, last, hrun, hrv, hrwf, hrer, hrc, hmacc, hlacc, hall, hsp, hcnt, hrep⟩ :=
          ih { f := f1
               pos := st.pos + btr
               offs_of_first_byte_in_buf := st.offs_of_first_byte_in_buf + r.bytes_consumed
               num_unconsumed_bytes_in_buf :=
                 if r.bytes_consumed < num then num - r.bytes_consumed else 0
               buf :=
                 if r.bytes_consumed < num then
                   (f0.read_spec (pos1 + st.offs_of_first_byte_in_buf) num).drop
                     r.bytes_consumed.toNat
                 else []
               userdata := r.userdata
               calls := st.calls ++ [k] }
            (by
              refine ⟨hwf1, her1.trans her, ?_, ?_, ?_, ?_, ?_, ?_, ?_⟩
              · simp only; split <;> omega
              · simp only; split <;> omega
              · simp only; split <;> omega
              · simp only; omega
              · simp only; split <;> omega
              · simp only
                split
                · rw [read_spec_drop f0 _ num r.bytes_consumed (by omega) hc2]
                  congr 1; omega
                · have : r.bytes_consumed = num := by omega
                  rw [read_spec_zero]
              · simp only
                rw [consumed_spans_append, hcalls]
                simp only [consumed_spans, List.append_nil, hkcons]
                rw [read_spec_take f0 _ num r.bytes_consumed (by omega) hc2,
                  read_spec_append f0 pos1 _ _ ho0 (by omega)])
            (by simp only; omega)
        simp only at hrc hsp hcnt hrep
        refine ⟨r', k :: more, last, hrun, hrv, hrwf, hrer, ?_, ?_, hlacc, ?_, ?_, ?_, ?_⟩
        · rw [hrc]; simp
        · intro k' hk'
          rcases List.mem_cons.mp hk' with h | h
          · subst h; rw [hkacc]; exact ⟨hret, hc1, hc2⟩
          · exact hmacc k' h
        · intro k' hk'
          rw [List.cons_append] at hk'
          rcases List.mem_cons.mp hk' with h | h
          · subst h; exact hkok
          · exact hall k' h
        · rw [← hsp]; simp
        · simp only [List.length_cons]; push_cast; omega
        · exact ⟨hkrep.1, hkrep.2.1, by rw [hkrep.2.2]; exact hrep⟩

/-- A run of `dbuf_buffered_read` over a well-formed source with `pos1 ≥ 0` and `len ≥ 0`,
whatever the consumer does: see `dbuf_buffered_read_loop_trace`. -/
theorem dbuf_buffered_read_trace {σ : Type} (cbfn : de_buffered_read_cbfn σ)
    (f : dbuf) (pos1 len : Int) (userdata : σ) (fuel : Nat)
    (hwf : f.wf) (hpos : 0 ≤ pos1) (hlen : 0 ≤ len) (hfuel : len.toNat + 1 ≤ fuel) :
    ∃ r more last, dbuf_buffered_read fuel f pos1 len cbfn userdata = .done r ∧
      r.retval = 0 ∧ r.f.wf ∧ r.f.erase_read_state = f.erase_read_state ∧
      r.calls = more ++ [last] ∧
      (∀ k ∈ more, k.accepted) ∧ ¬ last.accepted ∧
      (∀ k ∈ more ++ [last], k.window_ok f pos1 len ∧
        (k.brctx.eof_flag = true ↔ k.brctx.offset + k.buf_len = len) ∧
        (k.brctx.eof_flag = false → k.buf_len = 4096)) ∧
      consumed_spans more = f.read_spec pos1 last.brctx.offset ∧
      (more.length : Int) + 1 ≤ len + 1 ∧
      br_replays cbfn userdata (more ++ [last]) r.userdata := by
  obtain ⟨r, more, last, h1, h2, h3, h4, h5, h6, h7, h8, h9, h10, h11⟩ :=
    dbuf_buffered_read_loop_trace cbfn f pos1 len hpos fuel
      { f := f, pos := pos1, offs_of_first_byte_in_buf := 0, num_unconsumed_bytes_in_buf := 0,
        buf := [], userdata := userdata, calls := [] }
      ⟨hwf, rfl, by simp, by simp, by simp, by simp, by simpa using hlen,
        by simp [read_spec_zero], by simp [read_spec_zero, consumed_spans]⟩
      (by simpa using hfuel)
  refine ⟨r, more, last, h1, h2, h3, h4, by simpa using h5, h6, h7, h8, by simpa using h9,
    by simpa using h10, h11⟩

/-- One round of the loop of `dbuf_buffered_read` in which the consumer returns 0, or
reports a consumed count below 1 or above the size of the window: the function returns 0
with this invocation as its last. -/
theorem dbuf_buffered_read_loop_rejects {σ : Type} (cbfn : de_buffered_read_cbfn σ)
    (pos1 len : Int) (fuel : Nat) (st : br_state σ) (got : List UInt8) (f1 : dbuf)
    (r : cbfn_result σ)
    (hrd : dbuf_read st.f st.pos (st.bytestoread pos1 len) = some (got, f1))
    (hr : cbfn st.userdata (st.brctx pos1 len) (st.buf ++ got)
      (st.num_unconsumed_bytes_in_buf + st.bytestoread pos1 len) = r)
    (hbad : r.ret = 0 ∨ r.bytes_consumed < 1 ∨
      r.bytes_consumed > st.num_unconsumed_bytes_in_buf + st.bytestoread pos1 len) :
    dbuf_buffered_read_loop cbfn pos1 len (fuel + 1) st =
      .done ⟨0, f1, r.userdata, st.calls ++ [⟨st.brctx pos1 len, st.buf ++ got,
        st.num_unconsumed_bytes_in_buf + st.bytestoread pos1 len, r.ret, r.bytes_consumed⟩]⟩ := by
  unfold dbuf_buffered_read_loop
  unfold br_state.brctx at hr ⊢
  unfold br_state.bytestoread at hrd hr hbad ⊢
  simp only
  rw [hrd]
  simp only
  rw [hr]
  by_cases hret : r.ret = 0
  · rw [if_pos hret]
  · rw [if_neg hret, if_pos (by omega)]

theorem dbuf_is_all_zeroes_never_one (fuel : Nat) (f : dbuf) (pos len : Int) :
    dbuf_is_all_zeroes fuel f pos len ≠ some 1 := by
  unfold dbuf_is_all_zeroes dbuf_buffered_read
  intro h
  cases hrun : dbuf_buffered_read_loop is_all_zeroes_cbfn pos len fuel
      { f := f, pos := pos, offs_of_first_byte_in_buf := 0, num_unconsumed_bytes_in_buf := 0,
        buf := [], userdata := (), calls := [] } with
  | out_of_fuel => rw [hrun] at h; simp [br_outcome.retval] at h
  | fatal => rw [hrun] at h; simp [br_outcome.retval] at h
  | done r =>
    rw [hrun] at h
    have := dbuf_buffered_read_loop_retval is_all_zeroes_cbfn pos len fuel _ r hrun
    simp [br_outcome.retval, this] at h

/-- C13 (code bug): on the membuf 0, 0, 0 with `pos = 0` and `len = 3`, where `dbuf_read`
returns three bytes 0x00, `dbuf_is_all_zeroes` returns 0, not 1; and on the empty range
`len = 0` it returns 0 as well. -/
theorem dbuf_is_all_zeroes_returns_zero_on_zeroes :
    (dbuf_read example_membuf_zeroes 0 3).map Prod.fst = some [0, 0, 0] ∧
    dbuf_is_all_zeroes 4 example_membuf_zeroes 0 3 = some 0 ∧
    dbuf_is_all_zeroes 4 example_membuf_zeroes 0 0 = some 0 := by
  decide

/-- C14 (code bug): on the empty range `pos1 = 0`, `len = 0` of the membuf 1, 2, 3 the
consumer is invoked once, with a window of 0 bytes; and on the range `pos1 = 1`, `len = 3` of
the four-byte input file 9, 8, 7, 6 the consumer, having consumed the whole window of the
first invocation (made with `eof_flag` set), is invoked again, with a window of 0 bytes. -/
theorem dbuf_buffered_read_invokes_with_empty_window :
    (dbuf_buffered_read 2 example_membuf3 0 0 example_consume_all []).calls = some
      [{ brctx := { offset := 0, bytes_consumed := 0, eof_flag := true }, buf := [],
         buf_len := 0, ret := 1, bytes_consumed := 0 }] ∧
    (dbuf_buffered_read 3 example_ifile 1 3 example_consume_all []).calls = some
      [{ brctx := { offset := 0, bytes_consumed := 3, eof_flag := true }, buf := [8, 7, 6],
         buf_len := 3, ret := 1, bytes_consumed := 3 },
       { brctx := { offset := 3, bytes_consumed := 0, eof_flag := true }, buf := [],
         buf_len := 0, ret := 1, bytes_consumed := 0 }] := by
  decide

/-- C15: for a well-formed readable source, `pos1 ≥ 0`, `len ≥ 0` and any consumer,
`dbuf_buffered_read` returns (within `len + 1` rounds); the recorded invocations are the
answers of the consumer in call order; an invocation in which the consumer returned 0, or
reported a consumed count below 1 or above the number of bytes it was given, is the last
invocation of the run; and the function returns 0. -/
theorem dbuf_buffered_read_stops_at_rejected {σ : Type} (cbfn : de_buffered_read_cbfn σ)
    (f : dbuf) (pos1 len : Int) (userdata : σ) (fuel : Nat)
    (hwf : f.wf) (hpos : 0 ≤ pos1) (hlen : 0 ≤ len) (hfuel : len.toNat + 1 ≤ fuel) :
    ∃ r, dbuf_buffered_read fuel f pos1 len cbfn userdata = .done r ∧
      br_replays cbfn userdata r.calls r.userdata ∧
      ∀ (i : Nat) (k : br_call), r.calls[i]? = some k →
        (k.ret = 0 ∨ k.bytes_consumed < 1 ∨ k.bytes_consumed > k.buf_len) →
        i + 1 = r.calls.length ∧ r.retval = 0 := by
  obtain ⟨r, more, last, h1, h2, -, -, h5, h6, -, -, -, -, h11⟩ :=
    dbuf_buffered_read_trace cbfn f pos1 len userdata fuel hwf hpos hlen hfuel
  refine ⟨r, h1, by rw [h5]; exact h11, ?_⟩
  intro i k hik hbad
  refine ⟨?_, h2⟩
  rw [h5] at hik ⊢
  by_cases hi : i < more.length
  · rw [List.getElem?_append_left hi] at hik
    have hmem : k ∈ more := List.mem_iff_getElem?.mpr ⟨i, hik⟩
    have hacc := h6 k hmem
    unfold br_call.accepted at hacc
    omega
  · have hlt : i < (more ++ [last]).length := by
      by_contra hge
      rw [List.getElem?_eq_none (by omega)] at hik
      exact absurd hik (by simp)
    simp only [List.length_append, List.length_singleton] at hlt ⊢
    omega

theorem example_membuf_5000_wf : example_membuf_5000.wf := by
  refine wf_membuf_of _ rfl ⟨by decide, by decide, ?_, rfl⟩
  show (5000 : Int) = ((List.replicate 5000 (7 : UInt8)).length : Int)
  rw [List.length_replicate]
  rfl

theorem dbuf_buffered_read_stops_at_rejected_witness :
    example_membuf3.wf ∧ (0 : Int) ≤ 0 ∧ (0 : Int) ≤ 3 ∧ (3 : Int).toNat + 1 ≤ 4 ∧
    ∃ r, dbuf_buffered_read 4 example_membuf3 0 3 example_consume_one 0 = .done r ∧
      br_replays example_consume_one 0 r.calls r.userdata ∧
      ∀ (i : Nat) (k : br_call), r.calls[i]? = some k →
        (k.ret = 0 ∨ k.bytes_consumed < 1 ∨ k.bytes_consumed > k.buf_len) →
        i + 1 = r.calls.length ∧ r.retval = 0 :=
  ⟨by decide, by decide, by decide, by decide,
    dbuf_buffered_read_stops_at_rejected example_consume_one example_membuf3 0 3 0 4
      (by decide) (by decide) (by decide) (by decide)⟩

/-- C16: for a well-formed readable source, `pos1 ≥ 0`, `len ≥ 0` and any consumer,
`dbuf_buffered_read` returns (within `len + 1` rounds), and on every invocation the window
is the `buf_len` bytes of the source from `pos1 + offset` on, inside the range, and
`eof_flag` is set if and only if the window ends where the range ends, that is, no byte of
`[pos1, pos1+len)` lies after the window. -/
theorem dbuf_buffered_read_eof_flag {σ : Type} (cbfn : de_buffered_read_cbfn σ)
    (f : dbuf) (pos1 len : Int) (userdata : σ) (fuel : Nat)
    (hwf : f.wf) (hpos : 0 ≤ pos1) (hlen : 0 ≤ len) (hfuel : len.toNat + 1 ≤ fuel) :
    ∃ r, dbuf_buffered_read fuel f pos1 len cbfn userdata = .done r ∧
      ∀ k ∈ r.calls, k.window_ok f pos1 len ∧
        (k.brctx.eof_flag = true ↔ pos1 + k.brctx.offset + k.buf_len = pos1 + len) := by
  obtain ⟨r, more, last, h1, -, -, -, h5, -, -, h8, -, -, -⟩ :=
    dbuf_buffered_read_trace cbfn f pos1 len userdata fuel hwf hpos hlen hfuel
  refine ⟨r, h1, ?_⟩
  intro k hk
  rw [h5] at hk
  obtain ⟨hw, he, -⟩ := h8 k hk
  refine ⟨hw, ?_⟩
  rw [he]
  constructor <;> intro h <;> omega

theorem dbuf_buffered_read_eof_flag_witness :
    example_membuf_5000.wf ∧ (0 : Int) ≤ 10 ∧ (0 : Int) ≤ 4500 ∧ (4500 : Int).toNat + 1 ≤ 4501 ∧
    ∃ r, dbuf_buffered_read 4501 example_membuf_5000 10 4500 example_consume_one 0 = .done r ∧
      ∀ k ∈ r.calls, k.window_ok example_membuf_5000 10 4500 ∧
        (k.brctx.eof_flag = true ↔ 10 + k.brctx.offset + k.buf_len = 10 + 4500) :=
  ⟨example_membuf_5000_wf, by decide, by decide, by decide,
    dbuf_buffered_read_eof_flag example_consume_one example_membuf_5000 10 4500 0 4501
      example_membuf_5000_wf (by decide) (by decide) (by decide)⟩

/-- C17: for a well-formed readable source, `pos1 ≥ 0`, `len ≥ 0` and any consumer,
`dbuf_buffered_read` returns (within `len + 1` rounds), and on every invocation in which
`eof_flag` is not set the window holds a full buffer of 4096 bytes, so at least 1024. -/
theorem dbuf_buffered_read_window_size {σ : Type} (cbfn : de_buffered_read_cbfn σ)
    (f : dbuf) (pos1 len : Int) (userdata : σ) (fuel : Nat)
    (hwf : f.wf) (hpos : 0 ≤ pos1) (hlen : 0 ≤ len) (hfuel : len.toNat + 1 ≤ fuel) :
    ∃ r, dbuf_buffered_read fuel f pos1 len cbfn userdata = .done r ∧
      ∀ k ∈ r.calls, k.brctx.eof_flag = false →
        k.buf_len = 4096 ∧ k.buf.length = 4096 ∧ 1024 ≤ k.buf.length := by
  obtain ⟨r, more, last, h1, -, -, -, h5, -, -, h8, -, -, -⟩ :=
    dbuf_buffered_read_trace cbfn f pos1 len userdata fuel hwf hpos hlen hfuel
  refine ⟨r, h1, ?_⟩
  intro k hk hflag
  rw [h5] at hk
  obtain ⟨hw, -, hfull⟩ := h8 k hk
  have hbl := hfull hflag
  have hlen4096 : k.buf.length = 4096 := by
    rw [hw.2.2.2.2.1, read_spec_length, hbl]
    rfl
  exact ⟨hbl, hlen4096, by omega⟩

theorem dbuf_buffered_read_window_size_witness :
    example_membuf_5000.wf ∧ (0 : Int) ≤ 10 ∧ (0 : Int) ≤ 4500 ∧ (4500 : Int).toNat + 1 ≤ 4501 ∧
    ∃ r, dbuf_buffered_read 4501 example_membuf_5000 10 4500 example_consume_one 0 = .done r ∧
      ∀ k ∈ r.calls, k.brctx.eof_flag = false →
        k.buf_len = 4096 ∧ k.buf.length = 4096 ∧ 1024 ≤ k.buf.length :=
  ⟨example_membuf_5000_wf, by decide, by decide, by decide,
    dbuf_buffered_read_window_size example_consume_one example_membuf_5000 10 4500 0 4501
      example_membuf_5000_wf (by decide) (by decide) (by decide)⟩

/-! ## Appending to a membuf, with or without a clamp -/

theorem same_apart_from_content_refl (s : dbuf_fields) : s.same_apart_from_content s := rfl

theorem same_apart_from_content_trans (s s1 s2 : dbuf_fields)
    (h1 : s.same_apart_from_content s1) (h2 : s1.same_apart_from_content s2) :
    s.same_apart_from_content s2 := by
  unfold dbuf_fields.same_apart_from_content at *
  cases s; cases s1; cases s2
  simp only [dbuf_fields.mk.injEq] at *
  simp only [h1, h2, and_self]

theorem same_apart_from_content_clamp (s s1 : dbuf_fields)
    (h : s.same_apart_from_content s1) :
    s1.btype = s.btype ∧ s1.has_max_len = s.has_max_len ∧ s1.max_len = s.max_len ∧
    s1.cache = s.cache ∧ s1.writecallback_fn = s.writecallback_fn := by
  unfold dbuf_fields.same_apart_from_content at h
  cases s; cases s1
  simp only [dbuf_fields.mk.injEq] at h
  simp only [h, and_self]

theorem membuf_grow_ok (s : dbuf_fields) (hs : s.membuf_ok) (mlen : Int) (h0 : 0 < mlen) :
    (membuf_grow s mlen).len = s.len ∧
    (membuf_grow s mlen).membuf_alloc = (membuf_grow s mlen).membuf_buf.length ∧
    s.len + mlen ≤ (membuf_grow s mlen).membuf_alloc ∧
    (membuf_grow s mlen).membuf_buf.take s.len.toNat = s.membuf_buf.take s.len.toNat ∧
    s.same_apart_from_content (membuf_grow s mlen) := by
  obtain ⟨hbt, hl0, hl1, hal, hca⟩ := hs
  unfold membuf_grow
  by_cases hg : mlen > s.membuf_alloc - s.len
  · rw [if_pos hg]
    refine ⟨rfl, ?_, ?_, ?_, rfl⟩
    · simp only [de_realloc, List.length_append, List.length_take, List.length_replicate]
      split <;> omega
    · simp only
      split <;> omega
    · simp only [de_realloc]
      rw [List.take_append_of_le_length (by simp only [List.length_take]; split <;> omega)]
      rw [List.take_take]
      congr 1
      split <;> omega
  · rw [if_neg hg]
    exact ⟨rfl, hal, by omega, rfl, rfl⟩

theorem membuf_append_ok (s : dbuf_fields) (hs : s.membuf_ok) (m : List UInt8)
    (mlen0 : Int) (h1 : mlen0 ≤ m.length) :
    ∃ s', membuf_append (.root s) m mlen0 = some (.root s') ∧ s'.membuf_ok ∧
      s'.len = s.len + membuf_append_amount s mlen0 ∧
      s'.membuf_buf.take s'.len.toNat
        = s.membuf_buf.take s.len.toNat ++ m.take (membuf_append_amount s mlen0).toNat ∧
      s.same_apart_from_content s' := by
  unfold membuf_append membuf_append_amount
  simp only [dbuf.s]
  generalize hmlen : (if s.has_max_len = true ∧ s.len + mlen0 > s.max_len
    then s.max_len - s.len else mlen0) = mlen
  have hle : mlen ≤ m.length := by rw [← hmlen]; split <;> omega
  by_cases hz : mlen ≤ 0
  · rw [if_pos hz, if_pos hz]
    exact ⟨s, rfl, hs, by simp, by simp, rfl⟩
  · rw [if_neg hz, if_neg hz]
    obtain ⟨hlen1, hal1, hroom, htake1, hfr1⟩ := membuf_grow_ok s hs mlen (by omega)
    obtain ⟨hbt, hl0, hl1, hal, hca⟩ := hs
    obtain ⟨s1, hs1⟩ : ∃ s1, membuf_grow s mlen = s1 := ⟨_, rfl⟩
    rw [hs1] at hlen1 hal1 hroom htake1 hfr1
    have hcpy := de_memcpy_to_eq s1.membuf_buf s1.len m mlen (by omega)
    have hL := memcpy_result_length s1.membuf_buf s1.len m mlen (by omega)
    obtain ⟨hbt1, -, -, hca1, -⟩ := same_apart_from_content_clamp s s1 hfr1
    rw [hs1, hcpy]
    simp only [dbuf.set_s]
    refine ⟨_, rfl, ?_, by simp only [hlen1], ?_, ?_⟩
    · exact ⟨by rw [← hbt]; exact hbt1, by simp only; omega, by simp only; omega,
        by simp only; rw [hL]; exact hal1, by rw [← hca]; exact hca1⟩
    · simp only
      rw [show (s1.len + mlen).toNat
          = (s1.membuf_buf.take s1.len.toNat ++ m.take mlen.toNat).length
        by simp only [List.length_append, List.length_take]; omega]
      rw [List.take_left']
      · rw [hlen1, htake1]
      · rfl
    · unfold dbuf_fields.same_apart_from_content at hfr1 ⊢
      simp only
      exact hfr1

theorem dbuf_call_writecallback_ok (s : dbuf_fields) (hs : s.membuf_ok)
    (m : List UInt8) (len : Int) :
    ∃ s2, dbuf_call_writecallback (.root s) m len = .root s2 ∧ s2.membuf_ok ∧
      s2.len = s.len ∧ s2.membuf_buf = s.membuf_buf ∧ s.same_apart_from_content s2 := by
  unfold dbuf_call_writecallback
  split
  · exact ⟨_, rfl, hs, rfl, rfl, rfl⟩
  · exact ⟨s, rfl, hs, rfl, rfl, rfl⟩

theorem membuf_append_amount_congr (s s2 : dbuf_fields) (n : Int) (hl : s2.len = s.len)
    (hfr : s.same_apart_from_content s2) :
    membuf_append_amount s2 n = membuf_append_amount s n := by
  obtain ⟨-, h1, h2, -, -⟩ := same_apart_from_content_clamp s s2 hfr
  unfold membuf_append_amount
  rw [hl, h1, h2]

/-- The function `dbuf_write` on a membuf, with or without a clamp: it appends the first
`membuf_append_amount` bytes of `m` and changes nothing else. -/
theorem dbuf_write_ok (s : dbuf_fields) (hs : s.membuf_ok) (m : List UInt8)
    (len : Int) (h1 : len ≤ m.length) :
    ∃ s', dbuf_write (.root s) m len = some (.root s') ∧ s'.membuf_ok ∧
      s'.len = s.len + membuf_append_amount s len ∧
      s'.membuf_buf.take s'.len.toNat
        = s.membuf_buf.take s.len.toNat ++ m.take (membuf_append_amount s len).toNat ∧
      s.same_apart_from_content s' := by
  obtain ⟨s2, hcb, hs2, hl2, hb2, hfr2⟩ := dbuf_call_writecallback_ok s hs m len
  obtain ⟨s', h, hu, hl, hc, hfr⟩ := membuf_append_ok s2 hs2 m len h1
  rw [membuf_append_amount_congr s s2 len hl2 hfr2] at hl hc
  refine ⟨s', ?_, hu, by rw [hl, hl2], by rw [hc, hl2, hb2],
    same_apart_from_content_trans s s2 s' hfr2 hfr⟩
  unfold dbuf_write
  simp only [hcb, dbuf.s, hs2.1]
  exact h

theorem membuf_append_amount_cases (s : dbuf_fields) (n : Int) :
    (n ≤ 0 ∧ membuf_append_amount s n = 0) ∨
    (0 < n ∧ (s.has_max_len = false ∨ s.len + n ≤ s.max_len) ∧ membuf_append_amount s n = n) ∨
    (0 < n ∧ s.has_max_len = true ∧ s.len + n > s.max_len ∧ s.max_len - s.len ≤ 0 ∧
      membuf_append_amount s n = 0) ∨
    (0 < n ∧ s.has_max_len = true ∧ s.len + n > s.max_len ∧ 0 < s.max_len - s.len ∧
      membuf_append_amount s n = s.max_len - s.len) := by
  unfold membuf_append_amount
  simp only
  cases hc : s.has_max_len
  · simp only [Bool.false_eq_true, false_and, if_false]
    by_cases hn : n ≤ 0
    · rw [if_pos hn]; exact Or.inl ⟨hn, rfl⟩
    · rw [if_neg hn]; exact Or.inr (Or.inl ⟨by omega, Or.inl trivial, rfl⟩)
  · simp only [true_and]
    by_cases hgt : s.len + n > s.max_len
    · rw [if_pos hgt]
      by_cases hr : s.max_len - s.len ≤ 0
      · rw [if_pos hr]
        by_cases hn : n ≤ 0
        · exact Or.inl ⟨hn, rfl⟩
        · exact Or.inr (Or.inr (Or.inl ⟨by omega, hgt, hr, rfl⟩))
      · rw [if_neg hr]
        exact Or.inr (Or.inr (Or.inr ⟨by omega, hgt, by omega, rfl⟩))
    · rw [if_neg hgt]
      by_cases hn : n ≤ 0
      · rw [if_pos hn]; exact Or.inl ⟨hn, rfl⟩
      · rw [if_neg hn]; exact Or.inr (Or.inl ⟨by omega, Or.inr (by omega), rfl⟩)

theorem membuf_append_amount_succ (s s1 : dbuf_fields) (n : Nat)
    (hl : s1.len = s.len + membuf_append_amount s 1)
    (hfr : s.same_apart_from_content s1) :
    membuf_append_amount s ((n : Int) + 1)
      = membuf_append_amount s 1 + membuf_append_amount s1 n ∧
    (membuf_append_amount s 1 = 1 ∨
      (membuf_append_amount s 1 = 0 ∧ membuf_append_amount s1 n = 0)) := by
  obtain ⟨-, h1, h2, -, -⟩ := same_apart_from_content_clamp s s1 hfr
  have c1 := membuf_append_amount_cases s 1
  have c2 := membuf_append_amount_cases s1 n
  have c3 := membuf_append_amount_cases s ((n : Int) + 1)
  rw [h1, h2, hl] at c2
  cases hc : s.has_max_len
  · simp only [hc, Bool.false_eq_true, false_and, and_false, true_or, true_and,
      or_false] at c1 c2 c3
    omega
  · simp only [hc, Bool.true_eq_false, false_or, true_and] at c1 c2 c3
    omega

/-- Writing the bytes of `m` one at a time to a membuf, with or without a clamp: the first
`membuf_append_amount` bytes of `m` are appended and nothing else changes. -/
theorem dbuf_writebytes_ok : ∀ (m : List UInt8) (s : dbuf_fields), s.membuf_ok →
    ∃ s', dbuf_writebytes (.root s) m = some (.root s') ∧ s'.membuf_ok ∧
      s'.len = s.len + membuf_append_amount s m.length ∧
      s'.membuf_buf.take s'.len.toNat
        = s.membuf_buf.take s.len.toNat ++ m.take (membuf_append_amount s m.length).toNat ∧
      s.same_apart_from_content s' := by
  intro m
  induction m with
  | nil =>
    intro s hs
    have h0 : membuf_append_amount s ((([] : List UInt8).length : Nat) : Int) = 0 := by
      have := membuf_append_amount_cases s 0
      simp only [List.length_nil, Nat.cast_zero]
      omega
    exact ⟨s, rfl, hs, by rw [h0]; simp, by rw [h0]; simp, rfl⟩
  | cons b bs ih =>
    intro s hs
    obtain ⟨s1, hw, hs1, hl1, hc1, hfr1⟩ := dbuf_write_ok s hs [b] 1 (by simp)
    obtain ⟨s2, hw2, hs2, hl2, hc2, hfr2⟩ := ih s1 hs1
    obtain ⟨hsum, hcase⟩ := membuf_append_amount_succ s s1 bs.length hl1 hfr1
    have hlen : (((b :: bs).length : Nat) : Int) = (bs.length : Int) + 1 := by
      simp only [List.length_cons]; push_cast; rfl
    rw [hlen, hsum]
    refine ⟨s2, ?_, hs2, by rw [hl2, hl1]; omega, ?_,
      same_apart_from_content_trans s s1 s2 hfr1 hfr2⟩
    · show (dbuf_writebyte (.root s) b).bind (fun f1 => dbuf_writebytes f1 bs) = _
      unfold dbuf_writebyte
      rw [hw]
      exact hw2
    · rw [hc2, hc1, List.append_assoc]
      congr 1
      rcases hcase with h | ⟨h, h'⟩
      · rw [h]
        have h2nn : 0 ≤ membuf_append_amount s1 bs.length := by
          have := membuf_append_amount_cases s1 bs.length
          omega
        rw [show (1 + membuf_append_amount s1 ↑bs.length).toNat
          = (membuf_append_amount s1 ↑bs.length).toNat + 1 by omega]
        simp
      · rw [h, h']
        simp

/-- C11: for every membuf in the state that the membuf operations maintain, with or without
a max-length clamp, and every byte sequence `m`: one call `dbuf_write(f, m, |m|)` and `|m|`
successive calls of `dbuf_writebyte` with the bytes of `m` both succeed and leave the same
length and the same content (the first `len` bytes of the buffer). -/
theorem dbuf_write_eq_writebytes (f : dbuf) (m : List UInt8)
    (hwf : f.wf) (hbt : f.s.btype = DBUF_TYPE_MEMBUF) :
    ∃ f1 f2, dbuf_write f m m.length = some f1 ∧ dbuf_writebytes f m = some f2 ∧
      f1.len = f2.len ∧ membuf_content f1 = membuf_content f2 := by
  obtain ⟨s, rfl, h0, h1, h2, h3⟩ := wf_membuf_root f hwf hbt
  have hs : s.membuf_ok := ⟨hbt, h0, h1, h2, h3⟩
  obtain ⟨s1, hw1, -, hl1, hc1, -⟩ := dbuf_write_ok s hs m m.length (le_refl _)
  obtain ⟨s2, hw2, -, hl2, hc2, -⟩ := dbuf_writebytes_ok m s hs
  refine ⟨_, _, hw1, hw2, ?_, ?_⟩
  · show s1.len = s2.len
    rw [hl1, hl2]
  · show s1.membuf_buf.take s1.len.toNat = s2.membuf_buf.take s2.len.toNat
    rw [hc1, hc2]

theorem dbuf_write_eq_writebytes_witness :
    example_membuf_clamped.wf ∧ example_membuf_clamped.s.btype = DBUF_TYPE_MEMBUF ∧
    ∃ f1 f2, dbuf_write example_membuf_clamped [7, 8, 9] ([7, 8, 9] : List UInt8).length
        = some f1 ∧
      dbuf_writebytes example_membuf_clamped [7, 8, 9] = some f2 ∧
      f1.len = f2.len ∧ membuf_content f1 = membuf_content f2 :=
  ⟨by decide, by decide,
    dbuf_write_eq_writebytes example_membuf_clamped [7, 8, 9] (by decide) (by decide)⟩

/-! ## The max-length clamp is kept by every write operation -/

theorem membuf_clamped_of_write (n : Int) (s s1 : dbuf_fields)
    (hs : s.membuf_clamped n) (hok : s1.membuf_ok) (k : Int)
    (hl : s1.len = s.len + membuf_append_amount s k)
    (hfr : s.same_apart_from_content s1) : s1.membuf_clamped n := by
  obtain ⟨-, h1, h2, -, -⟩ := same_apart_from_content_clamp s s1 hfr
  obtain ⟨hso, hc, hm, hle⟩ := hs
  refine ⟨hok, by rw [h1, hc], by rw [h2, hm], ?_⟩
  have := membuf_append_amount_cases s k
  simp only [hc, Bool.true_eq_false, false_or, true_and] at this
  omega

theorem dbuf_write_clamped (n : Int) (s : dbuf_fields) (hs : s.membuf_clamped n)
    (m : List UInt8) (len : Int) (h1 : len ≤ m.length) :
    ∃ s', dbuf_write (.root s) m len = some (.root s') ∧ s'.membuf_clamped n ∧
      s.len ≤ s'.len ∧ s'.len ≤ s.len + (if len ≤ 0 then 0 else len) ∧
      (s'.len = s.len + len ∨ s'.len = n ∨ len ≤ 0) := by
  obtain ⟨s', hw, hok, hl, -, hfr⟩ := dbuf_write_ok s hs.1 m len h1
  refine ⟨s', hw, membuf_clamped_of_write n s s' hs hok len hl hfr, ?_, ?_, ?_⟩
  all_goals
    have := membuf_append_amount_cases s len
    obtain ⟨hso, hc, hm, hle⟩ := hs
    simp only [hc, Bool.true_eq_false, false_or, true_and] at this
    try split
    all_goals omega

theorem dbuf_write_run_loop_clamped (n : Int) (buf : List UInt8) :
    ∀ (fuel : Nat) (s : dbuf_fields) (amt_left : Int), s.membuf_clamped n →
      amt_left.toNat ≤ fuel → (amt_left ≤ buf.length ∨ 1024 ≤ buf.length) →
      ∃ s', dbuf_write_run_loop fuel (.root s) buf amt_left = some (.root s') ∧
        s'.membuf_clamped n := by
  intro fuel
  induction fuel with
  | zero =>
    intro s amt hs hf _
    refine ⟨s, ?_, hs⟩
    unfold dbuf_write_run_loop
    rw [if_neg (by omega)]
  | succ fuel ih =>
    intro s amt hs hf hn
    unfold dbuf_write_run_loop
    by_cases hpos : amt > 0
    · rw [if_pos hpos]
      simp only
      generalize hw : (if amt < 1024 then amt else 1024) = w
      have hw0 : 0 < w := by rw [← hw]; split <;> omega
      have hw1 : w ≤ amt := by rw [← hw]; split <;> omega
      have hw2 : w ≤ (buf.length : Int) := by rw [← hw]; split <;> omega
      obtain ⟨s1, hwr, hs1, -, -, -⟩ := dbuf_write_clamped n s hs buf w hw2
      rw [hwr]
      simp only
      exact ih s1 (amt - w) hs1 (by omega) (by omega)
    · rw [if_neg hpos]
      exact ⟨s, rfl, hs⟩

theorem dbuf_write_run_clamped (n : Int) (s : dbuf_fields) (hs : s.membuf_clamped n)
    (b : UInt8) (len : Int) :
    ∃ s', dbuf_write_run (.root s) b len = some (.root s') ∧ s'.membuf_clamped n := by
  unfold dbuf_write_run
  simp only
  apply dbuf_write_run_loop_clamped n _ len.toNat s len hs (le_refl _)
  rw [List.length_replicate]
  split
  · left; omega
  · right; simp

theorem dbuf_write_zeroes_clamped (n : Int) (s : dbuf_fields) (hs : s.membuf_clamped n)
    (len : Int) :
    ∃ s', dbuf_write_zeroes (.root s) len = some (.root s') ∧ s'.membuf_clamped n := by
  unfold dbuf_write_zeroes
  exact dbuf_write_run_clamped n s hs 0 len

theorem membuf_append_clamped (n : Int) (s : dbuf_fields) (hs : s.membuf_clamped n)
    (m : List UInt8) (len : Int) (h1 : len ≤ m.length) :
    ∃ s', membuf_append (.root s) m len = some (.root s') ∧ s'.membuf_clamped n := by
  obtain ⟨s', hw, hok, hl, -, hfr⟩ := membuf_append_ok s hs.1 m len h1
  exact ⟨s', hw, membuf_clamped_of_write n s s' hs hok len hl hfr⟩

theorem membuf_overwrite_clamped (n : Int) (s : dbuf_fields) (hs : s.membuf_clamped n)
    (pos : Int) (m : List UInt8) (k : Int) (hp : 0 ≤ pos) (hk0 : 0 ≤ k) (hk : pos + k ≤ s.len)
    (hm : k ≤ m.length) :
    ∃ buf, de_memcpy_to s.membuf_buf pos m k = some buf ∧
      ({ s with membuf_buf := buf } : dbuf_fields).membuf_clamped n := by
  obtain ⟨⟨hbt, hl0, hl1, hal, hca⟩, hc, hmx, hle⟩ := hs
  have hcpy := de_memcpy_to_eq s.membuf_buf pos m k (by omega)
  have hL := memcpy_result_length s.membuf_buf pos m k (by omega)
  exact ⟨_, hcpy, ⟨hbt, hl0, hl1, by simp only; rw [hL]; exact hal, hca⟩, hc, hmx, hle⟩

theorem dbuf_write_at_clamped (n : Int) (s : dbuf_fields) (hs : s.membuf_clamped n)
    (pos : Int) (m : List UInt8) (len : Int) (h1 : len ≤ m.length) :
    ∃ s', dbuf_write_at (.root s) pos m len = some (.root s') ∧ s'.membuf_clamped n := by
  have hbt := hs.1.1
  unfold dbuf_write_at
  by_cases hskip : len < 1 ∨ pos < 0
  · rw [if_pos hskip]
    exact ⟨s, rfl, hs⟩
  · rw [if_neg hskip, if_pos (show (dbuf.root s).s.btype = DBUF_TYPE_MEMBUF from hbt)]
    simp only [dbuf.s]
    by_cases hin : pos + len ≤ s.len
    · -- entirely within the current file
      rw [if_pos hin]
      simp only
      rw [if_pos (by omega)]
      obtain ⟨buf, hcpy, hs1⟩ := membuf_overwrite_clamped n s hs pos m len (by omega) (by omega)
        hin h1
      rw [hcpy]
      simp only [Option.map_some', Option.some_bind, lt_self_iff_false, if_false, dbuf.set_s]
      exact ⟨_, rfl, hs1⟩
    · rw [if_neg hin]
      by_cases hge : pos ≥ s.len
      · -- starts after the end of the current file
        rw [if_pos hge]
        simp only [lt_self_iff_false, if_false, Option.some_bind]
        obtain ⟨s2, hz, hs2⟩ : ∃ s2,
            (if pos - s.len > 0 then dbuf_write_zeroes (.root s) (pos - s.len)
              else some (.root s)) = some (.root s2) ∧ s2.membuf_clamped n := by
          by_cases hz : pos - s.len > 0
          · rw [if_pos hz]
            exact dbuf_write_zeroes_clamped n s hs (pos - s.len)
          · rw [if_neg hz]
            exact ⟨s, rfl, hs⟩
        rw [hz]
        simp only [Option.some_bind]
        rw [if_pos (by omega)]
        exact membuf_append_clamped n s2 hs2 (m.drop (0 : Int).toNat) len (by simpa using h1)
      · -- overlaps the end of the current file
        rw [if_neg hge]
        simp only
        rw [if_pos (by omega)]
        obtain ⟨buf, hcpy, hs1⟩ := membuf_overwrite_clamped n s hs pos m (s.len - pos)
          (by omega) (by omega) (by omega) (by omega)
        rw [hcpy]
        simp only [Option.map_some', Option.some_bind, lt_self_iff_false, if_false, dbuf.set_s]
        rw [if_pos (by omega)]
        exact membuf_append_clamped n _ hs1 (m.drop (s.len - pos).toNat) (len - (s.len - pos))
          (by simp only [List.length_drop]; omega)

theorem dbuf_writebyte_at_clamped (n : Int) (s : dbuf_fields) (hs : s.membuf_clamped n)
    (pos : Int) (b : UInt8) :
    ∃ s', dbuf_writebyte_at (.root s) pos b = some (.root s') ∧ s'.membuf_clamped n := by
  unfold dbuf_writebyte_at
  split
  · rename_i h
    simp only [dbuf.s] at h
    obtain ⟨buf, hcpy, hs1⟩ := membuf_overwrite_clamped n s hs pos [b] 1 (by omega) (by omega)
      (by omega) (by simp)
    simp only [dbuf.s]
    rw [hcpy]
    exact ⟨_, rfl, hs1⟩
  · exact dbuf_write_at_clamped n s hs pos [b] 1 (by simp)

theorem dbuf_truncate_clamped (n : Int) (s : dbuf_fields) (hs : s.membuf_clamped n)
    (desired_len : Int) :
    ∃ s', dbuf_truncate (.root s) desired_len = some (.root s') ∧ s'.membuf_clamped n := by
  unfold dbuf_truncate
  simp only [dbuf.s]
  generalize hd : (if desired_len < 0 then 0 else desired_len) = d
  have hd0 : 0 ≤ d := by rw [← hd]; split <;> omega
  by_cases hgt : d > s.len
  · rw [if_pos hgt]
    exact dbuf_write_zeroes_clamped n s hs (d - s.len)
  · rw [if_neg hgt]
    by_cases hlt : d < s.len
    · rw [if_pos hlt, if_pos hs.1.1]
      obtain ⟨⟨hbt, hl0, hl1, hal, hca⟩, hc, hmx, hle⟩ := hs
      exact ⟨_, rfl, ⟨hbt, hd0, by simp only; omega, hal, hca⟩, hc, hmx, by simp only; omega⟩
    · rw [if_neg hlt]
      exact ⟨s, rfl, hs⟩

theorem membuf_op_apply_clamped (n : Int) (s : dbuf_fields) (hs : s.membuf_clamped n)
    (op : membuf_op) (hv : op.valid) :
    ∃ s', op.apply (.root s) = some (.root s') ∧ s'.membuf_clamped n := by
  cases op with
  | write m len =>
    obtain ⟨s', h, hs', -⟩ := dbuf_write_clamped n s hs m len hv
    exact ⟨s', h, hs'⟩
  | writebyte b =>
    obtain ⟨s', h, hs', -⟩ := dbuf_write_clamped n s hs [b] 1 (by simp)
    exact ⟨s', h, hs'⟩
  | write_run b len => exact dbuf_write_run_clamped n s hs b len
  | write_at pos m len => exact dbuf_write_at_clamped n s hs pos m len hv
  | writebyte_at pos b => exact dbuf_writebyte_at_clamped n s hs pos b
  | truncate d => exact dbuf_truncate_clamped n s hs d

theorem membuf_ops_apply_clamped (n : Int) : ∀ (ops : List membuf_op) (s : dbuf_fields),
    s.membuf_clamped n → (∀ op ∈ ops, op.valid) →
    ∃ s', membuf_ops_apply ops (.root s) = some (.root s') ∧ s'.membuf_clamped n := by
  intro ops
  induction ops with
  | nil => intro s hs _; exact ⟨s, rfl, hs⟩
  | cons op ops ih =>
    intro s hs hv
    obtain ⟨s1, h1, hs1⟩ := membuf_op_apply_clamped n s hs op (hv op (List.mem_cons_self _ _))
    obtain ⟨s2, h2, hs2⟩ := ih s1 hs1 (fun o ho => hv o (List.mem_cons_of_mem _ ho))
    refine ⟨s2, ?_, hs2⟩
    show (op.apply (.root s)).bind (fun f1 => membuf_ops_apply ops f1) = _
    rw [h1]
    exact h2

theorem dbuf_create_membuf_clamped (initialsize : Int) (flags : Nat) (h0 : 0 ≤ initialsize)
    (hflag : flags &&& 0x01 ≠ 0) :
    ∃ s, dbuf_create_membuf initialsize flags = .root s ∧ s.membuf_clamped initialsize ∧
      s.len = 0 := by
  unfold dbuf_create_membuf
  simp only [hflag, ne_eq, not_false_eq_true, if_true, dbuf_set_max_length]
  by_cases hp : initialsize > 0
  · rw [if_pos hp]
    refine ⟨_, rfl, ⟨⟨rfl, le_refl _, ?_, ?_, rfl⟩, rfl, rfl, ?_⟩, rfl⟩
    · simp only [dbuf_zero]; omega
    · simp only [List.length_replicate]; omega
    · simp only [dbuf_zero]; omega
  · rw [if_neg hp]
    have : initialsize = 0 := by omega
    subst this
    exact ⟨_, rfl, ⟨⟨rfl, le_refl _, le_refl _, rfl, rfl⟩, rfl, rfl, le_refl _⟩, rfl⟩

/-- C12: for `initialsize ≥ 0` and flags with bit 0x01 set, every finite sequence of calls
of `dbuf_write`, `dbuf_writebyte`, `dbuf_write_run`, `dbuf_write_at`, `dbuf_writebyte_at` and
`dbuf_truncate` (each with a buffer that holds the bytes it asks to write) on the membuf
made by `dbuf_create_membuf(c, initialsize, flags)` runs to its end and leaves a membuf
with `0 ≤ len ≤ initialsize` and `len ≤ membuf_alloc`. -/
theorem membuf_clamp_invariant (initialsize : Int) (flags : Nat) (ops : List membuf_op)
    (h0 : 0 ≤ initialsize) (hflag : flags &&& 0x01 ≠ 0) (hv : ∀ op ∈ ops, op.valid) :
    ∃ f, membuf_ops_apply ops (dbuf_create_membuf initialsize flags) = some f ∧
      f.s.btype = DBUF_TYPE_MEMBUF ∧
      0 ≤ f.len ∧ f.len ≤ initialsize ∧ f.len ≤ f.s.membuf_alloc := by
  obtain ⟨s, hc, hs, -⟩ := dbuf_create_membuf_clamped initialsize flags h0 hflag
  rw [hc]
  obtain ⟨s', h, ⟨hbt, hl0, hl1, -, -⟩, -, -, hle⟩ := membuf_ops_apply_clamped initialsize ops s hs hv
  exact ⟨_, h, hbt, hl0, hle, hl1⟩

theorem membuf_clamp_invariant_witness :
    (0 : Int) ≤ 2 ∧ 1 &&& 0x01 ≠ 0 ∧
    (∀ op ∈ [membuf_op.write [1, 2, 3] 3, membuf_op.write_at 5 [4] 1, membuf_op.truncate 1,
      membuf_op.write_run 9 4], op.valid) ∧
    ∃ f, membuf_ops_apply [membuf_op.write [1, 2, 3] 3, membuf_op.write_at 5 [4] 1,
        membuf_op.truncate 1, membuf_op.write_run 9 4] (dbuf_create_membuf 2 1) = some f ∧
      f.s.btype = DBUF_TYPE_MEMBUF ∧
      0 ≤ f.len ∧ f.len ≤ 2 ∧ f.len ≤ f.s.membuf_alloc :=
  ⟨by decide, by decide, by decide,
    membuf_clamp_invariant 2 1 [membuf_op.write [1, 2, 3] 3, membuf_op.write_at 5 [4] 1,
      membuf_op.truncate 1, membuf_op.write_run 9 4] (by decide) (by decide) (by decide)⟩

/-! ## Copying a slice -/

theorem membuf_append_amount_unclamped (s : dbuf_fields) (hs : s.has_max_len = false)
    (n : Int) (hn : 0 ≤ n) : membuf_append_amount s n = n := by
  have := membuf_append_amount_cases s n
  simp only [hs, Bool.false_eq_true, false_and, and_false, or_false, true_or, true_and] at this
  omega

theorem copy_cbfn_replays : ∀ (calls : List br_call) (s : dbuf_fields) (u : Option dbuf),
    s.membuf_unclamped →
    (∀ k ∈ calls, 0 ≤ k.buf_len ∧ k.buf.length = k.buf_len.toNat ∧
      k.brctx.bytes_consumed = k.buf_len) →
    br_replays copy_cbfn (some (.root s)) calls u →
    ∃ s', u = some (.root s') ∧ s'.membuf_unclamped ∧ s.same_apart_from_content s' ∧
      s'.membuf_buf.take s'.len.toNat = s.membuf_buf.take s.len.toNat ++ consumed_spans calls ∧
      s'.len = s.len + (consumed_spans calls).length ∧
      (∀ k ∈ calls, k.ret = 1 ∧ k.bytes_consumed = k.buf_len) := by
  intro calls
  induction calls with
  | nil =>
    intro s u hs _ hrep
    simp only [br_replays] at hrep
    subst hrep
    exact ⟨s, rfl, hs, rfl, by simp [consumed_spans], by simp [consumed_spans],
      by intro k hk; exact absurd hk (List.not_mem_nil _)⟩
  | cons k ks ih =>
    intro s u hs hall hrep
    obtain ⟨hk0, hklen, hkpre⟩ := hall k (List.mem_cons_self _ _)
    obtain ⟨hret, hbc, hrest⟩ := hrep
    simp only [copy_cbfn, Option.some_bind] at hret hbc hrest
    obtain ⟨hbt, hl0, hl1, hal, hca, hcl⟩ := hs
    obtain ⟨s1, hw, hok1, hlen1, hc1, hfr1⟩ :=
      dbuf_write_ok s ⟨hbt, hl0, hl1, hal, hca⟩ k.buf k.buf_len (by omega)
    rw [membuf_append_amount_unclamped s hcl k.buf_len hk0] at hlen1 hc1
    obtain ⟨-, hcl1, -, -, -⟩ := same_apart_from_content_clamp s s1 hfr1
    rw [hw] at hrest
    obtain ⟨s2, hu, hs2, hfr2, hc2, hlen2, hks⟩ := ih s1 u
      ⟨hok1.1, hok1.2.1, hok1.2.2.1, hok1.2.2.2.1, hok1.2.2.2.2, by rw [hcl1, hcl]⟩
      (fun k' hk' => hall k' (List.mem_cons_of_mem _ hk')) hrest
    have hcons : k.consumed = k.buf := by
      unfold br_call.consumed
      rw [hbc, hkpre]
      exact List.take_of_length_le (by omega)
    have hspan : consumed_spans (k :: ks) = k.buf ++ consumed_spans ks := by
      show k.consumed ++ consumed_spans ks = _
      rw [hcons]
    have htk : k.buf.take k.buf_len.toNat = k.buf := List.take_of_length_le (by omega)
    refine ⟨s2, hu, hs2, same_apart_from_content_trans s s1 s2 hfr1 hfr2, ?_, ?_, ?_⟩
    · rw [hc2, hc1, htk, hspan, List.append_assoc]
    · rw [hlen2, hlen1, hspan, List.length_append]
      push_cast
      omega
    · intro k' hk'
      rcases List.mem_cons.mp hk' with h | h
      · subst h; exact ⟨hret, by rw [hbc, hkpre]⟩
      · exact hks k' h

/-- C18: for a well-formed readable source `inf`, `offset ≥ 0`, `n ≥ 0` and an output membuf
without clamp (an object apart from the source), `dbuf_copy(inf, offset, n, outf)` returns
(within `n + 1` rounds of the reader); the source is as before apart from the bookkeeping
of reads; the content of `outf` is its old content followed by the `n` bytes that
`dbuf_read(inf, offset, n)` returns, its length has grown by `n`, and no other field of
`outf` has changed (the allocation, and the record of the write callback, apart).
In particular `de_run_copy`, which copies `[0, infile.len)`, leaves in an empty output
membuf the length and the bytes of the input file. -/
theorem dbuf_copy_appends_slice (fuel : Nat) (inf outf : dbuf) (offset n : Int)
    (hwf : inf.wf) (hoff : 0 ≤ offset) (hn : 0 ≤ n)
    (howf : outf.wf) (hobt : outf.s.btype = DBUF_TYPE_MEMBUF)
    (hocl : outf.s.has_max_len = false) (hfuel : n.toNat + 1 ≤ fuel) :
    ∃ inf1 outf1 buf inf2, dbuf_copy fuel inf offset n outf = some (inf1, outf1) ∧
      inf1.wf ∧ inf1.erase_read_state = inf.erase_read_state ∧
      dbuf_read inf offset n = some (buf, inf2) ∧
      membuf_content outf1 = membuf_content outf ++ buf ∧
      outf1.len = outf.len + n ∧ outf1.wf ∧ outf.s.same_apart_from_content outf1.s ∧
      (offset = 0 → n = inf.len → outf.len = 0 →
        de_run_copy fuel inf outf = some (inf1, outf1) ∧ outf1.len = inf.len ∧
        membuf_content outf1 = inf.read_spec 0 inf.len) := by
  obtain ⟨s, rfl, hs0, hs1, hs2, hs3⟩ := wf_membuf_root outf howf hobt
  have hs : s.membuf_unclamped := ⟨hobt, hs0, hs1, hs2, hs3, hocl⟩
  obtain ⟨inf2, hrd, -, -⟩ := dbuf_read_correct inf offset n hwf hoff hn
  obtain ⟨r, more, last, h1, -, h3, h4, h5, -, h7, h8, h9, -, h11⟩ :=
    dbuf_buffered_read_trace copy_cbfn inf offset n (some (.root s)) fuel hwf hoff hn hfuel
  have hall : ∀ k ∈ more ++ [last], 0 ≤ k.buf_len ∧ k.buf.length = k.buf_len.toNat ∧
      k.brctx.bytes_consumed = k.buf_len := by
    intro k hk
    obtain ⟨⟨-, hb0, -, -, hbuf, hpre⟩, -, -⟩ := h8 k hk
    exact ⟨hb0, by rw [hbuf, read_spec_length], hpre⟩
  obtain ⟨s1, hu, hs1, hfr, hc, hl, hks⟩ := copy_cbfn_replays (more ++ [last]) s r.userdata hs
    hall h11
  -- the last invocation had an empty window at the end of the range
  obtain ⟨hlret, hlbc⟩ := hks last (by simp)
  obtain ⟨⟨-, hlb0, -, -, hlbuf, -⟩, hleof, hlfull⟩ := h8 last (by simp)
  have hlzero : last.buf_len = 0 := by
    unfold br_call.accepted at h7
    rw [hlret, hlbc] at h7
    by_contra hne
    exact h7 ⟨by decide, by omega, le_refl _⟩
  have hloff : last.brctx.offset = n := by
    cases hflag : last.brctx.eof_flag
    · have := hlfull hflag
      omega
    · have := hleof.mp hflag
      omega
  have hlcons : last.consumed = [] := by
    unfold br_call.consumed
    rw [hlbuf, hlzero, read_spec_zero]
    simp
  have hspans : consumed_spans (more ++ [last]) = inf.read_spec offset n := by
    rw [consumed_spans_append, h9, hloff]
    simp [consumed_spans, hlcons]
  rw [hspans] at hc hl
  have hlen : s1.len = s.len + n := by
    rw [hl, read_spec_length]
    omega
  have hcopy : dbuf_copy fuel inf offset n (.root s) = some (r.f, .root s1) := by
    unfold dbuf_copy
    rw [h1]
    simp only [hu, Option.map_some']
  refine ⟨r.f, .root s1, _, inf2, hcopy, h3, h4, hrd, hc, hlen,
    wf_membuf_of s1 hs1.1 ⟨hs1.2.1, hs1.2.2.1, hs1.2.2.2.1, hs1.2.2.2.2.1⟩, hfr, ?_⟩
  intro ho hni hs0
  subst ho
  simp only [dbuf.len, dbuf.s] at hs0
  refine ⟨?_, ?_, ?_⟩
  · unfold de_run_copy dbuf_create_file_from_slice
    rw [← hni]
    exact hcopy
  · show s1.len = inf.len
    omega
  · show s1.membuf_buf.take s1.len.toNat = _
    rw [hc, hs0, ← hni]
    simp

theorem dbuf_copy_appends_slice_witness :
    example_ifile.wf ∧ (0 : Int) ≤ 0 ∧ (0 : Int) ≤ 4 ∧ (dbuf_create_membuf 0 0).wf ∧
    (dbuf_create_membuf 0 0).s.btype = DBUF_TYPE_MEMBUF ∧
    (dbuf_create_membuf 0 0).s.has_max_len = false ∧ (4 : Int).toNat + 1 ≤ 5 ∧
    ∃ inf1 outf1 buf inf2,
      dbuf_copy 5 example_ifile 0 4 (dbuf_create_membuf 0 0) = some (inf1, outf1) ∧
      inf1.wf ∧ inf1.erase_read_state = example_ifile.erase_read_state ∧
      dbuf_read example_ifile 0 4 = some (buf, inf2) ∧
      membuf_content outf1 = membuf_content (dbuf_create_membuf 0 0) ++ buf ∧
      outf1.len = (dbuf_create_membuf 0 0).len + 4 ∧ outf1.wf ∧
      (dbuf_create_membuf 0 0).s.same_apart_from_content outf1.s ∧
      ((0 : Int) = 0 → 4 = example_ifile.len → (dbuf_create_membuf 0 0).len = 0 →
        de_run_copy 5 example_ifile (dbuf_create_membuf 0 0) = some (inf1, outf1) ∧
        outf1.len = example_ifile.len ∧
        membuf_content outf1 = example_ifile.read_spec 0 example_ifile.len) :=
  ⟨by decide, by decide, by decide, by decide, by decide, by decide, by decide,
    dbuf_copy_appends_slice 5 example_ifile (dbuf_create_membuf 0 0) 0 4 (by decide)
      (by decide) (by decide) (by decide) (by decide) (by decide) (by decide)⟩

/-! ## Integer readers -/

/-- C19 (code bug): on the membuf 1, 2, 3 the little-endian unsigned read of 3 bytes at
position 0, `dbuf_getint_ext(f, 0, 3, 1, 0)`, returns 13 (that is `1 | 2<<1 | 3<<2`), while
the bytes 1, 2, 3 that `dbuf_read(f, 0, 3)` returns have the little-endian value
`1 + 2*256 + 3*65536 = 197121`. The big-endian read of the same bytes returns their
big-endian value 66051. -/
theorem dbuf_getint_ext_le_three_bytes_wrong :
    (dbuf_read example_membuf3 0 3).map Prod.fst = some [1, 2, 3] ∧
    (dbuf_getint_ext example_membuf3 0 3 true false).map Prod.fst = some 13 ∧
    le_value [1, 2, 3] = 197121 ∧
    (dbuf_getint_ext example_membuf3 0 3 false false).map Prod.fst = some 66051 ∧
    be_value [1, 2, 3] = 66051 := by
  decide

/-! ## Searching -/

theorem de_memcmp_eq_zero : ∀ (a b : List UInt8), a.length = b.length →
    (de_memcmp a b = 0 ↔ a = b) := by
  intro a
  induction a with
  | nil =>
    intro b hb
    cases b with
    | nil => simp [de_memcmp]
    | cons y ys => simp at hb
  | cons x xs ih =>
    intro b hb
    cases b with
    | nil => simp at hb
    | cons y ys =>
      simp only [List.length_cons, Nat.add_right_cancel_iff] at hb
      unfold de_memcmp
      by_cases h1 : x < y
      · rw [if_pos h1]
        constructor
        · intro h; omega
        · intro h
          injection h with h _
          rw [h] at h1
          exact absurd h1 (UInt8.lt_irrefl _)
      · rw [if_neg h1]
        by_cases h2 : y < x
        · rw [if_pos h2]
          constructor
          · intro h; omega
          · intro h
            injection h with h _
            rw [h] at h2
            exact absurd h2 (UInt8.lt_irrefl _)
        · rw [if_neg h2, ih ys hb]
          have h1' : y.toBitVec.toNat ≤ x.toBitVec.toNat := BitVec.le_def.mp (UInt8.not_lt.mp h1)
          have h2' : x.toBitVec.toNat ≤ y.toBitVec.toNat := BitVec.le_def.mp (UInt8.not_lt.mp h2)
          have hxy : x = y := UInt8.toNat.inj (Nat.le_antisymm h2' h1')
          constructor
          · intro h; rw [hxy, h]
          · intro h; injection h

theorem dbuf_search_test_iff (f : dbuf) (needle : List UInt8) (startpos h : Int) (i : Nat)
    (hn : 1 ≤ needle.length) (hi : (i : Int) + needle.length ≤ h) :
    dbuf_search_test needle (f.read_spec startpos h) needle.length i = true ↔
      f.read_spec (startpos + i) needle.length = needle := by
  have hwin : ((f.read_spec startpos h).drop i).take needle.length
      = f.read_spec (startpos + i) needle.length := by
    have hd := read_spec_drop f startpos h i (by omega) (by omega)
    rw [Int.toNat_ofNat] at hd
    rw [hd]
    have ht := read_spec_take f (startpos + i) (h - i) needle.length (by omega) (by omega)
    rw [Int.toNat_ofNat] at ht
    exact ht
  unfold dbuf_search_test
  rw [Int.toNat_ofNat, List.take_length, hwin, Bool.and_eq_true, decide_eq_true_iff,
    decide_eq_true_iff]
  have hlen : needle.length = (f.read_spec (startpos + i) needle.length).length := by
    rw [read_spec_length, Int.toNat_ofNat]
  rw [de_memcmp_eq_zero _ _ hlen]
  constructor
  · intro hh; exact hh.2.symm
  · intro hh
    refine ⟨?_, hh.symm⟩
    have := getD_drop_take (f.read_spec startpos h) i needle.length 0
    rw [hwin, hh, if_pos (by omega)] at this
    simpa using this

/-- C20: for a well-formed readable dbuf `f`, a non-empty needle, `0 ≤ startpos ≤ f.len` and
`haystack_len ≥ 0`, with `h = min(haystack_len, f.len - startpos)`: `dbuf_search` returns,
leaving `f` as it was apart from the bookkeeping of reads; either it returns 1 with
`*foundpos = startpos + i` for the least `i` in `[0, h - |needle|]` at which the `|needle|`
bytes of `f` from `startpos + i` on equal the needle; or there is no such `i` and it returns
0 with `*foundpos = 0`. -/
theorem dbuf_search_least_match (f : dbuf) (needle : List UInt8) (startpos haystack_len : Int)
    (hwf : f.wf) (hne : needle ≠ []) (hs0 : 0 ≤ startpos) (hs1 : startpos ≤ f.len)
    (hh : 0 ≤ haystack_len) :
    ∃ ret foundpos f1,
      dbuf_search f needle needle.length startpos haystack_len = some (ret, foundpos, f1) ∧
      f1.wf ∧ f1.erase_read_state = f.erase_read_state ∧
      ((ret = 1 ∧ ∃ i : Nat,
          (i : Int) ≤ min haystack_len (f.len - startpos) - needle.length ∧
          foundpos = startpos + i ∧
          f.read_spec (startpos + i) needle.length = needle ∧
          ∀ j : Nat, j < i → f.read_spec (startpos + j) needle.length ≠ needle) ∨
       (ret = 0 ∧ foundpos = 0 ∧ ∀ i : Nat,
          (i : Int) ≤ min haystack_len (f.len - startpos) - needle.length →
          f.read_spec (startpos + i) needle.length ≠ needle)) := by
  have hn : 1 ≤ needle.length := by
    cases needle with
    | nil => exact absurd rfl hne
    | cons a t => simp
  unfold dbuf_search
  rw [if_neg (by omega)]
  simp only
  generalize hhl : (if haystack_len > f.len - startpos then f.len - startpos
    else haystack_len) = h
  have hmin : min haystack_len (f.len - startpos) = h := by
    rw [← hhl]
    split
    · exact min_eq_right (by omega)
    · exact min_eq_left (by omega)
  rw [hmin]
  have hh0 : 0 ≤ h := by rw [← hhl]; split <;> omega
  by_cases hgt : (needle.length : Int) > h
  · rw [if_pos hgt]
    refine ⟨0, 0, f, rfl, hwf, rfl, Or.inr ⟨rfl, rfl, ?_⟩⟩
    intro i hi
    omega
  · rw [if_neg hgt, if_neg (by omega)]
    obtain ⟨f1, hrd, hwf1, her1⟩ := dbuf_read_correct f startpos h hwf hs0 hh0
    rw [hrd]
    simp only
    cases hfind : (List.range (h - needle.length + 1).toNat).find?
        (dbuf_search_test needle (f.read_spec startpos h) needle.length) with
    | none =>
      simp only
      refine ⟨0, 0, f1, rfl, hwf1, her1, Or.inr ⟨rfl, rfl, ?_⟩⟩
      intro i hi
      rw [List.find?_range_eq_none] at hfind
      have := hfind i (by omega)
      intro hmatch
      rw [(dbuf_search_test_iff f needle startpos h i hn (by omega)).mpr hmatch] at this
      simp at this
    | some i =>
      simp only
      rw [List.find?_range_eq_some] at hfind
      obtain ⟨hp, hmem, hbefore⟩ := hfind
      rw [List.mem_range] at hmem
      refine ⟨1, startpos + i, f1, rfl, hwf1, her1, Or.inl ⟨rfl, i, by omega, rfl, ?_, ?_⟩⟩
      · exact (dbuf_search_test_iff f needle startpos h i hn (by omega)).mp hp
      · intro j hj hmatch
        have := hbefore j hj
        rw [(dbuf_search_test_iff f needle startpos h j hn (by omega)).mpr hmatch] at this
        simp at this

theorem dbuf_search_least_match_witness :
    example_membuf4.wf ∧ ([3, 4] : List UInt8) ≠ [] ∧ (0 : Int) ≤ 1 ∧
    (1 : Int) ≤ example_membuf4.len ∧ (0 : Int) ≤ 10 ∧
    ∃ ret foundpos f1,
      dbuf_search example_membuf4 [3, 4] ([3, 4] : List UInt8).length 1 10
        = some (ret, foundpos, f1) ∧
      f1.wf ∧ f1.erase_read_state = example_membuf4.erase_read_state ∧
      ((ret = 1 ∧ ∃ i : Nat,
          (i : Int) ≤ min 10 (example_membuf4.len - 1) - ([3, 4] : List UInt8).length ∧
          foundpos = 1 + i ∧
          example_membuf4.read_spec (1 + i) ([3, 4] : List UInt8).length = [3, 4] ∧
          ∀ j : Nat, j < i →
            example_membuf4.read_spec (1 + j) ([3, 4] : List UInt8).length ≠ [3, 4]) ∨
       (ret = 0 ∧ foundpos = 0 ∧ ∀ i : Nat,
          (i : Int) ≤ min 10 (example_membuf4.len - 1) - ([3, 4] : List UInt8).length →
          example_membuf4.read_spec (1 + i) ([3, 4] : List UInt8).length ≠ [3, 4])) :=
  ⟨by decide, by decide, by decide, by decide, by decide,
    dbuf_search_least_match example_membuf4 [3, 4] 1 10 (by decide) (by decide) (by decide)
      (by decide) (by decide)⟩

/-! ## Runs of one byte, and truncation -/

theorem membuf_append_amount_fits (s : dbuf_fields) (n : Int) (hn : 0 ≤ n)
    (hfit : s.has_max_len = false ∨ s.len + n ≤ s.max_len) : membuf_append_amount s n = n := by
  have := membuf_append_amount_cases s n
  rcases hfit with hfit | hfit
  · simp only [hfit, Bool.false_eq_true, false_and, and_false, or_false, true_or,
      true_and] at this
    omega
  · omega

/-- The loop of `dbuf_write_run` on a membuf in which the bytes to write fit (no clamp, or
the clamp is not reached): `amt_left` bytes `b` are appended and nothing else changes. -/
theorem dbuf_write_run_loop_fits (b : UInt8) (buf : List UInt8) (n : Nat)
    (hbuf : buf = List.replicate n b) :
    ∀ (fuel : Nat) (s : dbuf_fields) (amt_left : Int), s.membuf_ok → 0 ≤ amt_left →
      amt_left.toNat ≤ fuel → (amt_left ≤ n ∨ 1024 ≤ n) →
      (s.has_max_len = false ∨ s.len + amt_left ≤ s.max_len) →
      ∃ s', dbuf_write_run_loop fuel (.root s) buf amt_left = some (.root s') ∧
        s'.membuf_ok ∧ s'.len = s.len + amt_left ∧
        s'.membuf_buf.take s'.len.toNat
          = s.membuf_buf.take s.len.toNat ++ List.replicate amt_left.toNat b ∧
        s.same_apart_from_content s' := by
  intro fuel
  induction fuel with
  | zero =>
    intro s amt hs h0 hf _ _
    have : amt = 0 := by omega
    subst this
    exact ⟨s, by simp [dbuf_write_run_loop], hs, by simp, by simp, rfl⟩
  | succ fuel ih =>
    intro s amt hs h0 hf hn hfit
    unfold dbuf_write_run_loop
    by_cases hpos : amt > 0
    · rw [if_pos hpos]
      simp only
      generalize hw : (if amt < 1024 then amt else 1024) = w
      have hw0 : 0 < w := by rw [← hw]; split <;> omega
      have hw1 : w ≤ amt := by rw [← hw]; split <;> omega
      have hw2 : w ≤ (buf.length : Int) := by
        rw [hbuf, List.length_replicate, ← hw]; split <;> omega
      obtain ⟨s1, hwr, hs1, hl1, hc1, hfr1⟩ := dbuf_write_ok s hs buf w hw2
      have hfitw : s.has_max_len = false ∨ s.len + w ≤ s.max_len := by
        rcases hfit with h | h
        · exact Or.inl h
        · exact Or.inr (by omega)
      rw [membuf_append_amount_fits s w (by omega) hfitw] at hl1 hc1
      obtain ⟨-, hcl1, hml1, -, -⟩ := same_apart_from_content_clamp s s1 hfr1
      rw [hwr]
      simp only
      obtain ⟨s2, hlp, hs2, hl2, hc2, hfr2⟩ := ih s1 (amt - w) hs1 (by omega) (by omega)
        (by omega) (by
          rw [hcl1, hml1, hl1]
          rcases hfit with h | h
          · exact Or.inl h
          · exact Or.inr (by omega))
      refine ⟨s2, hlp, hs2, by omega, ?_, same_apart_from_content_trans s s1 s2 hfr1 hfr2⟩
      rw [hc2, hc1, List.append_assoc]
      congr 1
      rw [hbuf, List.take_replicate, ← List.replicate_add]
      congr 1
      have : w.toNat ≤ n := by rw [hbuf, List.length_replicate] at hw2; omega
      omega
    · rw [if_neg hpos]
      have : amt = 0 := by omega
      subst this
      exact ⟨s, rfl, hs, by simp, by simp, rfl⟩

theorem dbuf_write_run_fits (s : dbuf_fields) (hs : s.membuf_ok) (b : UInt8) (len : Int)
    (h0 : 0 ≤ len) (hfit : s.has_max_len = false ∨ s.len + len ≤ s.max_len) :
    ∃ s', dbuf_write_run (.root s) b len = some (.root s') ∧ s'.membuf_ok ∧
      s'.len = s.len + len ∧
      s'.membuf_buf.take s'.len.toNat
        = s.membuf_buf.take s.len.toNat ++ List.replicate len.toNat b ∧
      s.same_apart_from_content s' := by
  unfold dbuf_write_run
  simp only
  apply dbuf_write_run_loop_fits b _ _ rfl len.toNat s len hs h0 (le_refl _) _ hfit
  split
  · left; omega
  · right; simp

/-- C29: for a membuf without clamp, every byte `n` and every `count`, negative counts
included, `dbuf_write_run(f, n, count)` returns; the content is the old content followed by
`max(count, 0)` bytes `n`, the length has grown by `max(count, 0)`, and no other field has
changed (the allocation, and the record of the write callback, apart). -/
theorem dbuf_write_run_appends (f : dbuf) (n : UInt8) (count : Int)
    (hwf : f.wf) (hbt : f.s.btype = DBUF_TYPE_MEMBUF) (hcl : f.s.has_max_len = false) :
    ∃ f1, dbuf_write_run f n count = some f1 ∧ f1.wf ∧ f1.s.btype = DBUF_TYPE_MEMBUF ∧
      f1.len = f.len + max count 0 ∧
      membuf_content f1 = membuf_content f ++ List.replicate (max count 0).toNat n ∧
      f.s.same_apart_from_content f1.s := by
  obtain ⟨s, rfl, h0, h1, h2, h3⟩ := wf_membuf_root f hwf hbt
  have hs : s.membuf_ok := ⟨hbt, h0, h1, h2, h3⟩
  by_cases hc : 0 ≤ count
  · obtain ⟨s1, hw, hs1, hl, hcont, hfr⟩ := dbuf_write_run_fits s hs n count hc (Or.inl hcl)
    rw [max_eq_left hc]
    exact ⟨.root s1, hw, wf_membuf_of s1 hs1.1 hs1.2, hs1.1, hl, hcont, hfr⟩
  · rw [max_eq_right (by omega)]
    refine ⟨.root s, ?_, hwf, hbt, by simp, by simp, rfl⟩
    unfold dbuf_write_run
    simp only
    rw [show count.toNat = 0 by omega]
    unfold dbuf_write_run_loop
    rw [if_neg (by omega)]

theorem dbuf_write_run_appends_witness :
    example_membuf4.wf ∧ example_membuf4.s.btype = DBUF_TYPE_MEMBUF ∧
    example_membuf4.s.has_max_len = false ∧
    ∃ f1, dbuf_write_run example_membuf4 9 1500 = some f1 ∧ f1.wf ∧
      f1.s.btype = DBUF_TYPE_MEMBUF ∧ f1.len = example_membuf4.len + max 1500 0 ∧
      membuf_content f1
        = membuf_content example_membuf4 ++ List.replicate (max (1500 : Int) 0).toNat 9 ∧
      example_membuf4.s.same_apart_from_content f1.s :=
  ⟨by decide, by decide, by decide,
    dbuf_write_run_appends example_membuf4 9 1500 (by decide) (by decide) (by decide)⟩

/-- C28 (counterexample): the membuf made by `dbuf_create_membuf(c, 3, 0x1)` (clamp at 3
bytes) and filled with the two bytes 1, 2 has length 3, not 5, after
`dbuf_truncate(f, 5)`. -/
theorem dbuf_truncate_grow_stops_at_clamp :
    ((dbuf_write (dbuf_create_membuf 3 1) [1, 2] 2).bind fun f => dbuf_truncate f 5).map
      dbuf.len = some 3 := by
  decide

/-- C28 (amended): for a well-formed membuf `f` of length `L` and `desired_len ≥ 0` that
does not exceed the max-length clamp when one is set, `dbuf_truncate(f, desired_len)`
returns a well-formed membuf of length exactly `desired_len` in which the first
`min(L, desired_len)` bytes are unchanged and every byte in `[L, desired_len)` is 0x00,
whatever the allocation held beyond `L`. -/
theorem dbuf_truncate_exact (f : dbuf) (desired_len : Int)
    (hwf : f.wf) (hbt : f.s.btype = DBUF_TYPE_MEMBUF) (hd : 0 ≤ desired_len)
    (hfit : f.s.has_max_len = false ∨ desired_len ≤ f.s.max_len) :
    ∃ f1, dbuf_truncate f desired_len = some f1 ∧ f1.wf ∧ f1.s.btype = DBUF_TYPE_MEMBUF ∧
      f1.len = desired_len ∧
      (∀ k : Nat, (k : Int) < f.len → (k : Int) < desired_len →
        f1.s.membuf_buf[k]? = f.s.membuf_buf[k]?) ∧
      (∀ k : Nat, f.len ≤ (k : Int) → (k : Int) < desired_len →
        f1.s.membuf_buf[k]? = some 0) ∧
      f.s.same_apart_from_content f1.s := by
  obtain ⟨s, rfl, h0, h1, h2, h3⟩ := wf_membuf_root f hwf hbt
  have hs : s.membuf_ok := ⟨hbt, h0, h1, h2, h3⟩
  simp only [dbuf.s] at hbt hfit
  have hdd : (if desired_len < 0 then 0 else desired_len) = desired_len := if_neg (by omega)
  unfold dbuf_truncate
  simp only [hdd]
  by_cases hgt : desired_len > s.len
  · rw [if_pos (show desired_len > (dbuf.root s).s.len from hgt)]
    obtain ⟨s1, hw, hs1, hl, hc, hfr⟩ := dbuf_write_run_fits s hs 0 (desired_len - s.len)
      (by omega) (by
        rcases hfit with h | h
        · exact Or.inl h
        · exact Or.inr (by omega))
    refine ⟨.root s1, hw, wf_membuf_of s1 hs1.1 hs1.2, hs1.1, ?_, ?_, ?_, hfr⟩
    · show s1.len = desired_len
      omega
    · intro k hk1 hk2
      have hk1' : (k : Int) < s.len := hk1
      show s1.membuf_buf[k]? = s.membuf_buf[k]?
      rw [getElem?_of_take_eq _ _ _ k hc (by omega),
        List.getElem?_append_left (by simp only [List.length_take]; omega),
        List.getElem?_take, if_pos (by omega)]
    · intro k hk1 hk2
      have hk1' : s.len ≤ (k : Int) := hk1
      show s1.membuf_buf[k]? = some 0
      rw [getElem?_of_take_eq _ _ _ k hc (by omega),
        List.getElem?_append_right (by simp only [List.length_take]; omega),
        List.getElem?_replicate, if_pos (by simp only [List.length_take]; omega)]
  · rw [if_neg (show ¬ desired_len > (dbuf.root s).s.len from hgt)]
    by_cases hlt : desired_len < s.len
    · rw [if_pos (show desired_len < (dbuf.root s).s.len from hlt),
        if_pos (show (dbuf.root s).s.btype = DBUF_TYPE_MEMBUF from hbt)]
      refine ⟨_, rfl, wf_membuf_of _ hbt ⟨hd, by show desired_len ≤ s.membuf_alloc; omega, h2, h3⟩,
        hbt, rfl, ?_, ?_, rfl⟩
      · intro k _ _; rfl
      · intro k hk1 hk2
        have hk1' : s.len ≤ (k : Int) := hk1
        omega
    · rw [if_neg (show ¬ desired_len < (dbuf.root s).s.len from hlt)]
      refine ⟨_, rfl, hwf, hbt, ?_, ?_, ?_, rfl⟩
      · show s.len = desired_len
        omega
      · intro k _ _; rfl
      · intro k hk1 hk2
        have hk1' : s.len ≤ (k : Int) := hk1
        omega

theorem dbuf_truncate_exact_witness :
    example_membuf_clamped.wf ∧ example_membuf_clamped.s.btype = DBUF_TYPE_MEMBUF ∧
    (0 : Int) ≤ 3 ∧
    (example_membuf_clamped.s.has_max_len = false ∨ (3 : Int) ≤ example_membuf_clamped.s.max_len) ∧
    ∃ f1, dbuf_truncate example_membuf_clamped 3 = some f1 ∧ f1.wf ∧
      f1.s.btype = DBUF_TYPE_MEMBUF ∧ f1.len = 3 ∧
      (∀ k : Nat, (k : Int) < example_membuf_clamped.len → (k : Int) < 3 →
        f1.s.membuf_buf[k]? = example_membuf_clamped.s.membuf_buf[k]?) ∧
      (∀ k : Nat, example_membuf_clamped.len ≤ (k : Int) → (k : Int) < 3 →
        f1.s.membuf_buf[k]? = some 0) ∧
      example_membuf_clamped.s.same_apart_from_content f1.s :=
  ⟨by decide, by decide, by decide, by decide,
    dbuf_truncate_exact example_membuf_clamped 3 (by decide) (by decide) (by decide)
      (by decide)⟩

/-! ## The null sink against a membuf -/

/-- C30 (counterexample): after the single call `dbuf_write_at(f, 0, m, 1)` a fresh null
sink has length 0 and an empty membuf without clamp has length 1; after `dbuf_write` of two
bytes and `dbuf_truncate(f, 1)` the null sink has length 2 and the membuf length 1. -/
theorem null_sink_length_differs_from_membuf :
    (membuf_ops_apply [.write_at 0 [1] 1] example_null_sink).map dbuf.len = some 0 ∧
    (membuf_ops_apply [.write_at 0 [1] 1] (dbuf_create_membuf 8 0)).map dbuf.len = some 1 ∧
    (membuf_ops_apply [.write [1, 2] 2, .truncate 1] example_null_sink).map dbuf.len
      = some 2 ∧
    (membuf_ops_apply [.write [1, 2] 2, .truncate 1] (dbuf_create_membuf 8 0)).map dbuf.len
      = some 1 := by
  decide

theorem dbuf_write_null (n : dbuf_fields) (hbt : n.btype = DBUF_TYPE_NULL) (m : List UInt8)
    (len : Int) :
    ∃ n1, dbuf_write (.root n) m len = some (.root n1) ∧ n1.btype = DBUF_TYPE_NULL ∧
      n1.len = n.len + len := by
  unfold dbuf_write dbuf_call_writecallback
  split
  · simp only [dbuf.set_s, dbuf.s, hbt]
    exact ⟨_, rfl, rfl, rfl⟩
  · simp only [dbuf.set_s, dbuf.s, hbt]
    exact ⟨_, rfl, rfl, rfl⟩

theorem dbuf_write_run_loop_null (buf : List UInt8) :
    ∀ (fuel : Nat) (n : dbuf_fields) (amt_left : Int), n.btype = DBUF_TYPE_NULL →
      0 ≤ amt_left → amt_left.toNat ≤ fuel →
      ∃ n1, dbuf_write_run_loop fuel (.root n) buf amt_left = some (.root n1) ∧
        n1.btype = DBUF_TYPE_NULL ∧ n1.len = n.len + amt_left := by
  intro fuel
  induction fuel with
  | zero =>
    intro n amt hbt h0 hf
    have : amt = 0 := by omega
    subst this
    exact ⟨n, by simp [dbuf_write_run_loop], hbt, by simp⟩
  | succ fuel ih =>
    intro n amt hbt h0 hf
    unfold dbuf_write_run_loop
    by_cases hpos : amt > 0
    · rw [if_pos hpos]
      simp only
      generalize hw : (if amt < 1024 then amt else 1024) = w
      have hw0 : 0 < w := by rw [← hw]; split <;> omega
      have hw1 : w ≤ amt := by rw [← hw]; split <;> omega
      obtain ⟨n1, hwr, hbt1, hl1⟩ := dbuf_write_null n hbt buf w
      rw [hwr]
      simp only
      obtain ⟨n2, hlp, hbt2, hl2⟩ := ih n1 (amt - w) hbt1 (by omega) (by omega)
      exact ⟨n2, hlp, hbt2, by omega⟩
    · rw [if_neg hpos]
      have : amt = 0 := by omega
      subst this
      exact ⟨n, rfl, hbt, by simp⟩

theorem dbuf_write_run_null (n : dbuf_fields) (hbt : n.btype = DBUF_TYPE_NULL) (b : UInt8)
    (len : Int) (h0 : 0 ≤ len) :
    ∃ n1, dbuf_write_run (.root n) b len = some (.root n1) ∧ n1.btype = DBUF_TYPE_NULL ∧
      n1.len = n.len + len := by
  unfold dbuf_write_run
  exact dbuf_write_run_loop_null _ len.toNat n len hbt h0 (le_refl _)

theorem dbuf_write_at_null (n : dbuf_fields) (hbt : n.btype = DBUF_TYPE_NULL) (pos : Int)
    (m : List UInt8) (len : Int) : dbuf_write_at (.root n) pos m len = some (.root n) := by
  unfold dbuf_write_at
  by_cases h : len < 1 ∨ pos < 0
  · rw [if_pos h]
  · rw [if_neg h]
    simp [dbuf.s, hbt]

theorem membuf_overwrite_ok (s : dbuf_fields) (hs : s.membuf_ok)
    (pos : Int) (m : List UInt8) (k : Int) (hp : 0 ≤ pos) (hk0 : 0 ≤ k) (hk : pos + k ≤ s.len)
    (hm : k ≤ m.length) :
    ∃ buf, de_memcpy_to s.membuf_buf pos m k = some buf ∧
      ({ s with membuf_buf := buf } : dbuf_fields).membuf_ok := by
  obtain ⟨hbt, hl0, hl1, hal, hca⟩ := hs
  have hcpy := de_memcpy_to_eq s.membuf_buf pos m k (by omega)
  have hL := memcpy_result_length s.membuf_buf pos m k (by omega)
  exact ⟨_, hcpy, hbt, hl0, hl1, by simp only; rw [hL]; exact hal, hca⟩

/-- One call that keeps to appending, on a null sink and on a membuf without clamp of the
same length: both return, with the same new length. -/
theorem membuf_op_apply_null_membuf (n s : dbuf_fields) (op : membuf_op)
    (hn : n.btype = DBUF_TYPE_NULL) (hs : s.membuf_ok) (hcl : s.has_max_len = false)
    (hlen : n.len = s.len) (hop : op.appends_only n.len) :
    ∃ n1 s1, op.apply (.root n) = some (.root n1) ∧ op.apply (.root s) = some (.root s1) ∧
      n1.btype = DBUF_TYPE_NULL ∧ s1.membuf_ok ∧ s1.has_max_len = false ∧
      n1.len = s1.len := by
  have keep : ∀ s1 : dbuf_fields, s.same_apart_from_content s1 → s1.has_max_len = false := by
    intro s1 h
    rw [(same_apart_from_content_clamp s s1 h).2.1, hcl]
  cases op with
  | write m len =>
    obtain ⟨h0, h1⟩ := hop
    obtain ⟨n1, hw, hbt1, hl1⟩ := dbuf_write_null n hn m len
    obtain ⟨s1, hw', hs1, hl1', -, hfr⟩ := dbuf_write_ok s hs m len h1
    rw [membuf_append_amount_fits s len h0 (Or.inl hcl)] at hl1'
    exact ⟨n1, s1, hw, hw', hbt1, hs1, keep s1 hfr, by omega⟩
  | writebyte b =>
    obtain ⟨n1, hw, hbt1, hl1⟩ := dbuf_write_null n hn [b] 1
    obtain ⟨s1, hw', hs1, hl1', -, hfr⟩ := dbuf_write_ok s hs [b] 1 (by simp)
    rw [membuf_append_amount_fits s 1 (by omega) (Or.inl hcl)] at hl1'
    exact ⟨n1, s1, hw, hw', hbt1, hs1, keep s1 hfr, by omega⟩
  | write_run b len =>
    obtain ⟨n1, hw, hbt1, hl1⟩ := dbuf_write_run_null n hn b len hop
    obtain ⟨s1, hw', hs1, hl1', -, hfr⟩ := dbuf_write_run_fits s hs b len hop (Or.inl hcl)
    exact ⟨n1, s1, hw, hw', hbt1, hs1, keep s1 hfr, by omega⟩
  | write_at pos m len =>
    obtain ⟨hp, h0, h1, hin⟩ := hop
    refine ⟨n, ?_⟩
    have hnull : membuf_op.apply (.write_at pos m len) (.root n) = some (.root n) :=
      dbuf_write_at_null n hn pos m len
    by_cases hz : len < 1
    · refine ⟨s, hnull, ?_, hn, hs, hcl, hlen⟩
      show dbuf_write_at (.root s) pos m len = _
      unfold dbuf_write_at
      rw [if_pos (Or.inl hz)]
    · obtain ⟨buf, hcpy, hs1⟩ := membuf_overwrite_ok s hs pos m len hp h0 (by omega) h1
      refine ⟨_, hnull, ?_, hn, hs1, hcl, hlen⟩
      show dbuf_write_at (.root s) pos m len = _
      unfold dbuf_write_at
      have hin' : pos + len ≤ s.len := by omega
      rw [if_neg (by omega)]
      simp only [dbuf.s, hs.1, if_true, if_pos hin']
      rw [if_pos (by omega), hcpy]
      simp [dbuf.set_s]
  | writebyte_at pos b =>
    obtain ⟨hp, hin⟩ := hop
    obtain ⟨buf, hcpy, hs1⟩ := membuf_overwrite_ok s hs pos [b] 1 hp (by omega) (by omega)
      (by simp)
    refine ⟨n, _, ?_, ?_, hn, hs1, hcl, hlen⟩
    · show dbuf_writebyte_at (.root n) pos b = _
      unfold dbuf_writebyte_at
      rw [if_neg (by simp [dbuf.s, hn])]
      exact dbuf_write_at_null n hn pos [b] 1
    · show dbuf_writebyte_at (.root s) pos b = _
      unfold dbuf_writebyte_at
      rw [if_pos ⟨hs.1, hp, by show pos < s.len; omega⟩]
      simp only [dbuf.s]
      rw [hcpy]
      rfl
  | truncate d =>
    have hd : n.len ≤ d := hop
    have hs0 : 0 ≤ s.len := hs.2.1
    have hdd : (if d < 0 then 0 else d) = d := if_neg (by omega)
    obtain ⟨f1, ht, hwf1, hbt1, hl1, -, -, hfr⟩ := dbuf_truncate_exact (.root s) d
      (wf_membuf_of s hs.1 hs.2) hs.1 (by omega) (Or.inl hcl)
    obtain ⟨s1, rfl, a, b, c, e⟩ := wf_membuf_root f1 hwf1 hbt1
    have hnull : ∃ n1, dbuf_truncate (.root n) d = some (.root n1) ∧
        n1.btype = DBUF_TYPE_NULL ∧ n1.len = d := by
      unfold dbuf_truncate
      simp only [hdd]
      by_cases hgt : d > n.len
      · rw [if_pos (show d > (dbuf.root n).s.len from hgt)]
        obtain ⟨n1, h1, h2, h3⟩ := dbuf_write_run_null n hn 0 (d - n.len) (by omega)
        exact ⟨n1, h1, h2, by omega⟩
      · rw [if_neg (show ¬ d > (dbuf.root n).s.len from hgt),
          if_neg (show ¬ d < (dbuf.root n).s.len from not_lt.mpr hd)]
        exact ⟨n, rfl, hn, by omega⟩
    obtain ⟨n1, hnt, hnbt, hnl⟩ := hnull
    have hl1' : s1.len = d := hl1
    exact ⟨n1, s1, hnt, ht, hnbt, ⟨hbt1, a, b, c, e⟩, keep s1 hfr, by rw [hnl, hl1']⟩

theorem membuf_ops_apply_null_membuf : ∀ (ops : List membuf_op) (n s : dbuf_fields),
    n.btype = DBUF_TYPE_NULL → s.membuf_ok → s.has_max_len = false → n.len = s.len →
    membuf_ops_append_only ops (.root n) →
    ∃ n1 s1, membuf_ops_apply ops (.root n) = some (.root n1) ∧
      membuf_ops_apply ops (.root s) = some (.root s1) ∧
      n1.btype = DBUF_TYPE_NULL ∧ s1.membuf_ok ∧ n1.len = s1.len := by
  intro ops
  induction ops with
  | nil => intro n s hn hs _ hlen _; exact ⟨n, s, rfl, rfl, hn, hs, hlen⟩
  | cons op ops ih =>
    intro n s hn hs hcl hlen hall
    obtain ⟨hop, hrest⟩ := hall
    obtain ⟨n1, s1, h1, h2, hn1, hs1, hcl1, hlen1⟩ :=
      membuf_op_apply_null_membuf n s op hn hs hcl hlen hop
    rw [h1] at hrest
    obtain ⟨n2, s2, h3, h4, hn2, hs2, hlen2⟩ := ih n1 s1 hn1 hs1 hcl1 hlen1 hrest
    refine ⟨n2, s2, ?_, ?_, hn2, hs2, hlen2⟩
    · show (op.apply (.root n)).bind (fun f1 => membuf_ops_apply ops f1) = _
      rw [h1]; exact h3
    · show (op.apply (.root s)).bind (fun f1 => membuf_ops_apply ops f1) = _
      rw [h2]; exact h4

/-- C30 (amended): for every finite sequence of calls of `dbuf_write`, `dbuf_write_run`,
`dbuf_write_at` and `dbuf_truncate` (and `dbuf_writebyte`, `dbuf_writebyte_at`) with
non-negative arguments in which every `dbuf_write_at` lies inside the bytes written so far
and no `dbuf_truncate` shrinks, a null sink and an empty membuf without clamp both run the
sequence to its end and end with the same length. -/
theorem null_sink_length_eq_membuf (ops : List membuf_op) (nullf memf : dbuf)
    (hn : nullf = .root nullf.s) (hnbt : nullf.s.btype = DBUF_TYPE_NULL) (hnl : nullf.len = 0)
    (hwf : memf.wf) (hbt : memf.s.btype = DBUF_TYPE_MEMBUF)
    (hcl : memf.s.has_max_len = false) (hml : memf.len = 0)
    (hops : membuf_ops_append_only ops nullf) :
    ∃ n1 f1, membuf_ops_apply ops nullf = some n1 ∧ membuf_ops_apply ops memf = some f1 ∧
      n1.s.btype = DBUF_TYPE_NULL ∧ f1.s.btype = DBUF_TYPE_MEMBUF ∧ n1.len = f1.len := by
  obtain ⟨s, rfl, h0, h1, h2, h3⟩ := wf_membuf_root memf hwf hbt
  rw [hn] at hops ⊢
  obtain ⟨n1, s1, a, b, c, d, e⟩ := membuf_ops_apply_null_membuf ops nullf.s s hnbt
    ⟨hbt, h0, h1, h2, h3⟩ hcl (by rw [show nullf.s.len = nullf.len from rfl, hnl]; exact hml.symm)
    hops
  exact ⟨.root n1, .root s1, a, b, c, d.1, e⟩

theorem null_sink_length_eq_membuf_witness :
    example_null_sink = .root example_null_sink.s ∧
    example_null_sink.s.btype = DBUF_TYPE_NULL ∧ example_null_sink.len = 0 ∧
    (dbuf_create_membuf 8 0).wf ∧ (dbuf_create_membuf 8 0).s.btype = DBUF_TYPE_MEMBUF ∧
    (dbuf_create_membuf 8 0).s.has_max_len = false ∧ (dbuf_create_membuf 8 0).len = 0 ∧
    membuf_ops_append_only [.write [1, 2, 3] 3, .write_at 1 [7] 1, .write_run 0 2,
      .truncate 6] example_null_sink ∧
    ∃ n1 f1,
      membuf_ops_apply [.write [1, 2, 3] 3, .write_at 1 [7] 1, .write_run 0 2, .truncate 6]
        example_null_sink = some n1 ∧
      membuf_ops_apply [.write [1, 2, 3] 3, .write_at 1 [7] 1, .write_run 0 2, .truncate 6]
        (dbuf_create_membuf 8 0) = some f1 ∧
      n1.s.btype = DBUF_TYPE_NULL ∧ f1.s.btype = DBUF_TYPE_MEMBUF ∧ n1.len = f1.len :=
  ⟨by decide, by decide, by decide, by decide, by decide, by decide, by decide, by decide,
    null_sink_length_eq_membuf [.write [1, 2, 3] 3, .write_at 1 [7] 1, .write_run 0 2,
      .truncate 6] example_null_sink (dbuf_create_membuf 8 0) (by decide) (by decide)
      (by decide) (by decide) (by decide) (by decide) (by decide) (by decide)⟩

/-! ## Detection: disabled modules and errors -/

theorem de_run_eq_with_input (modules : List deark_module_info) (env : os_env) (c : deark)
    (st : run_state) (sub orig : Option dbuf) (req : Option Nat)
    (h : de_run_selection_entry modules env c = some (st, sub, orig, req)) :
    de_run modules env c = de_run_with_input modules env st sub orig req ∧
    dispatch_events st.2 = [] := by
  unfold de_run_selection_entry at h
  unfold de_run
  by_cases h1 : c.modhelp_req ∧ c.input_format_req.isSome
  · rw [if_pos h1] at h; exact absurd h (by simp)
  · rw [if_neg h1] at h
    rw [if_neg h1]
    simp only at h ⊢
    generalize hst1 : (if c.extrlist_filename.isSome = true then open_extrlist (c, []) env
      else (c, [])) = st1 at h ⊢
    have hd1 : dispatch_events st1.2 = [] := by
      rw [← hst1]
      split
      · rw [dispatch_events_open_extrlist]; rfl
      · rfl
    by_cases h2 : st1.1.input_style ≠ DE_INPUTSTYLE_STDIN ∧ st1.1.input_filename.isNone
    · rw [if_pos h2] at h; exact absurd h (by simp)
    · rw [if_neg h2] at h
      rw [if_neg h2]
      by_cases h3 : st1.1.module_register_fn = false
      · rw [if_pos h3] at h; exact absurd h (by simp)
      · rw [if_neg h3] at h
        rw [if_neg h3]
        cases hreq : de_run_requested_module modules st1.1 with
        | none => rw [hreq] at h; exact absurd h (by simp)
        | some module_req =>
          rw [hreq] at h
          simp only at h ⊢
          have hd2 := dispatch_events_de_run_open st1 env
          cases hopen : de_run_open st1 env with
          | mk o st2 =>
            rw [hopen] at h hd2
            cases o with
            | none => exact absurd h (by simp)
            | some orig_ifile =>
              simp only at h hd2 ⊢
              unfold de_run_opened
              simp only
              by_cases h4 : st2.1.slice_start_req > 0 ∨ st2.1.slice_size_req_valid = true
              · rw [if_pos h4] at h
                rw [if_pos h4]
                simp only [Option.some.injEq, Prod.mk.injEq] at h
                obtain ⟨rfl, rfl, rfl, rfl⟩ := h
                refine ⟨rfl, ?_⟩
                simp only [dispatch_events_append, hd2, hd1]
                rfl
              · rw [if_neg h4] at h
                rw [if_neg h4]
                simp only [Option.some.injEq, Prod.mk.injEq] at h
                obtain ⟨rfl, rfl, rfl, rfl⟩ := h
                refine ⟨rfl, ?_⟩
                simp only [dispatch_events_append, hd2, hd1]
                rfl

/-- What the loop of `detect_module_for_file` returns is no module, the best module so
far, or a module of the rest of the table that has an identification function and does
not carry `DE_MODFLAG_DISABLEDETECT`; and with the error flag set it returns no module, the
error count is above the value at the start, and the last invocation is the one that
raised it. -/
theorem detect_module_loop_result (orig : Int) (mods : List deark_module_info) :
    ∀ (i : Nat) (c : deark) (b : Int) (bm : Option Nat) (inv : List (Nat × Int)),
      ((detect_module_loop orig mods i c b bm inv).best_module = none ∨
       (detect_module_loop orig mods i c b bm inv).best_module = bm ∨
       ∃ (k : Nat) (m : deark_module_info),
         (detect_module_loop orig mods i c b bm inv).best_module = some (i + k) ∧
         mods[k]? = some m ∧ m.flags.DE_MODFLAG_DISABLEDETECT = false ∧
         m.identify_fn.isSome = true) ∧
      ((detect_module_loop orig mods i c b bm inv).errflag = true →
        (detect_module_loop orig mods i c b bm inv).best_module = none ∧
        orig < (detect_module_loop orig mods i c b bm inv).c.error_count ∧
        ∃ (pre : List (Nat × Int)) (k : Nat) (res : Int),
          (detect_module_loop orig mods i c b bm inv).invoked = inv ++ pre ++ [(k, res)]) ∧
      ((detect_module_loop orig mods i c b bm inv).errflag = false →
        c.error_count ≤ orig →
        (detect_module_loop orig mods i c b bm inv).c.error_count ≤ orig) := by
  induction mods with
  | nil =>
    intro i c b bm inv
    refine ⟨Or.inr (Or.inl rfl), fun h => ?_, fun _ h => h⟩
    exact absurd h (by simp [detect_module_loop])
  | cons m mods ih =>
    intro i c b bm inv
    have shift : ∀ (c' : deark) (b' : Int) (bm' : Option Nat) (inv' : List (Nat × Int)),
        (bm' = bm ∨ (bm' = some i ∧ m.flags.DE_MODFLAG_DISABLEDETECT = false ∧
          m.identify_fn.isSome = true)) →
        (∃ pre, inv' = inv ++ pre) → (c.error_count ≤ orig → c'.error_count ≤ orig) →
        ((detect_module_loop orig mods (i + 1) c' b' bm' inv').best_module = none ∨
         (detect_module_loop orig mods (i + 1) c' b' bm' inv').best_module = bm ∨
         ∃ (k : Nat) (m' : deark_module_info),
           (detect_module_loop orig mods (i + 1) c' b' bm' inv').best_module = some (i + k) ∧
           (m :: mods)[k]? = some m' ∧ m'.flags.DE_MODFLAG_DISABLEDETECT = false ∧
           m'.identify_fn.isSome = true) ∧
        ((detect_module_loop orig mods (i + 1) c' b' bm' inv').errflag = true →
          (detect_module_loop orig mods (i + 1) c' b' bm' inv').best_module = none ∧
          orig < (detect_module_loop orig mods (i + 1) c' b' bm' inv').c.error_count ∧
          ∃ (pre : List (Nat × Int)) (k : Nat) (res : Int),
            (detect_module_loop orig mods (i + 1) c' b' bm' inv').invoked
              = inv ++ pre ++ [(k, res)]) ∧
        ((detect_module_loop orig mods (i + 1) c' b' bm' inv').errflag = false →
          c.error_count ≤ orig →
          (detect_module_loop orig mods (i + 1) c' b' bm' inv').c.error_count ≤ orig) := by
      intro c' b' bm' inv' hbm hinv hcnt
      obtain ⟨h1, h2, h3⟩ := ih (i + 1) c' b' bm' inv'
      refine ⟨?_, ?_, ?_⟩
      · rcases h1 with h | h | ⟨k, m', hk, hm', hf, hid⟩
        · exact Or.inl h
        · rcases hbm with hb | ⟨hb, hf, hid⟩
          · exact Or.inr (Or.inl (by rw [h, hb]))
          · exact Or.inr (Or.inr ⟨0, m, by rw [h, hb]; rfl, by simp, hf, hid⟩)
        · exact Or.inr (Or.inr ⟨k + 1, m', by rw [hk]; congr 1; omega, by simpa using hm',
            hf, hid⟩)
      · intro he
        obtain ⟨a, b1, pre, k, res, hp⟩ := h2 he
        obtain ⟨pre0, hpre0⟩ := hinv
        exact ⟨a, b1, pre0 ++ pre, k, res, by rw [hp, hpre0]; simp⟩
      · intro he hc
        exact h3 he (hcnt hc)
    unfold detect_module_loop
    cases hid : m.identify_fn with
    | none =>
      simp only
      exact shift c b bm inv (Or.inl rfl) ⟨[], by simp⟩ (fun h => h)
    | some identify_fn =>
      simp only
      by_cases hskip : m.flags.DE_MODFLAG_DISABLEDETECT = true ∧
          ¬ m.flags.DE_MODFLAG_SHAREDDETECTION = true
      · rw [if_pos hskip]
        exact shift c b bm inv (Or.inl rfl) ⟨[], by simp⟩ (fun h => h)
      · rw [if_neg hskip]
        by_cases herr : (identify_fn c).2.error_count > orig
        · rw [if_pos herr]
          exact ⟨Or.inl rfl, fun _ => ⟨rfl, herr, [], i, (identify_fn c).1, by simp⟩,
            fun h => absurd h (by simp)⟩
        · rw [if_neg herr]
          have hcnt : c.error_count ≤ orig → (identify_fn c).2.error_count ≤ orig :=
            fun _ => by omega
          by_cases hdis : m.flags.DE_MODFLAG_DISABLEDETECT = true
          · rw [if_pos hdis]
            exact shift _ b bm _ (Or.inl rfl) ⟨[(i, (identify_fn c).1)], rfl⟩ hcnt
          · rw [if_neg hdis]
            have hdf : m.flags.DE_MODFLAG_DISABLEDETECT = false := by
              cases h : m.flags.DE_MODFLAG_DISABLEDETECT
              · rfl
              · exact absurd h hdis
            by_cases hle : (identify_fn c).1 ≤ b
            · rw [if_pos hle]
              exact shift _ b bm _ (Or.inl rfl) ⟨[(i, (identify_fn c).1)], rfl⟩ hcnt
            · rw [if_neg hle]
              by_cases h100 : (identify_fn c).1 ≥ 100
              · rw [if_pos h100]
                exact ⟨Or.inr (Or.inr ⟨0, m, rfl, by simp, hdf, by rw [hid]; rfl⟩),
                  fun h => absurd h (by simp), fun _ hc => hcnt hc⟩
              · rw [if_neg h100]
                exact shift _ _ (some i) _ (Or.inr ⟨rfl, hdf, by rw [hid]; rfl⟩)
                  ⟨[(i, (identify_fn c).1)], rfl⟩ hcnt

/-- C22: for every module table and every session whose input is a well-formed readable
dbuf, `detect_module_for_file` returns, and a module that it returns has an
identification function and does not carry `DE_MODFLAG_DISABLEDETECT`, whatever the
identification functions answer and whatever other flags the modules carry. -/
theorem detect_never_returns_disabled (modules : List deark_module_info) (c : deark)
    (infile : dbuf) (hin : c.infile = some infile) (hwf : infile.wf) :
    ∃ r, detect_module_for_file modules c = some r ∧
      ∀ i : Nat, r.best_module = some i →
        ∃ m, modules[i]? = some m ∧ m.flags.DE_MODFLAG_DISABLEDETECT = false ∧
          m.identify_fn.isSome = true := by
  obtain ⟨c1, hbom, -⟩ := detect_check_bom_some c infile hin hwf
  refine ⟨detect_module_loop c1.error_count modules 0 c1 0 none [],
    by simp only [detect_module_for_file, hbom], ?_⟩
  intro i hi
  obtain ⟨h1, -, -⟩ := detect_module_loop_result c1.error_count modules 0 c1 0 none []
  rcases h1 with h | h | ⟨k, m, hk, hm, hf, hid⟩
  · rw [h] at hi; exact absurd hi (by simp)
  · rw [h] at hi; exact absurd hi (by simp)
  · rw [hk] at hi
    simp only [Nat.zero_add, Option.some.injEq] at hi
    subst hi
    exact ⟨m, hm, hf, hid⟩

theorem detect_never_returns_disabled_witness :
    (example_deark example_applesingle_file).infile = some example_applesingle_file ∧
    example_applesingle_file.wf ∧
    ∃ r, detect_module_for_file example_table_disabled_first
        (example_deark example_applesingle_file) = some r ∧
      ∀ i : Nat, r.best_module = some i →
        ∃ m, example_table_disabled_first[i]? = some m ∧
          m.flags.DE_MODFLAG_DISABLEDETECT = false ∧ m.identify_fn.isSome = true :=
  ⟨rfl, by decide,
    detect_never_returns_disabled example_table_disabled_first
      (example_deark example_applesingle_file) example_applesingle_file rfl (by decide)⟩

theorem run_fn_not_mem_of_dispatch_events_nil (tr : List run_event)
    (h : dispatch_events tr = []) (j : Nat) : run_event.run_fn j ∉ tr := by
  intro hmem
  have : run_event.run_fn j ∈ dispatch_events tr := by
    unfold dispatch_events
    exact List.mem_filter.mpr ⟨hmem, rfl⟩
  rw [h] at this
  exact absurd this (List.not_mem_nil _)

theorem de_run_done_counts (st : run_state) (subfile orig_ifile : Option dbuf) :
    (de_run_done st subfile orig_ifile).1.error_count = st.1.error_count ∧
    (de_run_done st subfile orig_ifile).1.num_files_extracted = st.1.num_files_extracted := by
  unfold de_run_done
  cases subfile <;> cases orig_ifile <;> cases st.1.extrlist_dbuf <;> simp

/-- C23: in a run of `de_run` that enters the selection of the module without an explicit
request and in which `detect_module_for_file` sets its error flag: detection returns no
module, the error count is above its value at the start of detection, the invocation that
raised it is the last one; `de_run` returns without invoking a run function. And at any
point of the detection loop (whatever the best module so far), when the identification
function that is invoked leaves the error count above the value at the start, the loop
ends there with the error flag set, no module, and this invocation as the last. -/
theorem detect_error_aborts (modules : List deark_module_info) (env : os_env) (c : deark)
    (st : run_state) (sub orig : Option dbuf) (r : detect_result)
    (hentry : de_run_selection_entry modules env c = some (st, sub, orig, none))
    (hdet : detect_module_for_file modules st.1 = some r) (herr : r.errflag = true) :
    r.best_module = none ∧
    (∃ c1, detect_check_bom st.1 = some c1 ∧ c1.error_count < r.c.error_count) ∧
    (∃ (pre : List (Nat × Int)) (k : Nat) (res : Int), r.invoked = pre ++ [(k, res)]) ∧
    (∃ st', de_run modules env c = some st' ∧ (∀ j : Nat, run_event.run_fn j ∉ st'.2) ∧
      st'.1.error_count = r.c.error_count) ∧
    (∀ (orig_errcount : Int) (m : deark_module_info) (mods : List deark_module_info) (i : Nat)
        (c' : deark) (b : Int) (bm : Option Nat) (inv : List (Nat × Int))
        (idf : deark → Int × deark), m.identify_fn = some idf →
      ¬ (m.flags.DE_MODFLAG_DISABLEDETECT = true ∧ m.flags.DE_MODFLAG_SHAREDDETECTION = false) →
      (idf c').2.error_count > orig_errcount →
      detect_module_loop orig_errcount (m :: mods) i c' b bm inv
        = ⟨none, true, (idf c').2, inv ++ [(i, (idf c').1)]⟩) := by
  obtain ⟨hrun, hdisp⟩ := de_run_eq_with_input modules env c st sub orig none hentry
  have hdet' := hdet
  unfold detect_module_for_file at hdet'
  cases hbom : detect_check_bom st.1 with
  | none => rw [hbom] at hdet'; exact absurd hdet' (by simp)
  | some c1 =>
    rw [hbom] at hdet'
    simp only [Option.some.injEq] at hdet'
    obtain ⟨-, h2, -⟩ := detect_module_loop_result c1.error_count modules 0 c1 0 none []
    rw [hdet'] at h2
    obtain ⟨hnone, hcnt, pre, k, res, hinv⟩ := h2 herr
    refine ⟨hnone, ⟨c1, rfl, hcnt⟩, ⟨pre, k, res, by simpa using hinv⟩, ?_, ?_⟩
    · refine ⟨de_run_done (r.c, st.2) sub orig, ?_, ?_, (de_run_done_counts _ _ _).1⟩
      · rw [hrun]
        unfold de_run_with_input de_run_select
        simp only [hdet, herr, if_true]
      · intro j
        apply run_fn_not_mem_of_dispatch_events_nil
        rw [dispatch_events_de_run_done]
        exact hdisp
    · intro o m mods i c' b bm inv idf hid hskip hgt
      have hskip' : ¬ (m.flags.DE_MODFLAG_DISABLEDETECT = true ∧
          ¬ m.flags.DE_MODFLAG_SHAREDDETECTION = true) := by
        intro h
        apply hskip
        refine ⟨h.1, ?_⟩
        cases hh : m.flags.DE_MODFLAG_SHAREDDETECTION
        · rfl
        · exact absurd hh h.2
      unfold detect_module_loop
      simp only [hid]
      rw [if_neg hskip', if_pos hgt]

theorem detect_error_aborts_witness :
    de_run_selection_entry [example_module "fifty" module_flags_none 50, example_module_erring]
        example_env example_session_stdin
      = some (({ example_session_stdin with infile := some (dbuf_open_input_stdin example_env) },
          [run_event.open_input]), none, some (dbuf_open_input_stdin example_env), none) ∧
    detect_module_for_file [example_module "fifty" module_flags_none 50, example_module_erring]
        { example_session_stdin with infile := some (dbuf_open_input_stdin example_env) }
      = some (detect_module_loop 0
          [example_module "fifty" module_flags_none 50, example_module_erring] 0
          { example_session_stdin with infile := some (dbuf_open_input_stdin example_env) }
          0 none []) ∧
    (detect_module_loop 0
          [example_module "fifty" module_flags_none 50, example_module_erring] 0
          { example_session_stdin with infile := some (dbuf_open_input_stdin example_env) }
          0 none []).errflag = true ∧
    (detect_module_loop 0
          [example_module "fifty" module_flags_none 50, example_module_erring] 0
          { example_session_stdin with infile := some (dbuf_open_input_stdin example_env) }
          0 none []).best_module = none ∧
    ∃ st', de_run [example_module "fifty" module_flags_none 50, example_module_erring]
        example_env example_session_stdin = some st' ∧
      (∀ j : Nat, run_event.run_fn j ∉ st'.2) :=
  ⟨by rfl, by rfl, by rfl,
    (detect_error_aborts [example_module "fifty" module_flags_none 50, example_module_erring]
      example_env example_session_stdin _ none _ _ (by rfl) (by rfl) (by rfl)).1,
    (detect_error_aborts [example_module "fifty" module_flags_none 50, example_module_erring]
      example_env example_session_stdin _ none _ _ (by rfl) (by rfl) (by rfl)).2.2.2.1.imp
      fun _ h => ⟨h.1, h.2.1⟩⟩

theorem err_mem_de_err (st : run_state) (t : String) : run_event.err t ∈ (de_err st t).2 := by
  simp [de_err]

/-- C25: a run of `de_run` in which no module is resolved, because the explicitly requested
id matches no module (and the run is not ended before the lookup by a fatal error), or
because `detect_module_for_file` returns no module without setting its error flag (an empty
input included): `de_run` returns, it has reported an error, and it has invoked no run
function. -/
theorem de_run_no_module_is_error (modules : List deark_module_info) (env : os_env) (c : deark)
    (h : (∃ id, c.input_format_req = some id ∧ de_get_module_by_id modules id = none ∧
            c.module_register_fn = true ∧
            (c.input_style = DE_INPUTSTYLE_STDIN ∨ c.input_filename.isSome = true)) ∨
         (∃ (st : run_state) (sub orig : Option dbuf) (r : detect_result),
            de_run_selection_entry modules env c = some (st, sub, orig, none) ∧
            detect_module_for_file modules st.1 = some r ∧ r.errflag = false ∧
            r.best_module = none)) :
    ∃ st', de_run modules env c = some st' ∧ (∃ text, run_event.err text ∈ st'.2) ∧
      (∀ j : Nat, run_event.run_fn j ∉ st'.2) := by
  rcases h with ⟨id, hid, hlook, hreg, hfn⟩ | ⟨st, sub, orig, r, hentry, hdet, herr, hbest⟩
  · unfold de_run
    by_cases h1 : c.modhelp_req ∧ c.input_format_req.isSome
    · rw [if_pos h1]
      have hm : do_modhelp modules (c, []) = some (de_err (c, []) "Unknown module") := by
        unfold do_modhelp
        simp only [hreg, hid, Option.some_bind, hlook]
        simp
      rw [hm]
      refine ⟨_, rfl, ⟨_, mem_de_run_done _ _ _ _ (err_mem_de_err _ _)⟩, ?_⟩
      intro j
      apply run_fn_not_mem_of_dispatch_events_nil
      rw [dispatch_events_de_run_done, dispatch_events_de_err]
      rfl
    · rw [if_neg h1]
      simp only
      generalize hst1 : (if c.extrlist_filename.isSome = true then open_extrlist (c, []) env
        else (c, [])) = st1
      have hf : st1.1.module_register_fn = c.module_register_fn ∧
          st1.1.input_style = c.input_style ∧ st1.1.input_filename = c.input_filename ∧
          st1.1.input_format_req = c.input_format_req ∧ dispatch_events st1.2 = [] := by
        rw [← hst1]
        split
        · obtain ⟨a, b, d, -⟩ := open_extrlist_fields (c, []) env
          refine ⟨a, b, d, open_extrlist_input_format_req _ _, ?_⟩
          rw [dispatch_events_open_extrlist]; rfl
        · exact ⟨rfl, rfl, rfl, rfl, rfl⟩
      obtain ⟨f1, f2, f3, f4, f5⟩ := hf
      rw [if_neg (by
        rw [f2, f3]
        intro hh
        rcases hfn with hfn | hfn
        · exact hh.1 hfn
        · rw [Option.isNone_iff_eq_none] at hh
          rw [hh.2] at hfn
          exact absurd hfn (by simp)), if_neg (by rw [f1, hreg]; simp)]
      have hreq : de_run_requested_module modules st1.1 = none := by
        unfold de_run_requested_module
        rw [f4, hid]
        simp only [hlook]
      rw [hreq]
      refine ⟨_, rfl, ⟨_, mem_de_run_done _ _ _ _ (err_mem_de_err _ _)⟩, ?_⟩
      intro j
      apply run_fn_not_mem_of_dispatch_events_nil
      rw [dispatch_events_de_run_done, dispatch_events_de_err]
      exact f5
  · obtain ⟨hrun, hdisp⟩ := de_run_eq_with_input modules env c st sub orig none hentry
    rw [hrun]
    unfold de_run_with_input de_run_select
    simp only [hdet, herr, hbest, Bool.false_eq_true, if_false, Option.none_bind]
    refine ⟨_, rfl, ⟨_, mem_de_run_done _ _ _ _ (err_mem_de_err _ _)⟩, ?_⟩
    intro j
    apply run_fn_not_mem_of_dispatch_events_nil
    rw [dispatch_events_de_run_done, dispatch_events_de_err]
    exact hdisp

theorem de_run_no_module_is_error_witness :
    ((∃ id, example_session_stdin.input_format_req = some id ∧
        de_get_module_by_id [example_module "zero" module_flags_none 0] id = none ∧
        example_session_stdin.module_register_fn = true ∧
        (example_session_stdin.input_style = DE_INPUTSTYLE_STDIN ∨
          example_session_stdin.input_filename.isSome = true)) ∨
      (∃ (st : run_state) (sub orig : Option dbuf) (r : detect_result),
        de_run_selection_entry [example_module "zero" module_flags_none 0] example_env
          example_session_stdin = some (st, sub, orig, none) ∧
        detect_module_for_file [example_module "zero" module_flags_none 0] st.1 = some r ∧
        r.errflag = false ∧ r.best_module = none)) ∧
    ∃ st', de_run [example_module "zero" module_flags_none 0] example_env
        example_session_stdin = some st' ∧
      (∃ text, run_event.err text ∈ st'.2) ∧ (∀ j : Nat, run_event.run_fn j ∉ st'.2) :=
  ⟨Or.inr ⟨_, _, _, _, rfl, rfl, rfl, rfl⟩,
    de_run_no_module_is_error [example_module "zero" module_flags_none 0] example_env
      example_session_stdin (Or.inr ⟨_, _, _, _, rfl, rfl, rfl, rfl⟩)⟩

/-! ## The security check of an autodetected module -/

theorem modhelp_description_msg (mi : deark_module_info) (e : run_event)
    (he : e ∈ modhelp_description mi) : ∃ t, e = run_event.msg t := by
  unfold modhelp_description at he
  simp only [List.mem_append, List.mem_singleton, List.mem_map] at he
  rcases he with ((he | ⟨a, -, he⟩) | he) | he
  · exact ⟨_, he⟩
  · exact ⟨_, he.symm⟩
  · cases hd : mi.desc with
    | none => simp [hd] at he
    | some d => simp [hd] at he; exact ⟨_, he⟩
  · cases hd : mi.desc2 with
    | none => simp [hd] at he
    | some d => simp [hd] at he; exact ⟨_, he⟩

theorem de_run_done_trace (st : run_state) (subfile orig_ifile : Option dbuf) :
    ∃ closes : List run_event, (de_run_done st subfile orig_ifile).2 = st.2 ++ closes ∧
      ∀ e ∈ closes, ∃ d, e = run_event.dbuf_close d := by
  unfold de_run_done
  cases subfile <;> cases orig_ifile <;> cases st.1.extrlist_dbuf <;>
    simp [List.append_assoc]

theorem de_run_autodetected (modules : List deark_module_info) (env : os_env) (c : deark)
    (st : run_state) (sub orig : Option dbuf) (r : detect_result) (i : Nat)
    (mi : deark_module_info)
    (hentry : de_run_selection_entry modules env c = some (st, sub, orig, none))
    (hdet : detect_module_for_file modules st.1 = some r) (herr : r.errflag = false)
    (hbest : r.best_module = some i) (hmi : modules[i]? = some mi) :
    de_run modules env c = some (de_run_done
      (de_run_stage_validate env (r.c, st.2 ++ [.module_selected i true]) i mi true)
      sub orig) := by
  obtain ⟨hrun, -⟩ := de_run_eq_with_input modules env c st sub orig none hentry
  rw [hrun]
  unfold de_run_with_input de_run_select
  simp [hdet, herr, hbest, hmi]

/-- C8 (amended): in a run of `de_run` in which the module is chosen by auto-detection
(the run enters the selection of the module without an explicit request, and
`detect_module_for_file` returns the module at index `i`) and carries
`DE_MODFLAG_SECURITYWARNING`: `de_run` returns and no run function is invoked. If module
help is requested (`modhelp_req` is set when the module has been selected, and the id of
the module is not "unsupported"), the events after the selection are the help of the
module (its description, then the help text or the message that there is none) and the
closing of the dbufs: the security error is not reported, and `de_run` reports no error
after the selection. Otherwise the events after the selection are the
message "Module:", the security error and the closing of the dbufs, and the error count is
raised by one. And when a module is named explicitly by the caller, the flag plays no
part: the run is the same as with the flag cleared in the whole table. -/
theorem de_run_security_warning (modules : List deark_module_info) (env : os_env)
    (c : deark) :
    (∀ (st : run_state) (sub orig : Option dbuf) (r : detect_result) (i : Nat)
        (mi : deark_module_info),
      de_run_selection_entry modules env c = some (st, sub, orig, none) →
      detect_module_for_file modules st.1 = some r → r.errflag = false →
      r.best_module = some i → modules[i]? = some mi →
      mi.flags.DE_MODFLAG_SECURITYWARNING = true →
      ∃ (st' : run_state) (closes : List run_event),
        de_run modules env c = some st' ∧
        (∀ e ∈ closes, ∃ d, e = run_event.dbuf_close d) ∧
        (∀ j : Nat, run_event.run_fn j ∉ st'.2) ∧
        ((r.c.modhelp_req = true ∧ mi.id ≠ "unsupported") →
          st'.2 = st.2 ++ [.module_selected i true] ++ modhelp_description mi ++
            (if mi.help_fn.isSome then [.msg "Help for module", .help_fn i]
             else [.msg "No help available for module"]) ++ closes ∧
          (∀ t, run_event.err t ∈ st'.2 → run_event.err t ∈ st.2)) ∧
        (¬ (r.c.modhelp_req = true ∧ mi.id ≠ "unsupported") →
          st'.2 = st.2 ++ [.module_selected i true, .msg ("Module: " ++ mi.id),
            .err security_warning_text] ++ closes ∧
          st'.1.error_count = r.c.error_count + 1)) ∧
    (c.input_format_req.isSome = true →
      de_run (modules.map clear_securitywarning) env c = de_run modules env c) := by
  refine ⟨?_, fun hreq => de_run_clear_securitywarning modules env c hreq⟩
  intro st sub orig r i mi hentry hdet herr hbest hmi hflag
  have hrun := de_run_autodetected modules env c st sub orig r i mi hentry hdet herr hbest hmi
  obtain ⟨-, hdisp⟩ := de_run_eq_with_input modules env c st sub orig none hentry
  obtain ⟨closes, htrace, hcloses⟩ := de_run_done_trace
    (de_run_stage_validate env (r.c, st.2 ++ [.module_selected i true]) i mi true) sub orig
  refine ⟨_, closes, hrun, hcloses, ?_, ?_, ?_⟩
  · intro j hj
    have h1 := (de_run_stage_validate_security env (r.c, st.2 ++ [.module_selected i true])
      i mi hflag).1
    have h2 : dispatch_events
        (de_run_done (de_run_stage_validate env (r.c, st.2 ++ [.module_selected i true]) i mi
          true) sub orig).2 = [.module_selected i true] := by
      rw [dispatch_events_de_run_done, h1, dispatch_events_append, hdisp]
      rfl
    have h3 : run_event.run_fn j ∈ dispatch_events
        (de_run_done (de_run_stage_validate env (r.c, st.2 ++ [.module_selected i true]) i mi
          true) sub orig).2 := by
      unfold dispatch_events
      exact List.mem_filter.mpr ⟨hj, rfl⟩
    rw [h2] at h3
    simp at h3
  · intro hhelp
    have hval : (de_run_stage_validate env (r.c, st.2 ++ [.module_selected i true]) i mi true).2
        = st.2 ++ [.module_selected i true] ++ modhelp_description mi ++
            (if mi.help_fn.isSome then [.msg "Help for module", .help_fn i]
             else [.msg "No help available for module"]) := by
      unfold de_run_stage_validate
      rw [if_pos ⟨hhelp.1, rfl, hhelp.2⟩, do_modhelp_internal_eq]
      cases mi.help_fn <;> simp
    rw [htrace, hval]
    refine ⟨rfl, ?_⟩
    intro t ht
    simp only [List.mem_append, List.mem_singleton] at ht
    rcases ht with (((ht | ht) | ht) | ht) | ht
    · exact ht
    · cases ht
    · exfalso
      obtain ⟨t', ht'⟩ := modhelp_description_msg mi _ ht
      cases ht'
    · split at ht <;> simp at ht
    · obtain ⟨d, hd⟩ := hcloses _ ht
      cases hd
  · intro hnohelp
    have hval : de_run_stage_validate env (r.c, st.2 ++ [.module_selected i true]) i mi true
        = de_err (de_msg (r.c, st.2 ++ [.module_selected i true]) ("Module: " ++ mi.id))
            security_warning_text := by
      unfold de_run_stage_validate
      rw [if_neg (fun h => hnohelp ⟨h.1, h.2.2⟩)]
      simp only
      rw [if_pos ⟨trivial, hflag⟩]
    refine ⟨?_, ?_⟩
    · rw [htrace, hval]
      simp [de_err, de_msg]
    · rw [(de_run_done_counts _ _ _).1, hval]
      rfl

theorem de_run_security_warning_witness :
    (de_run [example_module_unaudited] example_env example_session).map Prod.snd
      = some [.open_input, .module_selected 0 true, .msg "Module: unaudited",
              .err security_warning_text, .dbuf_close .orig_ifile] ∧
    ∃ (st : run_state) (sub orig : Option dbuf) (r : detect_result) (i : Nat)
        (mi : deark_module_info),
      de_run_selection_entry [example_module_unaudited] example_env example_session
        = some (st, sub, orig, none) ∧
      detect_module_for_file [example_module_unaudited] st.1 = some r ∧ r.errflag = false ∧
      r.best_module = some i ∧ [example_module_unaudited][i]? = some mi ∧
      mi.flags.DE_MODFLAG_SECURITYWARNING = true ∧
      ∃ (st' : run_state) (closes : List run_event),
        de_run [example_module_unaudited] example_env example_session = some st' ∧
        (∀ e ∈ closes, ∃ d, e = run_event.dbuf_close d) ∧
        (∀ j : Nat, run_event.run_fn j ∉ st'.2) ∧
        ((r.c.modhelp_req = true ∧ mi.id ≠ "unsupported") →
          st'.2 = st.2 ++ [.module_selected i true] ++ modhelp_description mi ++
            (if mi.help_fn.isSome then [.msg "Help for module", .help_fn i]
             else [.msg "No help available for module"]) ++ closes ∧
          (∀ t, run_event.err t ∈ st'.2 → run_event.err t ∈ st.2)) ∧
        (¬ (r.c.modhelp_req = true ∧ mi.id ≠ "unsupported") →
          st'.2 = st.2 ++ [.module_selected i true, .msg ("Module: " ++ mi.id),
            .err security_warning_text] ++ closes ∧
          st'.1.error_count = r.c.error_count + 1) :=
  ⟨by decide, _, _, _, _, _, _, rfl, rfl, rfl, rfl, rfl, rfl,
    (de_run_security_warning [example_module_unaudited] example_env example_session).1
      _ _ _ _ _ _ rfl rfl rfl rfl rfl rfl⟩

/-! ## The report after the run, and the slice view -/

theorem open_extrlist_slice (st : run_state) (env : os_env) :
    (open_extrlist st env).1.slice_start_req = st.1.slice_start_req ∧
    (open_extrlist st env).1.slice_size_req = st.1.slice_size_req ∧
    (open_extrlist st env).1.slice_size_req_valid = st.1.slice_size_req_valid := by
  unfold open_extrlist
  split
  · exact ⟨rfl, rfl, rfl⟩
  · unfold dbuf_create_unmanaged_file
    cases env.extrlist_file <;> exact ⟨rfl, rfl, rfl⟩

theorem dbuf_open_input_file_slice (st : run_state) (env : os_env) (fn : Option String) :
    (dbuf_open_input_file st env fn).2.1.slice_start_req = st.1.slice_start_req ∧
    (dbuf_open_input_file st env fn).2.1.slice_size_req = st.1.slice_size_req ∧
    (dbuf_open_input_file st env fn).2.1.slice_size_req_valid = st.1.slice_size_req_valid := by
  unfold dbuf_open_input_file
  split
  · exact ⟨rfl, rfl, rfl⟩
  · split
    · exact ⟨rfl, rfl, rfl⟩
    · split <;> exact ⟨rfl, rfl, rfl⟩

theorem de_run_open_slice (st1 : run_state) (env : os_env) :
    (de_run_open st1 env).2.1.slice_start_req = st1.1.slice_start_req ∧
    (de_run_open st1 env).2.1.slice_size_req = st1.1.slice_size_req ∧
    (de_run_open st1 env).2.1.slice_size_req_valid = st1.1.slice_size_req_valid := by
  unfold de_run_open
  split
  · exact ⟨rfl, rfl, rfl⟩
  · simp only
    split
    · split
      · exact dbuf_open_input_file_slice st1 env _
      · exact dbuf_open_input_file_slice st1 env _
    · exact dbuf_open_input_file_slice st1 env _

/-- C26 (counterexample): on the input file 00 05 16 00 of length 4, the slice request
`start = 2` with the explicit size 10 makes `de_run` use a view of length 10, so that
`start + view.len = 12 > 4`; and the slice request `start = 6` without size makes it use a
view of length -2. -/
theorem de_run_slice_view_exceeds_input :
    (de_run_selection_entry [] example_env
      { example_session with slice_start_req := 2, slice_size_req := 10,
                             slice_size_req_valid := true }).map
      (fun e => (e.2.1.map dbuf.len, e.2.2.1.map dbuf.len)) = some (some 10, some 4) ∧
    (de_run_selection_entry [] example_env
      { example_session with slice_start_req := 6 }).map
      (fun e => (e.2.1.map dbuf.len, e.2.2.1.map dbuf.len)) = some (some (-2), some 4) := by
  decide

/-- C26 (amended): when a run of `de_run` on `c` enters the selection of the module with a
slice view, the view is `dbuf_open_input_subfile(orig_ifile, start, size)` and is the
effective input; its length is the requested size when one is given, whatever the length
`N` of the opened input, and `N - start` otherwise. So without an explicit size
`0 ≤ view.len` and `start + view.len ≤ N` hold when `start ≤ N`, and with an explicit size
they hold exactly when `0 ≤ size ≤ N - start`. -/
theorem de_run_slice_view_length (modules : List deark_module_info) (env : os_env) (c : deark)
    (st : run_state) (view : dbuf) (orig : Option dbuf) (req : Option Nat)
    (hentry : de_run_selection_entry modules env c = some (st, some view, orig, req)) :
    ∃ orig_ifile, orig = some orig_ifile ∧ orig_ifile.wf ∧
      view = dbuf_open_input_subfile orig_ifile c.slice_start_req view.len ∧
      st.1.infile = some view ∧
      view.len = (if c.slice_size_req_valid then c.slice_size_req
        else orig_ifile.len - c.slice_start_req) ∧
      (c.slice_size_req_valid = false → c.slice_start_req ≤ orig_ifile.len →
        0 ≤ view.len ∧ c.slice_start_req + view.len ≤ orig_ifile.len) ∧
      (c.slice_size_req_valid = true →
        ((0 ≤ view.len ∧ c.slice_start_req + view.len ≤ orig_ifile.len) ↔
          (0 ≤ c.slice_size_req ∧ c.slice_size_req ≤ orig_ifile.len - c.slice_start_req))) := by
  unfold de_run_selection_entry at hentry
  by_cases h1 : c.modhelp_req ∧ c.input_format_req.isSome
  · rw [if_pos h1] at hentry; exact absurd hentry (by simp)
  · rw [if_neg h1] at hentry
    simp only at hentry
    generalize hst1 : (if c.extrlist_filename.isSome = true then open_extrlist (c, []) env
      else (c, [])) = st1 at hentry
    have hs1 : st1.1.slice_start_req = c.slice_start_req ∧
        st1.1.slice_size_req = c.slice_size_req ∧
        st1.1.slice_size_req_valid = c.slice_size_req_valid := by
      rw [← hst1]
      split
      · exact open_extrlist_slice _ _
      · exact ⟨rfl, rfl, rfl⟩
    by_cases h2 : st1.1.input_style ≠ DE_INPUTSTYLE_STDIN ∧ st1.1.input_filename.isNone
    · rw [if_pos h2] at hentry; exact absurd hentry (by simp)
    · rw [if_neg h2] at hentry
      by_cases h3 : st1.1.module_register_fn = false
      · rw [if_pos h3] at hentry; exact absurd hentry (by simp)
      · rw [if_neg h3] at hentry
        cases hreq : de_run_requested_module modules st1.1 with
        | none => rw [hreq] at hentry; exact absurd hentry (by simp)
        | some module_req =>
          rw [hreq] at hentry
          simp only at hentry
          have hs2 := de_run_open_slice st1 env
          have hwf2 := de_run_open_wf st1 env
          cases hopen : de_run_open st1 env with
          | mk o st2 =>
            rw [hopen] at hentry hs2 hwf2
            cases o with
            | none => exact absurd hentry (by simp)
            | some orig_ifile =>
              simp only at hentry hs2 hwf2
              obtain ⟨a1, a2, a3⟩ := hs1
              obtain ⟨b1, b2, b3⟩ := hs2
              rw [a1] at b1
              rw [a2] at b2
              rw [a3] at b3
              by_cases h4 : st2.1.slice_start_req > 0 ∨ st2.1.slice_size_req_valid = true
              · rw [if_pos h4] at hentry
                simp only [Option.some.injEq, Prod.mk.injEq] at hentry
                obtain ⟨rfl, rfl, rfl, rfl⟩ := hentry
                rw [b1, b2, b3]
                refine ⟨orig_ifile, rfl, hwf2 orig_ifile rfl, rfl, rfl, rfl, ?_, ?_⟩
                · intro hv hle
                  show 0 ≤ (if c.slice_size_req_valid = true then c.slice_size_req
                      else orig_ifile.len - c.slice_start_req) ∧
                    c.slice_start_req + (if c.slice_size_req_valid = true then c.slice_size_req
                      else orig_ifile.len - c.slice_start_req) ≤ orig_ifile.len
                  rw [if_neg (by rw [hv]; simp)]
                  omega
                · intro hv
                  show (0 ≤ (if c.slice_size_req_valid = true then c.slice_size_req
                      else orig_ifile.len - c.slice_start_req) ∧
                    c.slice_start_req + (if c.slice_size_req_valid = true then c.slice_size_req
                      else orig_ifile.len - c.slice_start_req) ≤ orig_ifile.len) ↔ _
                  rw [if_pos hv]
                  constructor <;> intro h <;> omega
              · rw [if_neg h4] at hentry
                simp only [Option.some.injEq, Prod.mk.injEq] at hentry
                exact absurd hentry.2.1 (by simp)

theorem de_run_slice_view_length_witness :
    de_run_selection_entry [] example_env example_session_slice
      = some (({ example_session_slice with
                  infile := some (dbuf_open_input_subfile example_input_file 1 3) },
               [run_event.open_input, run_event.open_subfile]),
              some (dbuf_open_input_subfile example_input_file 1 3),
              some example_input_file, none) ∧
    ∃ orig_ifile, some example_input_file = some orig_ifile ∧ orig_ifile.wf ∧
      dbuf_open_input_subfile example_input_file 1 3
        = dbuf_open_input_subfile orig_ifile example_session_slice.slice_start_req
            (dbuf_open_input_subfile example_input_file 1 3).len :=
  ⟨by rfl,
    (de_run_slice_view_length [] example_env example_session_slice
      _ _ _ none (by rfl)).imp fun _ h => ⟨h.1, h.2.1, h.2.2.1⟩⟩

/-! ## Searching for a byte, and reading a string -/

/-- C21 (counterexample): a membuf `P` holds 0x01; the view `V` over it is read with
`dbuf_getbyte(V, 0)`, which leaves 0x01 in the one-byte cache of `V`; then
`dbuf_writebyte_at(P, 0, 0x00)`. Now `dbuf_read(V, 0, 1)` returns the byte 0x00, but
`dbuf_read_string(V, 0, 1, 1, DE_CONVFLAG_STOP_AT_NUL)` does not set `found_nul`, and its
`sz` holds the byte 0x00 before the terminator. -/
theorem dbuf_read_string_misses_nul_behind_stale_cache :
    dbuf_getbyte (dbuf_open_input_subfile example_membuf 0 1) 0
      = some (1, .child example_view_fields example_membuf) ∧
    dbuf_writebyte_at example_membuf 0 0 = some example_membuf_nul ∧
    (dbuf_read (.child example_view_fields example_membuf_nul) 0 1).map Prod.fst
      = some [0] ∧
    (dbuf_read_string (.child example_view_fields example_membuf_nul) 0 1 1
      { DE_CONVFLAG_STOP_AT_NUL := true, DE_CONVFLAG_WANT_UTF8 := false }).map Prod.fst
      = some { sz := [0, 0], was_truncated := false, found_nul := false,
               bytes_consumed := 2 } := by
  decide

theorem read_spec_getElem? (f : dbuf) (p n : Int) (j : Nat) (hj : (j : Int) < n) :
    (f.read_spec p n)[j]? = some (f.logical_byte (p + j)) := by
  unfold dbuf.read_spec dbuf.logical_byte
  rw [List.getElem?_map, List.getElem?_range (by omega)]
  rfl

/-- The loop of `dbuf_search_byte` over a well-formed dbuf whose one-byte cache is empty or
right: it returns at the least index from `i` on at which the dbuf holds the byte, or with
0 and `*foundpos` untouched when there is none. -/
theorem dbuf_search_byte_loop_spec (f0 : dbuf) (b : UInt8) (startpos hl foundpos : Int)
    (hs : 0 ≤ startpos) :
    ∀ (fuel : Nat) (i : Nat) (f : dbuf), f.wf → f.cache2_ok →
      f.erase_read_state = f0.erase_read_state → (hl - i).toNat ≤ fuel →
      ∃ ret fp f1, dbuf_search_byte_loop b startpos hl foundpos fuel i f = some (ret, fp, f1) ∧
        f1.wf ∧ f1.cache2_ok ∧ f1.erase_read_state = f0.erase_read_state ∧
        ((ret = 1 ∧ ∃ j : Nat, i ≤ j ∧ (j : Int) < hl ∧ fp = startpos + j ∧
            f0.logical_byte (startpos + j) = b ∧
            ∀ j' : Nat, i ≤ j' → j' < j → f0.logical_byte (startpos + j') ≠ b) ∨
         (ret = 0 ∧ fp = foundpos ∧
            ∀ j : Nat, i ≤ j → (j : Int) < hl → f0.logical_byte (startpos + j) ≠ b)) := by
  intro fuel
  induction fuel with
  | zero =>
    intro i f hwf hc2 her hfuel
    unfold dbuf_search_byte_loop
    rw [if_neg (by omega)]
    exact ⟨0, foundpos, f, rfl, hwf, hc2, her, Or.inr ⟨rfl, rfl, fun j h1 h2 => by omega⟩⟩
  | succ fuel ih =>
    intro i f hwf hc2 her hfuel
    unfold dbuf_search_byte_loop
    by_cases hlt : (i : Int) < hl
    · rw [if_pos hlt]
      obtain ⟨f1, hgb, hwf1, her1, hc1⟩ := dbuf_getbyte_correct f (startpos + i) hwf hc2
        (by omega)
      rw [hgb]
      simp only
      have hlb : f.logical_byte (startpos + i) = f0.logical_byte (startpos + i) :=
        logical_byte_eq_of_erase_eq f f0 her _
      rw [hlb]
      by_cases hb : b = f0.logical_byte (startpos + i)
      · rw [if_pos hb]
        exact ⟨1, startpos + i, f1, rfl, hwf1, hc1, her1.trans her,
          Or.inl ⟨rfl, i, le_refl _, hlt, rfl, hb.symm, fun j' h1 h2 => by omega⟩⟩
      · rw [if_neg hb]
        obtain ⟨ret, fp, f2, hrun, hwf2, hc2', her2, hres⟩ := ih (i + 1) f1 hwf1 hc1
          (her1.trans her) (by push_cast; omega)
        have hrun' : dbuf_search_byte_loop b startpos hl foundpos fuel ((i : Int) + 1) f1
            = some (ret, fp, f2) := by
          have : (((i + 1 : Nat) : Int)) = (i : Int) + 1 := by push_cast; rfl
          rw [← this]; exact hrun
        refine ⟨ret, fp, f2, hrun', hwf2, hc2', her2, ?_⟩
        rcases hres with ⟨h1, j, hj1, hj2, hj3, hj4, hj5⟩ | ⟨h1, h2, h3⟩
        · refine Or.inl ⟨h1, j, by omega, hj2, hj3, hj4, ?_⟩
          intro j' h1' h2'
          by_cases he : j' = i
          · subst he; exact fun h => hb h.symm
          · exact hj5 j' (by omega) h2'
        · refine Or.inr ⟨h1, h2, ?_⟩
          intro j h1' h2'
          by_cases he : j = i
          · subst he; exact fun h => hb h.symm
          · exact h3 j (by omega) h2'
    · rw [if_neg hlt]
      exact ⟨0, foundpos, f, rfl, hwf, hc2, her, Or.inr ⟨rfl, rfl, fun j h1 h2 => by omega⟩⟩

/-- C21 (amended): for a well-formed readable dbuf `f` whose one-byte cache is empty or
holds the byte that `f` has at the cached position, `0 ≤ pos ≤ f.len`,
`max_bytes_to_scan ≥ 0`, `max_bytes_to_keep ≥ 0` and the flag `DE_CONVFLAG_STOP_AT_NUL`:
`dbuf_read_string` returns; with `h = min(max_bytes_to_scan, f.len - pos)` there is a `k`
in `[0, h]` such that none of the first `k` bytes at `pos` is 0x00, `found_nul` is set
exactly when a 0x00 byte occurs among the first `h` bytes at `pos`, and then the byte at
offset `k` is 0x00, and otherwise `k = h`; `sz` is the first `min(k, max_bytes_to_keep)`
bytes at `pos` followed by one NUL, with no NUL before it; `was_truncated` is set exactly
when `k > max_bytes_to_keep`; and `bytes_consumed` is `k + 1`. -/
theorem dbuf_read_string_stop_at_nul (f : dbuf) (pos max_bytes_to_scan max_bytes_to_keep : Int)
    (flags : de_convflags) (hwf : f.wf) (hc2 : f.cache2_ok) (hp0 : 0 ≤ pos)
    (hp1 : pos ≤ f.len) (hscan : 0 ≤ max_bytes_to_scan) (hkeep : 0 ≤ max_bytes_to_keep)
    (hflag : flags.DE_CONVFLAG_STOP_AT_NUL = true) :
    ∃ srd f1, ∃ k : Nat,
      dbuf_read_string f pos max_bytes_to_scan max_bytes_to_keep flags = some (srd, f1) ∧
      f1.wf ∧ f1.erase_read_state = f.erase_read_state ∧
      (k : Int) ≤ min max_bytes_to_scan (f.len - pos) ∧
      (∀ j : Nat, j < k →
        ∃ x, (f.read_spec pos (min max_bytes_to_scan (f.len - pos)))[j]? = some x ∧ x ≠ 0) ∧
      (srd.found_nul = true ↔
        ∃ j : Nat, (f.read_spec pos (min max_bytes_to_scan (f.len - pos)))[j]? = some 0) ∧
      (srd.found_nul = true →
        (f.read_spec pos (min max_bytes_to_scan (f.len - pos)))[k]? = some 0) ∧
      (srd.found_nul = false → (k : Int) = min max_bytes_to_scan (f.len - pos)) ∧
      srd.sz = f.read_spec pos (min (k : Int) max_bytes_to_keep) ++ [0] ∧
      (∀ x ∈ f.read_spec pos (min (k : Int) max_bytes_to_keep), x ≠ 0) ∧
      (srd.was_truncated = true ↔ (k : Int) > max_bytes_to_keep) ∧
      srd.bytes_consumed = k + 1 := by
  unfold dbuf_read_string
  simp only [hflag, not_true_eq_false, false_and, if_false]
  generalize hh : (if max_bytes_to_scan > f.len - pos then f.len - pos
    else max_bytes_to_scan) = h
  have hmin : min max_bytes_to_scan (f.len - pos) = h := by
    rw [← hh]
    split
    · exact min_eq_right (by omega)
    · exact min_eq_left (by omega)
  rw [hmin]
  have hh0 : 0 ≤ h := by rw [← hh]; split <;> omega
  have hh1 : pos + h ≤ f.len := by rw [← hh]; split <;> omega
  obtain ⟨ret, fp, f1, hsearch, hwf1, hc1, her1, hres⟩ :=
    dbuf_search_byte_loop_spec f 0 pos h 0 hp0 h.toNat 0 f hwf hc2 rfl (by simp)
  have hsearch' : dbuf_search_byte f 0 pos h 0 = some (ret, fp, f1) := by
    unfold dbuf_search_byte
    exact hsearch
  unfold dbuf_read_string_scan
  simp only [hflag, if_true, hsearch', Option.map_some']
  -- the length of the string
  obtain ⟨k, hk, hkh, hbefore, hfound, hnot⟩ : ∃ k : Nat,
      (if ret ≠ 0 then fp else pos + h) - pos = (k : Int) ∧ (k : Int) ≤ h ∧
      (∀ j : Nat, j < k → f.logical_byte (pos + j) ≠ 0) ∧
      (ret ≠ 0 → (k : Int) < h ∧ f.logical_byte (pos + k) = 0) ∧
      (¬ ret ≠ 0 → (k : Int) = h ∧ ∀ j : Nat, (j : Int) < h → f.logical_byte (pos + j) ≠ 0) := by
    rcases hres with ⟨h1, j, -, hj2, hj3, hj4, hj5⟩ | ⟨h1, h2, h3⟩
    · refine ⟨j, by rw [if_pos (by omega), hj3]; omega, by omega,
        fun j' hj' => hj5 j' (Nat.zero_le _) hj', fun _ => ⟨hj2, hj4⟩, fun hn => ?_⟩
      exact absurd (by omega : ret ≠ 0) hn
    · refine ⟨h.toNat, by rw [if_neg (by omega)]; omega, by omega,
        fun j hj => h3 j (Nat.zero_le _) (by omega), fun hn => absurd h1 hn, fun _ => ?_⟩
      exact ⟨by omega, fun j hj => h3 j (Nat.zero_le _) hj⟩
  rw [hk]
  generalize hbtm : (if (k : Int) + 1 > max_bytes_to_keep + 1 then max_bytes_to_keep + 1
    else (k : Int) + 1) = btm
  have hbtm1 : btm - 1 = min (k : Int) max_bytes_to_keep := by
    rw [← hbtm]
    split
    · rw [min_eq_right (by omega)]; omega
    · rw [min_eq_left (by omega)]; omega
  have hbtm0 : 1 ≤ btm := by rw [← hbtm]; split <;> omega
  obtain ⟨f2, hrd, hwf2, her2⟩ := dbuf_read_correct f1 pos (btm - 1) hwf1 hp0 (by omega)
  rw [hrd]
  simp only
  rw [read_spec_eq_of_erase_eq f1 f her1, read_spec_length, hbtm1]
  have helem : ∀ (n : Int) (j : Nat), (j : Int) < n → n ≤ h →
      (f.read_spec pos n)[j]? = some (f.logical_byte (pos + j)) :=
    fun n j hj _ => read_spec_getElem? f pos n j hj
  refine ⟨_, f2, k, rfl, hwf2, her2.trans her1, hkh, ?_, ?_, ?_, ?_, ?_, ?_, ?_, rfl⟩
  · intro j hj
    exact ⟨_, helem h j (by omega) (le_refl _), hbefore j hj⟩
  · simp only [decide_eq_true_eq]
    constructor
    · intro hr
      exact ⟨k, by rw [helem h k (hfound hr).1 (le_refl _), (hfound hr).2]⟩
    · intro ⟨j, hj⟩
      by_contra hn
      have hjlt : j < (f.read_spec pos h).length := by
        by_contra hge
        rw [List.getElem?_eq_none (by omega)] at hj
        exact absurd hj (by simp)
      rw [read_spec_length] at hjlt
      have := (hnot (not_not.mpr hn)).2 j (by omega)
      rw [helem h j (by omega) (le_refl _)] at hj
      exact this (Option.some.inj hj)
  · simp only [decide_eq_true_eq]
    intro hr
    rw [helem h k (hfound hr).1 (le_refl _), (hfound hr).2]
  · simp only [decide_eq_false_iff_not]
    intro hr
    exact (hnot hr).1
  · rw [show btm.toNat - (min (k : Int) max_bytes_to_keep).toNat = 1 by omega]
    rfl
  · intro x hx
    obtain ⟨j, hj⟩ := List.mem_iff_getElem?.mp hx
    have hjlt : j < (f.read_spec pos (min (k : Int) max_bytes_to_keep)).length := by
      by_contra hge
      rw [List.getElem?_eq_none (by omega)] at hj
      exact absurd hj (by simp)
    rw [read_spec_length] at hjlt
    have hjk : j < k := by omega
    rw [read_spec_getElem? f pos _ j (by omega)] at hj
    rw [← Option.some.inj hj]
    exact hbefore j hjk
  · simp only [decide_eq_true_eq]
    constructor <;> intro hh' <;> omega

theorem dbuf_read_string_stop_at_nul_witness :
    example_membuf_string.wf ∧ example_membuf_string.cache2_ok ∧ (0 : Int) ≤ 0 ∧
    (0 : Int) ≤ example_membuf_string.len ∧ (0 : Int) ≤ 4 ∧ (0 : Int) ≤ 1 ∧
    ∃ srd f1, ∃ k : Nat,
      dbuf_read_string example_membuf_string 0 4 1
        { DE_CONVFLAG_STOP_AT_NUL := true, DE_CONVFLAG_WANT_UTF8 := false } = some (srd, f1) ∧
      f1.wf ∧ f1.erase_read_state = example_membuf_string.erase_read_state ∧
      (k : Int) ≤ min 4 (example_membuf_string.len - 0) :=
  ⟨by decide, by decide, by decide, by decide, by decide, by decide,
    (dbuf_read_string_stop_at_nul example_membuf_string 0 4 1
      { DE_CONVFLAG_STOP_AT_NUL := true, DE_CONVFLAG_WANT_UTF8 := false }
      (by decide) (by decide) (by decide) (by decide) (by decide) (by decide) rfl).imp
      fun _ h => h.imp fun _ h => h.imp fun _ h => ⟨h.1, h.2.1, h.2.2.1, h.2.2.2.1⟩⟩

/-! ## Creating an output file -/

theorem long_base_name_stored (c : output_session) :
    (de_set_base_output_filename c (some example_long_base_name) 0).base_output_filename
      = some example_long_base_name := by
  unfold de_set_base_output_filename example_long_base_name c_str
  have h0 : (0 &&& 0x1 : Nat) = 0 := rfl
  have h1 : (0 &&& 0x2 : Nat) = 0 := rfl
  simp only [h0, h1, ne_eq, not_true_eq_false, if_false]
  rw [List.takeWhile_replicate]
  simp

theorem long_base_name_hides_index (c : output_session) (n : Int) (k : Nat) (hk : 499 ≤ k)
    (hb : c.base_output_filename = some (String.mk (List.replicate k 'a'))) :
    output_file_name c n none none = String.mk (List.replicate 499 'a') := by
  unfold output_file_name de_strlcpy
  simp only [hb, String.data_append]
  congr 1
  rw [List.append_assoc, List.append_assoc, List.append_assoc,
    List.take_append_of_le_length (by rw [List.length_replicate]; exact hk),
    List.take_replicate, Nat.min_eq_left hk]

theorem dbuf_create_output_file_name (c : output_session) (fopen_result : Option FILE)
    (stdout : FILE) (ext : Option String) (fi : Option de_finfo) (is_aux : Bool)
    (hp : output_skipped_by_policy c is_aux = false) :
    (dbuf_create_output_file c fopen_result stdout ext fi is_aux).1.name
      = some (output_file_name c c.file_count ext fi) := by
  have hname : output_file_name { c with file_count := c.file_count + 1 } c.file_count ext fi
      = output_file_name c c.file_count ext fi := rfl
  unfold dbuf_create_output_file
  simp only [hp, Bool.false_eq_true, if_false]
  split
  · exact congrArg some hname
  · split
    · exact congrArg some hname
    · split
      · exact congrArg some hname
      · exact congrArg some hname

/-- C27 (counterexample): under `DE_EXTRACTPOLICY_MAINONLY` a call for an auxiliary file
leaves `file_count` at 0 and gives the dbuf no name; and the main file created after an
auxiliary file has the name "output.000.bin" under this policy, and "output.001.bin" under
the default policy. And with a base name of 600 characters, which
`de_set_base_output_filename` stores as it is, the calls with the indices 7 and 8 give the
same name, the first 499 characters of the base name, without an index. -/
theorem output_index_depends_on_extract_policy :
    (dbuf_create_output_file example_output_session_mainonly none ⟨[], 0⟩ none none true).2.file_count
      = 0 ∧
    (dbuf_create_output_file example_output_session_mainonly none ⟨[], 0⟩ none none true).1.name
      = none ∧
    (dbuf_create_output_file
      (dbuf_create_output_file example_output_session_mainonly none ⟨[], 0⟩ none none true).2
      none ⟨[], 0⟩ none none false).1.name = some "output.000.bin" ∧
    (dbuf_create_output_file
      (dbuf_create_output_file example_output_session none ⟨[], 0⟩ none none true).2
      none ⟨[], 0⟩ none none false).1.name = some "output.001.bin" ∧
    (de_set_base_output_filename example_output_session (some example_long_base_name)
      0).base_output_filename = some example_long_base_name ∧
    (dbuf_create_output_file (example_output_session_long 7) none ⟨[], 0⟩ none none false).1.name
      = some (String.mk (List.replicate 499 'a')) ∧
    (dbuf_create_output_file (example_output_session_long 8) none ⟨[], 0⟩ none none false).1.name
      = some (String.mk (List.replicate 499 'a')) :=
  ⟨by decide, by decide, by decide, by decide, long_base_name_stored example_output_session,
    (dbuf_create_output_file_name (example_output_session_long 7) none ⟨[], 0⟩ none none false
      (by decide)).trans
      (congrArg some (long_base_name_hides_index (example_output_session_long 7) 7 600
        (by decide) rfl)),
    (dbuf_create_output_file_name (example_output_session_long 8) none ⟨[], 0⟩ none none false
      (by decide)).trans
      (congrArg some (long_base_name_hides_index (example_output_session_long 8) 8 600
        (by decide) rfl))⟩

theorem de_strlcpy_name_has_index (base idx suffix : String)
    (hroom : base.length + 1 + idx.length ≤ 499) :
    ∃ tail : List Char,
      (de_strlcpy (base ++ "." ++ idx ++ "." ++ suffix) 500).data =
        base.data ++ '.' :: (idx.data ++ tail) := by
  refine ⟨('.' :: suffix.data).take (499 - (base.length + 1 + idx.length)), ?_⟩
  unfold de_strlcpy
  simp only [String.data_append]
  have e : base.data ++ String.data "." ++ idx.data ++ String.data "." ++ suffix.data
      = (base.data ++ '.' :: idx.data) ++ ('.' :: suffix.data) := by
    have hd : String.data "." = ['.'] := rfl
    rw [hd]
    simp
  rw [e, List.take_append_eq_append_take]
  have hl : (base.data ++ '.' :: idx.data).length = base.length + 1 + idx.length := by
    rw [List.length_append, List.length_cons]
    show _ = base.data.length + 1 + idx.data.length
    omega
  rw [List.take_of_length_le (by rw [hl]; omega), hl]
  have h499 : 500 - 1 = 499 := rfl
  rw [h499, List.append_assoc, List.cons_append]

theorem output_file_name_has_index (c : output_session) (file_index : Int)
    (ext : Option String) (fi : Option de_finfo)
    (horig : output_uses_original_filename c fi = false)
    (hroom : (c.base_output_filename.getD "output").length + 1 +
      (de_fmt_03d file_index).length ≤ 499) :
    ∃ tail : List Char, (output_file_name c file_index ext fi).data =
      (c.base_output_filename.getD "output").data ++
        '.' :: ((de_fmt_03d file_index).data ++ tail) := by
  have hnbuf := fun suffix : String =>
    de_strlcpy_name_has_index (c.base_output_filename.getD "output") (de_fmt_03d file_index)
      suffix hroom
  have hcond : ∀ i : de_finfo, fi = some i → i.file_name_internal ≠ "" →
      ¬ (c.output_style = DE_OUTPUTSTYLE_ZIP ∧
          c.base_output_filename.isNone = true ∧ i.original_filename_flag = true) := by
    intro i hi hne h
    unfold output_uses_original_filename at horig
    simp [hi, h.1, h.2.1, h.2.2, hne] at horig
  unfold output_file_name
  cases hb : c.base_output_filename with
  | none =>
    simp only [hb, Option.getD_none] at hnbuf hcond ⊢
    cases fi with
    | none => exact hnbuf _
    | some i =>
      simp only
      by_cases hne : i.file_name_internal ≠ ""
      · rw [if_pos hne]
        simp only
        rw [if_neg (hcond i rfl hne)]
        exact hnbuf _
      · rw [if_neg hne]
        exact hnbuf _
  | some b =>
    simp only [hb, Option.getD_some] at hnbuf hcond ⊢
    cases fi with
    | none => exact hnbuf _
    | some i =>
      simp only
      by_cases hne : i.file_name_internal ≠ ""
      · rw [if_pos hne]
        simp only
        rw [if_neg (hcond i rfl hne)]
        exact hnbuf _
      · rw [if_neg hne]
        exact hnbuf _

/-- C27 (amended): a call of `dbuf_create_output_file` that the main-only/aux-only
extraction policy does not skip consumes exactly one output index: `file_count` increases
by 1 and the name of the dbuf is made from the old `file_count`, also when the output
becomes a null sink by the first-output-file / max-output-files window or by list mode.
Unless the name is taken from an original file name (ZIP output without base name), the
name is the first 499 characters of base name, ".", the index as `%03d`, "." and the
suffix; so when base name, "." and index take no more than 499 characters, the name starts
with the base name, "." and the index. A call that the policy skips returns a null sink
without name and leaves `file_count` and the session as they are. -/
theorem dbuf_create_output_file_index (c : output_session) (fopen_result : Option FILE)
    (stdout : FILE) (ext : Option String) (fi : Option de_finfo) (is_aux : Bool) :
    (output_skipped_by_policy c is_aux = false →
      (dbuf_create_output_file c fopen_result stdout ext fi is_aux).2.file_count
        = c.file_count + 1 ∧
      (dbuf_create_output_file c fopen_result stdout ext fi is_aux).1.name
        = some (output_file_name c c.file_count ext fi) ∧
      (output_uses_original_filename c fi = false →
        (c.base_output_filename.getD "output").length + 1 +
          (de_fmt_03d c.file_count).length ≤ 499 →
        ∃ tail : List Char, (output_file_name c c.file_count ext fi).data =
          (c.base_output_filename.getD "output").data ++
            '.' :: ((de_fmt_03d c.file_count).data ++ tail)) ∧
      ((c.file_count < c.first_output_file ∨
          (c.max_output_files ≥ 0 ∧ c.file_count ≥ c.first_output_file + c.max_output_files) ∨
          c.list_mode = true) →
        (dbuf_create_output_file c fopen_result stdout ext fi is_aux).1.s.btype
          = DBUF_TYPE_NULL)) ∧
    (output_skipped_by_policy c is_aux = true →
      dbuf_create_output_file c fopen_result stdout ext fi is_aux
        = ({ s := { dbuf_zero with is_managed := true, btype := DBUF_TYPE_NULL },
             name := none }, c)) := by
  constructor
  · intro hp
    unfold dbuf_create_output_file
    simp only [hp, Bool.false_eq_true, if_false]
    have hname : ∀ c' : output_session, c'.base_output_filename = c.base_output_filename →
        c'.output_style = c.output_style →
        output_file_name c' c.file_count ext fi = output_file_name c c.file_count ext fi := by
      intro c' h1 h2
      unfold output_file_name
      rw [h1, h2]
    have hidx := output_file_name_has_index c c.file_count ext fi
    by_cases h1 : c.file_count < c.first_output_file
    · rw [if_pos h1]
      exact ⟨rfl, congrArg some (hname { c with file_count := c.file_count + 1 } rfl rfl),
        hidx, fun _ => rfl⟩
    · rw [if_neg h1]
      by_cases h2 : c.max_output_files ≥ 0 ∧
          c.file_count ≥ c.first_output_file + c.max_output_files
      · rw [if_pos h2]
        exact ⟨rfl, congrArg some (hname { c with file_count := c.file_count + 1 } rfl rfl),
          hidx, fun _ => rfl⟩
      · rw [if_neg h2]
        by_cases h3 : c.list_mode = true
        · rw [if_pos h3]
          exact ⟨rfl, congrArg some (hname { c with file_count := c.file_count + 1 } rfl rfl),
            hidx, fun _ => rfl⟩
        · rw [if_neg h3]
          refine ⟨?_, congrArg some (hname { c with file_count := c.file_count + 1 } rfl rfl),
            hidx, ?_⟩
          · unfold output_open
            simp only
            split
            · rfl
            · split
              · rfl
              · split <;> rfl
          · intro h
            rcases h with h | h | h
            · exact absurd h h1
            · exact absurd h h2
            · exact absurd h h3
  · intro hp
    unfold dbuf_create_output_file
    simp only [hp, if_true]

theorem dbuf_create_output_file_index_witness :
    output_skipped_by_policy example_output_session_list true = false ∧
    output_uses_original_filename example_output_session_list none = false ∧
    (example_output_session_list.base_output_filename.getD "output").length + 1 +
      (de_fmt_03d example_output_session_list.file_count).length ≤ 499 ∧
    (dbuf_create_output_file example_output_session_list none ⟨[], 0⟩ none none true).2.file_count
      = 7 + 1 ∧
    (dbuf_create_output_file example_output_session_list none ⟨[], 0⟩ none none true).1.name
      = some "output.007.bin" ∧
    de_fmt_03d example_output_session_list.file_count = "007" ∧
    (∃ tail : List Char,
      (output_file_name example_output_session_list example_output_session_list.file_count
        none none).data =
      (example_output_session_list.base_output_filename.getD "output").data ++
        '.' :: ((de_fmt_03d example_output_session_list.file_count).data ++ tail)) ∧
    (dbuf_create_output_file example_output_session_list none ⟨[], 0⟩ none none true).1.s.btype
      = DBUF_TYPE_NULL :=
  have h := (dbuf_create_output_file_index example_output_session_list none ⟨[], 0⟩ none none
    true).1 (by decide)
  ⟨by decide, by decide, by decide, h.1, h.2.1.trans (by decide), by decide,
    h.2.2.1 (by decide) (by decide), h.2.2.2 (Or.inr (Or.inr (by decide)))⟩

/-! ## Reads through a subfile view, and reads at a negative position -/

theorem dbuf_read_length (f : dbuf) : ∀ (pos len : Int) (buf : List UInt8) (f' : dbuf),
    dbuf_read f pos len = some (buf, f') → buf.length = len.toNat := by
  induction f with
  | root s =>
    intro pos len buf f' h
    rw [dbuf_read.eq_1] at h
    simp only [dbuf.s] at h
    by_cases hc : dbuf_read_clip s pos len < 1
    · rw [if_pos hc] at h
      simp only [Option.some.injEq, Prod.mk.injEq] at h
      rw [← h.1]
      unfold done_read
      split
      · simp
      · simp at *; omega
    · rw [if_neg hc] at h
      obtain ⟨c1, c2, c3, c4⟩ := dbuf_read_clip_pos s pos len hc
      split at h
      · exact absurd h (by simp)
      · rename_i s1 hs1
        split at h
        · simp only [Option.map_eq_some', Prod.mk.injEq] at h
          obtain ⟨got, hgot, hb, -⟩ := h
          rw [← hb]
          apply done_read_length
          unfold dbuf_read_cached at hgot
          split at hgot
          · exact absurd hgot (by simp)
          · unfold de_memcpy_from at hgot
            split at hgot
            · simp only [Option.some.injEq] at hgot
              rw [← hgot, List.length_take]
              omega
            · exact absurd hgot (by simp)
        · split at h
          · simp only [Option.map_eq_some', Prod.mk.injEq] at h
            obtain ⟨r, hr, hb, -⟩ := h
            rw [← hb]
            apply done_read_length
            unfold dbuf_read_ifile at hr
            split at hr
            · exact absurd hr (by simp)
            · simp only [Option.some.injEq] at hr
              rw [← hr]
              simp only [fread, List.length_take]
              omega
          · exact absurd h (by simp)
          · simp only [Option.map_eq_some', Prod.mk.injEq] at h
            obtain ⟨got, hgot, hb, -⟩ := h
            rw [← hb]
            apply done_read_length
            unfold de_memcpy_from at hgot
            split at hgot
            · simp only [Option.some.injEq] at hgot
              rw [← hgot, List.length_take]
              omega
            · exact absurd hgot (by simp)
          · exact absurd h (by simp)
  | child s p ih =>
    intro pos len buf f' h
    rw [dbuf_read.eq_1] at h
    simp only [dbuf.s] at h
    by_cases hc : dbuf_read_clip s pos len < 1
    · rw [if_pos hc] at h
      simp only [Option.some.injEq, Prod.mk.injEq] at h
      rw [← h.1]
      unfold done_read
      split
      · simp
      · simp at *; omega
    · rw [if_neg hc] at h
      obtain ⟨c1, c2, c3, c4⟩ := dbuf_read_clip_pos s pos len hc
      split at h
      · exact absurd h (by simp)
      · rename_i s1 hs1
        split at h
        · simp only [Option.map_eq_some', Prod.mk.injEq] at h
          obtain ⟨got, hgot, hb, -⟩ := h
          rw [← hb]
          apply done_read_length
          unfold dbuf_read_cached at hgot
          split at hgot
          · exact absurd hgot (by simp)
          · unfold de_memcpy_from at hgot
            split at hgot
            · simp only [Option.some.injEq] at hgot
              rw [← hgot, List.length_take]
              omega
            · exact absurd hgot (by simp)
        · split at h
          · simp only [Option.map_eq_some', Prod.mk.injEq] at h
            obtain ⟨r, hr, hb, -⟩ := h
            rw [← hb]
            apply done_read_length
            unfold dbuf_read_ifile at hr
            split at hr
            · exact absurd hr (by simp)
            · simp only [Option.some.injEq] at hr
              rw [← hr]
              simp only [fread, List.length_take]
              omega
          · split at h
            · exact absurd h (by simp)
            · rename_i got parent1 hrd
              simp only [Option.some.injEq, Prod.mk.injEq] at h
              rw [← h.1]
              apply done_read_length
              have := ih _ _ _ _ hrd
              omega
          · simp only [Option.map_eq_some', Prod.mk.injEq] at h
            obtain ⟨got, hgot, hb, -⟩ := h
            rw [← hb]
            apply done_read_length
            unfold de_memcpy_from at hgot
            split at hgot
            · simp only [Option.some.injEq] at hgot
              rw [← hgot, List.length_take]
              omega
            · exact absurd hgot (by simp)
          · exact absurd h (by simp)


/-- C31 (code bug): the membuf `P` holds 1, 2, 3, 4 and `V` is the view
`dbuf_open_input_subfile(P, 2, 1)`, over the byte 3. The call `dbuf_read(V, -1, 1)`
returns the byte 2, which `P` holds at position 1, before the view. -/
theorem subfile_read_exposes_byte_before_view :
    (dbuf_read (dbuf_open_input_subfile example_membuf4 2 1) (-1) 1).map Prod.fst = some [2] ∧
    (dbuf_read example_membuf4 1 1).map Prod.fst = some [2] ∧
    (dbuf_read example_membuf4 2 1).map Prod.fst = some [3] := by
  decide

theorem subfile_read_past_end (vs : dbuf_fields) (P : dbuf) (pos len : Int)
    (buf : List UInt8) (V' : dbuf) (hbt : vs.btype = DBUF_TYPE_DBUF) (hca : vs.cache = none)
    (h : dbuf_read (.child vs P) pos len = some (buf, V')) (i : Nat) (hi : (i : Int) < len)
    (hge : vs.len ≤ pos + i) : buf[i]? = some 0 := by
  have hL := dbuf_read_length _ _ _ _ _ h
  rw [dbuf_read.eq_1] at h
  simp only [dbuf.s] at h
  by_cases hc : dbuf_read_clip vs pos len < 1
  · rw [if_pos hc] at h
    simp only [Option.some.injEq, Prod.mk.injEq] at h
    rw [← h.1]
    unfold done_read
    split
    · simp only [List.nil_append, List.length_nil]
      rw [List.getElem?_replicate]
      simp
      omega
    · simp at *; omega
  · rw [if_neg hc] at h
    obtain ⟨c1, c2, c3, c4⟩ := dbuf_read_clip_pos _ pos len hc
    simp [populate_cache, hbt, hca, dbuf_read_is_cached] at h
    split at h
    · exact absurd h (by simp)
    · rename_i got parent1 hrd
      simp only [Option.some.injEq, Prod.mk.injEq] at h
      have hgL := dbuf_read_length _ _ _ _ _ hrd
      have hnot := (c4 i hi).not.mpr (by omega)
      have hgi : got.length ≤ i := by omega
      have hi' : i < buf.length := by omega
      have hd := done_read_getD got len i
      rw [h.1, getD_eq_zero_of_le got i hgi] at hd
      rw [List.getD_eq_getElem?_getD, List.getElem?_eq_getElem hi'] at hd
      rw [List.getElem?_eq_getElem hi']
      simpa using hd

/-- Reads through a subfile view, where they are as C31 says: let
`V = dbuf_open_input_subfile(P, offset, viewLen)` over a well-formed parent `P`, with
`offset ≥ 0` and any `viewLen`. For every `pos` and `len`, negative ones
included, a call `dbuf_read(V, pos, len)` that returns has filled `len` bytes, and every
byte for a local position `pos+i ≥ viewLen` is 0x00. For `pos ≥ 0` and `len ≥ 0` the call
returns, and the byte for a local position `pos+i < viewLen` is the one that a read of `P`
gives at `offset+pos+i`, a position in `[offset, offset+viewLen)`. -/
theorem subfile_read_outside_view (P : dbuf) (offset viewLen pos len : Int)
    (hwf : P.wf) (hoff : 0 ≤ offset) :
    (∀ buf V', dbuf_read (dbuf_open_input_subfile P offset viewLen) pos len = some (buf, V') →
      buf.length = len.toNat ∧
      ∀ i : Nat, (i : Int) < len → viewLen ≤ pos + i → buf[i]? = some 0) ∧
    (0 ≤ pos → 0 ≤ len →
      ∃ buf V', dbuf_read (dbuf_open_input_subfile P offset viewLen) pos len = some (buf, V') ∧
        ∀ i : Nat, (i : Int) < len → pos + i < viewLen →
          buf[i]? = some (P.logical_byte (offset + pos + i)) ∧
          offset ≤ offset + pos + i ∧ offset + pos + i < offset + viewLen) := by
  constructor
  · intro buf V' h
    exact ⟨dbuf_read_length _ _ _ _ _ h,
      fun i hi hge => subfile_read_past_end _ P pos len buf V' rfl rfl h i hi hge⟩
  · intro hpos hlen
    have hV : (dbuf_open_input_subfile P offset viewLen).wf := by
      unfold dbuf_open_input_subfile
      exact ⟨by simp [dbuf_fields.wf, dbuf_zero]; exact hoff, rfl, hwf⟩
    obtain ⟨V', hrd, -, -⟩ := dbuf_read_correct _ pos len hV hpos hlen
    refine ⟨_, V', hrd, ?_⟩
    intro i hi hlt
    refine ⟨?_, by omega, by omega⟩
    rw [read_spec_getElem? _ pos len i hi]
    unfold dbuf_open_input_subfile
    simp only [dbuf.logical_byte, dbuf.len, dbuf.s, if_pos hlt, dbuf.byte_at]
    rw [add_assoc]

theorem subfile_read_outside_view_witness :
    example_membuf4.wf ∧ (0 : Int) ≤ 1 ∧
    (∀ buf V', dbuf_read (dbuf_open_input_subfile example_membuf4 1 1) 0 3 = some (buf, V') →
      buf.length = (3 : Int).toNat ∧
      ∀ i : Nat, (i : Int) < 3 → (1 : Int) ≤ 0 + i → buf[i]? = some 0) ∧
    (dbuf_read (dbuf_open_input_subfile example_membuf4 1 1) 0 3).map Prod.fst
      = some [2, 0, 0] :=
  ⟨by decide, by decide,
    (subfile_read_outside_view example_membuf4 1 1 0 3 (by decide) (by decide)).1,
    by decide⟩

/-- C32 (code bug): the membuf `f` holds 1, 2, 3, 4 in an allocation of 6 bytes. For
`dbuf_read(f, buf, -1, 1)` the number of bytes to read stays 1, and the copy
`de_memcpy(buf, &f->membuf_buf[-1], 1)` reads the allocation at the index -1, outside of
it: the call has no defined result. The sibling `dbuf_getbyte(f, -1)` tests `pos>=0` and
returns 0x00. -/
theorem dbuf_read_membuf_negative_pos_out_of_bounds :
    example_membuf4.wf ∧
    dbuf_read_clip example_membuf4.s (-1) 1 = 1 ∧
    de_memcpy_from example_membuf4.s.membuf_buf (-1) 1 = none ∧
    dbuf_read example_membuf4 (-1) 1 = none ∧
    (dbuf_getbyte example_membuf4 (-1)).map Prod.fst = some 0 := by
  decide

/-! ## The base name of the output files -/

theorem sanitize_base_output_filename_spec (name : List Char) :
    (∀ ch ∈ sanitize_base_output_filename name, is_path_separator ch = false) ∧
    (sanitize_base_output_filename name).head? ≠ some '.' := by
  unfold sanitize_base_output_filename
  have hmap : ∀ ch ∈ name.map (fun ch => if is_path_separator ch then '_' else ch),
      is_path_separator ch = false := by
    intro ch hch
    rw [List.mem_map] at hch
    obtain ⟨a, -, ha⟩ := hch
    by_cases hs : is_path_separator a = true
    · rw [if_pos hs] at ha
      rw [← ha]
      decide
    · rw [if_neg hs] at ha
      rw [← ha]
      simpa using hs
  generalize name.map (fun ch => if is_path_separator ch then '_' else ch) = l at hmap
  cases l with
  | nil => simp
  | cons ch rest =>
    simp only
    by_cases hd : ch = '.'
    · rw [if_pos hd]
      refine ⟨?_, by simp⟩
      intro x hx
      rcases List.mem_cons.mp hx with hx | hx
      · rw [hx]; decide
      · exact hmap x (List.mem_cons_of_mem _ hx)
    · rw [if_neg hd]
      exact ⟨hmap, by simpa using hd⟩

/-- C33: for every file name `fn` (null included) and every `flags`, the base output name
that `de_set_base_output_filename(c, fn, flags)` stores is absent or a non-empty string;
and when the flag 0x2 is set, a stored name contains neither '/' nor the backslash and
does not begin with '.'. -/
theorem de_set_base_output_filename_sanitized (c : output_session) (fn : Option String)
    (flags : Nat) :
    (∀ name, (de_set_base_output_filename c fn flags).base_output_filename = some name →
      name ≠ "") ∧
    (flags &&& 0x2 ≠ 0 →
      ∀ name, (de_set_base_output_filename c fn flags).base_output_filename = some name →
        '/' ∉ name.data ∧ Char.ofNat 92 ∉ name.data ∧ name.data.head? ≠ some '.') := by
  unfold de_set_base_output_filename
  cases fn with
  | none => exact ⟨fun name h => (by cases h), fun _ name h => (by cases h)⟩
  | some fn =>
    dsimp only
    generalize hn : (if flags &&& 0x2 ≠ 0 then sanitize_base_output_filename
      (if flags &&& 0x1 ≠ 0 then get_basename_ptr (c_str fn) else c_str fn)
      else (if flags &&& 0x1 ≠ 0 then get_basename_ptr (c_str fn) else c_str fn)) = nm
    by_cases he : nm = []
    · rw [if_pos he]
      exact ⟨fun name h => (by cases h), fun _ name h => (by cases h)⟩
    · rw [if_neg he]
      constructor
      · intro name h
        have h' : String.mk nm = name := Option.some.inj h
        intro hne
        rw [hne] at h'
        exact he (congrArg String.data h')
      · intro hf name h
        have h' : String.mk nm = name := Option.some.inj h
        rw [if_pos hf] at hn
        obtain ⟨h1, h2⟩ := sanitize_base_output_filename_spec
          (if flags &&& 0x1 ≠ 0 then get_basename_ptr (c_str fn) else c_str fn)
        rw [hn] at h1 h2
        rw [← h']
        refine ⟨?_, ?_, h2⟩
        · intro hm
          have := h1 _ hm
          revert this
          decide
        · intro hm
          have := h1 _ hm
          revert this
          decide

theorem de_set_base_output_filename_sanitized_witness :
    (2 &&& 0x2 ≠ 0) ∧
    (de_set_base_output_filename example_output_session (some example_file_name)
      2).base_output_filename = some "_d_x_y" ∧
    (de_set_base_output_filename example_output_session (some example_file_name)
      3).base_output_filename = some "y" ∧
    (de_set_base_output_filename example_output_session (some "a/") 1).base_output_filename
      = none ∧
    '/' ∉ String.data "_d_x_y" ∧ Char.ofNat 92 ∉ String.data "_d_x_y" ∧
    (String.data "_d_x_y").head? ≠ some '.' :=
  ⟨by decide, by decide, by decide, by decide,
    (de_set_base_output_filename_sanitized example_output_session (some example_file_name)
      2).2 (by decide) "_d_x_y" (by decide)⟩

/-! ## The front cache of an input file -/

/-- C34: for an input file whose front cache holds the first `min(f.len, 262144)` bytes
of the file, `pos ≥ 0` and `len ≥ 0`, `dbuf_read` returns the same `len` bytes, those of
the file zero-filled after `f.len`, with the cache as without it (cache policy disabled, no
cache). A request with at least one byte inside the file is served from the cache exactly
when its clipped range `[pos, pos + n)` ends inside the cached window; then the stream is
left as it is. Without the cache no request is served from it. -/
theorem dbuf_read_cache_equivalence (s : dbuf_fields) (c : List UInt8) (pos len : Int)
    (hwf : (dbuf.root s).wf) (hbt : s.btype = DBUF_TYPE_IFILE) (hc : s.cache = some c)
    (hcl : (c.length : Int) = min s.len DE_CACHE_SIZE) (hpos : 0 ≤ pos) (hlen : 0 ≤ len) :
    ∃ buf f1 f2, dbuf_read (.root s) pos len = some (buf, f1) ∧
      dbuf_read (.root s.without_cache) pos len = some (buf, f2) ∧
      buf = (dbuf.root s).read_spec pos len ∧
      (1 ≤ dbuf_read_clip s pos len →
        (dbuf_read_is_cached s pos (dbuf_read_clip s pos len) = true ↔
          pos + dbuf_read_clip s pos len ≤ min s.len DE_CACHE_SIZE) ∧
        (dbuf_read_is_cached s pos (dbuf_read_clip s pos len) = true → f1 = .root s) ∧
        dbuf_read_is_cached s.without_cache pos (dbuf_read_clip s pos len) = false) := by
  have hwf0 := hwf
  obtain ⟨hswf, hnd⟩ := hwf
  have hwf2 : (dbuf.root s.without_cache).wf := by
    refine ⟨?_, by simp [dbuf_fields.without_cache, hbt]⟩
    simp only [dbuf_fields.wf, hbt] at hswf
    simp only [dbuf_fields.wf, dbuf_fields.without_cache, hbt]
    cases hfp : s.fp with
    | none => simp [hfp] at hswf
    | some fp =>
      simp only [hfp] at hswf
      exact ⟨hswf.1, trivial⟩
  have hspec : (dbuf.root s.without_cache).read_spec pos len = (dbuf.root s).read_spec pos len := by
    simp [dbuf.read_spec, dbuf.len, dbuf.s, dbuf.byte_at, dbuf_fields.store_byte,
      dbuf_fields.without_cache, hbt]
  obtain ⟨f1, h1, -, -⟩ := dbuf_read_correct (.root s) pos len hwf0 hpos hlen
  obtain ⟨f2, h2, -, -⟩ := dbuf_read_correct (.root s.without_cache) pos len hwf2 hpos hlen
  rw [hspec] at h2
  refine ⟨_, f1, f2, h1, h2, rfl, ?_⟩
  intro hclip
  simp only [dbuf_fields.wf, hbt] at hswf
  cases hfp : s.fp with
  | none => simp [hfp] at hswf
  | some fp =>
    simp only [hfp, hc] at hswf
    obtain ⟨-, hst, hused, -⟩ := hswf
    have hcached : dbuf_read_is_cached s pos (dbuf_read_clip s pos len) = true ↔
        pos + dbuf_read_clip s pos len ≤ min s.len DE_CACHE_SIZE := by
      simp only [dbuf_read_is_cached, hc, hst, hused, Option.isSome_some, Bool.true_and,
        Bool.and_eq_true, decide_eq_true_eq, ← hcl]
      constructor
      · intro h; omega
      · intro h; exact ⟨by omega, by omega⟩
    refine ⟨hcached, ?_, by simp [dbuf_read_is_cached, dbuf_fields.without_cache]⟩
    intro hic
    rw [dbuf_read.eq_1] at h1
    simp only [dbuf.s] at h1
    rw [if_neg (by omega), if_neg (by simp [hc])] at h1
    simp only [hic, if_true, dbuf.set_s] at h1
    simp only [Option.map_eq_some', Prod.mk.injEq] at h1
    obtain ⟨got, -, -, hf⟩ := h1
    exact hf.symm

theorem dbuf_read_cache_equivalence_witness :
    (dbuf.root example_ifile_cached).wf ∧ example_ifile_cached.btype = DBUF_TYPE_IFILE ∧
    example_ifile_cached.cache = some [9, 8, 7, 6] ∧
    (([9, 8, 7, 6] : List UInt8).length : Int) = min example_ifile_cached.len DE_CACHE_SIZE ∧
    (0 : Int) ≤ 2 ∧ (0 : Int) ≤ 5 ∧
    (dbuf_read (.root example_ifile_cached) 2 5).map Prod.fst = some [7, 6, 0, 0, 0] ∧
    (dbuf_read (.root example_ifile_cached.without_cache) 2 5).map Prod.fst
      = some [7, 6, 0, 0, 0] ∧
    ∃ buf f1 f2, dbuf_read (.root example_ifile_cached) 2 5 = some (buf, f1) ∧
      dbuf_read (.root example_ifile_cached.without_cache) 2 5 = some (buf, f2) ∧
      buf = (dbuf.root example_ifile_cached).read_spec 2 5 ∧
      (1 ≤ dbuf_read_clip example_ifile_cached 2 5 →
        (dbuf_read_is_cached example_ifile_cached 2 (dbuf_read_clip example_ifile_cached 2 5)
            = true ↔
          2 + dbuf_read_clip example_ifile_cached 2 5 ≤ min example_ifile_cached.len
            DE_CACHE_SIZE) ∧
        (dbuf_read_is_cached example_ifile_cached 2 (dbuf_read_clip example_ifile_cached 2 5)
            = true → f1 = .root example_ifile_cached) ∧
        dbuf_read_is_cached example_ifile_cached.without_cache 2
          (dbuf_read_clip example_ifile_cached 2 5) = false) :=
  ⟨by decide, by decide, by decide, by decide, by decide, by decide, by decide, by decide,
    dbuf_read_cache_equivalence example_ifile_cached [9, 8, 7, 6] 2 5 (by decide) (by decide)
      (by decide) (by decide) (by decide) (by decide)⟩

/-! ## Sequences of `dbuf_getbyte` calls -/

theorem populate_cache_ifile_opened (front : List UInt8) (x y : UInt8)
    (hL : front.length = 262144) :
    populate_cache (ifile_opened front x y) = some (ifile_front_cached front x y) := by
  have h1 : ¬ ((front.length : Int) + 2 < DE_CACHE_SIZE) := by
    simp only [DE_CACHE_SIZE]; omega
  have h2 : (front ++ [x, y]).take 262144 = front := by
    rw [← hL, List.take_left']
    rfl
  simp only [populate_cache, ifile_opened, ifile_front_cached, dbuf_zero, fread, de_fseek,
    if_neg h1]
  simp [DE_CACHE_SIZE, h2, hL]

theorem dbuf_read_ifile_negative (s : dbuf_fields) (fp : FILE)
    (hbt : s.btype = DBUF_TYPE_IFILE) (hfp : s.fp = some fp) (hc : s.cache.isSome = true)
    (hlen : 0 ≤ s.len) (hst : 0 ≤ s.cache_start_pos) :
    ∃ s1, dbuf_read (.root s) (-1) 1 = some (done_read (fread fp 1).1 1, .root s1) ∧
      s1.btype = DBUF_TYPE_IFILE ∧ s1.fp = some (fread fp 1).2 ∧ s1.cache = s.cache ∧
      s1.len = s.len ∧ s1.cache_start_pos = s.cache_start_pos ∧ s1.cache2 = s.cache2 ∧
      s1.cache2_bytes_used = s.cache2_bytes_used ∧
      s1.cache2_start_pos = s.cache2_start_pos := by
  have hclip : dbuf_read_clip s (-1) 1 = 1 := by
    unfold dbuf_read_clip
    rw [if_neg (by omega), if_neg (by omega)]
  have hic : dbuf_read_is_cached s (-1) 1 = false := by
    unfold dbuf_read_is_cached
    have : decide ((-1 : Int) ≥ s.cache_start_pos) = false := by
      rw [decide_eq_false_iff_not]; omega
    rw [this]
    simp
  have hseek : de_fseek fp (-1) = fp := by
    unfold de_fseek
    rw [if_neg (by decide)]
  have hnp : ¬ (s.cache.isNone = true ∧ s.cache_policy = DE_CACHE_POLICY_ENABLED) := by
    intro h
    cases hh : s.cache <;> simp_all
  rw [dbuf_read.eq_1]
  simp only [dbuf.s, hclip]
  rw [if_neg (by decide), if_neg hnp]
  simp only [hic, Bool.false_eq_true, if_false, hbt, dbuf_read_ifile, hfp, hseek, ite_self,
    Option.map_some', dbuf.set_s]
  exact ⟨_, rfl, rfl, rfl, rfl, rfl, rfl, rfl, rfl, rfl⟩

theorem dbuf_getbyte_calls_ifile_negative (front : List UInt8) (x y : UInt8) :
    dbuf_getbyte_calls (.root (ifile_front_cached front x y)) [-1, -1]
      = some [(x, [x]), (x, [y])] := by
  have hf1 : fread ⟨front ++ [x, y], front.length⟩ 1 = ([x], ⟨front ++ [x, y], front.length + 1⟩) := by
    unfold fread
    have : ((front ++ [x, y]).drop (front.length : Int).toNat).take (1 : Int).toNat = [x] := by
      rw [Int.toNat_ofNat, List.drop_left']
      · rfl
      · rfl
    simp only [this]
    rfl
  have hf2 : (fread ⟨front ++ [x, y], front.length + 1⟩ 1).1 = [y] := by
    unfold fread
    have hn : ((front.length : Int) + 1).toNat = front.length + 1 := by omega
    show ((front ++ [x, y]).drop ((front.length : Int) + 1).toNat).take (1 : Int).toNat = [y]
    rw [hn, ← List.drop_drop, List.drop_left']
    · rfl
    · rfl
  obtain ⟨s1, hrd1, hbt1, hfp1, hca1, hlen1, hst1, -, hu1, -⟩ :=
    dbuf_read_ifile_negative (ifile_front_cached front x y) ⟨front ++ [x, y], front.length⟩
      rfl rfl rfl (by show (0 : Int) ≤ (front.length : Int) + 2; omega) (le_refl _)
  rw [hf1] at hrd1 hfp1
  have hdr : done_read [x] 1 = [x] := by simp [done_read]
  have hdy : done_read [y] 1 = [y] := by simp [done_read]
  rw [hdr] at hrd1
  have hg1 : dbuf_getbyte (.root (ifile_front_cached front x y)) (-1)
      = some (x, .root { s1 with cache2 := x, cache2_bytes_used := 1,
                                 cache2_start_pos := -1 }) := by
    unfold dbuf_getbyte
    rw [hrd1]
    simp [ifile_front_cached, dbuf_zero, dbuf.s, dbuf.set_s]
  obtain ⟨s2, hrd2, -⟩ :=
    dbuf_read_ifile_negative { s1 with cache2 := x, cache2_bytes_used := 1,
                                       cache2_start_pos := -1 }
      ⟨front ++ [x, y], front.length + 1⟩ hbt1 hfp1
      (by show s1.cache.isSome = true; rw [hca1]; rfl)
      (by show (0 : Int) ≤ s1.len; rw [hlen1]; show (0 : Int) ≤ (front.length : Int) + 2; omega)
      (by show (0 : Int) ≤ s1.cache_start_pos; rw [hst1]; exact le_refl _)
  rw [hf2, hdy] at hrd2
  have hg2 : dbuf_getbyte (.root { s1 with cache2 := x, cache2_bytes_used := 1,
                                           cache2_start_pos := -1 }) (-1)
      = some (x, .root { s1 with cache2 := x, cache2_bytes_used := 1,
                                 cache2_start_pos := -1 }) := by
    unfold dbuf_getbyte
    simp [dbuf.s, hbt1]
  simp only [dbuf_getbyte_calls, hg1, hrd1, hg2, hrd2, Option.map_some']

theorem dbuf_getbyte_calls_spec (f0 : dbuf) (ps : List Int) :
    ∀ f : dbuf, f.wf → f.cache2_ok → f.erase_read_state = f0.erase_read_state →
      (∀ p ∈ ps, 0 ≤ p) →
      dbuf_getbyte_calls f ps
        = some (ps.map fun p => (f0.logical_byte p, [f0.logical_byte p])) := by
  induction ps with
  | nil => intro f _ _ _ _; rfl
  | cons p rest ih =>
    intro f hwf hc2 her hps
    have hp : 0 ≤ p := hps p (List.mem_cons_self _ _)
    obtain ⟨f', hg, hwf', her', hc2'⟩ := dbuf_getbyte_correct f p hwf hc2 hp
    obtain ⟨f'', hr, -, -⟩ := dbuf_read_correct f p 1 hwf hp (by decide)
    rw [read_spec_one] at hr
    have hrest := ih f' hwf' hc2' (her'.trans her)
      (fun q hq => hps q (List.mem_cons_of_mem _ hq))
    simp only [dbuf_getbyte_calls, hg, hr, hrest, Option.map_some', List.map_cons,
      logical_byte_eq_of_erase_eq f f0 her]

/-- C35 (code bug): the input file of 262146 bytes, 262144 zero bytes and then 7 and
8, has the first 262144 bytes in its front cache and the stream after them. The first of
two calls `dbuf_getbyte(f, -1)` returns 7, the byte at the stream position, as the seek to
-1 fails; the second returns 7 from the one-byte cache, while `dbuf_read(f, &b, -1, 1)`
gives 8 in that state. And on the dbuf for an empty stdin `dbuf_getbyte(f, -1)` does not
return: the read ends in the fatal error "getbytes from this I/O type not implemented". -/
theorem dbuf_getbyte_negative_position_differs :
    populate_cache example_ifile_large = some example_ifile_large_cached ∧
    dbuf_getbyte_calls (.root example_ifile_large_cached) [-1, -1]
      = some [(7, [7]), (7, [8])] ∧
    dbuf_getbyte (dbuf_open_input_stdin example_env) (-1) = none :=
  ⟨populate_cache_ifile_opened _ 7 8 (List.length_replicate _ _),
    dbuf_getbyte_calls_ifile_negative _ 7 8, by decide⟩

/-- Sequences of `dbuf_getbyte` calls at positions `≥ 0`, where they are as C35 says: for
a well-formed readable dbuf whose one-byte cache is empty or holds
the byte that the dbuf has at the cached position (as it does over unchanging data), and
every finite sequence of `dbuf_getbyte` calls at positions `≥ 0` (repeated positions and
positions at or past the end included), every call returns, and it returns the byte that
`dbuf_read(f, &b, pos, 1)` gives in the state in which the call is made: the byte of the
source at `pos`, or 0x00 at and after the end. -/
theorem dbuf_getbyte_calls_agree (f : dbuf) (ps : List Int) (hwf : f.wf) (hc2 : f.cache2_ok)
    (hps : ∀ p ∈ ps, 0 ≤ p) :
    dbuf_getbyte_calls f ps
      = some (ps.map fun p => (f.logical_byte p, [f.logical_byte p])) :=
  dbuf_getbyte_calls_spec f ps f hwf hc2 rfl hps

theorem dbuf_getbyte_calls_agree_witness :
    (dbuf_open_input_subfile example_membuf4 1 2).wf ∧
    (dbuf_open_input_subfile example_membuf4 1 2).cache2_ok ∧
    (∀ p ∈ ([0, 0, 5, 1, 0] : List Int), 0 ≤ p) ∧
    dbuf_getbyte_calls (dbuf_open_input_subfile example_membuf4 1 2) [0, 0, 5, 1, 0]
      = some [(2, [2]), (2, [2]), (0, [0]), (3, [3]), (2, [2])] :=
  ⟨by decide, by decide, by decide,
    (dbuf_getbyte_calls_agree (dbuf_open_input_subfile example_membuf4 1 2) [0, 0, 5, 1, 0]
      (by decide) (by decide) (by decide)).trans (by decide)⟩

/-! ## Searching for one byte in two ways -/

/-- C36 (counterexample): on the membuf that holds the single byte 0x01, the search for
0x00 in the window of 2 bytes at 0 fails with `dbuf_search` and succeeds, at position 1,
with `dbuf_search_byte`. And on the view whose one-byte cache holds 0x01 for the position
0, while its parent now holds 0x02 there, the search for 0x02 in the window of 1 byte at 0
succeeds with `dbuf_search` and fails with `dbuf_search_byte`. -/
theorem dbuf_search_byte_differs_from_dbuf_search :
    (dbuf_search example_membuf [0] 1 0 2).map (fun r => (r.1, r.2.1)) = some (0, 0) ∧
    (dbuf_search_byte example_membuf 0 0 2 0).map (fun r => (r.1, r.2.1)) = some (1, 1) ∧
    dbuf_getbyte (dbuf_open_input_subfile example_membuf 0 1) 0
      = some (1, .child example_view_fields example_membuf) ∧
    dbuf_writebyte_at example_membuf 0 2 = some example_membuf_written ∧
    (dbuf_search (.child example_view_fields example_membuf_written) [2] 1 0 1).map
      (fun r => (r.1, r.2.1)) = some (1, 0) ∧
    (dbuf_search_byte (.child example_view_fields example_membuf_written) 2 0 1 0).map
      (fun r => r.1) = some 0 := by
  decide

/-- C36 (amended): for a well-formed readable dbuf `f` whose one-byte cache is empty or
holds the byte that `f` has at the cached position, every byte `b`, `startpos ≥ 0` and
`haystack_len ≥ 0` such that `b` is not 0x00, or the window is empty or ends inside `f`
(`haystack_len = 0` or `startpos + haystack_len ≤ f.len`), or `f` holds a byte 0x00 in the
part of the window that lies inside `f`: `dbuf_search` with the one-byte needle `b` and
`dbuf_search_byte` with `b` both return, with the same return value, 0 or 1, and when it is 1 with the same
position in `*foundpos`. In the one case left, the search for 0x00 in a window that is not
empty, extends past the end of `f` and has no 0x00 inside `f`, `dbuf_search` returns 0 and
`dbuf_search_byte` returns 1. -/
theorem dbuf_search_byte_eq_dbuf_search (f : dbuf) (b : UInt8)
    (startpos haystack_len foundpos : Int) (hwf : f.wf) (hc2 : f.cache2_ok)
    (hs : 0 ≤ startpos) (hh : 0 ≤ haystack_len) :
    ∃ ret1 fp1 f1 ret2 fp2 f2,
      dbuf_search f [b] 1 startpos haystack_len = some (ret1, fp1, f1) ∧
      dbuf_search_byte f b startpos haystack_len foundpos = some (ret2, fp2, f2) ∧
      ((b ≠ 0 ∨ haystack_len = 0 ∨ startpos + haystack_len ≤ f.len ∨
          (∃ j : Nat, (j : Int) < haystack_len ∧ startpos + j < f.len ∧
            f.byte_at (startpos + j) = 0)) →
        ret1 = ret2 ∧ (ret1 = 0 ∨ ret1 = 1) ∧ (ret1 = 1 → fp1 = fp2)) ∧
      (¬ (b ≠ 0 ∨ haystack_len = 0 ∨ startpos + haystack_len ≤ f.len ∨
          (∃ j : Nat, (j : Int) < haystack_len ∧ startpos + j < f.len ∧
            f.byte_at (startpos + j) = 0)) →
        ret1 = 0 ∧ ret2 = 1) := by
  obtain ⟨r2, fp2, f2, h2, -, -, -, hsb⟩ :=
    dbuf_search_byte_loop_spec f b startpos haystack_len foundpos hs haystack_len.toNat 0 f
      hwf hc2 rfl (by simp)
  have h2' : dbuf_search_byte f b startpos haystack_len foundpos = some (r2, fp2, f2) := h2
  have hlb_in : ∀ k : Int, k < f.len → f.logical_byte k = f.byte_at k := by
    intro k hk
    unfold dbuf.logical_byte
    rw [if_pos hk]
  have hlb_out : ∀ k : Int, ¬ k < f.len → f.logical_byte k = 0 := by
    intro k hk
    unfold dbuf.logical_byte
    rw [if_neg hk]
  -- the results of `dbuf_search`
  have hsearch : ∃ r1 fp1 f1, dbuf_search f [b] 1 startpos haystack_len = some (r1, fp1, f1) ∧
      ((r1 = 1 ∧ ∃ i : Nat, (i : Int) < haystack_len ∧ startpos + i < f.len ∧
          fp1 = startpos + i ∧ f.logical_byte (startpos + i) = b ∧
          ∀ j : Nat, j < i → f.logical_byte (startpos + j) ≠ b) ∨
       (r1 = 0 ∧ ∀ i : Nat, (i : Int) < haystack_len → startpos + i < f.len →
          f.logical_byte (startpos + i) ≠ b)) := by
    by_cases hgt : startpos > f.len
    · refine ⟨0, 0, f, ?_, Or.inr ⟨rfl, fun i _ hi => by omega⟩⟩
      unfold dbuf_search
      rw [if_pos hgt]
    · obtain ⟨r1, fp1, f1, h1, -, -, hs1⟩ :=
        dbuf_search_least_match f [b] startpos haystack_len hwf (by simp) hs (by omega) hh
      have hone : (([b] : List UInt8).length : Int) = 1 := rfl
      rw [hone] at hs1
      refine ⟨r1, fp1, f1, h1, ?_⟩
      rcases hs1 with ⟨hr1, i, hi, hfp1, hmi, hleast⟩ | ⟨hr1, -, hnone⟩
      · rw [read_spec_one] at hmi
        refine Or.inl ⟨hr1, i, by omega, by omega, hfp1, by simpa using hmi, ?_⟩
        intro j hj hb
        have := hleast j hj
        rw [read_spec_one] at this
        exact this (by rw [hb])
      · refine Or.inr ⟨hr1, ?_⟩
        intro i hi1 hi2 hb
        have := hnone i (by omega)
        rw [read_spec_one] at this
        exact this (by rw [hb])
  obtain ⟨r1, fp1, f1, h1, hs1⟩ := hsearch
  refine ⟨r1, fp1, f1, r2, fp2, f2, h1, h2', ?_, ?_⟩
  · intro hb
    -- a match of `dbuf_search_byte` lies inside `f`
    have hin : ∀ j : Nat, (j : Int) < haystack_len → f.logical_byte (startpos + j) = b →
        (∀ j' : Nat, j' < j → f.logical_byte (startpos + j') ≠ b) →
        startpos + (j : Int) < f.len := by
      intro j hj hlb hleast
      rcases hb with hb | hb | hb | ⟨j0, hj0, hj0in, hj0b⟩
      · by_contra hn
        exact hb (by rw [← hlb, hlb_out _ hn])
      · omega
      · omega
      · by_contra hn
        have hb0 : b = 0 := by rw [← hlb, hlb_out _ hn]
        have hlt : j0 < j := by omega
        apply hleast j0 hlt
        rw [hlb_in _ hj0in, hj0b, hb0]
    rcases hs1 with ⟨hr1, i, hi, hiin, hfp1, hmi, hleast⟩ | ⟨hr1, hnone⟩
    · rcases hsb with ⟨hr2, j, -, hj, hfp2, hlb, hleast2⟩ | ⟨hr2, -, hnone2⟩
      · refine ⟨by rw [hr1, hr2], Or.inr hr1, fun _ => ?_⟩
        have hji : ¬ i < j := fun hlt => hleast2 i (Nat.zero_le _) hlt hmi
        have hij : ¬ j < i := fun hlt => hleast j hlt hlb
        have : i = j := by omega
        rw [hfp1, hfp2, this]
      · exact absurd hmi (hnone2 i (Nat.zero_le _) hi)
    · rcases hsb with ⟨hr2, j, -, hj, hfp2, hlb, hleast2⟩ | ⟨hr2, -, -⟩
      · have hjin := hin j hj hlb (fun j' hj' => hleast2 j' (Nat.zero_le _) hj')
        exact absurd hlb (hnone j hj hjin)
      · exact ⟨by rw [hr1, hr2], Or.inl hr1, fun h => by rw [hr1] at h; exact absurd h (by decide)⟩
  · intro hnb
    have hb0 : b = 0 := by
      by_contra hne
      exact hnb (Or.inl hne)
    have hne : ¬ haystack_len = 0 := fun h => hnb (Or.inr (Or.inl h))
    have hpast : ¬ startpos + haystack_len ≤ f.len :=
      fun h => hnb (Or.inr (Or.inr (Or.inl h)))
    have hno : ∀ j : Nat, (j : Int) < haystack_len → startpos + j < f.len →
        f.byte_at (startpos + j) ≠ 0 :=
      fun j h1 h2 h3 => hnb (Or.inr (Or.inr (Or.inr ⟨j, h1, h2, h3⟩)))
    constructor
    · rcases hs1 with ⟨_, i, hi, hiin, _, hmi, _⟩ | ⟨hr1, _⟩
      · rw [hlb_in _ hiin, hb0] at hmi
        exact absurd hmi (hno i hi hiin)
      · exact hr1
    · rcases hsb with ⟨hr2, _⟩ | ⟨_, _, hnone2⟩
      · exact hr2
      · -- the byte at the end of `f`, or at `startpos` when that is past the end, is 0x00
        exfalso
        have hk : ∃ k : Nat, (k : Int) < haystack_len ∧ ¬ startpos + (k : Int) < f.len :=
          ⟨(f.len - startpos).toNat, by omega, by omega⟩
        obtain ⟨k, hk1, hk2⟩ := hk
        apply hnone2 k (Nat.zero_le _) hk1
        rw [hlb_out _ hk2, hb0]

theorem dbuf_search_byte_eq_dbuf_search_witness :
    example_membuf_nul_inside.wf ∧ example_membuf_nul_inside.cache2_ok ∧
    (0 : Int) ≤ 0 ∧ (0 : Int) ≤ 10 ∧
    ((0 : UInt8) ≠ 0 ∨ (10 : Int) = 0 ∨ (0 : Int) + 10 ≤ example_membuf_nul_inside.len ∨
      (∃ j : Nat, (j : Int) < 10 ∧ 0 + j < example_membuf_nul_inside.len ∧
        example_membuf_nul_inside.byte_at (0 + j) = 0)) ∧
    (dbuf_search example_membuf_nul_inside [0] 1 0 10).map (fun r => (r.1, r.2.1))
      = some (1, 1) ∧
    (dbuf_search_byte example_membuf_nul_inside 0 0 10 0).map (fun r => (r.1, r.2.1))
      = some (1, 1) ∧
    ∃ ret1 fp1 f1 ret2 fp2 f2,
      dbuf_search example_membuf_nul_inside [0] 1 0 10 = some (ret1, fp1, f1) ∧
      dbuf_search_byte example_membuf_nul_inside 0 0 10 0 = some (ret2, fp2, f2) ∧
      ret1 = ret2 ∧ (ret1 = 0 ∨ ret1 = 1) ∧ (ret1 = 1 → fp1 = fp2) := by
  have hb : (0 : UInt8) ≠ 0 ∨ (10 : Int) = 0 ∨
      (0 : Int) + 10 ≤ example_membuf_nul_inside.len ∨
      (∃ j : Nat, (j : Int) < 10 ∧ 0 + j < example_membuf_nul_inside.len ∧
        example_membuf_nul_inside.byte_at (0 + j) = 0) :=
    Or.inr (Or.inr (Or.inr ⟨1, by decide, by decide, by decide⟩))
  obtain ⟨r1, p1, g1, r2, p2, g2, e1, e2, himp, -⟩ :=
    dbuf_search_byte_eq_dbuf_search example_membuf_nul_inside 0 0 10 0 (by decide)
      (by decide) (by decide) (by decide)
  exact ⟨by decide, by decide, by decide, by decide, hb, by decide, by decide,
    r1, p1, g1, r2, p2, g2, e1, e2, himp hb⟩

/-! ## The length that `dbuf_read_string` reports as consumed -/

/-- C37 (code bug): on the membuf that holds the single byte 0x01, the call
`dbuf_read_string(f, 0, 1, 1, DE_CONVFLAG_STOP_AT_NUL)` scans `min(1, f.len - 0) = 1` byte,
finds no NUL, and reports `bytes_consumed = 2`. When the NUL is found, as at offset 2 of
the membuf 65, 66, 0, 67, 0, `bytes_consumed` is the offset plus one, here 3, inside the
field of 5 bytes. -/
theorem dbuf_read_string_consumed_exceeds_field :
    min (1 : Int) (example_membuf.len - 0) = 1 ∧
    (dbuf_read_string example_membuf 0 1 1
      { DE_CONVFLAG_STOP_AT_NUL := true, DE_CONVFLAG_WANT_UTF8 := false }).map
      (fun r => (r.1.found_nul, r.1.bytes_consumed)) = some (false, 2) ∧
    (dbuf_read_string example_membuf_string 0 5 5
      { DE_CONVFLAG_STOP_AT_NUL := true, DE_CONVFLAG_WANT_UTF8 := false }).map
      (fun r => (r.1.found_nul, r.1.bytes_consumed)) = some (true, 3) := by
  decide

/-! ## Finding the end of a line -/

theorem dbuf_find_line_loop_spec (f0 : dbuf) :
    ∀ (fuel : Nat) (pos : Int) (f : dbuf), f.wf → f.cache2_ok →
      f.erase_read_state = f0.erase_read_state → 0 ≤ pos → (f0.len - pos).toNat ≤ fuel →
      ∃ eol_pos eol_size f1, dbuf_find_line_loop fuel pos f = some (eol_pos, eol_size, f1) ∧
        f1.wf ∧ f1.cache2_ok ∧ f1.erase_read_state = f0.erase_read_state ∧
        pos ≤ eol_pos ∧ (pos ≤ f0.len → eol_pos ≤ f0.len) ∧
        (∀ k : Int, pos ≤ k → k < eol_pos →
          f0.logical_byte k ≠ 0x0d ∧ f0.logical_byte k ≠ 0x0a) ∧
        ((eol_size = 0 ∧ f0.len ≤ eol_pos) ∨
         (eol_size = 1 ∧ eol_pos < f0.len ∧
            (f0.logical_byte eol_pos = 0x0a ∨
              (f0.logical_byte eol_pos = 0x0d ∧ f0.logical_byte (eol_pos + 1) ≠ 0x0a))) ∨
         (eol_size = 2 ∧ eol_pos + 1 < f0.len ∧ f0.logical_byte eol_pos = 0x0d ∧
            f0.logical_byte (eol_pos + 1) = 0x0a)) := by
  intro fuel
  induction fuel with
  | zero =>
    intro pos f hwf hc2 her hpos hfuel
    have hl := len_eq_of_erase_eq f f0 her
    have hge : pos ≥ f.len := by omega
    refine ⟨pos, 0, f, ?_, hwf, hc2, her, le_refl _, fun h => h, ?_, Or.inl ⟨rfl, by omega⟩⟩
    · unfold dbuf_find_line_loop
      rw [if_pos hge]
    · intro k h1 h2; omega
  | succ n ih =>
    intro pos f hwf hc2 her hpos hfuel
    have hl := len_eq_of_erase_eq f f0 her
    unfold dbuf_find_line_loop
    by_cases hge : pos ≥ f.len
    · rw [if_pos hge]
      exact ⟨pos, 0, f, rfl, hwf, hc2, her, le_refl _, fun h => h,
        fun k h1 h2 => by omega, Or.inl ⟨rfl, by omega⟩⟩
    · rw [if_neg hge]
      obtain ⟨f1, hg, hwf1, her1, hc21⟩ := dbuf_getbyte_correct f pos hwf hc2 hpos
      rw [logical_byte_eq_of_erase_eq f f0 her] at hg
      simp only [hg]
      by_cases hcr : f0.logical_byte pos = 0x0d
      · rw [if_pos hcr]
        obtain ⟨f2, hg2, hwf2, her2, hc22⟩ :=
          dbuf_getbyte_correct f1 (pos + 1) hwf1 hc21 (by omega)
        rw [logical_byte_eq_of_erase_eq f1 f0 (her1.trans her)] at hg2
        simp only [hg2]
        by_cases hlf : f0.logical_byte (pos + 1) = 0x0a
        · rw [if_pos hlf]
          have hin : pos + 1 < f0.len := by
            by_contra hn
            have : f0.logical_byte (pos + 1) = 0 := by
              unfold dbuf.logical_byte
              rw [if_neg hn]
            rw [this] at hlf
            exact absurd hlf (by decide)
          exact ⟨pos, 2, f2, rfl, hwf2, hc22, her2.trans (her1.trans her), le_refl _,
            fun h => h, fun k h1 h2 => by omega, Or.inr (Or.inr ⟨rfl, hin, hcr, hlf⟩)⟩
        · rw [if_neg hlf]
          exact ⟨pos, 1, f2, rfl, hwf2, hc22, her2.trans (her1.trans her), le_refl _,
            fun h => h, fun k h1 h2 => by omega,
            Or.inr (Or.inl ⟨rfl, by omega, Or.inr ⟨hcr, hlf⟩⟩)⟩
      · rw [if_neg hcr]
        by_cases hlf : f0.logical_byte pos = 0x0a
        · rw [if_pos hlf]
          exact ⟨pos, 1, f1, rfl, hwf1, hc21, her1.trans her, le_refl _,
            fun h => h, fun k h1 h2 => by omega, Or.inr (Or.inl ⟨rfl, by omega, Or.inl hlf⟩)⟩
        · rw [if_neg hlf]
          obtain ⟨ep, es, f3, h3, hwf3, hc23, her3, hp3, hle3, hcontent, hsz⟩ :=
            ih (pos + 1) f1 hwf1 hc21 (her1.trans her) (by omega) (by omega)
          refine ⟨ep, es, f3, h3, hwf3, hc23, her3, by omega, fun _ => hle3 (by omega), ?_, hsz⟩
          intro k h1 h2
          by_cases hk : k = pos
          · rw [hk]; exact ⟨hcr, hlf⟩
          · exact hcontent k (by omega) h2


theorem dbuf_find_line_result (f : dbuf) (pos1 : Int) (hwf : f.wf) (hc2 : f.cache2_ok) :
    ∃ ret content_len total_len f1,
      dbuf_find_line f pos1 = some (ret, content_len, total_len, f1) ∧
      f1.wf ∧ f1.cache2_ok ∧ f1.erase_read_state = f.erase_read_state ∧
      (ret ≠ 0 ↔ 0 ≤ pos1 ∧ pos1 < f.len) ∧
      (ret ≠ 0 → 1 ≤ total_len ∧ pos1 + total_len ≤ f.len ∧ 0 ≤ content_len ∧
        (total_len - content_len = 0 ∨ total_len - content_len = 1 ∨
          total_len - content_len = 2) ∧
        ∀ j : Nat, (j : Int) < content_len →
          f.logical_byte (pos1 + j) ≠ 0x0d ∧ f.logical_byte (pos1 + j) ≠ 0x0a) := by
  unfold dbuf_find_line
  by_cases hout : pos1 < 0 ∨ pos1 ≥ f.len
  · rw [if_pos hout]
    refine ⟨0, 0, 0, f, rfl, hwf, hc2, rfl, ?_, fun h => absurd rfl h⟩
    constructor
    · intro h; exact absurd rfl h
    · intro h; omega
  · rw [if_neg hout]
    have hin : 0 ≤ pos1 ∧ pos1 < f.len := by omega
    obtain ⟨ep, es, f1, hloop, hwf1, hc21, her1, hpe, hle, hcontent, hsz⟩ :=
      dbuf_find_line_loop_spec f (f.len - pos1).toNat pos1 f hwf hc2 rfl hin.1 (le_refl _)
    simp only [hloop]
    have hle' := hle (by omega)
    have htl : ep - pos1 + es > 0 := by
      rcases hsz with ⟨h1, h2⟩ | ⟨h1, -⟩ | ⟨h1, -⟩ <;> omega
    refine ⟨_, _, _, f1, rfl, hwf1, hc21, her1, ?_, ?_⟩
    · rw [if_pos htl]
      exact ⟨fun _ => hin, fun _ => by decide⟩
    · intro _
      refine ⟨by omega, ?_, by omega, ?_, ?_⟩
      · rcases hsz with ⟨h1, h2⟩ | ⟨h1, h2, -⟩ | ⟨h1, h2, -⟩ <;> omega
      · rcases hsz with ⟨h1, -⟩ | ⟨h1, -⟩ | ⟨h1, -⟩ <;> omega
      · intro j hj
        exact hcontent (pos1 + j) (by omega) (by omega)

theorem dbuf_find_lines_cover (f0 : dbuf) :
    ∀ (fuel : Nat) (pos : Int) (f : dbuf), f.wf → f.cache2_ok →
      f.erase_read_state = f0.erase_read_state → 0 ≤ pos → pos ≤ f0.len →
      (f0.len - pos).toNat + 1 ≤ fuel →
      ∃ lines, dbuf_find_lines fuel f pos = some lines ∧ lines_cover lines pos f0.len := by
  intro fuel
  induction fuel with
  | zero => intro pos f _ _ _ _ _ h; omega
  | succ n ih =>
    intro pos f hwf hc2 her hpos hple hfuel
    have hl := len_eq_of_erase_eq f f0 her
    obtain ⟨ret, cl, tl, f1, hfl, hwf1, hc21, her1, hret, hprops⟩ :=
      dbuf_find_line_result f pos hwf hc2
    unfold dbuf_find_lines
    simp only [hfl]
    by_cases hr : ret = 0
    · rw [if_pos hr]
      have : ¬ (0 ≤ pos ∧ pos < f.len) := fun h => (hret.mpr h) hr
      exact ⟨[], rfl, by unfold lines_cover; omega⟩
    · rw [if_neg hr]
      obtain ⟨h1, h2, -⟩ := hprops hr
      obtain ⟨lines, hlines, hcov⟩ :=
        ih (pos + tl) f1 hwf1 hc21 (her1.trans her) (by omega) (by omega) (by omega)
      refine ⟨(pos, tl) :: lines, by rw [hlines]; rfl, ?_⟩
      unfold lines_cover
      exact ⟨rfl, h1, hcov⟩

/-- C38 (counterexample): a membuf `P` holds 0x01; the view `V` over it is read with
`dbuf_getbyte(V, 0)`, which leaves 0x01 in the one-byte cache of `V`; then
`dbuf_writebyte_at(P, 0, 0x0a)`. Now `dbuf_read(V, 0, 1)` gives the byte 0x0a, and
`dbuf_find_line(V, 0)` returns 1 with `content_len = 1` and `total_len = 1`: the one byte
of the content is 0x0a. -/
theorem dbuf_find_line_content_holds_lf_behind_stale_cache :
    dbuf_getbyte (dbuf_open_input_subfile example_membuf 0 1) 0
      = some (1, .child example_view_fields example_membuf) ∧
    dbuf_writebyte_at example_membuf 0 0x0a = some example_membuf_lf ∧
    (dbuf_read (.child example_view_fields example_membuf_lf) 0 1).map Prod.fst
      = some [0x0a] ∧
    (dbuf_find_line (.child example_view_fields example_membuf_lf) 0).map
      (fun r => (r.1, r.2.1, r.2.2.1)) = some (1, 1, 1) := by
  decide

/-- C38 (amended): for a well-formed readable dbuf `f` whose one-byte cache is empty or
holds the byte that `f` has at the cached position, and every `pos1`, `dbuf_find_line`
returns, and it returns nonzero if and only if `0 ≤ pos1 < f.len`; when it returns nonzero,
`1 ≤ total_len`, `pos1 + total_len ≤ f.len`, `total_len - content_len` is 0, 1 or 2, and
none of the `content_len` bytes starting at `pos1` is 0x0d or 0x0a. The calls that start at
0 and go on at `pos + total_len` find lines that lie one after the other from 0 to the end
of `f`, each with at least one byte, and stop there, after at most `f.len` lines. -/
theorem dbuf_find_line_spec (f : dbuf) (pos1 : Int) (hwf : f.wf) (hc2 : f.cache2_ok) :
    (∃ ret content_len total_len f1,
      dbuf_find_line f pos1 = some (ret, content_len, total_len, f1) ∧
      f1.wf ∧ f1.cache2_ok ∧ f1.erase_read_state = f.erase_read_state ∧
      (ret ≠ 0 ↔ 0 ≤ pos1 ∧ pos1 < f.len) ∧
      (ret ≠ 0 → 1 ≤ total_len ∧ pos1 + total_len ≤ f.len ∧ 0 ≤ content_len ∧
        (total_len - content_len = 0 ∨ total_len - content_len = 1 ∨
          total_len - content_len = 2) ∧
        ∀ j : Nat, (j : Int) < content_len →
          f.logical_byte (pos1 + j) ≠ 0x0d ∧ f.logical_byte (pos1 + j) ≠ 0x0a)) ∧
    ∃ lines, dbuf_find_lines (f.len.toNat + 1) f 0 = some lines ∧
      lines_cover lines 0 (max f.len 0) := by
  refine ⟨dbuf_find_line_result f pos1 hwf hc2, ?_⟩
  by_cases hneg : f.len < 0
  · refine ⟨[], ?_, by unfold lines_cover; omega⟩
    unfold dbuf_find_lines dbuf_find_line
    rw [if_pos (Or.inr (by omega))]
    rfl
  · obtain ⟨lines, h1, h2⟩ := dbuf_find_lines_cover f (f.len.toNat + 1) 0 f hwf hc2 rfl
      (le_refl _) (by omega) (by omega)
    have : max f.len 0 = f.len := by omega
    rw [this]
    exact ⟨lines, h1, h2⟩

theorem dbuf_find_line_spec_witness :
    example_membuf_lines.wf ∧ example_membuf_lines.cache2_ok ∧
    (dbuf_find_line example_membuf_lines 0).map (fun r => (r.1, r.2.1, r.2.2.1))
      = some (1, 2, 4) ∧
    dbuf_find_lines 8 example_membuf_lines 0 = some [(0, 4), (4, 2), (6, 1)] ∧
    ((∃ ret content_len total_len f1,
      dbuf_find_line example_membuf_lines 0 = some (ret, content_len, total_len, f1) ∧
      f1.wf ∧ f1.cache2_ok ∧ f1.erase_read_state = example_membuf_lines.erase_read_state ∧
      (ret ≠ 0 ↔ (0 : Int) ≤ 0 ∧ 0 < example_membuf_lines.len) ∧
      (ret ≠ 0 → 1 ≤ total_len ∧ 0 + total_len ≤ example_membuf_lines.len ∧
        0 ≤ content_len ∧
        (total_len - content_len = 0 ∨ total_len - content_len = 1 ∨
          total_len - content_len = 2) ∧
        ∀ j : Nat, (j : Int) < content_len →
          example_membuf_lines.logical_byte (0 + j) ≠ 0x0d ∧
          example_membuf_lines.logical_byte (0 + j) ≠ 0x0a)) ∧
    ∃ lines, dbuf_find_lines (example_membuf_lines.len.toNat + 1) example_membuf_lines 0
        = some lines ∧
      lines_cover lines 0 (max example_membuf_lines.len 0)) :=
  ⟨by decide, by decide, by decide, by decide,
    dbuf_find_line_spec example_membuf_lines 0 (by decide) (by decide)⟩

/-! ## Termination of the buffered streaming reader -/

theorem dbuf_buffered_read_loop_mono {σ : Type} (cbfn : de_buffered_read_cbfn σ)
    (pos1 len : Int) :
    ∀ (n : Nat) (st : br_state σ) (r : br_result σ),
      dbuf_buffered_read_loop cbfn pos1 len n st = .done r →
      ∀ m : Nat, n ≤ m → dbuf_buffered_read_loop cbfn pos1 len m st = .done r := by
  intro n
  induction n with
  | zero =>
    intro st r h
    rw [dbuf_buffered_read_loop] at h
    cases h
  | succ n ih =>
    intro st r h m hm
    obtain ⟨m', rfl⟩ : ∃ m', m = m' + 1 := ⟨m - 1, by omega⟩
    unfold dbuf_buffered_read_loop at h ⊢
    simp only at h ⊢
    generalize (if BRBUFLEN - st.num_unconsumed_bytes_in_buf ≥ pos1 + len - st.pos
      then pos1 + len - st.pos else BRBUFLEN - st.num_unconsumed_bytes_in_buf) = btr at h ⊢
    cases hrd : dbuf_read st.f st.pos btr with
    | none =>
      rw [hrd] at h
      cases h
    | some p =>
      obtain ⟨got, f1⟩ := p
      rw [hrd] at h
      simp only at h ⊢
      generalize cbfn st.userdata
        (⟨st.offs_of_first_byte_in_buf, st.num_unconsumed_bytes_in_buf + btr,
          decide (BRBUFLEN - st.num_unconsumed_bytes_in_buf ≥ pos1 + len - st.pos)⟩ :
          de_bufferedreadctx)
        (st.buf ++ got) (st.num_unconsumed_bytes_in_buf + btr) = cr at h ⊢
      by_cases hret : cr.ret = 0
      · rw [if_pos hret] at h ⊢
        exact h
      · rw [if_neg hret] at h ⊢
        by_cases hbc : cr.bytes_consumed < 1 ∨
            cr.bytes_consumed > st.num_unconsumed_bytes_in_buf + btr
        · rw [if_pos hbc] at h ⊢
          exact h
        · rw [if_neg hbc] at h ⊢
          exact ih _ _ h _ (by omega)

/-- C39: for every well-formed source, `pos1 ≥ 0`, `len ≥ 0` and every consumer, whatever
it returns and reports as consumed, `dbuf_buffered_read` returns: there is one result that
the loop reaches within every bound of at least `len + 1` rounds, and in it the consumer
has been invoked at least once and at most `len + 1` times. -/
theorem dbuf_buffered_read_terminates {σ : Type} (cbfn : de_buffered_read_cbfn σ)
    (f : dbuf) (pos1 len : Int) (userdata : σ) (hwf : f.wf) (hpos : 0 ≤ pos1)
    (hlen : 0 ≤ len) :
    ∃ r : br_result σ,
      (∀ fuel : Nat, len.toNat + 1 ≤ fuel →
        dbuf_buffered_read fuel f pos1 len cbfn userdata = .done r) ∧
      1 ≤ r.calls.length ∧ (r.calls.length : Int) ≤ len + 1 := by
  obtain ⟨r, more, last, hdone, -, -, -, hcalls, -, -, -, -, hcount, -⟩ :=
    dbuf_buffered_read_trace cbfn f pos1 len userdata (len.toNat + 1) hwf hpos hlen (le_refl _)
  refine ⟨r, ?_, ?_, ?_⟩
  · intro fuel hfuel
    exact dbuf_buffered_read_loop_mono cbfn pos1 len _ _ r hdone fuel hfuel
  · rw [hcalls]; simp
  · rw [hcalls]; simp; omega

theorem dbuf_buffered_read_terminates_witness :
    example_membuf4.wf ∧ (0 : Int) ≤ 1 ∧ (0 : Int) ≤ 3 ∧
    ∃ r : br_result Nat,
      (∀ fuel : Nat, (3 : Int).toNat + 1 ≤ fuel →
        dbuf_buffered_read fuel example_membuf4 1 3 example_consume_one 0 = .done r) ∧
      1 ≤ r.calls.length ∧ (r.calls.length : Int) ≤ 3 + 1 :=
  ⟨by decide, by decide, by decide,
    dbuf_buffered_read_terminates example_consume_one example_membuf4 1 3 0 (by decide)
      (by decide) (by decide)⟩

/-! ## Integer writers -/

theorem mask_shift_eq (u k : Nat) : (u &&& (255 <<< k)) >>> k = (u / 2 ^ k) % 256 := by
  apply Nat.eq_of_testBit_eq
  intro i
  have h255 : (255 : Nat) = 2 ^ 8 - 1 := by norm_num
  have h256 : (256 : Nat) = 2 ^ 8 := by norm_num
  rw [h256, Nat.testBit_mod_two_pow, ← Nat.shiftRight_eq_div_pow, Nat.testBit_shiftRight,
    Nat.testBit_shiftRight, Nat.testBit_and, Nat.testBit_shiftLeft, h255,
    Nat.testBit_two_pow_sub_one]
  by_cases h : i < 8 <;> simp [h, Bool.and_comm]

theorem or_shift_eq (a b k : Nat) (h : a < 2 ^ k) : a ||| (b <<< k) = a + b * 2 ^ k := by
  rw [Nat.shiftLeft_eq, Nat.or_comm, Nat.mul_comm, ← Nat.mul_add_lt_is_or h, Nat.add_comm]

theorem byte_at_index_to_u8 (l : List UInt8) (k : Nat) (v : Nat) (h : l[k]? = some (to_u8 v)) :
    byte_at_index l k = v % 256 := by
  unfold byte_at_index
  rw [List.getD_eq_getElem?_getD, h]
  exact UInt8.toNat_ofNat_of_lt (Nat.mod_lt _ (by decide))

theorem de_getu16le_write (n : Int) :
    de_getu16le_direct (de_writeu16le_direct n) = n % 2 ^ 16 := by
  unfold de_getu16le_direct
  rw [byte_at_index_to_u8 (de_writeu16le_direct n) 0 _ rfl,
    byte_at_index_to_u8 (de_writeu16le_direct n) 1 _ rfl]
  have e0 : (0x00ff : Nat) = 255 <<< 0 := by decide
  have e1 : (0xff00 : Nat) = 255 <<< 8 := by decide
  have m0 : i64_bits n &&& 0x00ff = (i64_bits n / 2 ^ 0) % 256 := by
    rw [e0, ← mask_shift_eq]; rfl
  rw [m0, e1, mask_shift_eq]
  have hlt : (i64_bits n / 2 ^ 8 % 256 % 256) <<< 8 < 2 ^ 32 := by
    rw [Nat.shiftLeft_eq]; omega
  rw [Nat.mod_eq_of_lt hlt, or_shift_eq _ _ 8 (by omega)]
  unfold i64_bits
  omega

theorem de_getu16be_write (n : Int) :
    de_getu16be_direct (de_writeu16be_direct n) = n % 2 ^ 16 := by
  unfold de_getu16be_direct
  rw [byte_at_index_to_u8 (de_writeu16be_direct n) 0 _ rfl,
    byte_at_index_to_u8 (de_writeu16be_direct n) 1 _ rfl]
  have e0 : (0x00ff : Nat) = 255 <<< 0 := by decide
  have e1 : (0xff00 : Nat) = 255 <<< 8 := by decide
  have m0 : i64_bits n &&& 0x00ff = (i64_bits n / 2 ^ 0) % 256 := by
    rw [e0, ← mask_shift_eq]; rfl
  rw [m0, e1, mask_shift_eq]
  have hlt : (i64_bits n / 2 ^ 8 % 256 % 256) <<< 8 < 2 ^ 32 := by
    rw [Nat.shiftLeft_eq]; omega
  rw [Nat.mod_eq_of_lt hlt, or_shift_eq _ _ 8 (by omega)]
  unfold i64_bits
  omega

theorem or_bytes_32 (u : Nat) :
    (u / 2 ^ 0 % 256 % 256 ||| ((u / 2 ^ 8 % 256 % 256) <<< 8) % 2 ^ 32 |||
      ((u / 2 ^ 16 % 256 % 256) <<< 16) % 2 ^ 32 |||
      ((u / 2 ^ 24 % 256 % 256) <<< 24) % 2 ^ 32) = u % 2 ^ 32 := by
  have h1 : (u / 2 ^ 8 % 256 % 256) <<< 8 < 2 ^ 32 := by rw [Nat.shiftLeft_eq]; omega
  have h2 : (u / 2 ^ 16 % 256 % 256) <<< 16 < 2 ^ 32 := by rw [Nat.shiftLeft_eq]; omega
  have h3 : (u / 2 ^ 24 % 256 % 256) <<< 24 < 2 ^ 32 := by rw [Nat.shiftLeft_eq]; omega
  rw [Nat.mod_eq_of_lt h1, Nat.mod_eq_of_lt h2, Nat.mod_eq_of_lt h3,
    or_shift_eq _ _ 8 (by omega), or_shift_eq _ _ 16 (by omega), or_shift_eq _ _ 24 (by omega)]
  omega

theorem write32_masks (u : Nat) :
    u &&& 0x000000ff = u / 2 ^ 0 % 256 ∧ (u &&& 0x0000ff00) >>> 8 = u / 2 ^ 8 % 256 ∧
    (u &&& 0x00ff0000) >>> 16 = u / 2 ^ 16 % 256 ∧
    (u &&& 0xff000000) >>> 24 = u / 2 ^ 24 % 256 := by
  have e0 : (0x000000ff : Nat) = 255 <<< 0 := by decide
  have e1 : (0x0000ff00 : Nat) = 255 <<< 8 := by decide
  have e2 : (0x00ff0000 : Nat) = 255 <<< 16 := by decide
  have e3 : (0xff000000 : Nat) = 255 <<< 24 := by decide
  refine ⟨?_, ?_, ?_, ?_⟩
  · rw [e0, ← mask_shift_eq]; rfl
  · rw [e1, mask_shift_eq]
  · rw [e2, mask_shift_eq]
  · rw [e3, mask_shift_eq]

theorem de_getu32le_write_bits (n : Int) :
    de_getu32le_direct (de_writeu32le_direct n) = ((i64_bits n % 2 ^ 32 : Nat) : Int) := by
  unfold de_getu32le_direct
  rw [byte_at_index_to_u8 (de_writeu32le_direct n) 0 _ rfl,
    byte_at_index_to_u8 (de_writeu32le_direct n) 1 _ rfl,
    byte_at_index_to_u8 (de_writeu32le_direct n) 2 _ rfl,
    byte_at_index_to_u8 (de_writeu32le_direct n) 3 _ rfl]
  obtain ⟨m0, m1, m2, m3⟩ := write32_masks (i64_bits n)
  rw [m0, m1, m2, m3, or_bytes_32]

theorem de_getu32be_write_bits (n : Int) :
    de_getu32be_direct (de_writeu32be_direct n) = ((i64_bits n % 2 ^ 32 : Nat) : Int) := by
  unfold de_getu32be_direct
  rw [byte_at_index_to_u8 (de_writeu32be_direct n) 0 _ rfl,
    byte_at_index_to_u8 (de_writeu32be_direct n) 1 _ rfl,
    byte_at_index_to_u8 (de_writeu32be_direct n) 2 _ rfl,
    byte_at_index_to_u8 (de_writeu32be_direct n) 3 _ rfl]
  obtain ⟨m0, m1, m2, m3⟩ := write32_masks (i64_bits n)
  rw [m0, m1, m2, m3, or_bytes_32]

theorem i64_bits_mod (n : Int) (k : Nat) (hk : k ≤ 64) :
    ((i64_bits n % 2 ^ k : Nat) : Int) = n % 2 ^ k := by
  unfold i64_bits
  have h64 : (0 : Int) ≤ n % 2 ^ 64 := Int.emod_nonneg _ (by norm_num)
  rw [Int.natCast_mod, Int.toNat_of_nonneg h64]
  push_cast
  exact Int.emod_emod_of_dvd n (pow_dvd_pow 2 hk)

theorem de_getu64le_write (n : Nat) :
    de_getu64le_direct (de_writeu64le_direct n) = n % 2 ^ 64 := by
  have hr : List.range 8 = [0, 1, 2, 3, 4, 5, 6, 7] := by decide
  unfold de_getu64le_direct
  rw [hr]
  simp only [List.foldl]
  have hlo : i64_bits ((((n % 2 ^ 64) &&& 0xffffffff) % 2 ^ 32 : Nat) : Int) = n % 2 ^ 32 := by
    have e : (0xffffffff : Nat) = 2 ^ 32 - 1 := by norm_num
    rw [e, Nat.and_pow_two_sub_one_eq_mod]
    unfold i64_bits
    omega
  have hhi : i64_bits ((((n % 2 ^ 64) >>> 32) % 2 ^ 32 : Nat) : Int) = n % 2 ^ 64 / 2 ^ 32 := by
    rw [Nat.shiftRight_eq_div_pow]
    unfold i64_bits
    omega
  obtain ⟨a0, a1, a2, a3⟩ := write32_masks (n % 2 ^ 32)
  obtain ⟨c0, c1, c2, c3⟩ := write32_masks (n % 2 ^ 64 / 2 ^ 32)
  rw [byte_at_index_to_u8 (de_writeu64le_direct n) 0 _ rfl,
    byte_at_index_to_u8 (de_writeu64le_direct n) 1 _ rfl,
    byte_at_index_to_u8 (de_writeu64le_direct n) 2 _ rfl,
    byte_at_index_to_u8 (de_writeu64le_direct n) 3 _ rfl,
    byte_at_index_to_u8 (de_writeu64le_direct n) 4 _ rfl,
    byte_at_index_to_u8 (de_writeu64le_direct n) 5 _ rfl,
    byte_at_index_to_u8 (de_writeu64le_direct n) 6 _ rfl,
    byte_at_index_to_u8 (de_writeu64le_direct n) 7 _ rfl]
  rw [hlo, hhi, a0, a1, a2, a3, c0, c1, c2, c3]
  have s0 : (n % 2 ^ 32 / 2 ^ 0 % 256 % 256) <<< (0 * 8) < 2 ^ 8 := by
    rw [Nat.shiftLeft_eq]; omega
  have s1 : (n % 2 ^ 32 / 2 ^ 8 % 256 % 256) <<< (1 * 8) < 2 ^ 64 := by
    rw [Nat.shiftLeft_eq]; omega
  have s2 : (n % 2 ^ 32 / 2 ^ 16 % 256 % 256) <<< (2 * 8) < 2 ^ 64 := by
    rw [Nat.shiftLeft_eq]; omega
  have s3 : (n % 2 ^ 32 / 2 ^ 24 % 256 % 256) <<< (3 * 8) < 2 ^ 64 := by
    rw [Nat.shiftLeft_eq]; omega
  have s4 : (n % 2 ^ 64 / 2 ^ 32 / 2 ^ 0 % 256 % 256) <<< (4 * 8) < 2 ^ 64 := by
    rw [Nat.shiftLeft_eq]; omega
  have s5 : (n % 2 ^ 64 / 2 ^ 32 / 2 ^ 8 % 256 % 256) <<< (5 * 8) < 2 ^ 64 := by
    rw [Nat.shiftLeft_eq]; omega
  have s6 : (n % 2 ^ 64 / 2 ^ 32 / 2 ^ 16 % 256 % 256) <<< (6 * 8) < 2 ^ 64 := by
    rw [Nat.shiftLeft_eq]; omega
  have s7 : (n % 2 ^ 64 / 2 ^ 32 / 2 ^ 24 % 256 % 256) <<< (7 * 8) < 2 ^ 64 := by
    rw [Nat.shiftLeft_eq]; omega
  rw [Nat.mod_eq_of_lt (lt_of_lt_of_le s0 (by norm_num)), Nat.mod_eq_of_lt s1,
    Nat.mod_eq_of_lt s2, Nat.mod_eq_of_lt s3, Nat.mod_eq_of_lt s4, Nat.mod_eq_of_lt s5,
    Nat.mod_eq_of_lt s6, Nat.mod_eq_of_lt s7, Nat.zero_or]
  have z : (n % 2 ^ 32 / 2 ^ 0 % 256 % 256) <<< (0 * 8) = n % 2 ^ 32 / 2 ^ 0 % 256 % 256 := by
    rw [Nat.shiftLeft_eq]; omega
  rw [z, or_shift_eq _ _ (1 * 8) (by omega), or_shift_eq _ _ (2 * 8) (by omega),
    or_shift_eq _ _ (3 * 8) (by omega), or_shift_eq _ _ (4 * 8) (by omega),
    or_shift_eq _ _ (5 * 8) (by omega), or_shift_eq _ _ (6 * 8) (by omega),
    or_shift_eq _ _ (7 * 8) (by omega)]
  omega

/-- C40: for every integer `n`, taken as its 64 bits, decoding what the direct writers
encode gives `n` reduced to the width of the field: `n mod 2^16` for the two 16-bit pairs,
`n mod 2^32` for the two 32-bit pairs, and `n mod 2^64` for `de_writeu64le_direct` and
`de_getu64le_direct`. -/
theorem direct_write_read_roundtrip (n : Int) :
    de_getu16le_direct (de_writeu16le_direct n) = n % 2 ^ 16 ∧
    de_getu16be_direct (de_writeu16be_direct n) = n % 2 ^ 16 ∧
    de_getu32le_direct (de_writeu32le_direct n) = n % 2 ^ 32 ∧
    de_getu32be_direct (de_writeu32be_direct n) = n % 2 ^ 32 ∧
    ((de_getu64le_direct (de_writeu64le_direct (i64_bits n)) : Nat) : Int) = n % 2 ^ 64 := by
  refine ⟨de_getu16le_write n, de_getu16be_write n, ?_, ?_, ?_⟩
  · rw [de_getu32le_write_bits, i64_bits_mod n 32 (by decide)]
  · rw [de_getu32be_write_bits, i64_bits_mod n 32 (by decide)]
  · rw [de_getu64le_write, i64_bits_mod n 64 (by decide)]

end Deark
